import Mathlib

/-!
# Minic: move application, position model, search and position reading

Shallow embedding of `Source/moveGen.cpp` (`initCaslingPermHashTable`, `movePiece`,
`applyNull`, `applyMove`, `isPseudoLegal`), of `Source/searcherPVS.hpp` (`Searcher::pvs`), of
`Source/position.cpp` (`readFEN`), of `Source/nnue/features/half_kp.cpp` (`orient`) and of the
weight loader of `Source/nnue/nnue_impl.hpp` of the Minic chess engine, and theorems about
them.

Conventions of the embedding
* squares and pieces are `Int` (the source uses `signed char` enumerations), bitboards and
  Zobrist keys are `Nat` (64-bit unsigned words, only combined with and/or/xor);
* the arrays of `Position` are total functions, an array write is a pointwise update;
* in-place mutation of a `Position &` is explicit state passing: every operation returns the
  new position;
* everything the functions read that is declared outside the embedded sources (Zobrist key
  tables, the castling permission table, attack detection, geometry masks, material helpers,
  counter widths) is a field of `Env`; a counter of the position is a `Nat` below the number
  of values of its type, `++` and `--` wrap around;
* a long function is cut into the sections its comments name (`movePieceBoard`,
  `movePieceBitboards`, ... for `movePiece`), composed in the order of the source;
* the blocks compiled only under `WITH_NNUE`, `DEBUG_*` and the timer macros are left out:
  they do not write the fields of the position embedded here.
-/

namespace Minic

/-! ## Basic types and constants

The source's `Square` and `Piece` (`signed char`) are `Int` here, its `BitBoard`, `Hash`
(64-bit words) and `CastlingRights` (a bit mask) are `Nat`. The enumerations are declared in a
header that is not part of the embedded sources; their values are those the embedded code
relies on: `fromP > 0` is a white piece, `std::abs` of a piece is its kind, `-fromP` is the
same kind of the other colour, and `_helperPawnHash` puts the kings at `P + PieceShift = 0`
and `12` and the pawns at `5` and `7`. -/

/-- Modelled from the spec: the en-passant square "none" and the square of a captured king. -/
def INVALIDSQUARE : Int := -1

/-- Modelled from the spec: the number of squares of the board. -/
def NbSquare : Int := 64

/-- Modelled from the spec: the piece code of the black king. -/
def P_bk : Int := -6

/-- Modelled from the spec: the piece code of the black queen. -/
def P_bq : Int := -5

/-- Modelled from the spec: the piece code of the black rook. -/
def P_br : Int := -4

/-- Modelled from the spec: the piece code of the black bishop. -/
def P_bb : Int := -3

/-- Modelled from the spec: the piece code of the black knight. -/
def P_bn : Int := -2

/-- Modelled from the spec: the piece code of the black pawn. -/
def P_bp : Int := -1

/-- Modelled from the spec: the piece code of an empty square. -/
def P_none : Int := 0

/-- Modelled from the spec: the piece code of the white pawn. -/
def P_wp : Int := 1

/-- Modelled from the spec: the piece code of the white knight. -/
def P_wn : Int := 2

/-- Modelled from the spec: the piece code of the white bishop. -/
def P_wb : Int := 3

/-- Modelled from the spec: the piece code of the white rook. -/
def P_wr : Int := 4

/-- Modelled from the spec: the piece code of the white queen. -/
def P_wq : Int := 5

/-- Modelled from the spec: the piece code of the white king. -/
def P_wk : Int := 6

/-- Modelled from the spec: the offset that turns a piece code into a table index. -/
def PieceShift : Int := 6

/-- Modelled from the spec: the number of piece codes, the length of `_helperPawnHash`. -/
def NbPiece : Int := 13

/-- Modelled from the spec: the index of the pawn count in a material table
(`p.mat[c][M_p]`); the same index is reached as `std::abs(toP)` for a captured pawn in
`applyMove`. -/
def M_p : Int := 1

/-- Modelled from the spec: the square c1, squares numbered `8 * rank + file` from a1. -/
def Sq_c1 : Int := 2

/-- Modelled from the spec: the square d1, squares numbered `8 * rank + file` from a1. -/
def Sq_d1 : Int := 3

/-- Modelled from the spec: the square f1, squares numbered `8 * rank + file` from a1. -/
def Sq_f1 : Int := 5

/-- Modelled from the spec: the square g1, squares numbered `8 * rank + file` from a1. -/
def Sq_g1 : Int := 6

/-- Modelled from the spec: the square c8, squares numbered `8 * rank + file` from a1. -/
def Sq_c8 : Int := 58

/-- Modelled from the spec: the square d8, squares numbered `8 * rank + file` from a1. -/
def Sq_d8 : Int := 59

/-- Modelled from the spec: the square f8, squares numbered `8 * rank + file` from a1. -/
def Sq_f8 : Int := 61

/-- Modelled from the spec: the square g8, squares numbered `8 * rank + file` from a1. -/
def Sq_g8 : Int := 62

/-- Modelled from the spec: the castling-rights mask "no castling right". -/
def C_none : Nat := 0

/-- Modelled from the spec: the castling-rights mask "White king side". -/
def C_wks : Nat := 1

/-- Modelled from the spec: the castling-rights mask "White queen side". -/
def C_wqs : Nat := 2

/-- Modelled from the spec: the castling-rights mask "Black king side". -/
def C_bks : Nat := 4

/-- Modelled from the spec: the castling-rights mask "Black queen side". -/
def C_bqs : Nat := 8

/-- Modelled from the spec: the castling-rights mask "all four rights". -/
def C_all : Nat := 15

/-- Modelled from the spec: the castling-rights mask "all rights but White king side". -/
def C_all_but_wks : Nat := 14

/-- Modelled from the spec: the castling-rights mask "all rights but White queen side". -/
def C_all_but_wqs : Nat := 13

/-- Modelled from the spec: the castling-rights mask "all rights but those of White". -/
def C_all_but_w : Nat := 12

/-- Modelled from the spec: the castling-rights mask "all rights but Black king side". -/
def C_all_but_bks : Nat := 11

/-- Modelled from the spec: the castling-rights mask "all rights but Black queen side". -/
def C_all_but_bqs : Nat := 7

/-- Modelled from the spec: the castling-rights mask "all rights but those of Black". -/
def C_all_but_b : Nat := 3

/-- Modelled from the spec: the two sides (`Co_White`, `Co_Black`). -/
inductive Color where
  | Co_White
  | Co_Black
  deriving DecidableEq, Repr, Fintype

open Color

/-- Modelled from the spec: `operator~` on `Color`, the other side. -/
def Color.flip : Color → Color
  | Co_White => Co_Black
  | Co_Black => Co_White

/-- Modelled from the spec: the two wings of castling, queen side (`CT_OOO`) and king side
(`CT_OO`), the index of `rooksInit`. -/
inductive CastlingTypes where
  | CT_OOO
  | CT_OO
  deriving DecidableEq, Repr

open CastlingTypes

/-- Modelled from the spec: the sixteen move kinds, in the order of the `switch` of
`applyMove`. -/
inductive MType where
  | T_std | T_capture | T_reserved | T_ep
  | T_promq | T_promr | T_promb | T_promn
  | T_cappromq | T_cappromr | T_cappromb | T_cappromn
  | T_wks | T_wqs | T_bks | T_bqs
  deriving DecidableEq, Repr

open MType

/-- Modelled from the spec: a move is a source square, a destination square, a move kind and
an ordering score; the bit-packed encoding (`ToMove`, `Move2From`, ...) is declared in a header
that is not part of the embedded sources. -/
structure Move where
  sqFrom : Int
  sqTo : Int
  type : MType
  score : Int
  deriving DecidableEq, Repr

/-- Modelled from the spec: `Move2From(m)`, the source square of a move. -/
def Move2From (m : Move) : Int := m.sqFrom

/-- Modelled from the spec: `Move2To(m)`, the destination square of a move. -/
def Move2To (m : Move) : Int := m.sqTo

/-- Modelled from the spec: `Move2Type(m)`, the kind of a move. -/
def Move2Type (m : Move) : MType := m.type

/-- Modelled from the spec: the content of a move slot, "the move that produced this position
(or none / null)". The sentinels `INVALIDMOVE` and `NULLMOVE` are not values of `Move`. -/
inductive MoveSlot where
  | INVALIDMOVE
  | NULLMOVE
  | played (m : Move)
  deriving DecidableEq, Repr

/-- Modelled from the spec: `VALIDMOVE(m)`, the move is neither of the two sentinels. -/
def VALIDMOVE : MoveSlot → Bool
  | .played _ => true
  | _ => false

/-- The C function `std::abs` on a small signed integer. -/
def std_abs (x : Int) : Int := if x < 0 then -x else x

/-- Modelled from the spec: `squareOK(s)`, the square is one of the 64 squares of the board. -/
def squareOK (s : Int) : Bool := decide (0 ≤ s) && decide (s < NbSquare)

/-- A pointwise array write `a[i] = v`. -/
def upd {ι α : Type} [DecidableEq ι] (a : ι → α) (i : ι) (v : α) : ι → α :=
  fun j => if j = i then v else a j

/-! ## Position -/

/-- Modelled from the spec: the mutable game state (`Position`, declared in a header that is
not part of the embedded sources), with the fields the embedded code reads and writes. `allB`
holds the piece bitboards, "one bitboard per piece-color combination", indexed by
`piece + PieceShift`; `mat` the per-side material counts, indexed by the material kind. -/
structure Position where
  board : Int → Int
  allB : Int → Nat
  allPieces : Color → Nat
  mat : Color → Int → Nat
  h : Nat
  ph : Nat
  lastMove : MoveSlot
  moves : Nat
  halfmoves : Nat
  king : Color → Int
  rooksInit : Color → CastlingTypes → Int
  kingInit : Color → Int
  ep : Int
  fifty : Nat
  castling : Nat
  c : Color

/-- Everything the embedded functions read that is declared outside the embedded sources. -/
structure Env where
  /-- The source's `Zobrist::ZT[square][piece + PieceShift]`; column 13 holds the en-passant and side keys. -/
  ZT : Int → Int → Nat
  /-- The source's `Zobrist::ZTCastling[rights]`. -/
  ZTCastling : Nat → Nat
  /-- The global `castlePermHashTable`, filled by `initCaslingPermHashTable`. -/
  castlePermHashTable : Int → Nat
  /-- The source's `isAttacked(p, square)`: is the square attacked by the side not to move. -/
  isAttacked : Position → Int → Bool
  /-- The source's `isAttacked(p, bitboard)`: is one of the squares of the set attacked. -/
  isAttackedBB : Position → Nat → Bool
  /-- The source's `MaterialHash::updateMaterialProm(p, to, type)`: the material table it leaves. -/
  updateMaterialProm : Position → Int → MType → Color → Int → Nat
  /-- The source's `MaterialHash::updateMaterialOther(p)`: the material table it leaves. -/
  updateMaterialOther : Position → Color → Int → Nat
  /-- Number of values of the type of `Position::fifty`. -/
  fiftyMod : Nat
  /-- Number of values of the type of `Position::moves`. -/
  movesMod : Nat
  /-- Number of values of the type of `Position::halfmoves`. -/
  halfmovesMod : Nat
  /-- Number of values of the type of a material count. -/
  matMod : Nat
  /-- The source's `BBTools::mask[a].between[b]`. -/
  between : Int → Int → Nat
  /-- The source's `BBTools::mask[s].push[c]`. -/
  push : Int → Color → Nat
  /-- The source's `BBTools::mask[s].dpush[c]`. -/
  dpush : Int → Color → Nat
  /-- The source's `BBTools::mask[s].pawnAttack[c]`. -/
  pawnAttack : Int → Color → Nat
  /-- The source's `BBTools::mask[s].kingZone`. -/
  kingZone : Int → Nat
  /-- The source's `BBTools::pfCoverage[pieceType - 1](from, occupancy, c)`. -/
  pfCoverage : Int → Int → Nat → Color → Nat

/-! ## Bitboard helpers -/

/-- Modelled from the spec: the empty set of squares. -/
def emptyBitBoard : Nat := 0

/-- All 64 bits set. -/
def fullBitBoard : Nat := 2 ^ 64 - 1

/-- Modelled from the spec: `SquareToBitboard(k)`, the word with the bit of square `k`. -/
def SquareToBitboard (k : Int) : Nat := 1 <<< k.toNat

/-- Bitwise complement `~b` of a 64-bit word. -/
def bbNot (b : Nat) : Nat := fullBitBoard ^^^ (b &&& fullBitBoard)

/-- Modelled from the spec: `_setBit(b, k)` adds square `k` to the set `b`. -/
def _setBit (b : Nat) (k : Int) : Nat := b ||| SquareToBitboard k

/-- Modelled from the spec: `_unSetBit(b, k)` removes square `k` from the set `b`. -/
def _unSetBit (b : Nat) (k : Int) : Nat := b &&& bbNot (SquareToBitboard k)

/-- Modelled from the spec: `BBTools::setBit(p, k, pp)` sets square `k` in the bitboard of
piece `pp` ("one bitboard per piece-color combination"); the helper is declared in a header
that is not part of the embedded sources. -/
def BBTools.setBit (p : Position) (k : Int) (pp : Int) : Position :=
  { p with allB := upd p.allB (pp + PieceShift) (_setBit (p.allB (pp + PieceShift)) k) }

/-- Modelled from the spec: `BBTools::unSetBit(p, k, pp)` clears square `k` in the bitboard of
piece `pp`. -/
def BBTools.unSetBit (p : Position) (k : Int) (pp : Int) : Position :=
  { p with allB := upd p.allB (pp + PieceShift) (_unSetBit (p.allB (pp + PieceShift)) k) }

/-- Modelled from the spec: `p.occupancy()`, both occupancy bitboards together. -/
def Position.occupancy (p : Position) : Nat := p.allPieces Co_White ||| p.allPieces Co_Black

/-- Modelled from the spec: `kingSquare(p)` is the square of the king of the side to move. -/
def kingSquare (p : Position) : Int := p.king p.c

/-! ## Move kinds -/

/-- Modelled from the spec: the capturing kinds (capture, en-passant, capturing promotions). -/
def isCapture : MType → Bool
  | T_capture | T_ep | T_cappromq | T_cappromr | T_cappromb | T_cappromn => true
  | _ => false

/-- Modelled from the spec: the eight promotion kinds. -/
def isPromotion : MType → Bool
  | T_promq | T_promr | T_promb | T_promn
  | T_cappromq | T_cappromr | T_cappromb | T_cappromn => true
  | _ => false

/-- Modelled from the spec: the four castling kinds. -/
def isCastling : MType → Bool
  | T_wks | T_wqs | T_bks | T_bqs => true
  | _ => false

/-- Modelled from the spec: a capturing kind or a promotion kind. -/
def isCaptureOrProm (t : MType) : Bool := isCapture t || isPromotion t

/-! ## Single assignments on a position -/

/-- The assignment `p.board(k) = v`. -/
def Position.setBoard (p : Position) (k : Int) (v : Int) : Position :=
  { p with board := upd p.board k v }

/-- The statement `_setBit(p.allPieces[c], k)`. -/
def Position.setOcc (p : Position) (c : Color) (k : Int) : Position :=
  { p with allPieces := upd p.allPieces c (_setBit (p.allPieces c) k) }

/-- The statement `_unSetBit(p.allPieces[c], k)`. -/
def Position.unSetOcc (p : Position) (c : Color) (k : Int) : Position :=
  { p with allPieces := upd p.allPieces c (_unSetBit (p.allPieces c) k) }

/-- The statement `p.h ^= key`. -/
def Position.xorH (p : Position) (key : Nat) : Position := { p with h := p.h ^^^ key }

/-- The statement `p.ph ^= key`. -/
def Position.xorPH (p : Position) (key : Nat) : Position := { p with ph := p.ph ^^^ key }

/-- The assignment `p.king[c] = k`. -/
def Position.setKing (p : Position) (c : Color) (k : Int) : Position :=
  { p with king := upd p.king c k }

/-- The assignment `p.castling &= mask`. -/
def Position.andCastling (p : Position) (mask : Nat) : Position :=
  { p with castling := p.castling &&& mask }

/-- A material count decremented (`--` on a counter with `matMod` values). -/
def matDec (E : Env) (x : Nat) : Nat := (x + E.matMod - 1) % E.matMod

/-- The statement `p.mat[c][k]--`. -/
def Position.decMat (E : Env) (p : Position) (c : Color) (k : Int) : Position :=
  { p with mat := upd p.mat c (upd (p.mat c) k (matDec E (p.mat c k))) }

/-- The castling update shared by `movePiece` and `movePieceCastle`: the key of the old
rights leaves the hash, the rights are masked, the key of the new rights enters the hash. -/
def Position.maskCastling (E : Env) (p : Position) (mask : Nat) : Position :=
  let p := p.xorH (E.ZTCastling p.castling)
  let p := p.andCastling mask
  p.xorH (E.ZTCastling p.castling)

/-! ## moveGen.cpp -/

/-- The table `_helperPawnHash`, indexed by `piece + PieceShift`: the pieces that have
influence on the pawn hash (both kings and both pawns). -/
def _helperPawnHash (id : Int) : Bool :=
  id = 0 || id = 5 || id = 7 || id = 12

/-- The source's `movePiece`, section "update board". -/
def movePieceBoard (p : Position) (sqFrom sqTo : Int) (toPnew : Int) : Position :=
  let p := p.setBoard sqFrom P_none
  p.setBoard sqTo toPnew

/-- The source's `movePiece`, section "update bitboard". -/
def movePieceBitboards (p : Position) (sqFrom sqTo : Int) (fromP toP toPnew : Int) :
    Position :=
  let p := BBTools.unSetBit p sqFrom fromP
  let p := p.unSetOcc (if fromP > 0 then Co_White else Co_Black) sqFrom
  let p :=
    if toP ≠ P_none then
      (BBTools.unSetBit p sqTo toP).unSetOcc (if toP > 0 then Co_White else Co_Black) sqTo
    else p
  let p := BBTools.setBit p sqTo toPnew
  p.setOcc (if fromP > 0 then Co_White else Co_Black) sqTo

/-- The source's `movePiece`, section "update Zobrist hash". -/
def movePieceHash (E : Env) (p : Position) (sqFrom sqTo : Int) (fromId toId toIdnew : Int)
    (toP : Int) (isCapture : Bool) (prom : Int) : Position :=
  let p := p.xorH (E.ZT sqFrom fromId)
  let p := p.xorH (E.ZT sqTo toIdnew)
  let p :=
    if _helperPawnHash fromId then
      let p := p.xorPH (E.ZT sqFrom fromId)
      if prom = P_none then p.xorPH (E.ZT sqTo toIdnew) else p
    else p
  if isCapture then
    let p := p.xorH (E.ZT sqTo toId)
    if std_abs toP = P_wp ∨ std_abs toP = P_wk then p.xorPH (E.ZT sqTo toId) else p
  else p

/-- The source's `movePiece`, section "consequences on castling". -/
def movePieceCastling (E : Env) (p : Position) (sqFrom sqTo : Int) : Position :=
  if p.castling ≠ 0 ∧ Nat.xor (E.castlePermHashTable sqFrom) (E.castlePermHashTable sqTo) ≠ 0
  then p.maskCastling E (E.castlePermHashTable sqFrom &&& E.castlePermHashTable sqTo)
  else p

/-- The source's `movePiece`, sections "update king position" and "king capture". -/
def movePieceKing (p : Position) (sqTo : Int) (fromP toP : Int) : Position :=
  let p :=
    if fromP = P_wk then p.setKing Co_White sqTo
    else if fromP = P_bk then p.setKing Co_Black sqTo
    else p
  if toP = P_wk then p.setKing Co_White INVALIDSQUARE
  else if toP = P_bk then p.setKing Co_Black INVALIDSQUARE
  else p

/-- The source's `movePiece(p, from, to, fromP, toP, isCapture, prom)`: its five sections in order. -/
def movePiece (E : Env) (p : Position) (sqFrom sqTo : Int) (fromP toP : Int)
    (isCapture : Bool) (prom : Int) : Position :=
  let fromId := fromP + PieceShift
  let toId := toP + PieceShift
  let toPnew := if prom ≠ P_none then prom else fromP
  let toIdnew := if prom ≠ P_none then prom + PieceShift else fromId
  let p := movePieceBoard p sqFrom sqTo toPnew
  let p := movePieceBitboards p sqFrom sqTo fromP toP toPnew
  let p := movePieceHash E p sqFrom sqTo fromId toId toIdnew toP isCapture prom
  let p := movePieceCastling E p sqFrom sqTo
  movePieceKing p sqTo fromP toP

/-- Modelled from the spec: the bitboard part of `movePieceCastle`. -/
def movePieceCastleBitboards (c : Color) (p : Position) (kingSq rookSq kingDest rookDest : Int)
    (pk pr : Int) : Position :=
  let p := (BBTools.unSetBit p kingSq pk).unSetOcc c kingSq
  let p := (BBTools.unSetBit p rookSq pr).unSetOcc c rookSq
  let p := (BBTools.setBit p kingDest pk).setOcc c kingDest
  (BBTools.setBit p rookDest pr).setOcc c rookDest

/-- Modelled from the spec: the board part of `movePieceCastle`. -/
def movePieceCastleBoard (p : Position) (kingSq rookSq kingDest rookDest : Int)
    (pk pr : Int) : Position :=
  let p := (p.setBoard kingSq P_none).setBoard rookSq P_none
  (p.setBoard kingDest pk).setBoard rookDest pr

/-- Modelled from the spec: the piece-key part of `movePieceCastle`. -/
def movePieceCastleHash (E : Env) (p : Position) (kingSq rookSq kingDest rookDest : Int)
    (pk pr : Int) : Position :=
  let p := (p.xorH (E.ZT kingSq (pk + PieceShift))).xorPH (E.ZT kingSq (pk + PieceShift))
  let p := p.xorH (E.ZT rookSq (pr + PieceShift))
  let p := (p.xorH (E.ZT kingDest (pk + PieceShift))).xorPH (E.ZT kingDest (pk + PieceShift))
  p.xorH (E.ZT rookDest (pr + PieceShift))

/-- Modelled from the spec: `movePieceCastle<c>(p, ct, kingDest, rookDest)`, declared in
`moveGen.hpp`, which is not part of the embedded sources. "Two pieces move in one transaction
(king and the designated rook)": the king leaves `p.king[c]`, the rook leaves
`p.rooksInit[c][ct]`, both are put on their destinations on the board and in the bitboards,
the piece keys are exchanged in the hashes, the king square is recorded and both castling
rights of the colour are given up. -/
def movePieceCastle (E : Env) (c : Color) (p : Position) (ct : CastlingTypes)
    (kingDest rookDest : Int) : Position :=
  let pk : Int := if c = Co_White then P_wk else P_bk
  let pr : Int := if c = Co_White then P_wr else P_br
  let ks : Nat := if c = Co_White then C_wks else C_bks
  let qs : Nat := if c = Co_White then C_wqs else C_bqs
  let kingSq := p.king c
  let rookSq := p.rooksInit c ct
  let p := movePieceCastleBitboards c p kingSq rookSq kingDest rookDest pk pr
  let p := movePieceCastleBoard p kingSq rookSq kingDest rookDest pk pr
  let p := movePieceCastleHash E p kingSq rookSq kingDest rookDest pk pr
  let p := p.setKing c kingDest
  p.maskCastling E (15 ^^^ (ks ||| qs))

/-- The statement `if (pN.c == Co_White) ++pN.moves;`. -/
def Position.incMoves (E : Env) (p : Position) : Position :=
  if p.c = Co_White then { p with moves := (p.moves + 1) % E.movesMod } else p

/-- The statement `++pN.halfmoves;`. -/
def Position.incHalfmoves (E : Env) (p : Position) : Position :=
  { p with halfmoves := (p.halfmoves + 1) % E.halfmovesMod }

/-- The statements `if (p.ep != INVALIDSQUARE) p.h ^= ZT[p.ep][13]; p.ep = INVALIDSQUARE;`. -/
def Position.clearEp (E : Env) (p : Position) : Position :=
  let p := if p.ep ≠ INVALIDSQUARE then p.xorH (E.ZT p.ep 13) else p
  { p with ep := INVALIDSQUARE }

/-- The statements `p.c = ~p.c; p.h ^= ZT[3][13]; p.h ^= ZT[4][13];`. -/
def Position.flipColor (E : Env) (p : Position) : Position :=
  let p := { p with c := p.c.flip }
  let p := p.xorH (E.ZT 3 13)
  p.xorH (E.ZT 4 13)

/-- The source's `applyNull(searcher, pN)`; the searcher argument is unused by the source. -/
def applyNull (E : Env) (pN : Position) : Position :=
  let pN := pN.flipColor E
  let pN := pN.clearEp E
  let pN := { pN with lastMove := MoveSlot.NULLMOVE }
  let pN := pN.incMoves E
  pN.incHalfmoves E

/-- The piece a promotion kind promotes to, for the side to move
(`promPiece = (p.c == Co_White ? P_wq : P_bq)` and its three siblings). -/
def promPieceOf (c : Color) : MType → Int
  | T_promq | T_cappromq => if c = Co_White then P_wq else P_bq
  | T_promr | T_cappromr => if c = Co_White then P_wr else P_br
  | T_promb | T_cappromb => if c = Co_White then P_wb else P_bb
  | T_promn | T_cappromn => if c = Co_White then P_wn else P_bn
  | _ => P_none

/-- The source's `case T_ep`, the bitboard statements. -/
def applyEpBitboards (p : Position) (sqFrom sqTo epCapSq : Int) (fromP : Int) : Position :=
  let p := BBTools.unSetBit p epCapSq (-fromP)
  let p := p.unSetOcc (if fromP > 0 then Co_Black else Co_White) epCapSq
  let p := BBTools.unSetBit p sqFrom fromP
  let p := p.unSetOcc (if fromP > 0 then Co_White else Co_Black) sqFrom
  let p := BBTools.setBit p sqTo fromP
  p.setOcc (if fromP > 0 then Co_White else Co_Black) sqTo

/-- The source's `case T_ep`, the board statements. -/
def applyEpBoard (p : Position) (sqFrom sqTo epCapSq : Int) (fromP : Int) : Position :=
  let p := p.setBoard sqFrom P_none
  let p := p.setBoard sqTo fromP
  p.setBoard epCapSq P_none

/-- The source's `case T_ep`, the hash statements. -/
def applyEpHash (E : Env) (p : Position) (sqFrom sqTo epCapSq : Int) (fromId capId : Int) :
    Position :=
  let p := p.xorH (E.ZT sqFrom fromId)
  let p := p.xorH (E.ZT epCapSq capId)
  let p := p.xorH (E.ZT sqTo fromId)
  let p := p.xorPH (E.ZT sqFrom fromId)
  let p := p.xorPH (E.ZT epCapSq capId)
  p.xorPH (E.ZT sqTo fromId)

/-- The en-passant branch (`case T_ep`) of the `switch` of `applyMove`. -/
def applyEp (E : Env) (p : Position) (sqFrom sqTo : Int) (fromP : Int) : Position :=
  let fromId := fromP + PieceShift
  let epCapSq : Int := p.ep + (if p.c = Co_White then -8 else 8)
  let capId := (if p.c = Co_White then P_bp else P_wp) + PieceShift
  let c := p.c
  let p := applyEpBitboards p sqFrom sqTo epCapSq fromP
  let p := applyEpBoard p sqFrom sqTo epCapSq fromP
  let p := applyEpHash E p sqFrom sqTo epCapSq fromId capId
  p.decMat E c.flip M_p

/-- The `switch(type)` of `applyMove`: the piece relocation for the move, carried out on `p`
with the side to move not yet flipped. -/
def applyMoveSwitch (E : Env) (p : Position) (m : Move) : Position :=
  let sqFrom := Move2From m
  let sqTo := Move2To m
  let type := Move2Type m
  let fromP := p.board sqFrom
  let toP := p.board sqTo
  let isCapNoEP : Bool := toP ≠ P_none
  match type with
  | T_std | T_capture | T_reserved =>
    -- update material
    let p1 := if isCapNoEP then p.decMat E p.c.flip (std_abs toP) else p
    -- update hash, BB, board and castling rights
    movePiece E p1 sqFrom sqTo fromP toP (type = T_capture) P_none
  | T_ep => applyEp E p sqFrom sqTo fromP
  | T_promq | T_cappromq =>
    let p1 := { p with mat := E.updateMaterialProm p sqTo type }
    movePiece E p1 sqFrom sqTo fromP toP (type = T_cappromq) (promPieceOf p.c type)
  | T_promr | T_cappromr =>
    let p1 := { p with mat := E.updateMaterialProm p sqTo type }
    movePiece E p1 sqFrom sqTo fromP toP (type = T_cappromr) (promPieceOf p.c type)
  | T_promb | T_cappromb =>
    let p1 := { p with mat := E.updateMaterialProm p sqTo type }
    movePiece E p1 sqFrom sqTo fromP toP (type = T_cappromb) (promPieceOf p.c type)
  | T_promn | T_cappromn =>
    let p1 := { p with mat := E.updateMaterialProm p sqTo type }
    movePiece E p1 sqFrom sqTo fromP toP (type = T_cappromn) (promPieceOf p.c type)
  | T_wks => movePieceCastle E Co_White p CT_OO Sq_g1 Sq_f1
  | T_wqs => movePieceCastle E Co_White p CT_OOO Sq_c1 Sq_d1
  | T_bks => movePieceCastle E Co_Black p CT_OO Sq_g8 Sq_f8
  | T_bqs => movePieceCastle E Co_Black p CT_OOO Sq_c8 Sq_d8

/-- The source's `applyMove`, section "update EP". -/
def applyMoveEp (E : Env) (p : Position) (sqFrom sqTo : Int) (pawnMove : Bool) : Position :=
  let p := p.clearEp E
  if pawnMove = true ∧ std_abs (sqTo - sqFrom) = 16 then
    let p := { p with ep := (sqFrom + sqTo) / 2 }
    p.xorH (E.ZT p.ep 13)
  else p

/-- The source's `applyMove`, section "update game state". -/
def applyMoveGameState (E : Env) (p : Position) (isCapNoEP pawnMove : Bool) : Position :=
  let p :=
    if isCapNoEP = true ∨ pawnMove = true then { p with fifty := 0 }
    else { p with fifty := (p.fifty + 1) % E.fiftyMod }
  let p := p.incMoves E
  p.incHalfmoves E

/-- The part of `applyMove` after the legality test: en-passant square, side to move,
counters, derived material and last move. `p0` is the position before the call (the source
reads `fromP` and `toP` from it before the `switch`), `p` the position after the `switch`. -/
def applyMoveFinish (E : Env) (p0 p : Position) (m : Move) : Position :=
  let sqFrom := Move2From m
  let sqTo := Move2To m
  let type := Move2Type m
  let fromP := p0.board sqFrom
  let toP := p0.board sqTo
  let isCapNoEP : Bool := toP ≠ P_none
  let pawnMove : Bool := std_abs fromP = P_wp
  let p := applyMoveEp E p sqFrom sqTo pawnMove
  let p := p.flipColor E
  let p := applyMoveGameState E p isCapNoEP pawnMove
  let p := if isCaptureOrProm type then { p with mat := E.updateMaterialOther p } else p
  { p with lastMove := MoveSlot.played m }

/-- The source's `applyMove(p, m, noValidation)`: the returned boolean and the position the call leaves
in `p` (also when it returns `false`). -/
def applyMove (E : Env) (p : Position) (m : Move) (noValidation : Bool) : Bool × Position :=
  let p1 := applyMoveSwitch E p m
  if !noValidation && E.isAttacked p1 (kingSquare p1) then (false, p1)
  else (true, applyMoveFinish E p p1 m)

/-- Modelled from the spec: the rank of a square (`SQRANK`), ranks and files numbered from 0,
square index `8 * rank + file`. -/
def SQRANK (s : Int) : Int := s / 8

/-- Modelled from the spec: the promotion rank of a side (`PromRank[c]`), the last rank for
White and the first for Black. -/
def PromRank (c : Color) : Int := if c = Co_White then 7 else 0

/-- The castling test of `isPseudoLegal` for one wing: the right is held, the move goes from
the king's initial square to the king's destination, which is empty, the squares crossed by
king and rook hold nothing but that king and that rook, and the king's path is not attacked. -/
def castleOK (E : Env) (p : Position) (sqFrom sqTo : Int) (fromP toP : Int)
    (c : Color) (right : Nat) (ct : CastlingTypes) (pk : Int)
    (kingDest rookDest : Int) : Bool :=
  decide ((p.castling &&& right) ≠ 0) && decide (sqFrom = p.kingInit c) && decide (fromP = pk)
  && decide (sqTo = kingDest) && decide (toP = P_none)
  && decide ((((E.between (p.king c) kingDest ||| SquareToBitboard kingDest
        ||| E.between (p.rooksInit c ct) rookDest ||| SquareToBitboard rookDest)
        &&& bbNot (SquareToBitboard (p.rooksInit c ct)) &&& bbNot (SquareToBitboard (p.king c)))
        &&& p.occupancy) = emptyBitBoard)
  && !E.isAttackedBB p
        (E.between (p.king c) kingDest ||| SquareToBitboard (p.king c) ||| SquareToBitboard kingDest)

/-- The source's `isPseudoLegal`, the branch `if (isCastling(m))`. -/
def isPseudoLegalCastling (E : Env) (p : Position) (m : Move) : Bool :=
  let sqFrom := Move2From m
  let sqTo := Move2To m
  let t := Move2Type m
  let fromP := p.board sqFrom
  let toP := p.board sqTo
  if p.c = Co_White then
    if t = T_wqs ∧ castleOK E p sqFrom sqTo fromP toP Co_White C_wqs CT_OOO P_wk Sq_c1 Sq_d1
    then true
    else if t = T_wks ∧ castleOK E p sqFrom sqTo fromP toP Co_White C_wks CT_OO P_wk Sq_g1 Sq_f1
    then true
    else false
  else
    if t = T_bqs ∧ castleOK E p sqFrom sqTo fromP toP Co_Black C_bqs CT_OOO P_bk Sq_c8 Sq_d8
    then true
    else if t = T_bks ∧ castleOK E p sqFrom sqTo fromP toP Co_Black C_bks CT_OO P_bk Sq_g8 Sq_f8
    then true
    else false

/-- The source's `isPseudoLegal`, the branch `if (fromPieceType == P_wp)`. -/
def isPseudoLegalPawn (E : Env) (p : Position) (m : Move) : Bool :=
  let sqFrom := Move2From m
  let sqTo := Move2To m
  let t := Move2Type m
  let toP := p.board sqTo
  let occupancy := p.occupancy
  if t = T_ep ∧ sqTo ≠ p.ep then false
  else if t ≠ T_ep ∧ p.ep ≠ INVALIDSQUARE ∧ sqTo = p.ep then false
  else if isPromotion t = false ∧ SQRANK sqTo = PromRank p.c then false
  else if isPromotion t = true ∧ SQRANK sqTo ≠ PromRank p.c then false
  else
  let validPush := E.push sqFrom p.c &&& bbNot occupancy
  let validPush :=
    if (E.push sqFrom p.c &&& occupancy) = emptyBitBoard
    then validPush ||| (E.dpush sqFrom p.c &&& bbNot occupancy)
    else validPush
  if (validPush &&& SquareToBitboard sqTo) ≠ 0 then true
  else
  let validCap := E.pawnAttack sqFrom p.c &&& bbNot (p.allPieces p.c)
  if (validCap &&& SquareToBitboard sqTo) ≠ 0
      ∧ ((t ≠ T_ep ∧ toP ≠ P_none) ∨ (t = T_ep ∧ sqTo = p.ep ∧ toP = P_none)) then true
  else false

/-- The source's `isPseudoLegal`, from `const BitBoard occupancy = p.occupancy();` to the end: castling,
pawn moves, the moves of knight, bishop, rook and queen, and king moves. -/
def isPseudoLegalGeometry (E : Env) (p : Position) (m : Move) : Bool :=
  let sqFrom := Move2From m
  let sqTo := Move2To m
  let t := Move2Type m
  let fromPieceType := std_abs (p.board sqFrom)
  let occupancy := p.occupancy
  if isCastling t then isPseudoLegalCastling E p m
  else if fromPieceType = P_wp then isPseudoLegalPawn E p m
  else if fromPieceType ≠ P_wk then
    if (E.pfCoverage (fromPieceType - 1) sqFrom occupancy p.c &&& SquareToBitboard sqTo)
        ≠ emptyBitBoard then true
    else false
  else
    if (E.kingZone (p.king p.c) &&& SquareToBitboard sqTo) ≠ emptyBitBoard then true
    else false

/-- The source's `isPseudoLegal(p, m)`: the validator of a move taken from the transposition table. -/
def isPseudoLegal (E : Env) (p : Position) (ms : MoveSlot) : Bool :=
  match ms with
  | MoveSlot.INVALIDMOVE => false
  | MoveSlot.NULLMOVE => false
  | MoveSlot.played m =>
    let sqFrom := Move2From m
    let fromP := p.board sqFrom
    if fromP = P_none ∨ (fromP > 0 ∧ p.c = Co_Black) ∨ (fromP < 0 ∧ p.c = Co_White) then false
    else
    let sqTo := Move2To m
    let toP := p.board sqTo
    if (toP > 0 ∧ p.c = Co_White) ∨ (toP < 0 ∧ p.c = Co_Black) then false
    else if std_abs toP = P_wk then false
    else
    let fromPieceType := std_abs fromP
    let t := Move2Type m
    if t = T_reserved then false
    else if toP = P_none ∧ (isCapture t = true ∧ t ≠ T_ep) then false
    else if toP ≠ P_none ∧ isCapture t = false then false
    else if t = T_ep ∧ (p.ep = INVALIDSQUARE ∨ fromPieceType ≠ P_wp) then false
    else if t = T_ep ∧ p.board (p.ep + (if p.c = Co_White then -8 else 8))
        ≠ (if p.c = Co_White then P_bp else P_wp) then false
    else if isPromotion t = true ∧ fromPieceType ≠ P_wp then false
    else isPseudoLegalGeometry E p m

/-! ## Hashes computed from scratch, board/bitboard agreement -/

/-- XOR of `f 0`, ..., `f (n - 1)`: a loop `for (k = 0; k < n; ++k) h ^= f(k)`. -/
def xorUpTo (f : Nat → Nat) : Nat → Nat
  | 0 => 0
  | n + 1 => xorUpTo f n ^^^ f n

/-- The piece key of piece `pc` on square `k`: `ZT[k][pc + PieceShift]` unless the square is
empty. -/
def pieceKey (E : Env) (k pc : Int) : Nat :=
  if pc ≠ P_none then E.ZT k (pc + PieceShift) else 0

/-- The pawn-hash key of piece `pc` on square `k`: the piece key if `pc` is a pawn or a king. -/
def pawnKey (E : Env) (k pc : Int) : Nat :=
  if std_abs pc = P_wp ∨ std_abs pc = P_wk then E.ZT k (pc + PieceShift) else 0

/-- The en-passant key: `ZT[ep][13]` if an en-passant square is set. -/
def epKey (E : Env) (ep : Int) : Nat := if ep ≠ INVALIDSQUARE then E.ZT ep 13 else 0

/-- The side-to-move key: `ZT[3][13]` with White to move, `ZT[4][13]` with Black to move. -/
def sideKey (E : Env) (c : Color) : Nat := if c = Co_White then E.ZT 3 13 else E.ZT 4 13

/-- Modelled from the spec: the full hash computed from scratch (`computeHash`, declared in a
file that is not part of the embedded sources), "XOR of the piece key of every occupied
square, the en-passant key if an en-passant square is set, the castling-rights key and the
side-to-move keys". -/
def computeHash (E : Env) (p : Position) : Nat :=
  xorUpTo (fun k => pieceKey E (k : Int) (p.board (k : Int))) 64
    ^^^ epKey E p.ep ^^^ E.ZTCastling p.castling ^^^ sideKey E p.c

/-- Modelled from the spec: the pawn hash computed from scratch (`computePHash`), "the XOR of
the piece keys of all pawns and kings on the board". -/
def computePHash (E : Env) (p : Position) : Nat :=
  xorUpTo (fun k => pawnKey E (k : Int) (p.board (k : Int))) 64

/-- Board/bitboard agreement on one square: the piece of the board array is a piece or none,
the square is a member of the bitboard of piece `pc` exactly when the board holds `pc`, and a
member of the occupancy of colour `col` exactly when the board holds a piece of that colour. -/
def AgreeAt (p : Position) (s : Int) : Prop :=
  (-6 ≤ p.board s ∧ p.board s ≤ 6) ∧
  (∀ pc : Int, -6 ≤ pc → pc ≤ 6 → pc ≠ P_none →
    ((p.allB (pc + PieceShift)).testBit s.toNat = true ↔ p.board s = pc)) ∧
  (∀ col : Color, (p.allPieces col).testBit s.toNat = true ↔
    (p.board s ≠ P_none ∧ (if p.board s > 0 then Co_White else Co_Black) = col))

/-- Board/bitboard agreement on every square of the board. -/
def Agree (p : Position) : Prop := ∀ s : Int, 0 ≤ s → s < 64 → AgreeAt p s

/-- The `assert`s of `applyMove` on its arguments: both squares of the move are on the board
and, for an en-passant move, an en-passant square is set and the square of the captured pawn
is on the board. -/
def applyMoveAsserts (p : Position) (m : Move) : Bool :=
  squareOK (Move2From m) && squareOK (Move2To m)
  && (decide (Move2Type m ≠ T_ep)
      || (decide (p.ep ≠ INVALIDSQUARE)
          && squareOK (p.ep + (if p.c = Co_White then -8 else 8))))

/-- The kinds of move named "quiet, capture, en-passant or promotion (plain or capturing)". -/
def isStdKind : MType → Bool
  | T_std | T_capture | T_ep => true
  | t => isPromotion t

instance (p : Position) (s : Int) : Decidable (AgreeAt p s) := by
  unfold AgreeAt
  infer_instance

instance (p : Position) : Decidable (Agree p) := by
  unfold Agree
  infer_instance

/-- The source's `initCaslingPermHashTable(p)`: the table it leaves in `castlePermHashTable`. -/
def initCaslingPermHashTable (p : Position) : Int → Nat :=
  let t : Int → Nat := fun _ => C_all
  let t := upd t (p.rooksInit Co_White CT_OOO) C_all_but_wqs
  let t := upd t (p.kingInit Co_White) C_all_but_w
  let t := upd t (p.rooksInit Co_White CT_OO) C_all_but_wks
  let t := upd t (p.rooksInit Co_Black CT_OOO) C_all_but_bqs
  let t := upd t (p.kingInit Co_Black) C_all_but_b
  upd t (p.rooksInit Co_Black CT_OO) C_all_but_bks

/-! ## A concrete environment and concrete positions -/

/-- A board given by its 64 squares, a1 first. -/
def boardOfList (l : List Int) : Int → Int :=
  fun s => if 0 ≤ s ∧ s < 64 then l.getD s.toNat 0 else 0

/-- The bitboard of piece `pc` on a board: bit `k` is set when square `k` holds `pc`. -/
def bitboardOf (board : Int → Int) (pc : Int) : Nat :=
  (List.range 64).foldl (fun (b k : Nat) => if board (k : Int) = pc then b ||| ((1 : Nat) <<< k) else b) 0

/-- The occupancy of a colour on a board. -/
def occupancyOf (board : Int → Int) (c : Color) : Nat :=
  (List.range 64).foldl
    (fun (b k : Nat) =>
      if board (k : Int) ≠ 0 ∧ (if board (k : Int) > 0 then Co_White else Co_Black) = c
      then b ||| ((1 : Nat) <<< k) else b) 0

/-- The initial squares of the standard game: rooks on the a and h files, kings on e. -/
def stdRooksInit : Color → CastlingTypes → Int
  | Co_White, CT_OOO => 0
  | Co_White, CT_OO => 7
  | Co_Black, CT_OOO => 56
  | Co_Black, CT_OO => 63

/-- A position with the given board, side to move, en-passant square, castling rights and
counters; bitboards are derived from the board, both hashes are left at zero. -/
def rawPosition (l : List Int) (c : Color) (ep : Int) (castling : Nat)
    (fifty moves halfmoves : Nat) (wk bk : Int) : Position :=
  { board := boardOfList l
    allB := fun id => if 0 ≤ id ∧ id ≤ 12 ∧ id ≠ 6 then bitboardOf (boardOfList l) (id - 6) else 0
    allPieces := occupancyOf (boardOfList l)
    mat := fun _ k => if k = M_p then 8 else 0
    h := 0
    ph := 0
    lastMove := MoveSlot.INVALIDMOVE
    moves := moves
    halfmoves := halfmoves
    king := fun col => if col = Co_White then wk else bk
    rooksInit := stdRooksInit
    kingInit := fun col => if col = Co_White then 4 else 60
    ep := ep
    fifty := fifty
    castling := castling
    c := c }

/-- A concrete environment: arithmetic Zobrist keys, the castling table of the standard game,
no square ever attacked, material helpers that leave the table alone, 8-bit `fifty` and
material counts, 16-bit move counters, one-step and two-step pawn pushes. -/
def exampleEnv : Env :=
  { ZT := fun s id => 2 ^ 20 * (s.toNat + 1) + 1021 * (id.toNat + 1)
    ZTCastling := fun r => 2 ^ 40 + 31 * r
    castlePermHashTable :=
      initCaslingPermHashTable (rawPosition [] Co_White INVALIDSQUARE 15 0 1 1 4 60)
    isAttacked := fun _ _ => false
    isAttackedBB := fun _ _ => false
    updateMaterialProm := fun p _ _ => p.mat
    updateMaterialOther := fun p => p.mat
    fiftyMod := 256
    movesMod := 65536
    halfmovesMod := 65536
    matMod := 256
    between := fun _ _ => 0
    push := fun s c => if c = Co_White then SquareToBitboard (s + 8) else SquareToBitboard (s - 8)
    dpush := fun s c =>
      if c = Co_White then (if s / 8 = 1 then SquareToBitboard (s + 16) else 0)
      else (if s / 8 = 6 then SquareToBitboard (s - 16) else 0)
    pawnAttack := fun s c =>
      if c = Co_White then SquareToBitboard (s + 7) ||| SquareToBitboard (s + 9)
      else SquareToBitboard (s - 7) ||| SquareToBitboard (s - 9)
    kingZone := fun _ => 0
    pfCoverage := fun _ _ _ _ => 0 }

/-- A position with both hashes computed from scratch, as `readFEN` leaves them. -/
def withHashes (E : Env) (p : Position) : Position :=
  { p with h := computeHash E p, ph := computePHash E p }

/-- The initial position of the standard game, White to move. -/
def startPosition : Position :=
  withHashes exampleEnv (rawPosition
    [4, 2, 3, 5, 6, 3, 2, 4,
     1, 1, 1, 1, 1, 1, 1, 1,
     0, 0, 0, 0, 0, 0, 0, 0,
     0, 0, 0, 0, 0, 0, 0, 0,
     0, 0, 0, 0, 0, 0, 0, 0,
     0, 0, 0, 0, 0, 0, 0, 0,
     -1, -1, -1, -1, -1, -1, -1, -1,
     -4, -2, -3, -5, -6, -3, -2, -4]
    Co_White INVALIDSQUARE 15 0 1 1 4 60)

/-- The move e2-e4, a quiet double pawn push. -/
def move_e2e4 : Move := { sqFrom := 12, sqTo := 28, type := T_std, score := 0 }

/-- The position after 1. e4 a6 2. e5 d5: White to move, en-passant square d6. -/
def epPosition : Position :=
  withHashes exampleEnv (rawPosition
    [4, 2, 3, 5, 6, 3, 2, 4,
     1, 1, 1, 1, 0, 1, 1, 1,
     0, 0, 0, 0, 0, 0, 0, 0,
     0, 0, 0, 0, 0, 0, 0, 0,
     0, 0, 0, -1, 1, 0, 0, 0,
     -1, 0, 0, 0, 0, 0, 0, 0,
     0, -1, -1, 0, -1, -1, -1, -1,
     -4, -2, -3, -5, -6, -3, -2, -4]
    Co_White 43 15 0 3 5 4 60)

/-- The en-passant capture e5xd6. -/
def move_e5d6 : Move := { sqFrom := 36, sqTo := 43, type := T_ep, score := 0 }

/-- A position with a white pawn on a7 that can capture a black rook on b8, kings on e1 and
e8, no castling rights, White to move. -/
def promPosition : Position :=
  withHashes exampleEnv (rawPosition
    [0, 0, 0, 0, 6, 0, 0, 0,
     0, 0, 0, 0, 0, 0, 0, 0,
     0, 0, 0, 0, 0, 0, 0, 0,
     0, 0, 0, 0, 0, 0, 0, 0,
     0, 0, 0, 0, 0, 0, 0, 0,
     0, 0, 0, 0, 0, 0, 0, 0,
     1, 0, 0, 0, 0, 0, 0, 0,
     0, -4, 0, 0, -6, 0, 0, 0]
    Co_White INVALIDSQUARE 0 0 40 79 4 60)

/-- The capturing promotion a7xb8=Q. -/
def move_a7b8q : Move := { sqFrom := 48, sqTo := 57, type := T_cappromq, score := 0 }

/-! ## The castling table and a position with non-standard starting files -/

/-- The six initial squares that `initCaslingPermHashTable` writes, in the order of the writes. -/
def initSquares (p : Position) : List Int :=
  [p.rooksInit Co_White CT_OOO, p.kingInit Co_White, p.rooksInit Co_White CT_OO,
   p.rooksInit Co_Black CT_OOO, p.kingInit Co_Black, p.rooksInit Co_Black CT_OO]

/-- A table entry that holds no bit outside the four castling rights and, of the four rights,
clears exactly those of `rights`. -/
def clearsExactly (entry : Nat) (rights : List Nat) : Prop :=
  entry ≤ C_all ∧ ∀ r ∈ [C_wks, C_wqs, C_bks, C_bqs], ((entry &&& r) = 0 ↔ r ∈ rights)

instance (entry : Nat) (rights : List Nat) : Decidable (clearsExactly entry rights) := by
  unfold clearsExactly
  infer_instance

/-- A position of a game with non-standard starting files: white king on f1 (its initial
square), white rooks on a1 and g1 (their initial squares), black king on e8, White to move
and holding the king-side castling right. -/
def frcPosition : Position :=
  { rawPosition
      [4, 0, 0, 0, 0, 6, 4, 0,
       0, 0, 0, 0, 0, 0, 0, 0,
       0, 0, 0, 0, 0, 0, 0, 0,
       0, 0, 0, 0, 0, 0, 0, 0,
       0, 0, 0, 0, 0, 0, 0, 0,
       0, 0, 0, 0, 0, 0, 0, 0,
       0, 0, 0, 0, 0, 0, 0, 0,
       0, 0, 0, 0, -6, 0, 0, 0]
      Co_White INVALIDSQUARE C_wks 0 1 1 5 60 with
    rooksInit := fun c ct => match c, ct with
      | Co_White, CT_OOO => 0
      | Co_White, CT_OO => 6
      | Co_Black, CT_OOO => 56
      | Co_Black, CT_OO => 63
    kingInit := fun c => if c = Co_White then 5 else 60 }

/-- White's king-side castling in `frcPosition`, encoded from the king's initial square f1 to
the king's destination g1 (where the castling rook stands). -/
def move_frc_OO : Move := { sqFrom := 5, sqTo := Sq_g1, type := T_wks, score := 0 }

/-! ## searcher.hpp and searcherPVS.hpp: the data of the search

Conventions of this part
* scores, depths and margins are `Int` without wrap-around, `ply` and the statistics
  counters are `Nat`;
* the searcher is passed explicitly: `pvs` takes the state and returns the new state with
  its result; the reference parameters `pv` and `seldepth` are inputs and outputs;
* the transposition table appears by the list of the stores made to it, most recent first;
  the killer, history and counter-move tables (whose types are declared outside the embedded
  sources) appear by the list of the writes made to them, most recent first;
* functions and constants declared outside the embedded sources are fields of `SearchEnv`;
* a recursive call of `pvs` is a call of the parameter `rec`; `pvs` itself is obtained by
  iterating the body over a recursion budget, `none` meaning that the budget is exhausted;
* the blocks under `DEBUG_*`, `WITH_GENFILE`, logging, `TT::prefetch` and the timer macros
  are left out; of the two move iterations under `USE_PARTIAL_SORT` the sorted one is
  embedded.
-/

/-- Modelled from the spec: the bound kind of a transposition-table entry ("exact / lower /
upper"); `B_none` marks an entry that carries only a static evaluation. -/
inductive Bound where
  | B_none | B_alpha | B_beta | B_exact
  deriving DecidableEq, Repr

open Bound

/-- Modelled from the spec: `nullHash`, the key of an empty transposition-table entry. -/
def nullHash : Nat := 0

/-- Modelled from the spec: a transposition-table entry, "hash key, best score, search depth
it was computed at, bound kind, best move (optional), static-eval score"; the field names are
those `pvs` reads (`e.h`, `e.m`, `e.s`, `e.e`, `e.b`, `e.d`). As a record of a store, `h` is
the hash given to `TT::setEntry`. -/
structure Entry where
  h : Nat
  m : MoveSlot
  s : Int
  e : Int
  b : Bound
  d : Int
  deriving DecidableEq, Repr

/-- Modelled from the spec: a default-constructed `TT::Entry e;`, an entry without key and
without move. -/
def Entry.empty : Entry :=
  { h := nullHash, m := MoveSlot.INVALIDMOVE, s := 0, e := 0, b := B_none, d := 0 }

/-- Modelled from the spec: `EvalData`, "static evaluation with auxiliary data (game phase,
danger signals)"; `pvs` reads `gp`, `danger[c]` and `mobility[c]`. -/
structure EvalData where
  gp : Int
  danger : Color → Int
  mobility : Color → Int

/-- The initial value `{ 0, {0,0}, {0,0} }` of an `EvalData`. -/
def EvalData.zero : EvalData := { gp := 0, danger := fun _ => 0, mobility := fun _ => 0 }

/-- The source's `Searcher::StackData`. -/
structure StackData where
  p : Position
  h : Nat
  data : EvalData
  eval : Int
  threat : MoveSlot

/-- The identifiers of the statistics counters that `pvs` increments (`Stats::sid_...`). -/
inductive StatId where
  | sid_nodes | sid_ttschits | sid_materialTableHits | sid_materialTableMiss | sid_ttscmiss
  | sid_tbHit1 | sid_tbHit2
  | sid_staticNullMove | sid_razoringTry | sid_razoring
  | sid_nullMoveTry | sid_nullMoveTry2 | sid_nullMove
  | sid_probcutTry | sid_probcutTry2 | sid_probcut | sid_iid
  | sid_checkExtension | sid_castlingExtension | sid_BMExtension | sid_pawnPushExtension
  | sid_queenThreatExtension | sid_singularExtension | sid_singularExtension2
  | sid_singularExtension3 | sid_CMHExtension
  | sid_ttbeta | sid_ttalpha
  | sid_dangerPrune | sid_dangerReduce | sid_futility | sid_lmp | sid_historyPruning
  | sid_CMHPruning | sid_see | sid_see2 | sid_lmr | sid_seeQuiet | sid_lmrFail | sid_pvsFail
  deriving DecidableEq, Repr

open StatId

/-- A write to the killer, history and counter-move tables of the searcher, as `pvs` issues
it: `killerT.killers[ply][0] = killerT.killers[ply][1] = 0`, a call
`updateTables(*this, p, depth, ply, m, bound, cmhPtr)`, or a call
`historyT.update<sign>(depth, m, p, cmhPtr)`. -/
inductive TableWrite where
  | resetKillers (ply : Nat)
  | updateTables (p : Position) (depth : Int) (ply : Nat) (m : Move) (b : Bound)
      (cmhPtr : Nat → Option Int)
  | historyUpdate (sign : Int) (depth : Int) (m : Move) (p : Position)
      (cmhPtr : Nat → Option Int)

/-- The state that `pvs` reads and writes: the members of `Searcher` it uses, and the shared
transposition table `tt`. -/
structure Searcher where
  stopFlag : Bool
  stack : Int → StackData
  stats : StatId → Nat
  rootScores : List (Move × Int)
  previousBest : MoveSlot
  tables : List TableWrite
  nullMoveMinPly : Int
  tt : List Entry

/-- The statement `++stats.counters[id]`. -/
def Searcher.incr (s : Searcher) (id : StatId) : Searcher :=
  { s with stats := upd s.stats id (s.stats id + 1) }

/-- The statements `stack[k].h = q.h; stack[k].p = q;`. -/
def Searcher.setStackPos (s : Searcher) (k : Int) (q : Position) : Searcher :=
  { s with stack := upd s.stack k { s.stack k with h := q.h, p := q } }

/-- The statements `stack[k].eval = v; stack[k].data = d;`. -/
def Searcher.setStackEval (s : Searcher) (k : Int) (v : Int) (d : EvalData) : Searcher :=
  { s with stack := upd s.stack k { s.stack k with eval := v, data := d } }

/-- The statement `stack[k].threat = m;`. -/
def Searcher.setStackThreat (s : Searcher) (k : Int) (m : MoveSlot) : Searcher :=
  { s with stack := upd s.stack k { s.stack k with threat := m } }

/-- A write to the killer, history and counter-move tables. -/
def Searcher.writeTables (s : Searcher) (w : TableWrite) : Searcher :=
  { s with tables := w :: s.tables }

/-- Modelled from the spec: `TT::setEntry(context, h, m, s, e, b, d)`,
"store(hash, move, score, evalScore, bound, depth)": the store is recorded; what the table
keeps of it is decided when the table is probed. -/
def setEntry (s : Searcher) (h : Nat) (m : MoveSlot) (sc ev : Int) (b : Bound) (d : Int) :
    Searcher :=
  { s with tt := { h := h, m := m, s := sc, e := ev, b := b, d := d } :: s.tt }

/-- The phases of move generation (`MoveGen::GP_all`, `GP_cap`, `GP_quiet`). -/
inductive GenPhase where
  | GP_all | GP_cap | GP_quiet
  deriving DecidableEq, Repr

open GenPhase

/-- The parameters of a call `pvs<pvnode, canPrune>(alpha, beta, p, depth, ply, pv, seldepth,
isInCheck, cutNode, skipMoves)`; `skipMoves` is `none` for a null pointer. -/
structure PvsArgs where
  pvnode : Bool
  canPrune : Bool
  alpha : Int
  beta : Int
  p : Position
  depth : Int
  ply : Nat
  pv : List Move
  seldepth : Int
  isInCheck : Bool
  cutNode : Bool
  skipMoves : Option (List Move)

/-- What a call of `pvs` leaves: the returned score, the reference parameters `pv` and
`seldepth`, and the state. -/
structure PvsResult where
  score : Int
  pv : List Move
  seldepth : Int
  s : Searcher

/-- Everything `pvs` uses that is declared outside the embedded sources. -/
structure SearchEnv extends Env where
  /-- The score constant `MATE`. -/
  MATE : Int
  /-- The constant `MAX_DEPTH`. -/
  MAX_DEPTH : Int
  /-- The score constant `STOPSCORE`. -/
  STOPSCORE : Int
  /-- The constant `HISTORY_MAX`. -/
  HISTORY_MAX : Int
  /-- The source's `HISTORY_DIV(x)`. -/
  HISTORY_DIV : Int → Int
  /-- The index `M_t` of the total material count. -/
  M_t : Int
  /-- The value of the local `EvalData data;` before `eval` or the material table fills it. -/
  dataInit : EvalData
  /-- The clock test of the entry of `pvs`, elapsed time greater than `getCurrentMoveMs()`,
  as an oracle on the state. -/
  timeIsUp : Searcher → Bool
  /-- The source's `eval(p, data, *this)`: score, the `data` it fills, new state. -/
  eval : Searcher → Position → Int × EvalData × Searcher
  /-- The source's `qsearch<true, pvnode>(alpha, beta, p, ply, seldepth)`: score, `seldepth`,
  new state. -/
  qsearch : Searcher → Bool → Int → Int → Position → Nat → Int → Int × Int × Searcher
  /-- The test `interiorNodeRecognizer<true, pvnode, true>(p) == MaterialHash::Ter_Draw`. -/
  isDraw : Searcher → Bool → Position → Bool
  /-- The source's `drawScore()`. -/
  drawScore : Searcher → Int
  /-- The integer that `pHash ^= (*it)` XORs into the hash for a skipped move. -/
  miniMoveBits : Move → Nat
  /-- The record that the transposition table holds in the slot of a hash, given the stores
  made so far (`none` for an empty slot): the replacement policy of the table. -/
  ttFind : List Entry → Nat → Option Entry
  /-- The source's `adjustHashScore(s, ply)`. -/
  adjustHashScore : Int → Nat → Int
  /-- The source's `createHashScore(s, ply)`. -/
  createHashScore : Int → Nat → Int
  /-- The source's `ScaleScore(EvalConfig::tempo, gp)`. -/
  scaleTempo : Int → Int
  /-- The game phase of the material table for `p.mat`, `none` when
  `MaterialHash::getMaterialHash(p.mat)` is zero. -/
  materialGp : Position → Option Int
  /-- The source's `gamePhase(p, matScoreW, matScoreB)`. -/
  gamePhase : Position → Int
  /-- The source's `isMateScore(s)`. -/
  isMateScore : Int → Bool
  /-- The source's `MoveGen::generate<phase>(p, moves)`: the moves it produces. -/
  generate : GenPhase → Position → List Move
  /-- The source's `MoveSorter::scoreAndSort(*this, moves, p, gp, ply, cmhPtr, true, isInCheck,
  e, refutation)`: the scored and sorted list; `e` is `none` for a null pointer. -/
  scoreAndSort : Searcher → List Move → Position → Int → Nat → (Nat → Option Int) → Bool →
    Option Entry → MoveSlot → List Move
  /-- The source's `isBadCap(m)`. -/
  isBadCap : Move → Bool
  /-- The source's `badCapScore(m)`. -/
  badCapScore : Move → Int
  /-- The source's `SEE_GE(p, m, threshold)`. -/
  SEE_GE : Position → Move → Int → Bool
  /-- The test `SquareToBitboard(to) & passed[c]` on the pawns of a position, with
  `passed[c] = BBTools::pawnPassed<c>(...)`. -/
  isPassedPawnSquare : Position → Color → Int → Bool
  /-- The source's `BBTools::SquareFromBitBoard(b)`. -/
  SquareFromBitBoard : Nat → Int
  /-- The source's `getCMHPtr(halfmoves, cmhPtr)`: the pointers it sets, `none` for a null
  pointer. -/
  getCMHPtr : Searcher → Nat → Nat → Option Int
  /-- The value `ptr[pp]` read through a pointer of `cmhPtr`, given the writes made to the
  tables. -/
  cmhRead : List TableWrite → Int → Int → Int
  /-- The source's `killerT.isKiller(m, ply)`. -/
  isKiller : List TableWrite → Move → Nat → Bool
  /-- Whether the blocks under `WITH_SYZYGY` are compiled. -/
  WITH_SYZYGY : Bool
  /-- The constant `SyzygyTb::MAX_TB_MEN`. -/
  MAX_TB_MEN : Nat
  /-- The constant `SyzygyTb::TB_WIN_SCORE`. -/
  TB_WIN_SCORE : Int
  /-- The source's `countBit(b)`. -/
  countBit : Nat → Nat
  /-- The source's `SyzygyTb::probe_wdl(p, score, false)`: its result and the score it sets. -/
  probe_wdl : Position → Int × Int
  /-- The source's `SyzygyTb::probe_root(*this, p, score, moves)`: its result, the score and the
  move list it sets. -/
  probe_root : Searcher → Position → List Move → Int × Int × List Move
  /-- The setting `DynamicConfig::mateFinder`. -/
  mateFinder : Bool
  /-- The setting `DynamicConfig::level`. -/
  level : Int
  /-- The settings of `SearchConfig`, under their names; those indexed by
  `evalScoreIsHashScore` are functions of a boolean. -/
  doStaticNullMove : Bool
  staticNullMoveMaxDepth : Bool → Int
  staticNullMoveDepthInit : Bool → Int
  staticNullMoveDepthCoeff : Bool → Int
  doRazoring : Bool
  razoringMarginDepthInit : Bool → Int
  razoringMarginDepthCoeff : Bool → Int
  razoringMaxDepth : Bool → Int
  doNullMove : Bool
  nullMoveMinDepth : Int
  doProbcut : Bool
  probCutMinDepth : Int
  probCutMargin : Int
  probCutMaxMoves : Int
  iidMinDepth : Int
  iidMinDepth2 : Int
  doLMP : Bool
  lmpMaxDepth : Int
  lmpLimit : Bool → Int → Int
  doFutility : Bool
  futilityDepthInit : Bool → Int
  futilityDepthCoeff : Bool → Int
  futilityMaxDepth : Bool → Int
  doHistoryPruning : Bool
  historyPruningMaxDepth : Int
  historyPruningThresholdInit : Int
  historyPruningThresholdDepth : Int
  doCMHPruning : Bool
  CMHMaxDepth : Int
  singularExtensionDepth : Int
  doPVS : Bool
  doLMR : Bool
  lmrMinDepth : Int
  lmrReduction : Int → Int → Int
  dangerDivisor : Int
  dangerLimitPruning : Int
  dangerLimitReduction : Int
  failLowRootMargin : Int

/-- The outcome of a section of `pvs`: a `return` of the function, the continuation with the
values the section leaves, or a recursive call that exceeded the recursion budget. -/
inductive Step (α : Type) where
  | ret (r : PvsResult)
  | next (x : α)
  | fuelOut

/-- Integer division of C++, truncating toward zero. -/
def cdiv (a b : Int) : Int := Int.tdiv a b

/-- Modelled from the spec: `sameMove(a, b)`, equality of two moves up to the ordering score,
which is "not part of move identity". -/
def sameMove (a b : Move) : Bool :=
  decide (a.sqFrom = b.sqFrom) && decide (a.sqTo = b.sqTo) && decide (a.type = b.type)

/-- Modelled from the spec: `isSkipMove(m, skipMoves)`, the move is one of the list of moves
to skip; false for a null pointer. -/
def isSkipMove (m : Move) (skipMoves : Option (List Move)) : Bool :=
  match skipMoves with
  | none => false
  | some l => l.any (sameMove m)

/-- Modelled from the spec: `updatePV(pv, m, childPV)`, the principal variation becomes the
move followed by the variation of the child. -/
def updatePV (m : Move) (childPV : List Move) : List Move := m :: childPV

/-- Modelled from the spec: `PieceTools::getPieceType(p, k)`, the piece on a square without
its colour. -/
def getPieceType (p : Position) (k : Int) : Int := std_abs (p.board k)

/-- Modelled from the spec: `TT::getEntry(context, p, h, d, e)`, "probe(hash) -> optional
entry": "a read that lands on a record from a different key must be detected (key mismatch)
and treated as a cache miss", "every cached move is re-validated through the pseudo-legal
validator before use" (`transposition.hpp` is not under the embedded sources, and `pvs`
applies `e.m` without calling the validator). The result is the value of the call ("if depth
of TT entry is enough") and the entry left in `e`, whose key is `nullHash` on a miss. -/
def getEntry (E : SearchEnv) (tt : List Entry) (p : Position) (h : Nat) (d : Int) :
    Bool × Entry :=
  match E.ttFind tt h with
  | none => (false, Entry.empty)
  | some r =>
    if r.h ≠ h ∨ r.h = nullHash then (false, Entry.empty)
    else if r.m ≠ MoveSlot.INVALIDMOVE ∧ isPseudoLegal E.toEnv p r.m = false then
      (false, Entry.empty)
    else (decide (d ≤ r.d), r)

/-! ## searcherPVS.hpp: `pvs` up to the move iteration -/

/-- The window, `seldepth` and the state after the entry of `pvs`. -/
structure Window where
  alpha : Int
  beta : Int
  seldepth : Int
  s : Searcher

/-- The source's `pvs`, from its first statement to the draw test: the stop flag, the clock,
the depth limits, the hand-over to `qsearch`, the node counter, mate-distance clamping of the
window, and the draw recognizer. -/
def pvsEntry (E : SearchEnv) (a : PvsArgs) (s : Searcher) : Step Window :=
  if s.stopFlag = true then
    Step.ret { score := E.STOPSCORE, pv := a.pv, seldepth := a.seldepth, s := s }
  else
    let s := if E.timeIsUp s = true then { s with stopFlag := true } else s
    if (a.ply : Int) ≥ E.MAX_DEPTH - 1 ∨ a.depth ≥ E.MAX_DEPTH - 1 then
      Step.ret { score := (E.eval s a.p).1, pv := a.pv, seldepth := a.seldepth,
                 s := (E.eval s a.p).2.2 }
    else if a.depth ≤ 0 then
      let r := E.qsearch s a.pvnode a.alpha a.beta a.p a.ply a.seldepth
      Step.ret { score := r.1, pv := a.pv, seldepth := r.2.1, s := r.2.2 }
    else
      let seldepth := max (a.ply : Int) a.seldepth
      let s := s.incr sid_nodes
      let alpha := max a.alpha (-E.MATE + (a.ply : Int))
      let beta := min a.beta (E.MATE - (a.ply : Int) + 1)
      if alpha ≥ beta then Step.ret { score := alpha, pv := a.pv, seldepth := seldepth, s := s }
      else if a.ply ≠ 0 ∧ E.isDraw s a.pvnode a.p = true then
        Step.ret { score := E.drawScore s, pv := a.pv, seldepth := seldepth, s := s }
      else Step.next { alpha := alpha, beta := beta, seldepth := seldepth, s := s }

/-- What the probe of the transposition table leaves: the pointers `cmhPtr`, the hash of the
node, the entry `e`, `ttHit` and `validTTmove`. -/
structure Probe where
  cmhPtr : Nat → Option Int
  pHash : Nat
  e : Entry
  ttHit : Bool
  validTTmove : Bool

/-- The loop `for (it ...) pHash ^= (*it)` over the moves to skip. -/
def skipHash (E : SearchEnv) (h : Nat) : Option (List Move) → Nat
  | none => h
  | some l => l.foldl (fun acc m => acc ^^^ E.miniMoveBits m) h

/-- The values of `ttHit` and `validTTmove` for an entry:
`ttHit = e.h != nullHash; validTTmove = ttHit && e.m != INVALIDMINIMOVE`. -/
def probeOf (cmhPtr : Nat → Option Int) (pHash : Nat) (e : Entry) : Probe :=
  { cmhPtr := cmhPtr, pHash := pHash, e := e, ttHit := decide (e.h ≠ nullHash),
    validTTmove := decide (e.h ≠ nullHash) && decide (e.m ≠ MoveSlot.INVALIDMOVE) }

/-- The source's `pvs`, section "probe TT": the hash of the node, the probe, the return on a
hit of sufficient depth at a node that is neither root nor PV node, `ttHit` and
`validTTmove`. -/
def pvsProbe (E : SearchEnv) (a : PvsArgs) (w : Window) : Step Probe :=
  let cmhPtr := E.getCMHPtr w.s a.p.halfmoves
  let pHash := skipHash E (computeHash E.toEnv a.p) a.skipMoves
  let r := getEntry E w.s.tt a.p pHash a.depth
  let e := r.2
  if r.1 = true ∧ a.ply ≠ 0 ∧ a.pvnode = false
      ∧ ((e.b = B_alpha ∧ e.s ≤ w.alpha) ∨ (e.b = B_beta ∧ e.s ≥ w.beta) ∨ e.b = B_exact) then
    let s := match e.m with
      | MoveSlot.played m =>
        if a.isInCheck = false ∧ Move2Type m = T_std then
          w.s.writeTables (TableWrite.updateTables a.p a.depth a.ply m e.b cmhPtr)
        else w.s
      | _ => w.s
    Step.ret { score := E.adjustHashScore e.s a.ply, pv := a.pv, seldepth := w.seldepth, s := s }
  else Step.next (probeOf cmhPtr pHash e)

/-- The source's `pvs`, first block under `WITH_SYZYGY`: the tablebase probe away from the
root. -/
def pvsSyzygy (E : SearchEnv) (a : PvsArgs) (w : Window) (pr : Probe) : Step Searcher :=
  if E.WITH_SYZYGY = true ∧ a.ply ≠ 0 ∧ a.skipMoves.isNone = true
      ∧ E.countBit (a.p.allPieces Co_White ||| a.p.allPieces Co_Black) ≤ E.MAX_TB_MEN
      ∧ (E.probe_wdl a.p).1 > 0 then
    let s := w.s.incr sid_tbHit1
    let tb := (E.probe_wdl a.p).2
    let tbScore := if std_abs tb = E.TB_WIN_SCORE then tb + (E.eval s a.p).1 else tb
    let s := if std_abs tb = E.TB_WIN_SCORE then (E.eval s a.p).2.2 else s
    Step.ret { score := tbScore, pv := a.pv, seldepth := w.seldepth,
               s := setEntry s pr.pHash MoveSlot.INVALIDMOVE (E.createHashScore tbScore a.ply)
                      (E.createHashScore tbScore a.ply) B_none E.MAX_DEPTH }
  else Step.next w.s

/-- The source's `pvs`, section "get a static score for the position", up to the assignment
of `evalScore`: the score, the evaluation data and the state. -/
def pvsStaticScore (E : SearchEnv) (a : PvsArgs) (pr : Probe) (s : Searcher) :
    Int × EvalData × Searcher :=
  if a.isInCheck = true then (-E.MATE + (a.ply : Int), E.dataInit, s)
  else if a.p.lastMove = MoveSlot.NULLMOVE ∧ a.ply > 0 then
    (2 * E.scaleTempo (s.stack ((a.p.halfmoves : Int) - 1)).data.gp
        - (s.stack ((a.p.halfmoves : Int) - 1)).eval, E.dataInit, s)
  else if pr.ttHit = true then
    let s := s.incr sid_ttschits
    match E.materialGp a.p with
    | some gp => (pr.e.e, { E.dataInit with gp := gp }, s.incr sid_materialTableHits)
    | none => (pr.e.e, { E.dataInit with gp := E.gamePhase a.p }, s.incr sid_materialTableMiss)
  else E.eval (s.incr sid_ttscmiss) a.p

/-- The static score of the node and what depends on it. -/
structure Static where
  evalScore : Int
  evalScoreIsHashScore : Bool
  data : EvalData
  isNotEndGame : Bool
  improving : Bool
  marginDepth : Int
  s : Searcher

/-- The source's `pvs`, from the static score to the locals declared before the forward
prunings: the score goes to the stack, an entry without move is stored when the probe missed,
the score of a hit replaces the static score as "best draft". -/
def pvsStatic (E : SearchEnv) (a : PvsArgs) (pr : Probe) (s0 : Searcher) : Static :=
  let r := pvsStaticScore E a pr s0
  let s := r.2.2.setStackEval (a.p.halfmoves : Int) r.1 r.2.1
  let s :=
    if pr.ttHit = false then
      setEntry s pr.pHash MoveSlot.INVALIDMOVE (E.createHashScore r.1 a.ply)
        (E.createHashScore r.1 a.ply) B_none (-2)
    else s
  let isHash : Bool :=
    pr.ttHit && !a.isInCheck
      && ((decide (pr.e.b = B_alpha) && decide (pr.e.s < r.1))
          || (decide (pr.e.b = B_beta) && decide (pr.e.s > r.1)) || decide (pr.e.b = B_exact))
  { evalScore := if isHash = true then E.adjustHashScore pr.e.s a.ply else r.1
    evalScoreIsHashScore := isHash
    data := r.2.1
    isNotEndGame := decide (a.p.mat a.p.c E.M_t > 0)
    improving := !a.isInCheck && decide (a.ply > 1)
      && decide ((s.stack (a.p.halfmoves : Int)).eval ≥ (s.stack ((a.p.halfmoves : Int) - 2)).eval)
    marginDepth := max 1 (a.depth - (if isHash = true then pr.e.d else 0))
    s := s }

/-- The source's `pvs`, "static null move": the value returned when the cut applies. -/
def pvsStaticNullMove (E : SearchEnv) (a : PvsArgs) (w : Window) (st : Static) : Bool :=
  E.doStaticNullMove && !E.isMateScore st.evalScore && st.isNotEndGame
    && decide (a.depth ≤ E.staticNullMoveMaxDepth st.evalScoreIsHashScore)
    && decide (st.evalScore ≥ w.beta + E.staticNullMoveDepthInit st.evalScoreIsHashScore
        + E.staticNullMoveDepthCoeff st.evalScoreIsHashScore * a.depth)

/-- The source's `pvs`, "razoring": `seldepth` and the state when the node is not cut. -/
def pvsRazoring (E : SearchEnv) (a : PvsArgs) (w : Window) (st : Static) (seldepth : Int)
    (s : Searcher) : Step (Int × Searcher) :=
  let rAlpha := w.alpha - E.razoringMarginDepthInit st.evalScoreIsHashScore
    - E.razoringMarginDepthCoeff st.evalScoreIsHashScore * st.marginDepth
  if E.doRazoring = true ∧ a.depth ≤ E.razoringMaxDepth st.evalScoreIsHashScore
      ∧ st.evalScore ≤ rAlpha then
    let s := s.incr sid_razoringTry
    let r := E.qsearch s a.pvnode w.alpha w.beta a.p a.ply seldepth
    if r.2.2.stopFlag = true then
      Step.ret { score := E.STOPSCORE, pv := a.pv, seldepth := r.2.1, s := r.2.2 }
    else if r.1 ≤ w.alpha ∨ (a.depth < 2 ∧ st.evalScoreIsHashScore = true) then
      Step.ret { score := r.1, pv := a.pv, seldepth := r.2.1, s := r.2.2.incr sid_razoring }
    else Step.next (r.2.1, r.2.2)
  else Step.next (seldepth, s)

/-- The reduction of the null-move search:
`R = depth / 4 + 3 + std::min((evalScore - beta) / 80, 3)`. -/
def nullMoveR (depth evalScore beta : Int) : Int :=
  cdiv depth 4 + 3 + min (cdiv (evalScore - beta) 80) 3

/-- The source's `pvs`, "null move": the refutation move, `seldepth` and the state when the
node is not cut. -/
def pvsNullMove (E : SearchEnv) (rec : PvsArgs → Searcher → Option PvsResult) (a : PvsArgs)
    (w : Window) (pr : Probe) (st : Static) (seldepth : Int) (s : Searcher) :
    Step (MoveSlot × Int × Searcher) :=
  if E.doNullMove = true ∧ (st.isNotEndGame = true ∨ st.data.mobility a.p.c > 4)
      ∧ a.skipMoves.isNone = true ∧ st.evalScore ≥ (s.stack (a.p.halfmoves : Int)).eval
      ∧ (a.ply : Int) ≥ s.nullMoveMinPly ∧ a.depth ≥ E.nullMoveMinDepth then
    let s := s.incr sid_nullMoveTry
    let nullDepth := a.depth - nullMoveR a.depth st.evalScore w.beta
    if st.evalScore ≥ w.beta then
      let nullE := (getEntry E s.tt a.p pr.pHash nullDepth).2
      if nullE.h = nullHash ∨ nullE.s ≥ w.beta then
        let s := s.incr sid_nullMoveTry2
        let pN := applyNull E.toEnv a.p
        let s := s.setStackPos (pN.halfmoves : Int) pN
        match rec { pvnode := false, canPrune := false, alpha := -w.beta, beta := -w.beta + 1,
                    p := pN, depth := nullDepth, ply := a.ply + 1, pv := [],
                    seldepth := seldepth, isInCheck := a.isInCheck, cutNode := !a.cutNode,
                    skipMoves := none } s with
        | none => Step.fuelOut
        | some r =>
          if r.s.stopFlag = true then
            Step.ret { score := E.STOPSCORE, pv := a.pv, seldepth := r.seldepth, s := r.s }
          else
            let nullEThreat := (getEntry E r.s.tt pN (computeHash E.toEnv pN) 0).2
            let refutation :=
              if nullEThreat.h ≠ nullHash ∧ nullEThreat.m ≠ MoveSlot.INVALIDMOVE then
                nullEThreat.m
              else MoveSlot.INVALIDMOVE
            if -r.score ≥ w.beta then
              Step.ret { score := if E.isMateScore (-r.score) = true then w.beta else -r.score,
                         pv := a.pv, seldepth := r.seldepth, s := r.s.incr sid_nullMove }
            else Step.next (refutation, r.seldepth, r.s)
      else Step.next (MoveSlot.INVALIDMOVE, seldepth, s)
    else Step.next (MoveSlot.INVALIDMOVE, seldepth, s)
  else Step.next (MoveSlot.INVALIDMOVE, seldepth, s)

/-- Modelled from the spec: `sameMove(e.m, m)` for the move of an entry; a sentinel is the
same as no move. -/
def sameMoveSlot (ms : MoveSlot) (m : Move) : Bool :=
  match ms with
  | MoveSlot.played x => sameMove x m
  | _ => false

/-- Modelled from the spec: `apply(p, m)`, the application of a move of the search to a copy
of the position, "applying it either succeeds and leaves the moving side's king unattacked,
or fails": `applyMove` with validation. -/
def apply (E : SearchEnv) (p : Position) (m : Move) : Bool × Position :=
  applyMove E.toEnv p m false

/-- The source's `pvs`, the loop of "ProbCut" over the sorted captures. -/
def pvsProbCutLoop (E : SearchEnv) (rec : PvsArgs → Searcher → Option PvsResult) (a : PvsArgs)
    (pr : Probe) (betaPC : Int) :
    List Move → Int → Int → Searcher → Step (Int × Searcher)
  | [], _, seldepth, s => Step.next (seldepth, s)
  | m :: rest, probCutCount, seldepth, s =>
    if ¬ probCutCount < E.probCutMaxMoves then Step.next (seldepth, s)
    else if (pr.validTTmove = true ∧ sameMoveSlot pr.e.m m = true) ∨ E.isBadCap m = true then
      pvsProbCutLoop E rec a pr betaPC rest probCutCount seldepth s
    else if (apply E a.p m).1 = false then
      pvsProbCutLoop E rec a pr betaPC rest probCutCount seldepth s
    else
      let p2 := (apply E a.p m).2
      let q := E.qsearch s a.pvnode (-betaPC) (-betaPC + 1) p2 (a.ply + 1) seldepth
      if q.2.2.stopFlag = true then
        Step.ret { score := E.STOPSCORE, pv := a.pv, seldepth := q.2.1, s := q.2.2 }
      else if -q.1 ≥ betaPC then
        match rec { pvnode := false, canPrune := true, alpha := -betaPC, beta := -betaPC + 1,
                    p := p2, depth := a.depth - E.probCutMinDepth + 1, ply := a.ply + 1,
                    pv := [], seldepth := q.2.1,
                    isInCheck := E.isAttacked p2 (kingSquare p2), cutNode := !a.cutNode,
                    skipMoves := none } (q.2.2.incr sid_probcutTry2) with
        | none => Step.fuelOut
        | some r =>
          if r.s.stopFlag = true then
            Step.ret { score := E.STOPSCORE, pv := a.pv, seldepth := r.seldepth, s := r.s }
          else if -r.score ≥ betaPC then
            Step.ret { score := -r.score, pv := a.pv, seldepth := r.seldepth,
                       s := r.s.incr sid_probcut }
          else pvsProbCutLoop E rec a pr betaPC rest (probCutCount + 1) r.seldepth r.s
      else pvsProbCutLoop E rec a pr betaPC rest (probCutCount + 1) q.2.1 q.2.2

/-- The move list of the node and whether the captures have been generated. -/
structure Generated where
  moves : List Move
  capMoveGenerated : Bool

/-- The source's `pvs`, "ProbCut": the generated captures, `seldepth` and the state when the
node is not cut. -/
def pvsProbCut (E : SearchEnv) (rec : PvsArgs → Searcher → Option PvsResult) (a : PvsArgs)
    (w : Window) (pr : Probe) (st : Static) (seldepth : Int) (s : Searcher) :
    Step (Generated × Int × Searcher) :=
  if E.doProbcut = true ∧ a.depth ≥ E.probCutMinDepth ∧ E.isMateScore w.beta = false then
    let s := s.incr sid_probcutTry
    let moves := E.scoreAndSort s (E.generate GP_cap a.p) a.p st.data.gp a.ply pr.cmhPtr a.isInCheck
      (if pr.validTTmove = true then some pr.e else none) MoveSlot.INVALIDMOVE
    match pvsProbCutLoop E rec a pr (w.beta + E.probCutMargin) moves 0 seldepth s with
    | Step.ret r => Step.ret r
    | Step.fuelOut => Step.fuelOut
    | Step.next x => Step.next ({ moves := moves, capMoveGenerated := true }, x.1, x.2)
  else Step.next ({ moves := [], capMoveGenerated := false }, seldepth, s)

/-- What the forward prunings leave: the refutation move, the move list, `seldepth`, the
state. -/
structure Pruned where
  refutation : MoveSlot
  gen : Generated
  seldepth : Int
  s : Searcher

/-- The source's `pvs`, section "forward prunings": static null move, razoring, null move and
ProbCut, tried when pruning is allowed, the side to move is not in check and the node is not a
PV node. -/
def pvsPrune (E : SearchEnv) (rec : PvsArgs → Searcher → Option PvsResult) (a : PvsArgs)
    (w : Window) (pr : Probe) (st : Static) : Step Pruned :=
  if E.mateFinder = false ∧ a.canPrune = true ∧ a.isInCheck = false ∧ a.pvnode = false then
    if pvsStaticNullMove E a w st = true then
      Step.ret { score := st.evalScore, pv := a.pv, seldepth := w.seldepth,
                 s := st.s.incr sid_staticNullMove }
    else
      match pvsRazoring E a w st w.seldepth st.s with
      | Step.ret r => Step.ret r
      | Step.fuelOut => Step.fuelOut
      | Step.next x1 =>
        match pvsNullMove E rec a w pr st x1.1 x1.2 with
        | Step.ret r => Step.ret r
        | Step.fuelOut => Step.fuelOut
        | Step.next x2 =>
          match pvsProbCut E rec a w pr st x2.2.1 x2.2.2 with
          | Step.ret r => Step.ret r
          | Step.fuelOut => Step.fuelOut
          | Step.next x3 =>
            Step.next { refutation := x2.1, gen := x3.1, seldepth := x3.2.1, s := x3.2.2 }
  else
    Step.next { refutation := MoveSlot.INVALIDMOVE,
                gen := { moves := [], capMoveGenerated := false },
                seldepth := w.seldepth, s := st.s }

/-- The source's `pvs`, section "IID": without a move from the table, at a PV node or a cut
node of sufficient depth, a search of depth `depth - 2` followed by a new probe. -/
def pvsIID (E : SearchEnv) (rec : PvsArgs → Searcher → Option PvsResult) (a : PvsArgs)
    (w : Window) (pr : Probe) (seldepth : Int) (s : Searcher) :
    Step (Probe × Int × Searcher) :=
  if pr.validTTmove = false
      ∧ ((a.pvnode = true ∧ a.depth ≥ E.iidMinDepth)
          ∨ (a.cutNode = true ∧ a.depth ≥ E.iidMinDepth2)) then
    match rec { pvnode := a.pvnode, canPrune := false, alpha := w.alpha, beta := w.beta,
                p := a.p, depth := a.depth - 2, ply := a.ply, pv := [], seldepth := seldepth,
                isInCheck := a.isInCheck, cutNode := a.cutNode, skipMoves := a.skipMoves }
          (s.incr sid_iid) with
    | none => Step.fuelOut
    | some r =>
      if r.s.stopFlag = true then
        Step.ret { score := E.STOPSCORE, pv := a.pv, seldepth := r.seldepth, s := r.s }
      else
        Step.next (probeOf pr.cmhPtr pr.pHash (getEntry E r.s.tt a.p pr.pHash 0).2, r.seldepth, r.s)
  else Step.next (pr, seldepth, s)

/-! ## searcherPVS.hpp: the move iteration of `pvs` -/

/-- What the move iteration reads and does not change: the parameters of the call, the
clamped `beta`, the probe (renewed by IID), the static score, the refutation move and the
pruning switches `lmp`, `futility`, `historyPruning`, `CMHPruning`. -/
structure Ctx where
  a : PvsArgs
  beta : Int
  pr : Probe
  st : Static
  refutation : MoveSlot
  lmp : Bool
  futility : Bool
  historyPruning : Bool
  CMHPruning : Bool

/-- The variables that the move iteration changes: `alpha`, `bestScore`, `bestMove`,
`hashBound`, `validMoveCount`, `ttMoveIsCapture`, the references `pv` and `seldepth`, and the
state. -/
structure LoopState where
  alpha : Int
  bestScore : Int
  bestMove : MoveSlot
  hashBound : Bound
  validMoveCount : Int
  ttMoveIsCapture : Bool
  pv : List Move
  seldepth : Int
  s : Searcher

/-- The source's `pvs`, from the reset of the killers of the next ply to
`stack[p.halfmoves].threat = refutation`: the pruning switches (left false at the root). -/
def pvsContext (E : SearchEnv) (a : PvsArgs) (w : Window) (pr : Probe) (st : Static)
    (refutation : MoveSlot) : Ctx :=
  let h := st.evalScoreIsHashScore
  let futilityScore := w.alpha - E.futilityDepthInit h - E.futilityDepthCoeff h * a.depth
  { a := a, beta := w.beta, pr := pr, st := st, refutation := refutation
    lmp := decide (a.ply ≠ 0) && E.doLMP && decide (a.depth ≤ E.lmpMaxDepth)
    futility := decide (a.ply ≠ 0) && E.doFutility && decide (a.depth ≤ E.futilityMaxDepth h)
      && decide (st.evalScore ≤ futilityScore)
    historyPruning := decide (a.ply ≠ 0) && E.doHistoryPruning && st.isNotEndGame
      && decide (a.depth < E.historyPruningMaxDepth)
    CMHPruning := decide (a.ply ≠ 0) && E.doCMHPruning && st.isNotEndGame
      && decide (a.depth < E.CMHMaxDepth) }

/-- The source's `pvs`, the variables of the move iteration at their declaration:
`validMoveCount = 0`, `bestMove = INVALIDMOVE`, `hashBound = TT::B_alpha`,
`bestScore = -MATE + ply`; the killers of ply + 1 are reset and the refutation move goes to
the stack. -/
def pvsLoopInit (E : SearchEnv) (a : PvsArgs) (w : Window) (refutation : MoveSlot)
    (seldepth : Int) (s : Searcher) : LoopState :=
  { alpha := w.alpha, bestScore := -E.MATE + (a.ply : Int), bestMove := MoveSlot.INVALIDMOVE
    hashBound := B_alpha, validMoveCount := 0, ttMoveIsCapture := false, pv := a.pv
    seldepth := seldepth
    s := (s.writeTables (TableWrite.resetKillers (a.ply + 1))).setStackThreat
          (a.p.halfmoves : Int) refutation }

/-- The statement `if (!extension && c) ++stats.counters[id], ++extension;` on the pair of
`extension` and the state. -/
def extendIf (c : Bool) (id : StatId) (x : Int × Searcher) : Int × Searcher :=
  if x.1 = 0 ∧ c = true then (x.1 + 1, x.2.incr id) else x

/-- The test of the extension on a repeated threat: both threats are moves and they are the
same move, or they have the same destination and the first is a capture. -/
def threatRepeated (t0 t2 : MoveSlot) : Bool :=
  match t0, t2 with
  | MoveSlot.played x, MoveSlot.played y =>
    sameMove x y || (decide (Move2To x = Move2To y) && isCapture (Move2Type x))
  | _, _ => false

/-- Modelled from the spec: `p.pieces_const<pt>(c)`, the bitboard of the pieces of type `pt`
and colour `c`. -/
def pieces_const (p : Position) (pt : Int) (c : Color) : Nat :=
  p.allB ((if c = Co_White then pt else -pt) + PieceShift)

/-- The test `isAdvancedPawnPush`: a pawn moves to one of the two last ranks of either
side. -/
def isAdvancedPawnPush (p : Position) (m : Move) : Bool :=
  decide (getPieceType p (Move2From m) = P_wp)
    && (decide (SQRANK (Move2To m) > 5) || decide (SQRANK (Move2To m) < 2))

/-- The test of the queen-threat extension, without its guards on the node: the side to move
has a queen, the move is a quiet queen move, the queen is attacked and the move does not lose
material. -/
def queenThreat (E : SearchEnv) (p : Position) (m : Move) : Bool :=
  decide (pieces_const p P_wq p.c ≠ 0) && decide (Move2Type m = T_std)
    && decide (getPieceType p (Move2From m) = P_wq)
    && E.isAttacked p (E.SquareFromBitBoard (pieces_const p P_wq p.c))
    && E.SEE_GE p m 0

/-- The extensions common to the move of the table and the moves of the list that precede
the pawn-push extension: check at a PV node, castling, repeated threat. -/
def extendCommon (c : Ctx) (m : Move) (x : Int × Searcher) : Int × Searcher :=
  let x := extendIf (c.a.pvnode && c.a.isInCheck) sid_checkExtension x
  let x := extendIf (isCastling (Move2Type m)) sid_castlingExtension x
  extendIf (decide (c.a.ply > 1)
      && threatRepeated (x.2.stack (c.a.p.halfmoves : Int)).threat
          (x.2.stack ((c.a.p.halfmoves : Int) - 2)).threat) sid_BMExtension x

/-- The source's `pvs`, the singular-extension search for the move of the table: a search of
the node without that move, at half depth, around `e.s - 2 * depth`. -/
def ttSingular (E : SearchEnv) (rec : PvsArgs → Searcher → Option PvsResult) (c : Ctx)
    (m : Move) (l : LoopState) (x : Int × Searcher) : Step (Int × Searcher) :=
  if x.1 = 0 ∧ c.a.skipMoves.isNone = true ∧ c.a.depth ≥ E.singularExtensionDepth ∧ c.a.ply ≠ 0
      ∧ E.isMateScore c.pr.e.s = false ∧ c.pr.e.b = B_beta ∧ c.pr.e.d ≥ c.a.depth - 3 then
    let betaC := c.pr.e.s - 2 * c.a.depth
    match rec { pvnode := false, canPrune := false, alpha := betaC - 1, beta := betaC, p := c.a.p,
                depth := cdiv c.a.depth 2, ply := c.a.ply, pv := [], seldepth := 0,
                isInCheck := c.a.isInCheck, cutNode := c.a.cutNode, skipMoves := some [m] }
          x.2 with
    | none => Step.fuelOut
    | some r =>
      if r.s.stopFlag = true then
        Step.ret { score := E.STOPSCORE, pv := l.pv, seldepth := l.seldepth, s := r.s }
      else if r.score < betaC then
        if r.score < betaC - min (4 * c.a.depth) 36 then
          Step.next (x.1 + 2, (r.s.incr sid_singularExtension).incr sid_singularExtension2)
        else Step.next (x.1 + 1, r.s.incr sid_singularExtension)
      else if r.score ≥ c.beta ∧ betaC ≥ c.beta then
        Step.ret { score := r.score, pv := l.pv, seldepth := l.seldepth,
                   s := r.s.incr sid_singularExtension3 }
      else Step.next (x.1, r.s)
  else Step.next x

/-- The source's `pvs`, "extensions" for the move of the table, on the position `p2` after
the move. -/
def ttExtension (E : SearchEnv) (rec : PvsArgs → Searcher → Option PvsResult) (c : Ctx)
    (m : Move) (p2 : Position) (l : LoopState) (s : Searcher) : Step (Int × Searcher) :=
  if E.level > 80 then
    let x := extendCommon c m (0, s)
    let x := extendIf (isAdvancedPawnPush c.a.p m
      && E.isPassedPawnSquare p2 c.a.p.c (Move2To m)) sid_pawnPushExtension x
    let x := extendIf (c.a.pvnode && queenThreat E c.a.p m) sid_queenThreatExtension x
    ttSingular E rec c m l x
  else Step.next (0, s)

/-- The arguments of a search of the position after a move: `pvs<pvnode, true>(alpha, beta,
p2, depth, ply + 1, childPV, seldepth, isCheck, cutNode)` with an empty `childPV`. -/
def childArgs (c : Ctx) (pvnode : Bool) (alpha beta : Int) (p2 : Position) (depth : Int)
    (seldepth : Int) (isCheck cutNode : Bool) : PvsArgs :=
  { pvnode := pvnode, canPrune := true, alpha := alpha, beta := beta, p := p2, depth := depth
    ply := c.a.ply + 1, pv := [], seldepth := seldepth, isInCheck := isCheck
    cutNode := cutNode, skipMoves := none }

/-- The score of a move (the negated result of the search of the position after it), the
`childPV` and `seldepth` the search leaves, and the state. -/
structure Searched where
  score : Int
  childPV : List Move
  seldepth : Int
  s : Searcher

/-- A call `score = -pvs<...>(...)`. -/
def searchChild (rec : PvsArgs → Searcher → Option PvsResult) (args : PvsArgs) (s : Searcher) :
    Option Searched :=
  match rec args s with
  | none => none
  | some r => some { score := -r.score, childPV := r.pv, seldepth := r.seldepth, s := r.s }

/-- The value of `depth + (score > beta + 80)`. -/
def bonusDepth (depth score beta : Int) : Int := depth + (if score > beta + 80 then 1 else 0)

/-- The source's `pvs`, the move of the table after its search: the score enters
`rootScores` at the root, `bestScore`, `bestMove`, `hashBound`, the principal variation and
`alpha` are updated; on a score not below `beta` the tables are rewarded, the result is stored
with bound `B_beta` and returned. -/
def ttUpdate (E : SearchEnv) (c : Ctx) (m : Move) (l : LoopState) (x : Searched) :
    Step LoopState :=
  if x.s.stopFlag = true then
    Step.ret { score := E.STOPSCORE, pv := l.pv, seldepth := x.seldepth, s := x.s }
  else
    let s :=
      if c.a.ply = 0 then
        { x.s with rootScores := x.s.rootScores ++ [(m, x.score)],
                   previousBest := MoveSlot.played m }
      else x.s
    if x.score > l.bestScore then
      if x.score > l.alpha then
        let pv := if c.a.pvnode = true then updatePV m x.childPV else l.pv
        if x.score ≥ c.beta then
          let s := s.incr sid_ttbeta
          let s :=
            if c.a.isInCheck = false ∧ Move2Type m = T_std then
              s.writeTables (TableWrite.updateTables c.a.p (bonusDepth c.a.depth x.score c.beta)
                c.a.ply m B_beta c.pr.cmhPtr)
            else s
          Step.ret { score := x.score, pv := pv, seldepth := x.seldepth,
                     s := setEntry s c.pr.pHash (MoveSlot.played m)
                            (E.createHashScore x.score c.a.ply)
                            (E.createHashScore c.st.evalScore c.a.ply) B_beta c.a.depth }
        else
          Step.next { l with alpha := x.score, bestScore := x.score
                             bestMove := MoveSlot.played m, hashBound := B_exact, pv := pv
                             seldepth := x.seldepth, s := s.incr sid_ttalpha }
      else
        Step.next { l with bestScore := x.score, bestMove := MoveSlot.played m
                           seldepth := x.seldepth, s := s }
    else if c.a.ply = 0 ∧ c.a.isInCheck = false ∧ x.score < l.alpha - E.failLowRootMargin then
      Step.ret { score := l.alpha - E.failLowRootMargin, pv := l.pv, seldepth := x.seldepth,
                 s := s }
    else Step.next { l with seldepth := x.seldepth, s := s }

/-- The source's `pvs`, "try the tt move before move generation", for a move `m` found in
the entry and not to be skipped: `bestMove = e.m`, then, if the move applies to a copy of the
position, its extensions, its search with the full window and the update. -/
def ttMovePlayed (E : SearchEnv) (rec : PvsArgs → Searcher → Option PvsResult) (c : Ctx)
    (m : Move) (l : LoopState) : Step LoopState :=
  let l : LoopState := { l with bestMove := MoveSlot.played m }
  if (apply E c.a.p m).1 = true then
    let p2 := (apply E c.a.p m).2
    let l : LoopState :=
      { l with validMoveCount := l.validMoveCount + 1
               ttMoveIsCapture := l.ttMoveIsCapture || isCapture (Move2Type m)
               s := l.s.setStackPos (p2.halfmoves : Int) p2 }
    match ttExtension E rec c m p2 l l.s with
    | Step.ret r => Step.ret r
    | Step.fuelOut => Step.fuelOut
    | Step.next x =>
      match searchChild rec (childArgs c c.a.pvnode (-c.beta) (-l.alpha) p2
              (c.a.depth - 1 + x.1) l.seldepth (E.isAttacked p2 (kingSquare p2)) (!c.a.cutNode))
              x.2 with
      | none => Step.fuelOut
      | some sr => ttUpdate E c m l sr
  else Step.next l

/-- The source's `pvs`, the block `if (validTTmove && !isSkipMove(e.m, skipMoves))`. A
sentinel other than `INVALIDMINIMOVE` in the entry would break `assert(VALIDMOVE(m))` of
`applyMove`; the block is then left out. -/
def pvsTTMove (E : SearchEnv) (rec : PvsArgs → Searcher → Option PvsResult) (c : Ctx)
    (l : LoopState) : Step LoopState :=
  match c.pr.e.m with
  | MoveSlot.played m =>
    if c.pr.validTTmove = true ∧ isSkipMove m c.a.skipMoves = false then ttMovePlayed E rec c m l
    else Step.next l
  | _ => Step.next l

/-- The source's `if (capMoveGenerated) MoveGen::generate<MoveGen::GP_quiet>(p, moves, true);
else MoveGen::generate<MoveGen::GP_all>(p, moves, false);`: the quiet moves are appended to
the list, or the list is replaced by all moves. -/
def generateRest (E : SearchEnv) (p : Position) (capMoveGenerated : Bool) (moves : List Move) :
    List Move :=
  if capMoveGenerated = true then moves ++ E.generate GP_quiet p else E.generate GP_all p

/-- The source's `pvs`, move generation before the loop: at the root the tablebase moves
(under `WITH_SYZYGY`), otherwise the quiet moves appended to the captures that ProbCut
generated, or all moves. The result is the move list and the state. -/
def pvsGenerate (E : SearchEnv) (c : Ctx) (gen : Generated) (s : Searcher) :
    List Move × Searcher :=
  if E.WITH_SYZYGY = true ∧ c.a.ply = 0 ∧ c.a.skipMoves.isNone = true
      ∧ E.countBit (c.a.p.allPieces Co_White ||| c.a.p.allPieces Co_Black) ≤ E.MAX_TB_MEN then
    if (E.probe_root s c.a.p gen.moves).1 < 0 then
      (generateRest E c.a.p gen.capMoveGenerated (E.probe_root s c.a.p gen.moves).2.2, s)
    else ((E.probe_root s c.a.p gen.moves).2.2, s.incr sid_tbHit2)
  else (generateRest E c.a.p gen.capMoveGenerated gen.moves, s)

/-- The source's `pvs`, the call of `MoveSorter::scoreAndSort` before the loop. -/
def pvsSort (E : SearchEnv) (c : Ctx) (moves : List Move) (s : Searcher) : List Move :=
  E.scoreAndSort s moves c.a.p c.st.data.gp c.a.ply c.pr.cmhPtr c.a.isInCheck
    (if c.pr.validTTmove = true then some c.pr.e else none)
    (match c.refutation with
      | MoveSlot.played r =>
        if isCapture (Move2Type r) = true then MoveSlot.played r else MoveSlot.INVALIDMOVE
      | _ => MoveSlot.INVALIDMOVE)

/-- The source's `pvs`, "extensions" for a move of the list, on the position `p2` after the
move. -/
def moveExtension (E : SearchEnv) (c : Ctx) (m : Move) (p2 : Position) (firstMove : Bool)
    (s : Searcher) : Int × Searcher :=
  if E.level > 80 then
    let x := extendCommon c m (0, s)
    let pp := (c.a.p.board (Move2From m) + PieceShift) * 64 + Move2To m
    let x := extendIf (!firstMove && decide (Move2Type m = T_std)
      && (match c.pr.cmhPtr 0, c.pr.cmhPtr 1 with
          | some q0, some q1 =>
            decide (E.cmhRead x.2.tables q0 pp ≥ cdiv E.HISTORY_MAX 2)
              && decide (E.cmhRead x.2.tables q1 pp ≥ cdiv E.HISTORY_MAX 2)
          | _, _ => false)) sid_CMHExtension x
    let x := extendIf (isAdvancedPawnPush c.a.p m
      && E.isPassedPawnSquare p2 c.a.p.c (Move2To m)) sid_pawnPushExtension x
    extendIf (c.a.pvnode && firstMove && queenThreat E c.a.p m) sid_queenThreatExtension x
  else (0, s)

/-- The booleans and the danger factor that the reductions and prunings of a late move
read. -/
structure Prunable where
  isReductible : Bool
  noCheck : Bool
  isPrunableStdNoCheck : Bool
  isPrunableCap : Bool
  dangerFactor : Int
  isDangerPrune : Bool
  isDangerRed : Bool

/-- The source's `pvs`, "reductions & prunings": the booleans at the head of the block. -/
def prunableOf (E : SearchEnv) (c : Ctx) (m : Move) (isCheck : Bool) (l : LoopState) :
    Prunable :=
  let isPrunable := !isAdvancedPawnPush c.a.p m && !E.isMateScore l.alpha && !E.mateFinder
    && !E.isKiller l.s.tables m c.a.ply
  let noCheck := !c.a.isInCheck && !isCheck
  let dangerFactor := cdiv (c.st.data.danger c.a.p.c + c.st.data.danger c.a.p.c.flip)
    E.dangerDivisor
  { isReductible := !isAdvancedPawnPush c.a.p m && !E.mateFinder
    noCheck := noCheck
    isPrunableStdNoCheck := isPrunable && decide (Move2Type m = T_std) && noCheck
    isPrunableCap := isPrunable && decide (Move2Type m = T_capture) && E.isBadCap m && noCheck
    dangerFactor := dangerFactor
    isDangerPrune := decide (dangerFactor ≥ E.dangerLimitPruning)
    isDangerRed := decide (dangerFactor ≥ E.dangerLimitReduction) }

/-- The test `!cmhPtr[k] || cmhPtr[k][pp] < 0` on one pointer of `cmhPtr`. -/
def cmhNegative (E : SearchEnv) (tables : List TableWrite) (ptr : Option Int) (pp : Int) :
    Bool :=
  match ptr with
  | none => true
  | some q => decide (E.cmhRead tables q pp < 0)

/-- The source's `pvs`, the prunings of a late move that precede the reduction: the
statistics counter of the pruning that applies, `none` when none does (futility, late move
pruning, history pruning, counter-move-history pruning, SEE of a bad capture). -/
def movePruned (E : SearchEnv) (c : Ctx) (m : Move) (q : Prunable) (l : LoopState) :
    Option StatId :=
  let pp := (c.a.p.board (Move2From m) + PieceShift) * 64 + Move2To m
  if c.futility = true ∧ q.isPrunableStdNoCheck = true then some sid_futility
  else if c.lmp = true ∧ q.isPrunableStdNoCheck = true
      ∧ l.validMoveCount > E.lmpLimit c.st.improving c.a.depth then some sid_lmp
  else if c.historyPruning = true ∧ q.isPrunableStdNoCheck = true
      ∧ m.score < E.historyPruningThresholdInit + c.a.depth * E.historyPruningThresholdDepth then
    some sid_historyPruning
  else if c.CMHPruning = true ∧ q.isPrunableStdNoCheck = true
      ∧ cmhNegative E l.s.tables (c.pr.cmhPtr 0) pp = true
      ∧ cmhNegative E l.s.tables (c.pr.cmhPtr 1) pp = true then some sid_CMHPruning
  else if q.isPrunableCap = true ∧ c.futility = true then some sid_see
  else if q.isPrunableCap = true ∧ c.a.ply ≠ 0
      ∧ E.badCapScore m
          < -(1 + cdiv (6 * q.dangerFactor) E.dangerLimitPruning) * 100 * c.a.depth then
    some sid_see2
  else none

/-- Whether the block "LMR" is entered for a move. -/
def lmrApplies (E : SearchEnv) (c : Ctx) (m : Move) (q : Prunable) : Bool :=
  E.doLMR && (q.isReductible && decide (Move2Type m = T_std))
    && decide (c.a.depth ≥ E.lmrMinDepth)

/-- The source's `pvs`, the block "LMR" once entered: the reduction read from the table,
increased when the node is not improving and when the move of the table is a capture,
decreased by the history score, decreased by one at a PV node, under danger or with a check,
never below the extension's surplus and never down to the horizon. -/
def lmrValue (E : SearchEnv) (c : Ctx) (m : Move) (q : Prunable) (extension : Int)
    (l : LoopState) : Int :=
  let reduction := E.lmrReduction (min c.a.depth (E.MAX_DEPTH - 1))
    (min l.validMoveCount E.MAX_DEPTH)
  let reduction := reduction + (if c.st.improving = true then 0 else 1)
  let reduction := reduction + (if l.ttMoveIsCapture = true then 1 else 0)
  let reduction := reduction - E.HISTORY_DIV (2 * m.score)
  let reduction :=
    if reduction > 0 then
      if c.a.pvnode = true then reduction - 1
      else if q.isDangerRed = true then reduction - 1
      else if q.noCheck = false then reduction - 1
      else reduction
    else reduction
  let reduction := if extension - reduction > 0 then extension else reduction
  if reduction ≥ c.a.depth - 1 + extension then c.a.depth - 1 + extension - 1 else reduction

/-- The source's `pvs`, the three searches of a late move: the null-window search at the
reduced depth, the null-window search at full depth when the reduced one beats `alpha`, the
full-window search at a PV node when the score beats `alpha` (and stays below `beta`, or at
the root). -/
def searchLate (rec : PvsArgs → Searcher → Option PvsResult) (c : Ctx)
    (p2 : Position) (isCheck : Bool) (extension reduction : Int) (l : LoopState)
    (s : Searcher) : Option Searched :=
  match searchChild rec (childArgs c false (-l.alpha - 1) (-l.alpha) p2
          (c.a.depth - 1 - reduction + extension) l.seldepth isCheck true) s with
  | none => none
  | some x1 =>
    match (if reduction > 0 ∧ x1.score > l.alpha then
            searchChild rec (childArgs c false (-l.alpha - 1) (-l.alpha) p2
              (c.a.depth - 1 + extension) x1.seldepth isCheck (!c.a.cutNode))
              (x1.s.incr sid_lmrFail)
          else some x1) with
    | none => none
    | some x2 =>
      if c.a.pvnode = true ∧ x2.score > l.alpha ∧ (c.a.ply = 0 ∨ x2.score < c.beta) then
        searchChild rec (childArgs c true (-c.beta) (-l.alpha) p2
          (c.a.depth - 1 + extension) x2.seldepth isCheck false) (x2.s.incr sid_pvsFail)
      else some x2

/-- What the body of the loop leaves for one move: `continue` (or the end of the body), a
`break`, a `return`, or an exhausted recursion budget. -/
inductive MoveOut where
  | cont (l : LoopState)
  | brk (l : LoopState)
  | ret (r : PvsResult)
  | fuelOut

/-- The source's `pvs`, the loop "reduce history bonus of all previous": a negative history
update for every quiet move that precedes the cutting move in the list. -/
def penalizePrevious (c : Ctx) (m : Move) (depth : Int) (moves : List Move) (s : Searcher) :
    Searcher :=
  ((moves.takeWhile (fun m2 => !sameMove m2 m)).filter
      (fun m2 => decide (Move2Type m2 = T_std))).foldl
    (fun acc m2 => acc.writeTables (TableWrite.historyUpdate (-1) depth m2 c.a.p c.pr.cmhPtr)) s

/-- The source's `pvs`, the end of the body of the loop for a searched move: the stop flag,
`rootScores`, then `bestScore`, `bestMove`, the principal variation, `alpha`, `hashBound`;
on a score not below `beta` the tables are updated, `hashBound` becomes `B_beta` and the loop
is left. -/
def moveUpdate (E : SearchEnv) (c : Ctx) (moves : List Move) (m : Move) (firstMove : Bool)
    (l : LoopState) (x : Searched) : MoveOut :=
  if x.s.stopFlag = true then
    MoveOut.ret { score := E.STOPSCORE, pv := l.pv, seldepth := x.seldepth, s := x.s }
  else
    let s :=
      if c.a.ply = 0 then
        { x.s with rootScores := x.s.rootScores ++ [(m, x.score)],
                   previousBest := MoveSlot.played m }
      else x.s
    if x.score > l.bestScore then
      if x.score > l.alpha then
        let pv := if c.a.pvnode = true then updatePV m x.childPV else l.pv
        if x.score ≥ c.beta then
          let s :=
            if c.a.isInCheck = false ∧ Move2Type m = T_std then
              penalizePrevious c m (bonusDepth c.a.depth x.score c.beta) moves
                (s.writeTables (TableWrite.updateTables c.a.p
                  (bonusDepth c.a.depth x.score c.beta) c.a.ply m B_beta c.pr.cmhPtr))
            else s
          MoveOut.brk { l with alpha := x.score, bestScore := x.score
                               bestMove := MoveSlot.played m, hashBound := B_beta, pv := pv
                               seldepth := x.seldepth, s := s }
        else
          MoveOut.cont { l with alpha := x.score, bestScore := x.score
                                bestMove := MoveSlot.played m, hashBound := B_exact, pv := pv
                                seldepth := x.seldepth, s := s }
      else
        MoveOut.cont { l with bestScore := x.score, bestMove := MoveSlot.played m
                              seldepth := x.seldepth, s := s }
    else if c.a.ply = 0 ∧ c.a.isInCheck = false ∧ firstMove = true
        ∧ x.score < l.alpha - E.failLowRootMargin then
      MoveOut.ret { score := l.alpha - E.failLowRootMargin, pv := l.pv, seldepth := x.seldepth,
                    s := s }
    else MoveOut.cont { l with seldepth := x.seldepth, s := s }

/-- The source's `pvs`, the body of the loop for a late move (`validMoveCount >= 2` with
`doPVS`): danger counters, prunings, reduction, the SEE pruning of a quiet move, the
searches. -/
def moveLate (E : SearchEnv) (rec : PvsArgs → Searcher → Option PvsResult) (c : Ctx)
    (moves : List Move) (m : Move) (p2 : Position) (isCheck : Bool) (extension : Int)
    (l : LoopState) : MoveOut :=
  let q := prunableOf E c m isCheck l
  let l := if q.isDangerPrune = true then { l with s := l.s.incr sid_dangerPrune } else l
  let l := if q.isDangerRed = true then { l with s := l.s.incr sid_dangerReduce } else l
  match movePruned E c m q l with
  | some id => MoveOut.cont { l with s := l.s.incr id }
  | none =>
    let l := if lmrApplies E c m q = true then { l with s := l.s.incr sid_lmr } else l
    let reduction := if lmrApplies E c m q = true then lmrValue E c m q extension l else 0
    let nextDepth := c.a.depth - 1 - reduction + extension
    if q.isPrunableStdNoCheck = true ∧ E.SEE_GE c.a.p m (-15 * nextDepth * nextDepth) = false then
      MoveOut.cont { l with s := l.s.incr sid_seeQuiet }
    else
      match searchLate rec c p2 isCheck extension reduction l l.s with
      | none => MoveOut.fuelOut
      | some x => moveUpdate E c moves m false l x

/-- The source's `pvs`, the body of the loop for a move that applies to a copy of the
position: the capture of the king, the count of valid moves, the stack, the extensions, then
the full-window search of the first move or the treatment of a late move. -/
def moveApplied (E : SearchEnv) (rec : PvsArgs → Searcher → Option PvsResult) (c : Ctx)
    (moves : List Move) (m : Move) (p2 : Position) (l : LoopState) : MoveOut :=
  if (c.a.p.c = Co_White ∧ Move2To m = c.a.p.king Co_Black)
      ∨ (c.a.p.c = Co_Black ∧ Move2To m = c.a.p.king Co_White) then
    MoveOut.ret { score := E.MATE - (c.a.ply : Int) + 1, pv := l.pv, seldepth := l.seldepth,
                  s := l.s }
  else
    let l : LoopState := { l with validMoveCount := l.validMoveCount + 1
                                  s := l.s.setStackPos (p2.halfmoves : Int) p2 }
    let isCheck := E.isAttacked p2 (kingSquare p2)
    let x := moveExtension E c m p2 (decide (l.validMoveCount = 1)) l.s
    let l : LoopState := { l with s := x.2 }
    if l.validMoveCount < 2 ∨ E.doPVS = false then
      match searchChild rec (childArgs c c.a.pvnode (-c.beta) (-l.alpha) p2
              (c.a.depth - 1 + x.1) l.seldepth isCheck (!c.a.cutNode)) l.s with
      | none => MoveOut.fuelOut
      | some sr => moveUpdate E c moves m (decide (l.validMoveCount = 1)) l sr
    else moveLate E rec c moves m p2 isCheck x.1 l

/-- The source's `pvs`, the body of the loop over the sorted moves. -/
def pvsMove (E : SearchEnv) (rec : PvsArgs → Searcher → Option PvsResult) (c : Ctx)
    (moves : List Move) (m : Move) (l : LoopState) : MoveOut :=
  if isSkipMove m c.a.skipMoves = true then MoveOut.cont l
  else if c.pr.validTTmove = true ∧ sameMoveSlot c.pr.e.m m = true then MoveOut.cont l
  else if (apply E c.a.p m).1 = false then MoveOut.cont l
  else moveApplied E rec c moves m (apply E c.a.p m).2 l

/-- The source's `pvs`, the loop `for (it = moves.begin(); it != moves.end() && !stopFlag;
++it)` over the moves that remain; `moves` is the whole list. The result is a `return` of
`pvs` or the variables at the exit of the loop. -/
def pvsLoop (E : SearchEnv) (rec : PvsArgs → Searcher → Option PvsResult) (c : Ctx)
    (moves : List Move) : List Move → LoopState → Step LoopState
  | [], l => Step.next l
  | m :: rest, l =>
    if l.s.stopFlag = true then Step.next l
    else
      match pvsMove E rec c moves m l with
      | MoveOut.cont l1 => pvsLoop E rec c moves rest l1
      | MoveOut.brk l1 => Step.next l1
      | MoveOut.ret r => Step.ret r
      | MoveOut.fuelOut => Step.fuelOut

/-- The source's `pvs`, after the loop: without a valid move the mate or stalemate score,
otherwise the store of the result and the return of `bestScore`. -/
def pvsEnd (E : SearchEnv) (c : Ctx) (l : LoopState) : PvsResult :=
  if l.validMoveCount = 0 then
    { score := if c.a.isInCheck = true ∨ c.a.skipMoves.isNone = false
        then -E.MATE + (c.a.ply : Int) else 0
      pv := l.pv, seldepth := l.seldepth, s := l.s }
  else
    { score := l.bestScore, pv := l.pv, seldepth := l.seldepth
      s := setEntry l.s c.pr.pHash l.bestMove (E.createHashScore l.bestScore c.a.ply)
            (E.createHashScore c.st.evalScore c.a.ply) l.hashBound c.a.depth }

/-- The source's `pvs`, the move iteration: the move of the table, move generation, the
return on an empty move list, the sort, the loop and the end. -/
def pvsMoves (E : SearchEnv) (rec : PvsArgs → Searcher → Option PvsResult) (c : Ctx)
    (gen : Generated) (l0 : LoopState) : Step PvsResult :=
  match pvsTTMove E rec c l0 with
  | Step.ret r => Step.ret r
  | Step.fuelOut => Step.fuelOut
  | Step.next l1 =>
    let g := pvsGenerate E c gen l1.s
    let l2 := { l1 with s := g.2 }
    if g.1.isEmpty = true then
      Step.ret { score := if c.a.isInCheck = true then -E.MATE + (c.a.ply : Int) else 0
                 pv := l2.pv, seldepth := l2.seldepth, s := l2.s }
    else
      match pvsLoop E rec c (pvsSort E c g.1 l2.s) (pvsSort E c g.1 l2.s) l2 with
      | Step.ret r => Step.ret r
      | Step.fuelOut => Step.fuelOut
      | Step.next l3 => Step.ret (pvsEnd E c l3)

/-- The source's `pvs`, from the probe of the table to the move iteration, for the window
left by the entry: what the move iteration starts from. -/
def pvsBefore (E : SearchEnv) (rec : PvsArgs → Searcher → Option PvsResult) (a : PvsArgs)
    (w : Window) : Step (Ctx × Generated × LoopState) :=
  match pvsProbe E a w with
  | Step.ret r => Step.ret r
  | Step.fuelOut => Step.fuelOut
  | Step.next pr0 =>
    match pvsSyzygy E a w pr0 with
    | Step.ret r => Step.ret r
    | Step.fuelOut => Step.fuelOut
    | Step.next s1 =>
      match pvsPrune E rec a w pr0 (pvsStatic E a pr0 s1) with
      | Step.ret r => Step.ret r
      | Step.fuelOut => Step.fuelOut
      | Step.next pd =>
        match pvsIID E rec a w pr0 pd.seldepth pd.s with
        | Step.ret r => Step.ret r
        | Step.fuelOut => Step.fuelOut
        | Step.next x =>
          Step.next (pvsContext E a w x.1 (pvsStatic E a pr0 s1) pd.refutation, pd.gen,
            pvsLoopInit E a w pd.refutation x.2.1 x.2.2)

/-- The source's `pvs`, from the probe of the table to the end, for the window left by the
entry. -/
def pvsBody (E : SearchEnv) (rec : PvsArgs → Searcher → Option PvsResult) (a : PvsArgs)
    (w : Window) : Step PvsResult :=
  match pvsBefore E rec a w with
  | Step.ret r => Step.ret r
  | Step.fuelOut => Step.fuelOut
  | Step.next x => pvsMoves E rec x.1 x.2.1 x.2.2

/-- The source's `pvs` with its recursive calls made through `rec`; `none` when one of them
exceeded the recursion budget. -/
def pvsNode (E : SearchEnv) (rec : PvsArgs → Searcher → Option PvsResult) (a : PvsArgs)
    (s : Searcher) : Option PvsResult :=
  match pvsEntry E a s with
  | Step.ret r => some r
  | Step.fuelOut => none
  | Step.next w =>
    match pvsBody E rec a w with
    | Step.ret r => some r
    | Step.fuelOut => none
    | Step.next r => some r

/-- The source's `Searcher::pvs`, with a budget on the depth of the recursion. -/
def pvs (E : SearchEnv) : Nat → PvsArgs → Searcher → Option PvsResult
  | 0 => fun _ _ => none
  | n + 1 => pvsNode E (pvs E n)

/-! ## Invariant of the move iteration -/

/-- The invariant of the move iteration for the node's clamped window `(alpha0, beta)`:
`alpha` stays in the window and never goes down, `bestScore` never exceeds `alpha`, and the
bound is `B_alpha` while `alpha` has not moved, `B_exact` once a score has raised it (then
`bestScore` is that `alpha`). -/
def LoopInv (beta alpha0 : Int) (l : LoopState) : Prop :=
  alpha0 ≤ l.alpha ∧ l.alpha < beta ∧ l.bestScore ≤ l.alpha
  ∧ ((l.hashBound = B_alpha ∧ l.alpha = alpha0)
      ∨ (l.hashBound = B_exact ∧ l.bestScore = l.alpha ∧ alpha0 < l.alpha))

/-- The bound of a stored result against the best score, for the node's clamped window
`(alpha0, beta)`: lower bound exactly for a score not below `beta`, upper bound exactly for a
score not above `alpha0`, exact otherwise. -/
def BoundOK (beta alpha0 : Int) (bound : Bound) (best : Int) : Prop :=
  (bound = B_beta ↔ best ≥ beta) ∧ (bound = B_alpha ↔ best ≤ alpha0)
  ∧ (bound = B_exact ↔ (alpha0 < best ∧ best < beta))

/-! ## A concrete search environment -/

/-- A searcher at the start of a search: the stop flag down, empty tables and an empty
transposition table, every stack frame holding the initial position. -/
def exampleSearcher : Searcher :=
  { stopFlag := false
    stack := fun _ => { p := startPosition, h := 0, data := EvalData.zero, eval := 0,
                        threat := MoveSlot.INVALIDMOVE }
    stats := fun _ => 0
    rootScores := []
    previousBest := MoveSlot.INVALIDMOVE
    tables := []
    nullMoveMinPly := 0
    tt := [] }

/-- A concrete search environment over `exampleEnv`: the static evaluation and the
quiescence search return 0, the move generator produces the pawn move e2-e4 for
White to move in the initial position (captures: none) and no move otherwise, the
transposition table keeps the most recent store of a hash, the sort keeps the order,
`createHashScore` and `adjustHashScore` leave a score as it is, tablebases are off. -/
def exampleSearchEnv : SearchEnv :=
  { exampleEnv with
    MATE := 30000
    MAX_DEPTH := 127
    STOPSCORE := -20000
    HISTORY_MAX := 1000
    HISTORY_DIV := fun x => cdiv x 36
    M_t := 6
    dataInit := EvalData.zero
    timeIsUp := fun _ => false
    eval := fun s _ => (0, EvalData.zero, s)
    qsearch := fun s _ _ _ _ _ seldepth => (0, seldepth, s)
    isDraw := fun _ _ _ => false
    drawScore := fun _ => 0
    miniMoveBits := fun m => (m.sqFrom.toNat + 64 * m.sqTo.toNat)
    ttFind := fun tt h => tt.find? (fun r => decide (r.h = h))
    adjustHashScore := fun x _ => x
    createHashScore := fun x _ => x
    scaleTempo := fun _ => 0
    materialGp := fun _ => none
    gamePhase := fun _ => 0
    isMateScore := fun x => decide (x ≥ 29000) || decide (x ≤ -29000)
    generate := fun ph p =>
      if ph ≠ GP_cap ∧ p.c = Co_White ∧ p.board 12 = P_wp ∧ p.board 11 = P_wp
          ∧ p.board 28 = P_none ∧ p.board 27 = P_none then
        [move_e2e4]
      else []
    scoreAndSort := fun _ moves _ _ _ _ _ _ _ => moves
    isBadCap := fun _ => false
    badCapScore := fun _ => 0
    SEE_GE := fun _ _ _ => true
    isPassedPawnSquare := fun _ _ _ => false
    SquareFromBitBoard := fun _ => 0
    getCMHPtr := fun _ _ _ => none
    cmhRead := fun _ _ _ => 0
    isKiller := fun _ _ _ => false
    WITH_SYZYGY := false
    MAX_TB_MEN := 0
    TB_WIN_SCORE := 0
    countBit := fun _ => 32
    probe_wdl := fun _ => (0, 0)
    probe_root := fun _ _ moves => (-1, 0, moves)
    mateFinder := false
    level := 100
    doStaticNullMove := true
    staticNullMoveMaxDepth := fun _ => 6
    staticNullMoveDepthInit := fun _ => 0
    staticNullMoveDepthCoeff := fun _ => 80
    doRazoring := true
    razoringMarginDepthInit := fun _ => 200
    razoringMarginDepthCoeff := fun _ => 0
    razoringMaxDepth := fun _ => 3
    doNullMove := true
    nullMoveMinDepth := 2
    doProbcut := true
    probCutMinDepth := 5
    probCutMargin := 80
    probCutMaxMoves := 5
    iidMinDepth := 5
    iidMinDepth2 := 8
    doLMP := true
    lmpMaxDepth := 10
    lmpLimit := fun _ d => 3 + d * d
    doFutility := true
    futilityDepthInit := fun _ => 0
    futilityDepthCoeff := fun _ => 160
    futilityMaxDepth := fun _ => 10
    doHistoryPruning := true
    historyPruningMaxDepth := 3
    historyPruningThresholdInit := 0
    historyPruningThresholdDepth := 0
    doCMHPruning := true
    CMHMaxDepth := 4
    singularExtensionDepth := 8
    doPVS := true
    doLMR := true
    lmrMinDepth := 2
    lmrReduction := fun d n => cdiv (d + n) 8
    dangerDivisor := 180
    dangerLimitPruning := 16
    dangerLimitReduction := 16
    failLowRootMargin := 100 }

/-- The call of `pvs` at the root of a search of depth 1 of the initial position, with the
window (-MATE, MATE). -/
def rootArgs : PvsArgs :=
  { pvnode := true, canPrune := false, alpha := -30000, beta := 30000, p := startPosition
    depth := 1, ply := 0, pv := [], seldepth := 0, isInCheck := false, cutNode := false
    skipMoves := none }

/-- The searcher after a store of the move e2-e4 for the initial position. -/
def ttSearcher : Searcher :=
  setEntry exampleSearcher (computeHash exampleEnv startPosition) (MoveSlot.played move_e2e4)
    0 0 B_exact 1

/-- The window (-MATE, MATE) at the root, with the state `ttSearcher`. -/
def rootWindow : Window := { alpha := -30000, beta := 30000, seldepth := 0, s := ttSearcher }

/-- The searcher after a store, for the initial position, of a move that the position does
not allow: a capture e2xe4 onto an empty square. -/
def badTTSearcher : Searcher :=
  setEntry exampleSearcher (computeHash exampleEnv startPosition)
    (MoveSlot.played { sqFrom := 12, sqTo := 28, type := T_capture, score := 0 }) 0 0 B_exact 1

/-- A search environment whose generator produces, for every position, the single move
e2xe4 written as a capture; it applies to no position of the examples without leaving the
mover in check, since here every square counts as attacked. -/
def stuckSearchEnv : SearchEnv :=
  { exampleSearchEnv with
    isAttacked := fun _ _ => true
    generate := fun _ _ => [move_e2e4] }

/-- The environment `exampleEnv` with an attack detection that reports every square as
attacked: every move leaves the mover's king attacked, so that `applyMove` with validation
returns false. -/
def attackedEnv : Env := { exampleEnv with isAttacked := fun _ _ => true }

/-! ## Predicates and concrete inputs for the move iteration and the stop flag -/

/-- The call of `pvs` one ply below the root, at a node that is not a PV node: depth 1,
window (-MATE, MATE), the initial position. -/
def cutArgs : PvsArgs := { rootArgs with ply := 1, pvnode := false }

/-- What a section of `pvs` does with the stop flag, for the flag `flagIn` at its start: a
section that goes on leaves the flag down if it found it down, and a section that returns with
the flag set, having found it down, returns `STOPSCORE`. -/
def StopOK (E : SearchEnv) {α : Type} (getS : α → Searcher) (flagIn : Bool) :
    Step α → Prop
  | Step.ret r => flagIn = false → r.s.stopFlag = true → r.score = E.STOPSCORE
  | Step.next x => flagIn = false → (getS x).stopFlag = false
  | Step.fuelOut => True

/-- The same for the body of the loop over the moves. -/
def StopOKMove (E : SearchEnv) (flagIn : Bool) : MoveOut → Prop
  | MoveOut.ret r => flagIn = false → r.s.stopFlag = true → r.score = E.STOPSCORE
  | MoveOut.cont l => flagIn = false → l.s.stopFlag = false
  | MoveOut.brk l => flagIn = false → l.s.stopFlag = false
  | MoveOut.fuelOut => True

/-- The search environment `exampleSearchEnv` with a clock test that always fires: the time
for the move is over at the entry of every frame. -/
def timeUpSearchEnv : SearchEnv := { exampleSearchEnv with timeIsUp := fun _ => true }

/-- The search environment `exampleSearchEnv` with a quiescence search that finds the time
for the move over: it returns 0 and sets the stop flag. -/
def stoppingSearchEnv : SearchEnv :=
  { exampleSearchEnv with qsearch := fun s _ _ _ _ _ seldepth => (0, seldepth, { s with stopFlag := true }) }

/-- The test of the loop over the moves for a capture of the king:
`p.c == Co_White && to == p.king[Co_Black]` or `p.c == Co_Black && to == p.king[Co_White]`. -/
def capturesKing (p : Position) (m : Move) : Bool :=
  (decide (p.c = Co_White) && decide (Move2To m = p.king Co_Black))
    || (decide (p.c = Co_Black) && decide (Move2To m = p.king Co_White))

/-- A move of the list that the loop counts as a valid move: it is not to be skipped, it is
not the move of the table already tried, and it applies to a copy of the position. -/
def countedMove (E : SearchEnv) (c : Ctx) (m : Move) : Bool :=
  !isSkipMove m c.a.skipMoves && !(c.pr.validTTmove && sameMoveSlot c.pr.e.m m)
    && (apply E c.a.p m).1

/-- The move of the table is counted as a valid move: the entry holds a move, it is not to be
skipped, and it applies to a copy of the position. -/
def countedTTMove (E : SearchEnv) (c : Ctx) : Bool :=
  match c.pr.e.m with
  | MoveSlot.played m => c.pr.validTTmove && !isSkipMove m c.a.skipMoves && (apply E c.a.p m).1
  | _ => false

/-- The variables of the move iteration other than the count of valid moves and the state
are the same in both, and so is the transposition table. -/
def SameVars (l l1 : LoopState) : Prop :=
  l1.alpha = l.alpha ∧ l1.bestScore = l.bestScore ∧ l1.bestMove = l.bestMove
  ∧ l1.hashBound = l.hashBound ∧ l1.pv = l.pv ∧ l1.s.tt = l.s.tt

/-- A search environment whose generator produces the en-passant capture e5xd6 in
`epPosition` (White to move, en-passant square d6) and no move otherwise. -/
def captureSearchEnv : SearchEnv :=
  { exampleSearchEnv with
    generate := fun _ p => if p.c = Co_White ∧ p.ep = 43 then [move_e5d6] else [] }

/-- The call of `pvs` at the root of a search of depth 1 of `epPosition`, with the window
(-100, 0). -/
def captureArgs : PvsArgs := { rootArgs with p := epPosition, alpha := -100, beta := 0 }

/-- A context of the move iteration at the root of the search of depth 1 of the initial
position: window up to `MATE`, no entry found in the transposition table, static score 0, no
pruning switch. -/
def exampleCtx : Ctx :=
  { a := rootArgs, beta := 30000
    pr := probeOf (fun _ => none) (computeHash exampleEnv startPosition) Entry.empty
    st := { evalScore := 0, evalScoreIsHashScore := false, data := EvalData.zero
            isNotEndGame := true, improving := false, marginDepth := 1, s := exampleSearcher }
    refutation := MoveSlot.INVALIDMOVE, lmp := false, futility := false
    historyPruning := false, CMHPruning := false }

/-- The variables of the move iteration at its start, for `exampleCtx`. -/
def exampleLoop : LoopState :=
  pvsLoopInit exampleSearchEnv rootArgs rootWindow MoveSlot.INVALIDMOVE 0 exampleSearcher

/-- The quiet moves that precede the move `m` in the list: those that the loop "reduce history
bonus of all previous" visits. -/
def quietBefore (m : Move) (moves : List Move) : List Move :=
  (moves.takeWhile (fun m2 => !sameMove m2 m)).filter (fun m2 => decide (Move2Type m2 = T_std))

/-! ## position.cpp: `readFEN`

Conventions of this part
* a string is the list of its characters; the position description is split at white space
  into the fields `strList`;
* a call that does not return is an outcome of its own: `std::string::at` throws
  `std::out_of_range` for an index that is not below the length, and `strList[0]` of an empty
  list is undefined;
* the index `i` only counts up from 0 and is a `Nat`, the square counter `j` is an `Int`; the
  narrowing `(char)strList[0].length()` is the identity for the fields of at most 127
  characters, to which the theorems are restricted;
* the parameter `silent` only selects log messages; logging, and the blocks under `WITH_NNUE`,
  are left out;
* what `readFEN` uses that is declared outside the embedded sources is a field of `FenEnv`;
  the globals it writes (`castlePermHashTable`, `DynamicConfig::FRC`) are part of its result.
-/

/-- The outcome of a computation that may fail to return: a result, an index out of range in
`std::string::at`, an undefined access to the first field of an empty list, or an exhausted
iteration budget. -/
inductive Fen (α : Type) where
  | ok (x : α)
  | outOfRange (i : Nat)
  | undefined
  | noFuel

/-- Everything `readFEN` uses that is declared outside the embedded sources. -/
structure FenEnv extends Env where
  /-- The default-constructed `static Position defaultPos`. -/
  defaultPos : Position
  /-- The source's `readFromString<int>(s)`: the integer that `std::stringstream` extracts. -/
  parseInt : List Char → Int
  /-- The source's `stringToSquare(s)`. -/
  stringToSquare : List Char → Int
  /-- The source's `BBTools::setBitBoards(p)`: the piece bitboards and the occupancies it
  derives from the board. -/
  setBitBoards : Position → (Int → Nat) × (Color → Nat)
  /-- The source's `MaterialHash::initMaterial(p)`: the material table it leaves. -/
  initMaterial : Position → Color → Int → Nat

/-- The white-space characters at which `std::istream_iterator<std::string>` splits, by their
codes: space, tab, line feed, carriage return, vertical tab, form feed. -/
def isSpaceChar (ch : Char) : Bool :=
  ch.toNat = 32 || ch.toNat = 9 || ch.toNat = 10 || ch.toNat = 13 || ch.toNat = 11
    || ch.toNat = 12

/-- The fields of a string, split at white space, given the field being read. -/
def fenWordsAux : List Char → List Char → List (List Char)
  | [], cur => if cur.isEmpty then [] else [cur.reverse]
  | ch :: rest, cur =>
    if isSpaceChar ch = true then
      if cur.isEmpty then fenWordsAux rest [] else cur.reverse :: fenWordsAux rest []
    else fenWordsAux rest (ch :: cur)

/-- The list `strList` of the fields of the position description:
`std::copy(std::istream_iterator<std::string>(iss), ..., back_inserter(strList))`. -/
def fenWords (fen : List Char) : List (List Char) := fenWordsAux fen []

/-- The square `k = (7 - (j - 1) / 8) * 8 + ((j - 1) % 8)` of the square counter `j`, with
the division and remainder of C++. -/
def fenSquare (j : Int) : Int := (7 - cdiv (j - 1) 8) * 8 + Int.tmod (j - 1) 8

/-- The `switch (letter)` of the placement loop followed by `j++`: the new square counter
and the position; a piece letter writes the board at square `k` (a king letter also the king
square), `'/'` takes one off the counter, a digit `d` adds `d - 1` to it. -/
def placementStep (letter : Char) (j : Int) (p : Position) : Int × Position :=
  let k := fenSquare j
  match letter with
  | 'p' => (j + 1, p.setBoard k P_bp)
  | 'r' => (j + 1, p.setBoard k P_br)
  | 'n' => (j + 1, p.setBoard k P_bn)
  | 'b' => (j + 1, p.setBoard k P_bb)
  | 'q' => (j + 1, p.setBoard k P_bq)
  | 'k' => (j + 1, (p.setBoard k P_bk).setKing Co_Black k)
  | 'P' => (j + 1, p.setBoard k P_wp)
  | 'R' => (j + 1, p.setBoard k P_wr)
  | 'N' => (j + 1, p.setBoard k P_wn)
  | 'B' => (j + 1, p.setBoard k P_wb)
  | 'Q' => (j + 1, p.setBoard k P_wq)
  | 'K' => (j + 1, (p.setBoard k P_wk).setKing Co_White k)
  | '/' => (j - 1 + 1, p)
  | '1' => (j + 1, p)
  | '2' => (j + 1 + 1, p)
  | '3' => (j + 2 + 1, p)
  | '4' => (j + 3 + 1, p)
  | '5' => (j + 4 + 1, p)
  | '6' => (j + 5 + 1, p)
  | '7' => (j + 6 + 1, p)
  | '8' => (j + 7 + 1, p)
  | _ => (j + 1, p)

/-- The loop `while ((j <= NbSquare) && (i <= (char)strList[0].length()))` of `readFEN` over
the placement field, with an iteration budget: the counter `j`, the index `i` and the
position at the exit, or the index at which `strList[0].at(i)` is out of range. -/
def placementLoop (field : List Char) : Nat → Int → Nat → Position → Fen (Int × Nat × Position)
  | 0, _, _, _ => Fen.noFuel
  | fuel + 1, j, i, p =>
    if j ≤ NbSquare ∧ i ≤ field.length then
      match field.get? i with
      | none => Fen.outOfRange i
      | some letter =>
        placementLoop field fuel (placementStep letter j p).1 (i + 1) (placementStep letter j p).2
    else Fen.ok (j, i, p)

/-- Modelled from the spec: `SQFILE(s)`, the file of a square, files numbered from 0. -/
def SQFILE (s : Int) : Int := s % 8

/-- Modelled from the spec: the upper-case letter of a file,
`std::toupper(FileNames[f].at(0))` with the file names "a" to "h". -/
def fileLetterUpper (f : Int) : Nat := 65 + f.toNat

/-- The C function `std::toupper` on a character code, for the letters of the alphabet. -/
def toUpperCode (ch : Char) : Nat :=
  if 97 ≤ ch.toNat ∧ ch.toNat ≤ 122 then ch.toNat - 32 else ch.toNat

/-- The body of the loop `for (const char & cr : strList[2])` over the castling field, for
the castling letters of a game with non-standard starting files: the rights and whether a
letter was found. -/
def frcStep (p : Position) (acc : Nat × Bool) (cr : Char) : Nat × Bool :=
  if (65 ≤ cr.toNat ∧ cr.toNat ≤ 72) ∨ (97 ≤ cr.toNat ∧ cr.toNat ≤ 104) then
    let c : Color := if 65 ≤ cr.toNat ∧ cr.toNat ≤ 90 then Co_White else Co_Black
    let kf := fileLetterUpper (SQFILE (p.king c))
    if toUpperCode cr > kf then
      (acc.1 ||| (if c = Co_White then C_wks else C_bks), true)
    else (acc.1 ||| (if c = Co_White then C_wqs else C_bqs), true)
  else acc

/-- The rights that the letters `K`, `Q`, `k`, `q` of the castling field name. -/
def castlingLetters (f : List Char) : Nat :=
  (if f.elem 'K' then C_wks else 0) ||| (if f.elem 'Q' then C_wqs else 0)
    ||| (if f.elem 'k' then C_bks else 0) ||| (if f.elem 'q' then C_bqs else 0)

/-- The loop `for (s = first; s <= first + 7; ++s) if (test(s)) { ...; break; }` over a rank:
the first square of the rank that passes the test. -/
def firstOnRank (first : Int) (test : Int → Bool) : Option Int :=
  ((List.range 8).map (fun n : Nat => first + (n : Int))).find? test

/-- The assignment `p.rooksInit[c][ct] = s; break;` at the first square of the rank that
passes the test, if there is one. -/
def setRookInit (p : Position) (c : Color) (ct : CastlingTypes) (r : Option Int) : Position :=
  match r with
  | some s => { p with rooksInit := upd p.rooksInit c (upd (p.rooksInit c) ct s) }
  | none => p

/-- One of the four lines `if (p.castling & right) { for (s = first; s <= first + 7; ++s)
{ if (s < p.king[c] && p.board_const(s) == rook) { p.rooksInit[c][ct] = s; break; } } }` of
`readFEN`; the comparison is `s < p.king[c]` on the queen side and `s > p.king[c]` on the king
side. -/
def readFENRook (p : Position) (right : Nat) (c : Color) (ct : CastlingTypes) (first : Int)
    (queenSide : Bool) (rook : Int) : Position :=
  if (p.castling &&& right) ≠ 0 then
    setRookInit p c ct
      (firstOnRank first (fun s =>
        (if queenSide = true then decide (s < p.king c) else decide (s > p.king c))
          && decide (p.board s = rook)))
  else p

/-- The source's `readFEN`, the assignments of `kingInit` and `rooksInit` once a castling
field was understood; `Sq_a1` is square 0 and `Sq_a8` square 56. -/
def readFENInit (p : Position) : Position :=
  let p := { p with kingInit := upd (upd p.kingInit Co_White (p.king Co_White)) Co_Black
                                  (p.king Co_Black) }
  let p := readFENRook p C_wqs Co_White CT_OOO 0 true P_wr
  let p := readFENRook p C_wks Co_White CT_OO 0 false P_wr
  let p := readFENRook p C_bqs Co_Black CT_OOO 56 true P_br
  readFENRook p C_bks Co_Black CT_OO 56 false P_br

/-- The source's `readFEN`, section "Initialize all castle possibilities": the position and
whether `DynamicConfig::FRC` was set. -/
def readFENCastling (strList : List (List Char)) (p : Position) : Position × Bool :=
  let p := { p with castling := C_none }
  match strList.get? 2 with
  | none => (p, false)
  | some f =>
    let p := { p with castling := castlingLetters f }
    let found : Bool := f.elem 'K' || f.elem 'Q' || f.elem 'k' || f.elem 'q'
    let r : Nat × Bool := if found = false then f.foldl (frcStep p) (p.castling, false)
      else (p.castling, false)
    let p := { p with castling := r.1 }
    let found := found || r.2 || f.elem '-'
    if found = false then (p, r.2) else (readFENInit p, r.2)

/-- What a call of `readFEN` that returns leaves: the returned boolean, the position, the
table `castlePermHashTable` when `initCaslingPermHashTable` was reached, and whether
`DynamicConfig::FRC` was set. -/
structure FenResult where
  ok : Bool
  p : Position
  table : Option (Int → Nat)
  setFRC : Bool

/-- The source's `readFEN`, section "read en passant and save it": the en-passant square, or
`none` for the return of `false` on a malformed field. -/
def readFENEp (E : FenEnv) (strList : List (List Char)) : Option Int :=
  match strList.get? 3 with
  | none => some INVALIDSQUARE
  | some f =>
    if f = ['-'] then some INVALIDSQUARE
    else
      match f with
      | c0 :: c1 :: _ =>
        if 97 ≤ c0.toNat ∧ c0.toNat ≤ 104 ∧ (c1 = '3' ∨ c1 = '6') then some (E.stringToSquare f)
        else none
      | _ => none

/-- The source's `readFEN`, from "read 50 moves rules" to the end: the counters, the castling
table, bitboards, material and hashes. -/
def readFENFinish (E : FenEnv) (strList : List (List Char)) (p : Position)
    (withMoveCount : Bool) : Position × (Int → Nat) :=
  let fifty : Nat :=
    match strList.get? 4 with
    | some f => if withMoveCount = true then ((E.parseInt f % 256).toNat) % E.fiftyMod else 0
    | none => 0
  let moves : Nat :=
    match strList.get? 5 with
    | some f => if withMoveCount = true then ((E.parseInt f % 256).toNat) % E.movesMod
                else 1 % E.movesMod
    | none => 1 % E.movesMod
  let moves : Nat := if moves < 1 then 1 % E.movesMod else moves
  let halfmoves : Int := ((moves : Int) - 1) * 2 + 1 + (if p.c = Co_Black then 1 else 0)
  let p := { p with fifty := fifty, moves := moves,
                    halfmoves := (halfmoves % (E.halfmovesMod : Int)).toNat }
  let table := initCaslingPermHashTable p
  let p := { p with allB := (E.setBitBoards p).1, allPieces := (E.setBitBoards p).2 }
  let p := { p with mat := E.initMaterial p }
  let p := { p with h := computeHash E.toEnv p }
  ({ p with ph := computePHash E.toEnv p }, table)

/-- The source's `readFEN`, from the test of the kings to the end. -/
def readFENRest (E : FenEnv) (strList : List (List Char)) (p : Position)
    (withMoveCount : Bool) : FenResult :=
  if p.king Co_White = INVALIDSQUARE ∨ p.king Co_Black = INVALIDSQUARE then
    { ok := false, p := p, table := none, setFRC := false }
  else
    let p := { p with c := Co_White }
    let color : Option Color :=
      match strList.get? 1 with
      | none => some Co_White
      | some f => if f = ['w'] then some Co_White else if f = ['b'] then some Co_Black else none
    match color with
    | none => { ok := false, p := p, table := none, setFRC := false }
    | some c =>
      let p := { p with c := c }
      let r := readFENCastling strList p
      let p := { r.1 with ep := INVALIDSQUARE }
      match readFENEp E strList with
      | none => { ok := false, p := p, table := none, setFRC := r.2 }
      | some ep =>
        let p := { p with ep := ep }
        let fin := readFENFinish E strList p withMoveCount
        { ok := true, p := fin.1, table := some fin.2, setFRC := r.2 }

/-- The source's `readFEN`, the reset of the position before the placement loop:
`p = defaultPos; p.h = nullHash; p.ph = nullHash;` and `P_none` on the 64 squares. -/
def readFENReset (E : FenEnv) : Position :=
  { E.defaultPos with
    h := nullHash, ph := nullHash
    board := fun k => if 0 ≤ k ∧ k < NbSquare then P_none else E.defaultPos.board k }

/-- The source's `readFEN(fen, p, silent, withMoveCount)`. -/
def readFEN (E : FenEnv) (fen : List Char) (withMoveCount : Bool) : Fen FenResult :=
  match fenWords fen with
  | [] => Fen.undefined
  | field :: rest =>
    match placementLoop field (field.length + 1) 1 0 (readFENReset E) with
    | Fen.ok x => Fen.ok (readFENRest E (field :: rest) x.2.2 withMoveCount)
    | Fen.outOfRange i => Fen.outOfRange i
    | Fen.undefined => Fen.undefined
    | Fen.noFuel => Fen.noFuel

/-! ## The placement field as the specification reads it

The squares that a placement field describes, written from the words of the specification:
they are compared with what the loop of `readFEN` writes. -/

/-- The piece that a letter of the placement field names ("standard notation": lower case
for Black, upper case for White). -/
def fenPiece (ch : Char) : Option Int :=
  match ch with
  | 'p' => some P_bp | 'r' => some P_br | 'n' => some P_bn | 'b' => some P_bb
  | 'q' => some P_bq | 'k' => some P_bk
  | 'P' => some P_wp | 'R' => some P_wr | 'N' => some P_wn | 'B' => some P_wb
  | 'Q' => some P_wq | 'K' => some P_wk
  | _ => none

/-- The squares that a character of the placement field describes, in reading order: a piece
letter names the piece of one square, a digit `d` leaves `d` squares empty, `'/'` consumes no
square. -/
def fenCells (ch : Char) : List Int :=
  match fenPiece ch with
  | some pc => [pc]
  | none =>
    match ch with
    | '1' => List.replicate 1 P_none | '2' => List.replicate 2 P_none
    | '3' => List.replicate 3 P_none | '4' => List.replicate 4 P_none
    | '5' => List.replicate 5 P_none | '6' => List.replicate 6 P_none
    | '7' => List.replicate 7 P_none | '8' => List.replicate 8 P_none
    | _ => []

/-- The squares that a placement field describes, in reading order (rank 8 first, files a to
h within a rank). -/
def fenSquares (field : List Char) : List Int := field.flatMap fenCells

/-- The king of a colour. -/
def kingPiece (c : Color) : Int := if c = Co_White then P_wk else P_bk

/-- The characters of a placement field in standard notation: piece letters, the digits 1 to
8 and the rank separator. -/
def standardChar (ch : Char) : Bool := "prnbqkPRNBQK12345678/".toList.elem ch

/-! ## Concrete inputs for `readFEN` -/

/-- The value of a string of decimal digits. -/
def decimalValue (s : List Char) : Int :=
  s.foldl (fun acc ch => if 48 ≤ ch.toNat ∧ ch.toNat ≤ 57 then acc * 10 + (ch.toNat - 48 : Nat) else acc) 0

/-- A concrete environment for `readFEN` over `exampleEnv`: a default position without kings,
without initial squares and with an empty board, decimal numbers, squares named by file
letter and rank digit, bitboards derived from the board, a material table left as it is. -/
def exampleFenEnv : FenEnv :=
  { exampleEnv with
    defaultPos :=
      { rawPosition [] Co_White INVALIDSQUARE 0 0 0 0 INVALIDSQUARE INVALIDSQUARE with
        rooksInit := fun _ _ => INVALIDSQUARE
        kingInit := fun _ => INVALIDSQUARE }
    parseInt := decimalValue
    stringToSquare := fun s =>
      match s with
      | c0 :: c1 :: _ => ((c0.toNat - 97 : Nat) : Int) + 8 * ((c1.toNat - 49 : Nat) : Int)
      | _ => INVALIDSQUARE
    setBitBoards := fun p =>
      (fun id => if 0 ≤ id ∧ id ≤ 12 ∧ id ≠ 6 then bitboardOf p.board (id - 6) else 0,
        occupancyOf p.board)
    initMaterial := fun p => p.mat }

/-- The description of the initial position of the standard game. -/
def startFEN : List Char := "rnbqkbnr/pppppppp/8/8/8/8/PPPPPPPP/RNBQKBNR w KQkq - 0 1".toList

/-- The placement field of `startFEN`. -/
def startField : List Char := "rnbqkbnr/pppppppp/8/8/8/8/PPPPPPPP/RNBQKBNR".toList

/-- A description whose placement field covers 63 squares and names no king. -/
def shortFEN : List Char := "8/8/8/8/8/8/8/7 w - - 0 1".toList

/-- The placement field of `shortFEN`. -/
def shortField : List Char := "8/8/8/8/8/8/8/7".toList

/-! ## Concrete inputs for the reductions, the null move and the stored evaluation -/

/-- A context of the move iteration as `exampleCtx`, at a node of depth 2. -/
def lmrCtx : Ctx := { exampleCtx with a := { rootArgs with depth := 2 } }

/-- The call of `pvs` one ply below the root at a node of depth 2 that is not a PV node, with
pruning allowed and the window (-1, 0). -/
def nullArgs : PvsArgs :=
  { rootArgs with depth := 2, ply := 1, pvnode := false, canPrune := true, alpha := -1, beta := 0 }

/-- The window (-1, 0), with the state `exampleSearcher`. -/
def nullWindow : Window := { alpha := -1, beta := 0, seldepth := 0, s := exampleSearcher }

/-- The searcher after a store, for the initial position, of the move e2-e4 with the exact
score 50, the static evaluation 7 and the depth 0. -/
def hashScoreSearcher : Searcher :=
  setEntry exampleSearcher (computeHash exampleEnv startPosition) (MoveSlot.played move_e2e4)
    50 7 B_exact 0

/-! ## The counters of a position -/

/-- The relation between the counters of a position:
`halfmoves = 2 * (moves - 1) + 1 + (1 if Black is to move, else 0)`. -/
def CounterInv (p : Position) : Prop :=
  (p.halfmoves : Int) = 2 * ((p.moves : Int) - 1) + 1 + (if p.c = Co_Black then 1 else 0)

instance (p : Position) : Decidable (CounterInv p) := by
  unfold CounterInv
  infer_instance

/-! ## The reads of the placement loop, the squares a field covers -/

/-- The calls `strList[0].at(i)` that the placement loop of `readFEN` makes, in order, each
with the value of the square counter `j` at the call: `placementLoop` with the index and the
counter of every iteration recorded. -/
def placementReads (field : List Char) : Nat → Int → Nat → Position → List (Nat × Int)
  | 0, _, _, _ => []
  | fuel + 1, j, i, p =>
    if j ≤ NbSquare ∧ i ≤ field.length then
      (i, j) :: (match field.get? i with
        | none => []
        | some letter =>
          placementReads field fuel (placementStep letter j p).1 (i + 1)
            (placementStep letter j p).2)
    else []

/-- The number of squares by which a character of the placement field advances the square
counter: none for `'/'`, `d` for a digit `d` from 1 to 8, one for any other character. -/
def fenAdvance (ch : Char) : Nat :=
  match ch with
  | '/' => 0
  | '2' => 2 | '3' => 3 | '4' => 4 | '5' => 5 | '6' => 6 | '7' => 7 | '8' => 8
  | _ => 1

/-- The number of squares that a placement field covers. -/
def fenCovered (field : List Char) : Nat := (field.map fenAdvance).sum

/-! ## The castling field as the specification reads it -/

/-- The castling right of a colour on a wing. -/
def castlingRight (c : Color) (kingSide : Bool) : Nat :=
  match c, kingSide with
  | Co_White, true => C_wks
  | Co_White, false => C_wqs
  | Co_Black, true => C_bks
  | Co_Black, false => C_bqs

/-- A character of the castling field names a file for a colour: one of the letters `A` to
`H` for White, one of `a` to `h` for Black. -/
def fileLetter (c : Color) (cr : Char) : Bool :=
  if c = Co_White then decide (65 ≤ cr.toNat) && decide (cr.toNat ≤ 72)
  else decide (97 ≤ cr.toNat) && decide (cr.toNat ≤ 104)

/-- The file that a file letter names, files numbered from 0. -/
def letterFile (cr : Char) : Int :=
  if cr.toNat ≤ 90 then (cr.toNat : Int) - 65 else (cr.toNat : Int) - 97

/-- The right that a character of the castling field grants when the field has none of the
letters `K`, `Q`, `k`, `q`: for a file letter of a colour, the king-side right if the file is
strictly to the right of the king of that colour, the queen-side right otherwise; nothing for
another character. -/
def frcGrant (king : Color → Int) (cr : Char) : Nat :=
  if fileLetter Co_White cr = true then
    castlingRight Co_White (decide (letterFile cr > SQFILE (king Co_White)))
  else if fileLetter Co_Black cr = true then
    castlingRight Co_Black (decide (letterFile cr > SQFILE (king Co_Black)))
  else 0

/-- The description of the initial position with the castling rights written by the files of
the rooks. -/
def frcFEN : List Char := "rnbqkbnr/pppppppp/8/8/8/8/PPPPPPPP/RNBQKBNR w HAha - 0 1".toList

/-! ## nnue/features/half_kp.cpp: `orient` -/

/-- Modelled from the spec: the square h8, the last of the 64 squares (square index
`8 * rank + file`). -/
def Sq_h8 : Int := 63

/-- The source's `NNUE::Features::orient(perspective, s)`:
`Square(int(s) ^ (bool(perspective) * Sq_h8))`; `bool(perspective)` is 0 for `Co_White` and 1
for `Co_Black`. -/
def orient (perspective : Color) (s : Int) : Int :=
  Int.xor s ((if perspective = Co_Black then 1 else 0) * Sq_h8)

/-! ## nnue/nnue_impl.hpp: the weight loader

The loader is embedded by the number of bytes it reads from the file: the weights themselves
are floating-point numbers and play no part in the size test. The template parameter `NT` (the
type of a stored number) appears by its size `sizeofNT`; the macros `__ANDROID__` and
`WITHOUT_FILESYSTEM`, which remove the size test, by two booleans. -/

/-- The source's `weights_streamer::stream(dst, request)`: `request` calls of
`file.read(single_element.data(), single_element.size())`, each of `sizeof(NT)` bytes; the
state is the number of bytes read so far. -/
def stream (sizeofNT : Nat) : Nat → Nat → Nat
  | 0, read => read
  | request + 1, read => stream sizeofNT request (read + sizeofNT)

/-- The source's `stack_affine<WT, BT, NT, dim0, dim1>::load_` and `big_affine<...>::load_`:
`ws.stream(W, W_numel).stream(b, b_numel)` with `W_numel = dim0 * dim1`, `b_numel = dim1`. -/
def load_ (sizeofNT dim0 dim1 : Nat) (read : Nat) : Nat :=
  stream sizeofNT dim1 (stream sizeofNT (dim0 * dim1) read)

/-- The constant `half_ka_numel = 12*64*64`. -/
def half_ka_numel : Nat := 12 * 64 * 64

/-- The constant `base_dim = 128`. -/
def base_dim : Nat := 128

/-- The source's `half_kp_weights::load(ws)`: the layers `w`, `b`, `fc0`, `fc1`, `fc2`, `fc3`
are loaded in this order. -/
def loadWeights (sizeofNT : Nat) (read : Nat) : Nat :=
  let read := load_ sizeofNT half_ka_numel base_dim read
  let read := load_ sizeofNT half_ka_numel base_dim read
  let read := load_ sizeofNT (2 * base_dim) 32 read
  let read := load_ sizeofNT 32 32 read
  let read := load_ sizeofNT 64 32 read
  load_ sizeofNT 96 1 read

/-- The constant `expectedSize` of `half_kp_weights::load(path, loadedWeights)`. -/
def expectedSize : Nat := 50378500

/-- The source's `half_kp_weights::load(path, loadedWeights)`: the returned boolean and the
number of bytes read from the file. `fileSize` is what `std::filesystem::file_size(path, ec)`
reports, `none` when it sets the error code; `android` and `withoutFilesystem` say whether
`__ANDROID__` and `WITHOUT_FILESYSTEM` are defined. -/
def load (android withoutFilesystem : Bool) (sizeofNT : Nat) (fileSize : Option Nat) :
    Bool × Nat :=
  if android = false ∧ withoutFilesystem = false then
    match fileSize with
    | none => (false, 0)
    | some fsize =>
      if fsize ≠ expectedSize then (false, 0)
      else (true, loadWeights sizeofNT 0)
  else (true, loadWeights sizeofNT 0)

/-! ## Fields after a single assignment -/

@[simp] theorem setBoard_fields (p : Position) (k : Int) (v : Int) :
    (p.setBoard k v).board = upd p.board k v
    ∧ (p.setBoard k v).allB = p.allB
    ∧ (p.setBoard k v).allPieces = p.allPieces
    ∧ (p.setBoard k v).mat = p.mat
    ∧ (p.setBoard k v).h = p.h
    ∧ (p.setBoard k v).ph = p.ph
    ∧ (p.setBoard k v).lastMove = p.lastMove
    ∧ (p.setBoard k v).moves = p.moves
    ∧ (p.setBoard k v).halfmoves = p.halfmoves
    ∧ (p.setBoard k v).king = p.king
    ∧ (p.setBoard k v).rooksInit = p.rooksInit
    ∧ (p.setBoard k v).kingInit = p.kingInit
    ∧ (p.setBoard k v).ep = p.ep
    ∧ (p.setBoard k v).fifty = p.fifty
    ∧ (p.setBoard k v).castling = p.castling
    ∧ (p.setBoard k v).c = p.c := by
  exact ⟨rfl, rfl, rfl, rfl, rfl, rfl, rfl, rfl, rfl, rfl, rfl, rfl, rfl, rfl, rfl, rfl⟩

@[simp] theorem setOcc_fields (p : Position) (c : Color) (k : Int) :
    (p.setOcc c k).board = p.board
    ∧ (p.setOcc c k).allB = p.allB
    ∧ (p.setOcc c k).allPieces = upd p.allPieces c (_setBit (p.allPieces c) k)
    ∧ (p.setOcc c k).mat = p.mat
    ∧ (p.setOcc c k).h = p.h
    ∧ (p.setOcc c k).ph = p.ph
    ∧ (p.setOcc c k).lastMove = p.lastMove
    ∧ (p.setOcc c k).moves = p.moves
    ∧ (p.setOcc c k).halfmoves = p.halfmoves
    ∧ (p.setOcc c k).king = p.king
    ∧ (p.setOcc c k).rooksInit = p.rooksInit
    ∧ (p.setOcc c k).kingInit = p.kingInit
    ∧ (p.setOcc c k).ep = p.ep
    ∧ (p.setOcc c k).fifty = p.fifty
    ∧ (p.setOcc c k).castling = p.castling
    ∧ (p.setOcc c k).c = p.c := by
  exact ⟨rfl, rfl, rfl, rfl, rfl, rfl, rfl, rfl, rfl, rfl, rfl, rfl, rfl, rfl, rfl, rfl⟩

@[simp] theorem unSetOcc_fields (p : Position) (c : Color) (k : Int) :
    (p.unSetOcc c k).board = p.board
    ∧ (p.unSetOcc c k).allB = p.allB
    ∧ (p.unSetOcc c k).allPieces = upd p.allPieces c (_unSetBit (p.allPieces c) k)
    ∧ (p.unSetOcc c k).mat = p.mat
    ∧ (p.unSetOcc c k).h = p.h
    ∧ (p.unSetOcc c k).ph = p.ph
    ∧ (p.unSetOcc c k).lastMove = p.lastMove
    ∧ (p.unSetOcc c k).moves = p.moves
    ∧ (p.unSetOcc c k).halfmoves = p.halfmoves
    ∧ (p.unSetOcc c k).king = p.king
    ∧ (p.unSetOcc c k).rooksInit = p.rooksInit
    ∧ (p.unSetOcc c k).kingInit = p.kingInit
    ∧ (p.unSetOcc c k).ep = p.ep
    ∧ (p.unSetOcc c k).fifty = p.fifty
    ∧ (p.unSetOcc c k).castling = p.castling
    ∧ (p.unSetOcc c k).c = p.c := by
  exact ⟨rfl, rfl, rfl, rfl, rfl, rfl, rfl, rfl, rfl, rfl, rfl, rfl, rfl, rfl, rfl, rfl⟩

@[simp] theorem xorH_fields (p : Position) (key : Nat) :
    (p.xorH key).board = p.board
    ∧ (p.xorH key).allB = p.allB
    ∧ (p.xorH key).allPieces = p.allPieces
    ∧ (p.xorH key).mat = p.mat
    ∧ (p.xorH key).h = p.h ^^^ key
    ∧ (p.xorH key).ph = p.ph
    ∧ (p.xorH key).lastMove = p.lastMove
    ∧ (p.xorH key).moves = p.moves
    ∧ (p.xorH key).halfmoves = p.halfmoves
    ∧ (p.xorH key).king = p.king
    ∧ (p.xorH key).rooksInit = p.rooksInit
    ∧ (p.xorH key).kingInit = p.kingInit
    ∧ (p.xorH key).ep = p.ep
    ∧ (p.xorH key).fifty = p.fifty
    ∧ (p.xorH key).castling = p.castling
    ∧ (p.xorH key).c = p.c := by
  exact ⟨rfl, rfl, rfl, rfl, rfl, rfl, rfl, rfl, rfl, rfl, rfl, rfl, rfl, rfl, rfl, rfl⟩

@[simp] theorem xorPH_fields (p : Position) (key : Nat) :
    (p.xorPH key).board = p.board
    ∧ (p.xorPH key).allB = p.allB
    ∧ (p.xorPH key).allPieces = p.allPieces
    ∧ (p.xorPH key).mat = p.mat
    ∧ (p.xorPH key).h = p.h
    ∧ (p.xorPH key).ph = p.ph ^^^ key
    ∧ (p.xorPH key).lastMove = p.lastMove
    ∧ (p.xorPH key).moves = p.moves
    ∧ (p.xorPH key).halfmoves = p.halfmoves
    ∧ (p.xorPH key).king = p.king
    ∧ (p.xorPH key).rooksInit = p.rooksInit
    ∧ (p.xorPH key).kingInit = p.kingInit
    ∧ (p.xorPH key).ep = p.ep
    ∧ (p.xorPH key).fifty = p.fifty
    ∧ (p.xorPH key).castling = p.castling
    ∧ (p.xorPH key).c = p.c := by
  exact ⟨rfl, rfl, rfl, rfl, rfl, rfl, rfl, rfl, rfl, rfl, rfl, rfl, rfl, rfl, rfl, rfl⟩

@[simp] theorem setKing_fields (p : Position) (c : Color) (k : Int) :
    (p.setKing c k).board = p.board
    ∧ (p.setKing c k).allB = p.allB
    ∧ (p.setKing c k).allPieces = p.allPieces
    ∧ (p.setKing c k).mat = p.mat
    ∧ (p.setKing c k).h = p.h
    ∧ (p.setKing c k).ph = p.ph
    ∧ (p.setKing c k).lastMove = p.lastMove
    ∧ (p.setKing c k).moves = p.moves
    ∧ (p.setKing c k).halfmoves = p.halfmoves
    ∧ (p.setKing c k).king = upd p.king c k
    ∧ (p.setKing c k).rooksInit = p.rooksInit
    ∧ (p.setKing c k).kingInit = p.kingInit
    ∧ (p.setKing c k).ep = p.ep
    ∧ (p.setKing c k).fifty = p.fifty
    ∧ (p.setKing c k).castling = p.castling
    ∧ (p.setKing c k).c = p.c := by
  exact ⟨rfl, rfl, rfl, rfl, rfl, rfl, rfl, rfl, rfl, rfl, rfl, rfl, rfl, rfl, rfl, rfl⟩

@[simp] theorem andCastling_fields (p : Position) (mask : Nat) :
    (p.andCastling mask).board = p.board
    ∧ (p.andCastling mask).allB = p.allB
    ∧ (p.andCastling mask).allPieces = p.allPieces
    ∧ (p.andCastling mask).mat = p.mat
    ∧ (p.andCastling mask).h = p.h
    ∧ (p.andCastling mask).ph = p.ph
    ∧ (p.andCastling mask).lastMove = p.lastMove
    ∧ (p.andCastling mask).moves = p.moves
    ∧ (p.andCastling mask).halfmoves = p.halfmoves
    ∧ (p.andCastling mask).king = p.king
    ∧ (p.andCastling mask).rooksInit = p.rooksInit
    ∧ (p.andCastling mask).kingInit = p.kingInit
    ∧ (p.andCastling mask).ep = p.ep
    ∧ (p.andCastling mask).fifty = p.fifty
    ∧ (p.andCastling mask).castling = p.castling &&& mask
    ∧ (p.andCastling mask).c = p.c := by
  exact ⟨rfl, rfl, rfl, rfl, rfl, rfl, rfl, rfl, rfl, rfl, rfl, rfl, rfl, rfl, rfl, rfl⟩

@[simp] theorem decMat_fields (E : Env) (p : Position) (c : Color) (k : Int) :
    (p.decMat E c k).board = p.board
    ∧ (p.decMat E c k).allB = p.allB
    ∧ (p.decMat E c k).allPieces = p.allPieces
    ∧ (p.decMat E c k).mat = upd p.mat c (upd (p.mat c) k (matDec E (p.mat c k)))
    ∧ (p.decMat E c k).h = p.h
    ∧ (p.decMat E c k).ph = p.ph
    ∧ (p.decMat E c k).lastMove = p.lastMove
    ∧ (p.decMat E c k).moves = p.moves
    ∧ (p.decMat E c k).halfmoves = p.halfmoves
    ∧ (p.decMat E c k).king = p.king
    ∧ (p.decMat E c k).rooksInit = p.rooksInit
    ∧ (p.decMat E c k).kingInit = p.kingInit
    ∧ (p.decMat E c k).ep = p.ep
    ∧ (p.decMat E c k).fifty = p.fifty
    ∧ (p.decMat E c k).castling = p.castling
    ∧ (p.decMat E c k).c = p.c := by
  exact ⟨rfl, rfl, rfl, rfl, rfl, rfl, rfl, rfl, rfl, rfl, rfl, rfl, rfl, rfl, rfl, rfl⟩

@[simp] theorem setBit_fields (p : Position) (k : Int) (pp : Int) :
    (BBTools.setBit p k pp).board = p.board
    ∧ (BBTools.setBit p k pp).allB = upd p.allB (pp + PieceShift) (_setBit (p.allB (pp + PieceShift)) k)
    ∧ (BBTools.setBit p k pp).allPieces = p.allPieces
    ∧ (BBTools.setBit p k pp).mat = p.mat
    ∧ (BBTools.setBit p k pp).h = p.h
    ∧ (BBTools.setBit p k pp).ph = p.ph
    ∧ (BBTools.setBit p k pp).lastMove = p.lastMove
    ∧ (BBTools.setBit p k pp).moves = p.moves
    ∧ (BBTools.setBit p k pp).halfmoves = p.halfmoves
    ∧ (BBTools.setBit p k pp).king = p.king
    ∧ (BBTools.setBit p k pp).rooksInit = p.rooksInit
    ∧ (BBTools.setBit p k pp).kingInit = p.kingInit
    ∧ (BBTools.setBit p k pp).ep = p.ep
    ∧ (BBTools.setBit p k pp).fifty = p.fifty
    ∧ (BBTools.setBit p k pp).castling = p.castling
    ∧ (BBTools.setBit p k pp).c = p.c := by
  exact ⟨rfl, rfl, rfl, rfl, rfl, rfl, rfl, rfl, rfl, rfl, rfl, rfl, rfl, rfl, rfl, rfl⟩

@[simp] theorem unSetBit_fields (p : Position) (k : Int) (pp : Int) :
    (BBTools.unSetBit p k pp).board = p.board
    ∧ (BBTools.unSetBit p k pp).allB = upd p.allB (pp + PieceShift) (_unSetBit (p.allB (pp + PieceShift)) k)
    ∧ (BBTools.unSetBit p k pp).allPieces = p.allPieces
    ∧ (BBTools.unSetBit p k pp).mat = p.mat
    ∧ (BBTools.unSetBit p k pp).h = p.h
    ∧ (BBTools.unSetBit p k pp).ph = p.ph
    ∧ (BBTools.unSetBit p k pp).lastMove = p.lastMove
    ∧ (BBTools.unSetBit p k pp).moves = p.moves
    ∧ (BBTools.unSetBit p k pp).halfmoves = p.halfmoves
    ∧ (BBTools.unSetBit p k pp).king = p.king
    ∧ (BBTools.unSetBit p k pp).rooksInit = p.rooksInit
    ∧ (BBTools.unSetBit p k pp).kingInit = p.kingInit
    ∧ (BBTools.unSetBit p k pp).ep = p.ep
    ∧ (BBTools.unSetBit p k pp).fifty = p.fifty
    ∧ (BBTools.unSetBit p k pp).castling = p.castling
    ∧ (BBTools.unSetBit p k pp).c = p.c := by
  exact ⟨rfl, rfl, rfl, rfl, rfl, rfl, rfl, rfl, rfl, rfl, rfl, rfl, rfl, rfl, rfl, rfl⟩

@[simp] theorem incHalfmoves_fields (E : Env) (p : Position) :
    (p.incHalfmoves E).board = p.board
    ∧ (p.incHalfmoves E).allB = p.allB
    ∧ (p.incHalfmoves E).allPieces = p.allPieces
    ∧ (p.incHalfmoves E).mat = p.mat
    ∧ (p.incHalfmoves E).h = p.h
    ∧ (p.incHalfmoves E).ph = p.ph
    ∧ (p.incHalfmoves E).lastMove = p.lastMove
    ∧ (p.incHalfmoves E).moves = p.moves
    ∧ (p.incHalfmoves E).halfmoves = (p.halfmoves + 1) % E.halfmovesMod
    ∧ (p.incHalfmoves E).king = p.king
    ∧ (p.incHalfmoves E).rooksInit = p.rooksInit
    ∧ (p.incHalfmoves E).kingInit = p.kingInit
    ∧ (p.incHalfmoves E).ep = p.ep
    ∧ (p.incHalfmoves E).fifty = p.fifty
    ∧ (p.incHalfmoves E).castling = p.castling
    ∧ (p.incHalfmoves E).c = p.c := by
  exact ⟨rfl, rfl, rfl, rfl, rfl, rfl, rfl, rfl, rfl, rfl, rfl, rfl, rfl, rfl, rfl, rfl⟩

@[simp] theorem maskCastling_fields (E : Env) (p : Position) (mask : Nat) :
    (p.maskCastling E mask).board = p.board
    ∧ (p.maskCastling E mask).allB = p.allB
    ∧ (p.maskCastling E mask).allPieces = p.allPieces
    ∧ (p.maskCastling E mask).mat = p.mat
    ∧ (p.maskCastling E mask).h = p.h ^^^ E.ZTCastling p.castling ^^^ E.ZTCastling (p.castling &&& mask)
    ∧ (p.maskCastling E mask).ph = p.ph
    ∧ (p.maskCastling E mask).lastMove = p.lastMove
    ∧ (p.maskCastling E mask).moves = p.moves
    ∧ (p.maskCastling E mask).halfmoves = p.halfmoves
    ∧ (p.maskCastling E mask).king = p.king
    ∧ (p.maskCastling E mask).rooksInit = p.rooksInit
    ∧ (p.maskCastling E mask).kingInit = p.kingInit
    ∧ (p.maskCastling E mask).ep = p.ep
    ∧ (p.maskCastling E mask).fifty = p.fifty
    ∧ (p.maskCastling E mask).castling = p.castling &&& mask
    ∧ (p.maskCastling E mask).c = p.c := by
  simp [Position.maskCastling]

@[simp] theorem incMoves_fields (E : Env) (p : Position) :
    (p.incMoves E).board = p.board
    ∧ (p.incMoves E).allB = p.allB
    ∧ (p.incMoves E).allPieces = p.allPieces
    ∧ (p.incMoves E).mat = p.mat
    ∧ (p.incMoves E).h = p.h
    ∧ (p.incMoves E).ph = p.ph
    ∧ (p.incMoves E).lastMove = p.lastMove
    ∧ (p.incMoves E).moves = (if p.c = Co_White then (p.moves + 1) % E.movesMod else p.moves)
    ∧ (p.incMoves E).halfmoves = p.halfmoves
    ∧ (p.incMoves E).king = p.king
    ∧ (p.incMoves E).rooksInit = p.rooksInit
    ∧ (p.incMoves E).kingInit = p.kingInit
    ∧ (p.incMoves E).ep = p.ep
    ∧ (p.incMoves E).fifty = p.fifty
    ∧ (p.incMoves E).castling = p.castling
    ∧ (p.incMoves E).c = p.c := by
  unfold Position.incMoves
  split_ifs <;> simp

@[simp] theorem clearEp_fields (E : Env) (p : Position) :
    (p.clearEp E).board = p.board
    ∧ (p.clearEp E).allB = p.allB
    ∧ (p.clearEp E).allPieces = p.allPieces
    ∧ (p.clearEp E).mat = p.mat
    ∧ (p.clearEp E).h = (if p.ep ≠ INVALIDSQUARE then p.h ^^^ E.ZT p.ep 13 else p.h)
    ∧ (p.clearEp E).ph = p.ph
    ∧ (p.clearEp E).lastMove = p.lastMove
    ∧ (p.clearEp E).moves = p.moves
    ∧ (p.clearEp E).halfmoves = p.halfmoves
    ∧ (p.clearEp E).king = p.king
    ∧ (p.clearEp E).rooksInit = p.rooksInit
    ∧ (p.clearEp E).kingInit = p.kingInit
    ∧ (p.clearEp E).ep = INVALIDSQUARE
    ∧ (p.clearEp E).fifty = p.fifty
    ∧ (p.clearEp E).castling = p.castling
    ∧ (p.clearEp E).c = p.c := by
  unfold Position.clearEp
  split_ifs <;> simp

@[simp] theorem flipColor_fields (E : Env) (p : Position) :
    (p.flipColor E).board = p.board
    ∧ (p.flipColor E).allB = p.allB
    ∧ (p.flipColor E).allPieces = p.allPieces
    ∧ (p.flipColor E).mat = p.mat
    ∧ (p.flipColor E).h = p.h ^^^ E.ZT 3 13 ^^^ E.ZT 4 13
    ∧ (p.flipColor E).ph = p.ph
    ∧ (p.flipColor E).lastMove = p.lastMove
    ∧ (p.flipColor E).moves = p.moves
    ∧ (p.flipColor E).halfmoves = p.halfmoves
    ∧ (p.flipColor E).king = p.king
    ∧ (p.flipColor E).rooksInit = p.rooksInit
    ∧ (p.flipColor E).kingInit = p.kingInit
    ∧ (p.flipColor E).ep = p.ep
    ∧ (p.flipColor E).fifty = p.fifty
    ∧ (p.flipColor E).castling = p.castling
    ∧ (p.flipColor E).c = p.c.flip := by
  simp [Position.flipColor]

/-! ## Bits of a bitboard -/

theorem toNat_eq_toNat_iff (s k : Int) (hs : 0 ≤ s) (hk : 0 ≤ k) : s.toNat = k.toNat ↔ s = k := by
  omega

theorem testBit_SquareToBitboard (k s : Int) (hk : 0 ≤ k) (hs : 0 ≤ s) :
    (SquareToBitboard k).testBit s.toNat = decide (s = k) := by
  unfold SquareToBitboard
  rw [Nat.one_shiftLeft, Nat.testBit_two_pow]
  by_cases h : s = k
  · subst h; simp
  · have : ¬ k.toNat = s.toNat := fun e => h ((toNat_eq_toNat_iff s k hs hk).1 e.symm)
    simp [h, this]

theorem testBit_bbNot (b : Nat) (i : Nat) (hi : i < 64) :
    (bbNot b).testBit i = !b.testBit i := by
  unfold bbNot fullBitBoard
  rw [Nat.testBit_xor, Nat.testBit_and, Nat.testBit_two_pow_sub_one]
  simp [hi]

theorem testBit_setBit (b : Nat) (k s : Int) (hk : 0 ≤ k) (hs : 0 ≤ s) :
    (_setBit b k).testBit s.toNat = (b.testBit s.toNat || decide (s = k)) := by
  unfold _setBit
  rw [Nat.testBit_or, testBit_SquareToBitboard k s hk hs]

theorem testBit_unSetBit (b : Nat) (k s : Int) (hk : 0 ≤ k) (hs : 0 ≤ s) (hs64 : s < 64) :
    (_unSetBit b k).testBit s.toNat = (b.testBit s.toNat && !decide (s = k)) := by
  unfold _unSetBit
  have h64 : s.toNat < 64 := by omega
  rw [Nat.testBit_and, testBit_bbNot _ _ h64, testBit_SquareToBitboard k s hk hs]

@[simp] theorem upd_same {ι α : Type} [DecidableEq ι] (a : ι → α) (i : ι) (v : α) :
    upd a i v i = v := by
  simp [upd]

theorem upd_apply {ι α : Type} [DecidableEq ι] (a : ι → α) (i j : ι) (v : α) :
    upd a i v j = if j = i then v else a j := rfl

theorem testBit_upd_setBit {ι : Type} [DecidableEq ι] (a : ι → Nat) (i j : ι) (k s : Int)
    (hk : 0 ≤ k) (hs : 0 ≤ s) :
    ((upd a i (_setBit (a i) k)) j).testBit s.toNat
      = ((a j).testBit s.toNat || decide (j = i ∧ s = k)) := by
  by_cases h : j = i
  · subst h
    simp [testBit_setBit _ _ _ hk hs]
  · simp [upd_apply, h]

theorem testBit_upd_unSetBit {ι : Type} [DecidableEq ι] (a : ι → Nat) (i j : ι) (k s : Int)
    (hk : 0 ≤ k) (hs : 0 ≤ s) (hs64 : s < 64) :
    ((upd a i (_unSetBit (a i) k)) j).testBit s.toNat
      = ((a j).testBit s.toNat && !decide (j = i ∧ s = k)) := by
  by_cases h : j = i
  · subst h
    simp [testBit_unSetBit _ _ _ hk hs hs64]
  · simp [upd_apply, h]

/-! ## Fields after the sections of `movePiece` -/

@[simp] theorem movePieceBoard_fields (p : Position) (f t : Int) (v : Int) :
    (movePieceBoard p f t v).board = upd (upd p.board f P_none) t v
    ∧ (movePieceBoard p f t v).allB = p.allB
    ∧ (movePieceBoard p f t v).allPieces = p.allPieces
    ∧ (movePieceBoard p f t v).mat = p.mat
    ∧ (movePieceBoard p f t v).h = p.h
    ∧ (movePieceBoard p f t v).ph = p.ph
    ∧ (movePieceBoard p f t v).lastMove = p.lastMove
    ∧ (movePieceBoard p f t v).moves = p.moves
    ∧ (movePieceBoard p f t v).halfmoves = p.halfmoves
    ∧ (movePieceBoard p f t v).king = p.king
    ∧ (movePieceBoard p f t v).rooksInit = p.rooksInit
    ∧ (movePieceBoard p f t v).kingInit = p.kingInit
    ∧ (movePieceBoard p f t v).ep = p.ep
    ∧ (movePieceBoard p f t v).fifty = p.fifty
    ∧ (movePieceBoard p f t v).castling = p.castling
    ∧ (movePieceBoard p f t v).c = p.c := by
  simp [movePieceBoard]

theorem movePieceBitboards_frame (p : Position) (f t : Int) (fp tp v : Int) :
    (movePieceBitboards p f t fp tp v).board = p.board
    ∧ (movePieceBitboards p f t fp tp v).mat = p.mat
    ∧ (movePieceBitboards p f t fp tp v).h = p.h
    ∧ (movePieceBitboards p f t fp tp v).ph = p.ph
    ∧ (movePieceBitboards p f t fp tp v).lastMove = p.lastMove
    ∧ (movePieceBitboards p f t fp tp v).moves = p.moves
    ∧ (movePieceBitboards p f t fp tp v).halfmoves = p.halfmoves
    ∧ (movePieceBitboards p f t fp tp v).king = p.king
    ∧ (movePieceBitboards p f t fp tp v).rooksInit = p.rooksInit
    ∧ (movePieceBitboards p f t fp tp v).kingInit = p.kingInit
    ∧ (movePieceBitboards p f t fp tp v).ep = p.ep
    ∧ (movePieceBitboards p f t fp tp v).fifty = p.fifty
    ∧ (movePieceBitboards p f t fp tp v).castling = p.castling
    ∧ (movePieceBitboards p f t fp tp v).c = p.c := by
  unfold movePieceBitboards
  split_ifs <;> simp

theorem movePieceBitboards_allB (p : Position) (f t : Int) (fp tp v : Int) (id s : Int)
    (hf : 0 ≤ f) (ht : 0 ≤ t) (hs : 0 ≤ s) (hs64 : s < 64) :
    ((movePieceBitboards p f t fp tp v).allB id).testBit s.toNat
      = ((((p.allB id).testBit s.toNat && !decide (id = fp + PieceShift ∧ s = f))
          && !decide (tp ≠ P_none ∧ id = tp + PieceShift ∧ s = t))
          || decide (id = v + PieceShift ∧ s = t)) := by
  unfold movePieceBitboards
  by_cases h1 : tp ≠ P_none
  · simp only [if_pos h1, setOcc_fields, unSetOcc_fields, setBit_fields, unSetBit_fields,
      testBit_upd_setBit _ _ _ _ _ ht hs, testBit_upd_unSetBit _ _ _ _ _ hf hs hs64,
      testBit_upd_unSetBit _ _ _ _ _ ht hs hs64]
    simp [h1]
  · simp only [if_neg h1, setOcc_fields, unSetOcc_fields, setBit_fields, unSetBit_fields,
      testBit_upd_setBit _ _ _ _ _ ht hs, testBit_upd_unSetBit _ _ _ _ _ hf hs hs64,
      testBit_upd_unSetBit _ _ _ _ _ ht hs hs64]
    simp [h1]

theorem movePieceBitboards_allPieces (p : Position) (f t : Int) (fp tp v : Int) (col : Color)
    (s : Int) (hf : 0 ≤ f) (ht : 0 ≤ t) (hs : 0 ≤ s) (hs64 : s < 64) :
    ((movePieceBitboards p f t fp tp v).allPieces col).testBit s.toNat
      = ((((p.allPieces col).testBit s.toNat
            && !decide (col = (if fp > 0 then Co_White else Co_Black) ∧ s = f))
          && !decide (tp ≠ P_none ∧ col = (if tp > 0 then Co_White else Co_Black) ∧ s = t))
          || decide (col = (if fp > 0 then Co_White else Co_Black) ∧ s = t)) := by
  unfold movePieceBitboards
  by_cases h1 : tp ≠ P_none
  · simp only [if_pos h1, setOcc_fields, unSetOcc_fields, setBit_fields, unSetBit_fields,
      testBit_upd_setBit _ _ _ _ _ ht hs, testBit_upd_unSetBit _ _ _ _ _ hf hs hs64,
      testBit_upd_unSetBit _ _ _ _ _ ht hs hs64]
    simp [h1]
  · simp only [if_neg h1, setOcc_fields, unSetOcc_fields, setBit_fields, unSetBit_fields,
      testBit_upd_setBit _ _ _ _ _ ht hs, testBit_upd_unSetBit _ _ _ _ _ hf hs hs64,
      testBit_upd_unSetBit _ _ _ _ _ ht hs hs64]
    simp [h1]

@[simp] theorem movePieceHash_fields (E : Env) (p : Position) (f t : Int) (fromId toId toIdnew : Int) (tp : Int) (cap : Bool)
    (pr : Int) :
    (movePieceHash E p f t fromId toId toIdnew tp cap pr).board = p.board
    ∧ (movePieceHash E p f t fromId toId toIdnew tp cap pr).allB = p.allB
    ∧ (movePieceHash E p f t fromId toId toIdnew tp cap pr).allPieces = p.allPieces
    ∧ (movePieceHash E p f t fromId toId toIdnew tp cap pr).mat = p.mat
    ∧ (movePieceHash E p f t fromId toId toIdnew tp cap pr).h = p.h ^^^ E.ZT f fromId ^^^ E.ZT t toIdnew ^^^ (if cap = true then E.ZT t toId else 0)
    ∧ (movePieceHash E p f t fromId toId toIdnew tp cap pr).ph = p.ph ^^^ (if _helperPawnHash fromId = true then
          E.ZT f fromId ^^^ (if pr = P_none then E.ZT t toIdnew else 0) else 0)
        ^^^ (if cap = true ∧ (std_abs tp = P_wp ∨ std_abs tp = P_wk) then E.ZT t toId else 0)
    ∧ (movePieceHash E p f t fromId toId toIdnew tp cap pr).lastMove = p.lastMove
    ∧ (movePieceHash E p f t fromId toId toIdnew tp cap pr).moves = p.moves
    ∧ (movePieceHash E p f t fromId toId toIdnew tp cap pr).halfmoves = p.halfmoves
    ∧ (movePieceHash E p f t fromId toId toIdnew tp cap pr).king = p.king
    ∧ (movePieceHash E p f t fromId toId toIdnew tp cap pr).rooksInit = p.rooksInit
    ∧ (movePieceHash E p f t fromId toId toIdnew tp cap pr).kingInit = p.kingInit
    ∧ (movePieceHash E p f t fromId toId toIdnew tp cap pr).ep = p.ep
    ∧ (movePieceHash E p f t fromId toId toIdnew tp cap pr).fifty = p.fifty
    ∧ (movePieceHash E p f t fromId toId toIdnew tp cap pr).castling = p.castling
    ∧ (movePieceHash E p f t fromId toId toIdnew tp cap pr).c = p.c := by
  unfold movePieceHash
  split_ifs <;> simp_all [Nat.xor_assoc]

@[simp] theorem movePieceCastling_fields (E : Env) (p : Position) (f t : Int) :
    (movePieceCastling E p f t).board = p.board
    ∧ (movePieceCastling E p f t).allB = p.allB
    ∧ (movePieceCastling E p f t).allPieces = p.allPieces
    ∧ (movePieceCastling E p f t).mat = p.mat
    ∧ (movePieceCastling E p f t).h = p.h ^^^ E.ZTCastling p.castling
        ^^^ E.ZTCastling (movePieceCastling E p f t).castling
    ∧ (movePieceCastling E p f t).ph = p.ph
    ∧ (movePieceCastling E p f t).lastMove = p.lastMove
    ∧ (movePieceCastling E p f t).moves = p.moves
    ∧ (movePieceCastling E p f t).halfmoves = p.halfmoves
    ∧ (movePieceCastling E p f t).king = p.king
    ∧ (movePieceCastling E p f t).rooksInit = p.rooksInit
    ∧ (movePieceCastling E p f t).kingInit = p.kingInit
    ∧ (movePieceCastling E p f t).ep = p.ep
    ∧ (movePieceCastling E p f t).fifty = p.fifty
    ∧ (movePieceCastling E p f t).castling = (if p.castling ≠ 0
          ∧ Nat.xor (E.castlePermHashTable f) (E.castlePermHashTable t) ≠ 0
        then p.castling &&& (E.castlePermHashTable f &&& E.castlePermHashTable t)
        else p.castling)
    ∧ (movePieceCastling E p f t).c = p.c := by
  unfold movePieceCastling
  split_ifs <;> simp [Nat.xor_assoc]

@[simp] theorem movePieceKing_fields (p : Position) (t : Int) (fp tp : Int) :
    (movePieceKing p t fp tp).board = p.board
    ∧ (movePieceKing p t fp tp).allB = p.allB
    ∧ (movePieceKing p t fp tp).allPieces = p.allPieces
    ∧ (movePieceKing p t fp tp).mat = p.mat
    ∧ (movePieceKing p t fp tp).h = p.h
    ∧ (movePieceKing p t fp tp).ph = p.ph
    ∧ (movePieceKing p t fp tp).lastMove = p.lastMove
    ∧ (movePieceKing p t fp tp).moves = p.moves
    ∧ (movePieceKing p t fp tp).halfmoves = p.halfmoves
    ∧ (movePieceKing p t fp tp).rooksInit = p.rooksInit
    ∧ (movePieceKing p t fp tp).kingInit = p.kingInit
    ∧ (movePieceKing p t fp tp).ep = p.ep
    ∧ (movePieceKing p t fp tp).fifty = p.fifty
    ∧ (movePieceKing p t fp tp).castling = p.castling
    ∧ (movePieceKing p t fp tp).c = p.c := by
  unfold movePieceKing
  split_ifs <;> simp

theorem movePiece_frame (E : Env) (p : Position) (f t : Int) (fp tp : Int) (cap : Bool) (pr : Int) :
    (movePiece E p f t fp tp cap pr).board = upd (upd p.board f P_none) t (if pr ≠ P_none then pr else fp)
    ∧ (movePiece E p f t fp tp cap pr).mat = p.mat
    ∧ (movePiece E p f t fp tp cap pr).lastMove = p.lastMove
    ∧ (movePiece E p f t fp tp cap pr).moves = p.moves
    ∧ (movePiece E p f t fp tp cap pr).halfmoves = p.halfmoves
    ∧ (movePiece E p f t fp tp cap pr).rooksInit = p.rooksInit
    ∧ (movePiece E p f t fp tp cap pr).kingInit = p.kingInit
    ∧ (movePiece E p f t fp tp cap pr).ep = p.ep
    ∧ (movePiece E p f t fp tp cap pr).fifty = p.fifty
    ∧ (movePiece E p f t fp tp cap pr).c = p.c := by
  simp only [movePiece, movePieceKing_fields, movePieceCastling_fields, movePieceHash_fields,
    movePieceBitboards_frame, movePieceBoard_fields, and_self]

/-! ## XOR over the squares of a board -/

theorem xorUpTo_congr (f g : Nat → Nat) (n : Nat) (h : ∀ k, k < n → g k = f k) :
    xorUpTo g n = xorUpTo f n := by
  induction n with
  | zero => rfl
  | succ n ih =>
    simp only [xorUpTo]
    rw [ih (fun k hk => h k (Nat.lt_succ_of_lt hk)), h n (Nat.lt_succ_self n)]

theorem xorUpTo_congr_except (f g : Nat → Nat) (n s : Nat) (hs : s < n)
    (h : ∀ k, k < n → k ≠ s → g k = f k) :
    xorUpTo g n = xorUpTo f n ^^^ f s ^^^ g s := by
  induction n with
  | zero => omega
  | succ n ih =>
    simp only [xorUpTo]
    by_cases hsn : s = n
    · subst hsn
      rw [xorUpTo_congr f g s (fun k hk => h k (Nat.lt_succ_of_lt hk) (Nat.ne_of_lt hk))]
      simp only [Nat.xor_assoc, Nat.xor_self, Nat.zero_xor, Nat.xor_cancel_left]
    · have hlt : s < n := by omega
      rw [ih hlt (fun k hk hne => h k (Nat.lt_succ_of_lt hk) hne),
        h n (Nat.lt_succ_self n) (fun e => hsn e.symm)]
      ac_rfl

/-- Writing one square of the board exchanges the key of that square in a XOR over the 64
squares. -/
theorem xorUpTo_upd (key : Int → Int → Nat) (b : Int → Int) (s v : Int) (h0 : 0 ≤ s)
    (h64 : s < 64) :
    xorUpTo (fun k => key (k : Int) (upd b s v (k : Int))) 64
      = xorUpTo (fun k => key (k : Int) (b (k : Int))) 64 ^^^ key s (b s) ^^^ key s v := by
  have hs : s.toNat < 64 := by omega
  have hcast : ((s.toNat : Nat) : Int) = s := by omega
  have := xorUpTo_congr_except (fun k => key (k : Int) (b (k : Int)))
    (fun k => key (k : Int) (upd b s v (k : Int))) 64 s.toNat hs (by
      intro k _ hne
      have : (k : Int) ≠ s := by omega
      simp [upd_apply, this])
  simpa [hcast] using this

/-! ## What the validator guarantees -/

theorem ite_false_eq_true {c : Prop} [Decidable c] {b : Bool}
    (h : (if c then false else b) = true) : ¬ c ∧ b = true := by
  by_cases hc : c
  · rw [if_pos hc] at h
    exact absurd h (by decide)
  · rw [if_neg hc] at h
    exact ⟨hc, h⟩

/-- The tests of `isPseudoLegal` that precede the geometry: ownership of the origin, no own
piece and no king on the destination, a kind consistent with the destination, the en-passant
and promotion preconditions; and the geometry test itself. -/
theorem isPseudoLegal_head (E : Env) (p : Position) (m : Move)
    (h : isPseudoLegal E p (MoveSlot.played m) = true) :
    ¬ (p.board m.sqFrom = P_none ∨ (p.board m.sqFrom > 0 ∧ p.c = Co_Black)
        ∨ (p.board m.sqFrom < 0 ∧ p.c = Co_White))
    ∧ ¬ ((p.board m.sqTo > 0 ∧ p.c = Co_White) ∨ (p.board m.sqTo < 0 ∧ p.c = Co_Black))
    ∧ ¬ std_abs (p.board m.sqTo) = P_wk
    ∧ ¬ m.type = T_reserved
    ∧ ¬ (p.board m.sqTo = P_none ∧ (isCapture m.type = true ∧ m.type ≠ T_ep))
    ∧ ¬ (p.board m.sqTo ≠ P_none ∧ isCapture m.type = false)
    ∧ ¬ (m.type = T_ep ∧ (p.ep = INVALIDSQUARE ∨ std_abs (p.board m.sqFrom) ≠ P_wp))
    ∧ ¬ (m.type = T_ep ∧ p.board (p.ep + (if p.c = Co_White then -8 else 8))
          ≠ (if p.c = Co_White then P_bp else P_wp))
    ∧ ¬ (isPromotion m.type = true ∧ std_abs (p.board m.sqFrom) ≠ P_wp)
    ∧ isPseudoLegalGeometry E p m = true := by
  obtain ⟨h1, h⟩ := ite_false_eq_true h
  obtain ⟨h2, h⟩ := ite_false_eq_true h
  obtain ⟨h3, h⟩ := ite_false_eq_true h
  obtain ⟨h4, h⟩ := ite_false_eq_true h
  obtain ⟨h5, h⟩ := ite_false_eq_true h
  obtain ⟨h6, h⟩ := ite_false_eq_true h
  obtain ⟨h7, h⟩ := ite_false_eq_true h
  obtain ⟨h8, h⟩ := ite_false_eq_true h
  obtain ⟨h9, h⟩ := ite_false_eq_true h
  exact ⟨h1, h2, h3, h4, h5, h6, h7, h8, h9, h⟩

theorem testBit_of_and_SquareToBitboard_ne_zero (b : Nat) (k : Int)
    (h : (b &&& SquareToBitboard k) ≠ 0) : b.testBit k.toNat = true := by
  by_contra hb
  apply h
  apply Nat.eq_of_testBit_eq
  intro i
  unfold SquareToBitboard
  rw [Nat.testBit_and, Nat.one_shiftLeft, Nat.testBit_two_pow, Nat.zero_testBit]
  by_cases hi : k.toNat = i
  · subst hi
    simp [hb]
  · simp [hi]

/-- A square that is not in the occupancy of a position in which board and bitboards agree is
empty on the board. -/
theorem Agree.board_eq_none_of_not_occupied {p : Position} (hA : Agree p) (s : Int)
    (h0 : 0 ≤ s) (h64 : s < 64) (h : p.occupancy.testBit s.toNat = false) :
    p.board s = P_none := by
  by_contra hne
  have hcol := ((hA s h0 h64).2.2 (if p.board s > 0 then Co_White else Co_Black)).2 ⟨hne, rfl⟩
  unfold Position.occupancy at h
  rw [Nat.testBit_or] at h
  split_ifs at hcol <;> simp [hcol] at h

/-- An accepted en-passant move goes to the en-passant square, and that square is empty. -/
theorem isPseudoLegal_ep (E : Env) (p : Position) (m : Move)
    (h : isPseudoLegal E p (MoveSlot.played m) = true) (ht : m.type = T_ep) (hA : Agree p)
    (h0 : 0 ≤ m.sqTo) (h64 : m.sqTo < 64) :
    m.sqTo = p.ep ∧ p.board m.sqTo = P_none := by
  obtain ⟨_, _, _, _, _, _, h7, _, _, hg⟩ := isPseudoLegal_head E p m h
  have hpawn : std_abs (p.board m.sqFrom) = P_wp := by
    by_contra hc
    exact h7 ⟨ht, Or.inr hc⟩
  have hg2 : isPseudoLegalPawn E p m = true := by
    simpa [isPseudoLegalGeometry, Move2From, Move2To, Move2Type, ht, isCastling, hpawn] using hg
  obtain ⟨k1, hg3⟩ := ite_false_eq_true hg2
  obtain ⟨_, hg3⟩ := ite_false_eq_true hg3
  obtain ⟨_, hg3⟩ := ite_false_eq_true hg3
  obtain ⟨_, hg3⟩ := ite_false_eq_true hg3
  have hto : m.sqTo = p.ep := by
    by_contra hc
    exact k1 ⟨ht, hc⟩
  refine ⟨hto, ?_⟩
  simp only [Move2From, Move2To, Move2Type] at hg3
  by_cases hpush : ((if (E.push m.sqFrom p.c &&& p.occupancy) = emptyBitBoard
      then (E.push m.sqFrom p.c &&& bbNot p.occupancy) ||| (E.dpush m.sqFrom p.c &&& bbNot p.occupancy)
      else E.push m.sqFrom p.c &&& bbNot p.occupancy) &&& SquareToBitboard m.sqTo) ≠ 0
  · have hb := testBit_of_and_SquareToBitboard_ne_zero _ _ hpush
    have h64n : m.sqTo.toNat < 64 := by omega
    have hnot : (bbNot p.occupancy).testBit m.sqTo.toNat = true := by
      split_ifs at hb
      · rw [Nat.testBit_or, Nat.testBit_and, Nat.testBit_and] at hb
        cases hx : (bbNot p.occupancy).testBit m.sqTo.toNat
        · simp [hx] at hb
        · rfl
      · rw [Nat.testBit_and] at hb
        simp only [Bool.and_eq_true] at hb
        exact hb.2
    rw [testBit_bbNot _ _ h64n] at hnot
    exact hA.board_eq_none_of_not_occupied _ h0 h64 (by simpa using hnot)
  · rw [if_neg hpush] at hg3
    by_cases hcap : ((E.pawnAttack m.sqFrom p.c &&& bbNot (p.allPieces p.c))
          &&& SquareToBitboard m.sqTo) ≠ 0
        ∧ ((m.type ≠ T_ep ∧ p.board m.sqTo ≠ P_none)
          ∨ (m.type = T_ep ∧ m.sqTo = p.ep ∧ p.board m.sqTo = P_none))
    · rcases hcap.2 with hx | hx
      · exact absurd ht hx.1
      · exact hx.2.2
    · rw [if_neg hcap] at hg3
      exact absurd hg3 (by decide)

/-! ## Fields after `movePieceCastle`, the en-passant branch and the final part -/

@[simp] theorem movePieceCastleBitboards_frame (c : Color) (p : Position) (a b d e : Int) (pk pr : Int) :
    (movePieceCastleBitboards c p a b d e pk pr).board = p.board
    ∧ (movePieceCastleBitboards c p a b d e pk pr).mat = p.mat
    ∧ (movePieceCastleBitboards c p a b d e pk pr).h = p.h
    ∧ (movePieceCastleBitboards c p a b d e pk pr).ph = p.ph
    ∧ (movePieceCastleBitboards c p a b d e pk pr).lastMove = p.lastMove
    ∧ (movePieceCastleBitboards c p a b d e pk pr).moves = p.moves
    ∧ (movePieceCastleBitboards c p a b d e pk pr).halfmoves = p.halfmoves
    ∧ (movePieceCastleBitboards c p a b d e pk pr).king = p.king
    ∧ (movePieceCastleBitboards c p a b d e pk pr).rooksInit = p.rooksInit
    ∧ (movePieceCastleBitboards c p a b d e pk pr).kingInit = p.kingInit
    ∧ (movePieceCastleBitboards c p a b d e pk pr).ep = p.ep
    ∧ (movePieceCastleBitboards c p a b d e pk pr).fifty = p.fifty
    ∧ (movePieceCastleBitboards c p a b d e pk pr).castling = p.castling
    ∧ (movePieceCastleBitboards c p a b d e pk pr).c = p.c := by
  simp [movePieceCastleBitboards]

@[simp] theorem movePieceCastleBoard_frame (p : Position) (a b d e : Int) (pk pr : Int) :
    (movePieceCastleBoard p a b d e pk pr).allB = p.allB
    ∧ (movePieceCastleBoard p a b d e pk pr).allPieces = p.allPieces
    ∧ (movePieceCastleBoard p a b d e pk pr).mat = p.mat
    ∧ (movePieceCastleBoard p a b d e pk pr).h = p.h
    ∧ (movePieceCastleBoard p a b d e pk pr).ph = p.ph
    ∧ (movePieceCastleBoard p a b d e pk pr).lastMove = p.lastMove
    ∧ (movePieceCastleBoard p a b d e pk pr).moves = p.moves
    ∧ (movePieceCastleBoard p a b d e pk pr).halfmoves = p.halfmoves
    ∧ (movePieceCastleBoard p a b d e pk pr).king = p.king
    ∧ (movePieceCastleBoard p a b d e pk pr).rooksInit = p.rooksInit
    ∧ (movePieceCastleBoard p a b d e pk pr).kingInit = p.kingInit
    ∧ (movePieceCastleBoard p a b d e pk pr).ep = p.ep
    ∧ (movePieceCastleBoard p a b d e pk pr).fifty = p.fifty
    ∧ (movePieceCastleBoard p a b d e pk pr).castling = p.castling
    ∧ (movePieceCastleBoard p a b d e pk pr).c = p.c := by
  simp [movePieceCastleBoard]

@[simp] theorem movePieceCastleHash_frame (E : Env) (p : Position) (a b d e : Int) (pk pr : Int) :
    (movePieceCastleHash E p a b d e pk pr).board = p.board
    ∧ (movePieceCastleHash E p a b d e pk pr).allB = p.allB
    ∧ (movePieceCastleHash E p a b d e pk pr).allPieces = p.allPieces
    ∧ (movePieceCastleHash E p a b d e pk pr).mat = p.mat
    ∧ (movePieceCastleHash E p a b d e pk pr).lastMove = p.lastMove
    ∧ (movePieceCastleHash E p a b d e pk pr).moves = p.moves
    ∧ (movePieceCastleHash E p a b d e pk pr).halfmoves = p.halfmoves
    ∧ (movePieceCastleHash E p a b d e pk pr).king = p.king
    ∧ (movePieceCastleHash E p a b d e pk pr).rooksInit = p.rooksInit
    ∧ (movePieceCastleHash E p a b d e pk pr).kingInit = p.kingInit
    ∧ (movePieceCastleHash E p a b d e pk pr).ep = p.ep
    ∧ (movePieceCastleHash E p a b d e pk pr).fifty = p.fifty
    ∧ (movePieceCastleHash E p a b d e pk pr).castling = p.castling
    ∧ (movePieceCastleHash E p a b d e pk pr).c = p.c := by
  simp [movePieceCastleHash]

theorem movePieceCastle_frame (E : Env) (c : Color) (p : Position) (ct : CastlingTypes) (d e : Int) :
    (movePieceCastle E c p ct d e).mat = p.mat
    ∧ (movePieceCastle E c p ct d e).lastMove = p.lastMove
    ∧ (movePieceCastle E c p ct d e).moves = p.moves
    ∧ (movePieceCastle E c p ct d e).halfmoves = p.halfmoves
    ∧ (movePieceCastle E c p ct d e).rooksInit = p.rooksInit
    ∧ (movePieceCastle E c p ct d e).kingInit = p.kingInit
    ∧ (movePieceCastle E c p ct d e).ep = p.ep
    ∧ (movePieceCastle E c p ct d e).fifty = p.fifty
    ∧ (movePieceCastle E c p ct d e).c = p.c := by
  simp [movePieceCastle]

@[simp] theorem applyEpBitboards_frame (p : Position) (f t e : Int) (fp : Int) :
    (applyEpBitboards p f t e fp).board = p.board
    ∧ (applyEpBitboards p f t e fp).mat = p.mat
    ∧ (applyEpBitboards p f t e fp).h = p.h
    ∧ (applyEpBitboards p f t e fp).ph = p.ph
    ∧ (applyEpBitboards p f t e fp).lastMove = p.lastMove
    ∧ (applyEpBitboards p f t e fp).moves = p.moves
    ∧ (applyEpBitboards p f t e fp).halfmoves = p.halfmoves
    ∧ (applyEpBitboards p f t e fp).king = p.king
    ∧ (applyEpBitboards p f t e fp).rooksInit = p.rooksInit
    ∧ (applyEpBitboards p f t e fp).kingInit = p.kingInit
    ∧ (applyEpBitboards p f t e fp).ep = p.ep
    ∧ (applyEpBitboards p f t e fp).fifty = p.fifty
    ∧ (applyEpBitboards p f t e fp).castling = p.castling
    ∧ (applyEpBitboards p f t e fp).c = p.c := by
  simp [applyEpBitboards]

@[simp] theorem applyEpBoard_fields (p : Position) (f t e : Int) (fp : Int) :
    (applyEpBoard p f t e fp).board = upd (upd (upd p.board f P_none) t fp) e P_none
    ∧ (applyEpBoard p f t e fp).allB = p.allB
    ∧ (applyEpBoard p f t e fp).allPieces = p.allPieces
    ∧ (applyEpBoard p f t e fp).mat = p.mat
    ∧ (applyEpBoard p f t e fp).h = p.h
    ∧ (applyEpBoard p f t e fp).ph = p.ph
    ∧ (applyEpBoard p f t e fp).lastMove = p.lastMove
    ∧ (applyEpBoard p f t e fp).moves = p.moves
    ∧ (applyEpBoard p f t e fp).halfmoves = p.halfmoves
    ∧ (applyEpBoard p f t e fp).king = p.king
    ∧ (applyEpBoard p f t e fp).rooksInit = p.rooksInit
    ∧ (applyEpBoard p f t e fp).kingInit = p.kingInit
    ∧ (applyEpBoard p f t e fp).ep = p.ep
    ∧ (applyEpBoard p f t e fp).fifty = p.fifty
    ∧ (applyEpBoard p f t e fp).castling = p.castling
    ∧ (applyEpBoard p f t e fp).c = p.c := by
  simp [applyEpBoard]

@[simp] theorem applyEpHash_fields (E : Env) (p : Position) (f t e : Int) (fromId capId : Int) :
    (applyEpHash E p f t e fromId capId).board = p.board
    ∧ (applyEpHash E p f t e fromId capId).allB = p.allB
    ∧ (applyEpHash E p f t e fromId capId).allPieces = p.allPieces
    ∧ (applyEpHash E p f t e fromId capId).mat = p.mat
    ∧ (applyEpHash E p f t e fromId capId).h = p.h ^^^ E.ZT f fromId ^^^ E.ZT e capId ^^^ E.ZT t fromId
    ∧ (applyEpHash E p f t e fromId capId).ph = p.ph ^^^ E.ZT f fromId ^^^ E.ZT e capId ^^^ E.ZT t fromId
    ∧ (applyEpHash E p f t e fromId capId).lastMove = p.lastMove
    ∧ (applyEpHash E p f t e fromId capId).moves = p.moves
    ∧ (applyEpHash E p f t e fromId capId).halfmoves = p.halfmoves
    ∧ (applyEpHash E p f t e fromId capId).king = p.king
    ∧ (applyEpHash E p f t e fromId capId).rooksInit = p.rooksInit
    ∧ (applyEpHash E p f t e fromId capId).kingInit = p.kingInit
    ∧ (applyEpHash E p f t e fromId capId).ep = p.ep
    ∧ (applyEpHash E p f t e fromId capId).fifty = p.fifty
    ∧ (applyEpHash E p f t e fromId capId).castling = p.castling
    ∧ (applyEpHash E p f t e fromId capId).c = p.c := by
  simp [applyEpHash]

theorem applyEp_fields (E : Env) (p : Position) (f t : Int) (fp : Int) :
    (applyEp E p f t fp).board = upd (upd (upd p.board f P_none) t fp) (p.ep + (if p.c = Co_White then -8 else 8)) P_none
    ∧ (applyEp E p f t fp).mat = upd p.mat p.c.flip (upd (p.mat p.c.flip) M_p (matDec E (p.mat p.c.flip M_p)))
    ∧ (applyEp E p f t fp).h = p.h ^^^ E.ZT f (fp + PieceShift)
        ^^^ E.ZT (p.ep + (if p.c = Co_White then -8 else 8))
          ((if p.c = Co_White then P_bp else P_wp) + PieceShift)
        ^^^ E.ZT t (fp + PieceShift)
    ∧ (applyEp E p f t fp).ph = p.ph ^^^ E.ZT f (fp + PieceShift)
        ^^^ E.ZT (p.ep + (if p.c = Co_White then -8 else 8))
          ((if p.c = Co_White then P_bp else P_wp) + PieceShift)
        ^^^ E.ZT t (fp + PieceShift)
    ∧ (applyEp E p f t fp).lastMove = p.lastMove
    ∧ (applyEp E p f t fp).moves = p.moves
    ∧ (applyEp E p f t fp).halfmoves = p.halfmoves
    ∧ (applyEp E p f t fp).king = p.king
    ∧ (applyEp E p f t fp).rooksInit = p.rooksInit
    ∧ (applyEp E p f t fp).kingInit = p.kingInit
    ∧ (applyEp E p f t fp).ep = p.ep
    ∧ (applyEp E p f t fp).fifty = p.fifty
    ∧ (applyEp E p f t fp).castling = p.castling
    ∧ (applyEp E p f t fp).c = p.c := by
  simp [applyEp]

@[simp] theorem applyMoveEp_fields (E : Env) (p : Position) (f t : Int) (pawnMove : Bool) :
    (applyMoveEp E p f t pawnMove).board = p.board
    ∧ (applyMoveEp E p f t pawnMove).allB = p.allB
    ∧ (applyMoveEp E p f t pawnMove).allPieces = p.allPieces
    ∧ (applyMoveEp E p f t pawnMove).mat = p.mat
    ∧ (applyMoveEp E p f t pawnMove).h = p.h ^^^ epKey E p.ep
        ^^^ (if pawnMove = true ∧ std_abs (t - f) = 16 then E.ZT ((f + t) / 2) 13 else 0)
    ∧ (applyMoveEp E p f t pawnMove).ph = p.ph
    ∧ (applyMoveEp E p f t pawnMove).lastMove = p.lastMove
    ∧ (applyMoveEp E p f t pawnMove).moves = p.moves
    ∧ (applyMoveEp E p f t pawnMove).halfmoves = p.halfmoves
    ∧ (applyMoveEp E p f t pawnMove).king = p.king
    ∧ (applyMoveEp E p f t pawnMove).rooksInit = p.rooksInit
    ∧ (applyMoveEp E p f t pawnMove).kingInit = p.kingInit
    ∧ (applyMoveEp E p f t pawnMove).ep = (if pawnMove = true ∧ std_abs (t - f) = 16 then (f + t) / 2 else INVALIDSQUARE)
    ∧ (applyMoveEp E p f t pawnMove).fifty = p.fifty
    ∧ (applyMoveEp E p f t pawnMove).castling = p.castling
    ∧ (applyMoveEp E p f t pawnMove).c = p.c := by
  unfold applyMoveEp epKey
  split_ifs <;> simp_all

@[simp] theorem applyMoveGameState_fields (E : Env) (p : Position) (isCapNoEP pawnMove : Bool) :
    (applyMoveGameState E p isCapNoEP pawnMove).board = p.board
    ∧ (applyMoveGameState E p isCapNoEP pawnMove).allB = p.allB
    ∧ (applyMoveGameState E p isCapNoEP pawnMove).allPieces = p.allPieces
    ∧ (applyMoveGameState E p isCapNoEP pawnMove).mat = p.mat
    ∧ (applyMoveGameState E p isCapNoEP pawnMove).h = p.h
    ∧ (applyMoveGameState E p isCapNoEP pawnMove).ph = p.ph
    ∧ (applyMoveGameState E p isCapNoEP pawnMove).lastMove = p.lastMove
    ∧ (applyMoveGameState E p isCapNoEP pawnMove).moves = (if p.c = Co_White then (p.moves + 1) % E.movesMod else p.moves)
    ∧ (applyMoveGameState E p isCapNoEP pawnMove).halfmoves = (p.halfmoves + 1) % E.halfmovesMod
    ∧ (applyMoveGameState E p isCapNoEP pawnMove).king = p.king
    ∧ (applyMoveGameState E p isCapNoEP pawnMove).rooksInit = p.rooksInit
    ∧ (applyMoveGameState E p isCapNoEP pawnMove).kingInit = p.kingInit
    ∧ (applyMoveGameState E p isCapNoEP pawnMove).ep = p.ep
    ∧ (applyMoveGameState E p isCapNoEP pawnMove).fifty = (if isCapNoEP = true ∨ pawnMove = true then 0 else (p.fifty + 1) % E.fiftyMod)
    ∧ (applyMoveGameState E p isCapNoEP pawnMove).castling = p.castling
    ∧ (applyMoveGameState E p isCapNoEP pawnMove).c = p.c := by
  unfold applyMoveGameState
  split_ifs <;> simp_all

theorem applyMoveFinish_fields (E : Env) (p0 p : Position) (m : Move) :
    (applyMoveFinish E p0 p m).board = p.board
    ∧ (applyMoveFinish E p0 p m).allB = p.allB
    ∧ (applyMoveFinish E p0 p m).allPieces = p.allPieces
    ∧ (applyMoveFinish E p0 p m).h = p.h ^^^ epKey E p.ep
        ^^^ (if std_abs (p0.board m.sqFrom) = P_wp ∧ std_abs (m.sqTo - m.sqFrom) = 16
              then E.ZT ((m.sqFrom + m.sqTo) / 2) 13 else 0)
        ^^^ E.ZT 3 13 ^^^ E.ZT 4 13
    ∧ (applyMoveFinish E p0 p m).ph = p.ph
    ∧ (applyMoveFinish E p0 p m).lastMove = MoveSlot.played m
    ∧ (applyMoveFinish E p0 p m).moves = (if p.c.flip = Co_White then (p.moves + 1) % E.movesMod else p.moves)
    ∧ (applyMoveFinish E p0 p m).halfmoves = (p.halfmoves + 1) % E.halfmovesMod
    ∧ (applyMoveFinish E p0 p m).king = p.king
    ∧ (applyMoveFinish E p0 p m).rooksInit = p.rooksInit
    ∧ (applyMoveFinish E p0 p m).kingInit = p.kingInit
    ∧ (applyMoveFinish E p0 p m).ep = (if std_abs (p0.board m.sqFrom) = P_wp ∧ std_abs (m.sqTo - m.sqFrom) = 16
          then (m.sqFrom + m.sqTo) / 2 else INVALIDSQUARE)
    ∧ (applyMoveFinish E p0 p m).fifty = (if p0.board m.sqTo ≠ P_none ∨ std_abs (p0.board m.sqFrom) = P_wp then 0
          else (p.fifty + 1) % E.fiftyMod)
    ∧ (applyMoveFinish E p0 p m).castling = p.castling
    ∧ (applyMoveFinish E p0 p m).c = p.c.flip := by
  unfold applyMoveFinish
  simp only [Move2From, Move2To, Move2Type]
  by_cases hc : isCaptureOrProm m.type = true
  · simp [hc]
  · simp [hc]

/-- The `switch` of `applyMove` relocates pieces only: side to move, en-passant square,
counters, last move and the initial squares are those of the position before the call. -/
theorem applyMoveSwitch_frame (E : Env) (p : Position) (m : Move) :
    (applyMoveSwitch E p m).c = p.c
    ∧ (applyMoveSwitch E p m).ep = p.ep
    ∧ (applyMoveSwitch E p m).fifty = p.fifty
    ∧ (applyMoveSwitch E p m).moves = p.moves
    ∧ (applyMoveSwitch E p m).halfmoves = p.halfmoves
    ∧ (applyMoveSwitch E p m).lastMove = p.lastMove
    ∧ (applyMoveSwitch E p m).rooksInit = p.rooksInit
    ∧ (applyMoveSwitch E p m).kingInit = p.kingInit := by
  obtain ⟨f, t, ty, sc⟩ := m
  unfold applyMoveSwitch
  simp only [Move2Type, Move2From, Move2To]
  cases ty <;> simp only [movePiece_frame, movePieceCastle_frame, applyEp_fields, and_self]
    <;> split_ifs <;> simp

theorem applyMove_of_true (E : Env) (p : Position) (m : Move) (noValidation : Bool)
    (hok : (applyMove E p m noValidation).1 = true) :
    (applyMove E p m noValidation).2 = applyMoveFinish E p (applyMoveSwitch E p m) m := by
  simp only [applyMove] at hok ⊢
  by_cases h : (!noValidation
      && E.isAttacked (applyMoveSwitch E p m) (kingSquare (applyMoveSwitch E p m))) = true
  · rw [if_pos h] at hok
    exact absurd hok Bool.false_ne_true
  · rw [if_neg h]

theorem ite_color_eq_white (x : Int) :
    (if x > 0 then Co_White else Co_Black) = Co_White ↔ x > 0 := by
  split_ifs with h <;> simp [h]

theorem ite_color_eq_black (x : Int) :
    (if x > 0 then Co_White else Co_Black) = Co_Black ↔ ¬ x > 0 := by
  split_ifs with h <;> simp [h]

theorem white_eq_ite_color (x : Int) :
    Co_White = (if x > 0 then Co_White else Co_Black) ↔ x > 0 := by
  split_ifs with h <;> simp [h]

theorem black_eq_ite_color (x : Int) :
    Co_Black = (if x > 0 then Co_White else Co_Black) ↔ ¬ x > 0 := by
  split_ifs with h <;> simp [h]

theorem movePiece_allB (E : Env) (p : Position) (f t : Int) (fp tp : Int) (cap : Bool)
    (pr : Int) (id s : Int) (hf : 0 ≤ f) (ht : 0 ≤ t) (hs : 0 ≤ s) (hs64 : s < 64) :
    ((movePiece E p f t fp tp cap pr).allB id).testBit s.toNat
      = ((((p.allB id).testBit s.toNat && !decide (id = fp + PieceShift ∧ s = f))
          && !decide (tp ≠ P_none ∧ id = tp + PieceShift ∧ s = t))
          || decide (id = (if pr ≠ P_none then pr else fp) + PieceShift ∧ s = t)) := by
  simp only [movePiece, movePieceKing_fields, movePieceCastling_fields, movePieceHash_fields]
  rw [movePieceBitboards_allB _ _ _ _ _ _ _ _ hf ht hs hs64]
  simp only [movePieceBoard_fields]

theorem movePiece_allPieces (E : Env) (p : Position) (f t : Int) (fp tp : Int) (cap : Bool)
    (pr : Int) (col : Color) (s : Int) (hf : 0 ≤ f) (ht : 0 ≤ t) (hs : 0 ≤ s) (hs64 : s < 64) :
    ((movePiece E p f t fp tp cap pr).allPieces col).testBit s.toNat
      = ((((p.allPieces col).testBit s.toNat
            && !decide (col = (if fp > 0 then Co_White else Co_Black) ∧ s = f))
          && !decide (tp ≠ P_none ∧ col = (if tp > 0 then Co_White else Co_Black) ∧ s = t))
          || decide (col = (if fp > 0 then Co_White else Co_Black) ∧ s = t)) := by
  simp only [movePiece, movePieceKing_fields, movePieceCastling_fields, movePieceHash_fields]
  rw [movePieceBitboards_allPieces _ _ _ _ _ _ _ _ hf ht hs hs64]
  simp only [movePieceBoard_fields]

/-- The source's `movePiece` keeps board and bitboards in agreement when it moves the piece of the origin
square onto an empty square or onto a piece of the other colour, the piece put on the
destination being of the colour of the moved piece. -/
theorem movePiece_agree (E : Env) (p : Position) (f t : Int) (cap : Bool) (pr : Int)
    (hA : Agree p) (hf : 0 ≤ f) (hf64 : f < 64) (ht : 0 ≤ t) (ht64 : t < 64) (hft : f ≠ t)
    (hfp : p.board f ≠ P_none)
    (hv : -6 ≤ (if pr ≠ P_none then pr else p.board f)
      ∧ (if pr ≠ P_none then pr else p.board f) ≤ 6
      ∧ (if pr ≠ P_none then pr else p.board f) ≠ P_none
      ∧ ((if pr ≠ P_none then pr else p.board f) > 0 ↔ p.board f > 0))
    (htp : p.board t = P_none ∨ (p.board t > 0 ↔ ¬ p.board f > 0)) :
    Agree (movePiece E p f t (p.board f) (p.board t) cap pr) := by
  intro s hs hs64
  obtain ⟨hr, hb, hc⟩ := hA s hs hs64
  obtain ⟨hrf, hbf, hcf⟩ := hA f hf hf64
  obtain ⟨hrt, hbt, hct⟩ := hA t ht ht64
  generalize hvdef : (if pr ≠ P_none then pr else p.board f) = v at hv
  obtain ⟨hv1, hv2, hv3, hv4⟩ := hv
  refine ⟨?_, ?_, ?_⟩
  · rw [(movePiece_frame E p f t _ _ cap pr).1, hvdef]
    simp only [upd_apply, P_none]
    split_ifs <;> omega
  · intro pc hpc1 hpc2 hpc3
    rw [movePiece_allB E p f t _ _ cap pr _ s hf ht hs hs64,
      (movePiece_frame E p f t _ _ cap pr).1, hvdef]
    have hbs := hb pc hpc1 hpc2 hpc3
    simp only [upd_apply, P_none, PieceShift, add_left_inj, Bool.or_eq_true, Bool.and_eq_true,
      Bool.not_eq_true', decide_eq_true_eq, decide_eq_false_iff_not] at *
    rw [hbs]
    rcases eq_or_ne s t with h1 | h1
    · subst h1
      rw [if_pos rfl]
      omega
    · rcases eq_or_ne s f with h2 | h2
      · subst h2
        rw [if_neg h1, if_pos rfl]
        omega
      · rw [if_neg h1, if_neg h2]
        omega
  · intro col
    rw [movePiece_allPieces E p f t _ _ cap pr col s hf ht hs hs64,
      (movePiece_frame E p f t _ _ cap pr).1, hvdef]
    have hcs := hc col
    simp only [upd_apply, P_none, Bool.or_eq_true, Bool.and_eq_true,
      Bool.not_eq_true', decide_eq_true_eq, decide_eq_false_iff_not] at *
    rw [hcs]
    rcases eq_or_ne s t with h1 | h1
    · subst h1
      rw [if_pos rfl]
      cases col <;>
        simp only [ite_color_eq_white, ite_color_eq_black, white_eq_ite_color,
          black_eq_ite_color, and_true, true_and] <;> omega
    · rcases eq_or_ne s f with h2 | h2
      · subst h2
        rw [if_neg h1, if_pos rfl]
        cases col <;>
        simp only [ite_color_eq_white, ite_color_eq_black, white_eq_ite_color,
          black_eq_ite_color, and_true, true_and] <;> omega
      · rw [if_neg h1, if_neg h2]
        cases col <;>
        simp only [ite_color_eq_white, ite_color_eq_black, white_eq_ite_color,
          black_eq_ite_color, and_true, true_and] <;> omega

theorem applyEpBitboards_allB (p : Position) (f t e : Int) (fp : Int) (id s : Int)
    (hf : 0 ≤ f) (ht : 0 ≤ t) (he : 0 ≤ e) (hs : 0 ≤ s) (hs64 : s < 64) :
    ((applyEpBitboards p f t e fp).allB id).testBit s.toNat
      = ((((p.allB id).testBit s.toNat && !decide (id = -fp + PieceShift ∧ s = e))
          && !decide (id = fp + PieceShift ∧ s = f))
          || decide (id = fp + PieceShift ∧ s = t)) := by
  simp only [applyEpBitboards, setOcc_fields, unSetOcc_fields, setBit_fields, unSetBit_fields,
    testBit_upd_setBit _ _ _ _ _ ht hs, testBit_upd_unSetBit _ _ _ _ _ hf hs hs64,
    testBit_upd_unSetBit _ _ _ _ _ he hs hs64]

theorem applyEpBitboards_allPieces (p : Position) (f t e : Int) (fp : Int) (col : Color)
    (s : Int) (hf : 0 ≤ f) (ht : 0 ≤ t) (he : 0 ≤ e) (hs : 0 ≤ s) (hs64 : s < 64) :
    ((applyEpBitboards p f t e fp).allPieces col).testBit s.toNat
      = ((((p.allPieces col).testBit s.toNat
            && !decide (col = (if fp > 0 then Co_Black else Co_White) ∧ s = e))
          && !decide (col = (if fp > 0 then Co_White else Co_Black) ∧ s = f))
          || decide (col = (if fp > 0 then Co_White else Co_Black) ∧ s = t)) := by
  simp only [applyEpBitboards, setOcc_fields, unSetOcc_fields, setBit_fields, unSetBit_fields,
    testBit_upd_setBit _ _ _ _ _ ht hs, testBit_upd_unSetBit _ _ _ _ _ hf hs hs64,
    testBit_upd_unSetBit _ _ _ _ _ he hs hs64]

theorem applyEp_allB (E : Env) (p : Position) (f t : Int) (fp : Int) (id s : Int)
    (hf : 0 ≤ f) (ht : 0 ≤ t) (he : 0 ≤ p.ep + (if p.c = Co_White then -8 else 8))
    (hs : 0 ≤ s) (hs64 : s < 64) :
    ((applyEp E p f t fp).allB id).testBit s.toNat
      = ((((p.allB id).testBit s.toNat
            && !decide (id = -fp + PieceShift ∧ s = p.ep + (if p.c = Co_White then -8 else 8)))
          && !decide (id = fp + PieceShift ∧ s = f))
          || decide (id = fp + PieceShift ∧ s = t)) := by
  simp only [applyEp, decMat_fields, applyEpHash_fields, applyEpBoard_fields]
  rw [applyEpBitboards_allB _ _ _ _ _ _ _ hf ht he hs hs64]

theorem applyEp_allPieces (E : Env) (p : Position) (f t : Int) (fp : Int) (col : Color)
    (s : Int) (hf : 0 ≤ f) (ht : 0 ≤ t) (he : 0 ≤ p.ep + (if p.c = Co_White then -8 else 8))
    (hs : 0 ≤ s) (hs64 : s < 64) :
    ((applyEp E p f t fp).allPieces col).testBit s.toNat
      = ((((p.allPieces col).testBit s.toNat
            && !decide (col = (if fp > 0 then Co_Black else Co_White)
                ∧ s = p.ep + (if p.c = Co_White then -8 else 8)))
          && !decide (col = (if fp > 0 then Co_White else Co_Black) ∧ s = f))
          || decide (col = (if fp > 0 then Co_White else Co_Black) ∧ s = t)) := by
  simp only [applyEp, decMat_fields, applyEpHash_fields, applyEpBoard_fields]
  rw [applyEpBitboards_allPieces _ _ _ _ _ _ _ hf ht he hs hs64]

theorem ite_color_eq_white' (x : Int) :
    (if x > 0 then Co_Black else Co_White) = Co_White ↔ ¬ x > 0 := by
  split_ifs with h <;> simp [h]

theorem ite_color_eq_black' (x : Int) :
    (if x > 0 then Co_Black else Co_White) = Co_Black ↔ x > 0 := by
  split_ifs with h <;> simp [h]

theorem white_eq_ite_color' (x : Int) :
    Co_White = (if x > 0 then Co_Black else Co_White) ↔ ¬ x > 0 := by
  split_ifs with h <;> simp [h]

theorem black_eq_ite_color' (x : Int) :
    Co_Black = (if x > 0 then Co_Black else Co_White) ↔ x > 0 := by
  split_ifs with h <;> simp [h]

/-- The en-passant branch keeps board and bitboards in agreement when a pawn on the origin
square goes to an empty destination and the pawn of the other colour stands on the capture
square, the three squares being distinct. -/
theorem applyEp_agree (E : Env) (p : Position) (f t : Int)
    (hA : Agree p) (hf : 0 ≤ f) (hf64 : f < 64) (ht : 0 ≤ t) (ht64 : t < 64)
    (he : 0 ≤ p.ep + (if p.c = Co_White then -8 else 8))
    (he64 : p.ep + (if p.c = Co_White then -8 else 8) < 64)
    (hft : f ≠ t) (het : p.ep + (if p.c = Co_White then -8 else 8) ≠ t)
    (hef : p.ep + (if p.c = Co_White then -8 else 8) ≠ f)
    (hfp : p.board f = 1 ∨ p.board f = -1)
    (hcap : p.board (p.ep + (if p.c = Co_White then -8 else 8)) = -p.board f)
    (htp : p.board t = P_none) :
    Agree (applyEp E p f t (p.board f)) := by
  intro s hs hs64
  generalize hedef : p.ep + (if p.c = Co_White then -8 else 8) = e at *
  obtain ⟨hr, hb, hc⟩ := hA s hs hs64
  refine ⟨?_, ?_, ?_⟩
  · rw [(applyEp_fields E p f t _).1, hedef]
    simp only [upd_apply, P_none]
    split_ifs <;> omega
  · intro pc hpc1 hpc2 hpc3
    rw [applyEp_allB E p f t _ _ s hf ht (by rw [hedef]; exact he) hs hs64,
      (applyEp_fields E p f t _).1, hedef]
    have hbs := hb pc hpc1 hpc2 hpc3
    simp only [upd_apply, P_none, PieceShift, add_left_inj, Bool.or_eq_true, Bool.and_eq_true,
      Bool.not_eq_true', decide_eq_true_eq, decide_eq_false_iff_not] at *
    rw [hbs]
    rcases eq_or_ne s e with h1 | h1
    · subst h1
      rw [if_pos rfl]
      omega
    · rcases eq_or_ne s t with h2 | h2
      · subst h2
        rw [if_neg h1, if_pos rfl]
        omega
      · rcases eq_or_ne s f with h3 | h3
        · subst h3
          rw [if_neg h1, if_neg h2, if_pos rfl]
          omega
        · rw [if_neg h1, if_neg h2, if_neg h3]
          omega
  · intro col
    rw [applyEp_allPieces E p f t _ col s hf ht (by rw [hedef]; exact he) hs hs64,
      (applyEp_fields E p f t _).1, hedef]
    have hcs := hc col
    simp only [upd_apply, P_none, Bool.or_eq_true, Bool.and_eq_true,
      Bool.not_eq_true', decide_eq_true_eq, decide_eq_false_iff_not] at *
    rw [hcs]
    rcases eq_or_ne s e with h1 | h1
    · subst h1
      rw [if_pos rfl]
      cases col <;>
        simp only [ite_color_eq_white, ite_color_eq_black, white_eq_ite_color,
          black_eq_ite_color, ite_color_eq_white', ite_color_eq_black', white_eq_ite_color',
          black_eq_ite_color', and_true, true_and] <;> omega
    · rcases eq_or_ne s t with h2 | h2
      · subst h2
        rw [if_neg h1, if_pos rfl]
        cases col <;>
          simp only [ite_color_eq_white, ite_color_eq_black, white_eq_ite_color,
            black_eq_ite_color, ite_color_eq_white', ite_color_eq_black', white_eq_ite_color',
            black_eq_ite_color', and_true, true_and] <;> omega
      · rcases eq_or_ne s f with h3 | h3
        · subst h3
          rw [if_neg h1, if_neg h2, if_pos rfl]
          cases col <;>
            simp only [ite_color_eq_white, ite_color_eq_black, white_eq_ite_color,
              black_eq_ite_color, ite_color_eq_white', ite_color_eq_black', white_eq_ite_color',
              black_eq_ite_color', and_true, true_and] <;> omega
        · rw [if_neg h1, if_neg h2, if_neg h3]
          cases col <;>
            simp only [ite_color_eq_white, ite_color_eq_black, white_eq_ite_color,
              black_eq_ite_color, ite_color_eq_white', ite_color_eq_black', white_eq_ite_color',
              black_eq_ite_color', and_true, true_and] <;> omega

theorem Agree.congr {p q : Position} (hA : Agree p) (h1 : q.board = p.board)
    (h2 : q.allB = p.allB) (h3 : q.allPieces = p.allPieces) : Agree q := by
  intro s hs hs64
  unfold AgreeAt
  rw [h1, h2, h3]
  exact hA s hs hs64

theorem movePiece_agree_of (E : Env) (p p1 : Position) (f t : Int) (cap : Bool) (pr : Int)
    (hA : Agree p) (h1 : p1.board = p.board) (h2 : p1.allB = p.allB)
    (h3 : p1.allPieces = p.allPieces)
    (hf : 0 ≤ f) (hf64 : f < 64) (ht : 0 ≤ t) (ht64 : t < 64) (hft : f ≠ t)
    (hfp : p.board f ≠ P_none)
    (hv : -6 ≤ (if pr ≠ P_none then pr else p.board f)
      ∧ (if pr ≠ P_none then pr else p.board f) ≤ 6
      ∧ (if pr ≠ P_none then pr else p.board f) ≠ P_none
      ∧ ((if pr ≠ P_none then pr else p.board f) > 0 ↔ p.board f > 0))
    (htp : p.board t = P_none ∨ (p.board t > 0 ↔ ¬ p.board f > 0)) :
    Agree (movePiece E p1 f t (p.board f) (p.board t) cap pr) := by
  have hA1 : Agree p1 := hA.congr h1 h2 h3
  have := movePiece_agree E p1 f t cap pr hA1 hf hf64 ht ht64 hft (by rw [h1]; exact hfp)
    (by rw [h1]; exact hv) (by rw [h1]; exact htp)
  rw [h1] at this
  exact this

/-- What the early tests of the validator give for a move that is not a castling move: origin
and destination differ, the origin holds a piece of the side to move, the destination is empty
or holds a piece of the other side. -/
theorem isPseudoLegal_squares (E : Env) (p : Position) (m : Move)
    (h : isPseudoLegal E p (MoveSlot.played m) = true) :
    m.sqFrom ≠ m.sqTo ∧ p.board m.sqFrom ≠ 0
    ∧ (p.board m.sqFrom > 0 ↔ p.c = Co_White)
    ∧ (p.board m.sqTo = 0 ∨ (p.board m.sqTo > 0 ↔ ¬ p.board m.sqFrom > 0)) := by
  obtain ⟨h1, h2, _⟩ := isPseudoLegal_head E p m h
  simp only [P_none] at h1 h2
  have hne : m.sqFrom ≠ m.sqTo := by
    intro e
    rw [← e] at h2
    cases hc : p.c <;> simp [hc] at h1 h2 <;> omega
  refine ⟨hne, ?_, ?_, ?_⟩
  · cases hc : p.c <;> simp [hc] at h1 h2 <;> omega
  · cases hc : p.c <;> simp [hc] at h1 h2 ⊢ <;> omega
  · cases hc : p.c <;> simp [hc] at h1 h2 ⊢ <;> omega

theorem applyMoveAsserts_squares (p : Position) (m : Move) (h : applyMoveAsserts p m = true) :
    (0 ≤ m.sqFrom ∧ m.sqFrom < 64) ∧ (0 ≤ m.sqTo ∧ m.sqTo < 64)
    ∧ (m.type = T_ep → p.ep ≠ INVALIDSQUARE
        ∧ 0 ≤ p.ep + (if p.c = Co_White then -8 else 8)
        ∧ p.ep + (if p.c = Co_White then -8 else 8) < 64) := by
  simp only [applyMoveAsserts, squareOK, Move2From, Move2To, Move2Type, NbSquare,
    Bool.and_eq_true, Bool.or_eq_true, decide_eq_true_eq] at h
  obtain ⟨⟨h1, h2⟩, h3⟩ := h
  refine ⟨h1, h2, fun he => ?_⟩
  rcases h3 with h3 | h3
  · exact absurd he h3
  · exact ⟨h3.1, h3.2.1, h3.2.2⟩

/-- The piece relocation of a validated quiet, capturing, en-passant or promotion move keeps
board and bitboards in agreement. -/
theorem applyMoveSwitch_agree (E : Env) (p : Position) (m : Move)
    (hassert : applyMoveAsserts p m = true) (hA : Agree p)
    (hpl : isPseudoLegal E p (MoveSlot.played m) = true) (hkind : isStdKind m.type = true) :
    Agree (applyMoveSwitch E p m) := by
  obtain ⟨hne, hfp, hown, htp⟩ := isPseudoLegal_squares E p m hpl
  obtain ⟨_, _, _, _, _, _, h7, h8, h9, _⟩ := isPseudoLegal_head E p m hpl
  obtain ⟨⟨hf, hf64⟩, ⟨ht, ht64⟩, hep⟩ := applyMoveAsserts_squares p m hassert
  obtain ⟨hrf, _, _⟩ := hA m.sqFrom hf hf64
  have hepfacts := fun ht' => isPseudoLegal_ep E p m hpl ht' hA ht ht64
  obtain ⟨f, t, ty, sc⟩ := m
  simp only at *
  cases ty <;> simp only [isStdKind, isPromotion] at hkind
  case T_ep =>
    obtain ⟨hto, htn⟩ := hepfacts rfl
    obtain ⟨_, he, he64⟩ := hep rfl
    simp only [applyMoveSwitch, Move2From, Move2To, Move2Type]
    have hpawn : std_abs (p.board f) = P_wp := by
      by_contra hc
      exact h7 ⟨rfl, Or.inr hc⟩
    have hcap : p.board (p.ep + (if p.c = Co_White then -8 else 8))
        = (if p.c = Co_White then P_bp else P_wp) := by
      by_contra hc
      exact h8 ⟨rfl, hc⟩
    simp only [std_abs, P_wp, P_bp] at hpawn hcap
    apply applyEp_agree E p f t hA hf hf64 ht ht64 he he64 hne
    · subst hto
      cases hc : p.c <;> simp
    · intro e
      rw [e] at hcap
      cases hc : p.c <;> simp [hc] at hcap hown <;> split_ifs at hpawn <;> omega
    · split_ifs at hpawn <;> omega
    · rw [hcap]
      cases hc : p.c <;> simp [hc] at hown ⊢ <;> split_ifs at hpawn <;> omega
    · exact htn
  all_goals first
    | exact absurd hkind Bool.false_ne_true
    | (simp only [applyMoveSwitch, Move2From, Move2To, Move2Type]
       apply movePiece_agree_of E p _ f t _ _ hA _ _ _ hf hf64 ht ht64 hne hfp _ htp
       all_goals first
         | rfl
         | (split_ifs <;> rfl)
         | (simp only [promPieceOf, P_none, P_wq, P_bq, P_wr, P_br, P_wb, P_bb, P_wn, P_bn]
            cases hc : p.c <;> simp [hc] at hown ⊢ <;> omega))

/-! ## Incremental hashes -/

theorem movePiece_h (E : Env) (p : Position) (f t : Int) (fp tp : Int) (cap : Bool) (pr : Int) :
    (movePiece E p f t fp tp cap pr).h
      = p.h ^^^ E.ZT f (fp + PieceShift)
        ^^^ E.ZT t (if pr ≠ P_none then pr + PieceShift else fp + PieceShift)
        ^^^ (if cap = true then E.ZT t (tp + PieceShift) else 0)
        ^^^ E.ZTCastling p.castling
        ^^^ E.ZTCastling (movePiece E p f t fp tp cap pr).castling := by
  simp only [movePiece, movePieceKing_fields, movePieceCastling_fields, movePieceHash_fields,
    movePieceBitboards_frame, movePieceBoard_fields]

theorem movePiece_ph (E : Env) (p : Position) (f t : Int) (fp tp : Int) (cap : Bool) (pr : Int) :
    (movePiece E p f t fp tp cap pr).ph
      = p.ph ^^^ (if _helperPawnHash (fp + PieceShift) = true then
          E.ZT f (fp + PieceShift)
            ^^^ (if pr = P_none then
                  E.ZT t (if pr ≠ P_none then pr + PieceShift else fp + PieceShift) else 0)
          else 0)
        ^^^ (if cap = true ∧ (std_abs tp = P_wp ∨ std_abs tp = P_wk)
              then E.ZT t (tp + PieceShift) else 0) := by
  simp only [movePiece, movePieceKing_fields, movePieceCastling_fields, movePieceHash_fields,
    movePieceBitboards_frame, movePieceBoard_fields]

/-- The XOR of the keys of the board after `board[f] = none; board[t] = v` with `f ≠ t`. -/
theorem xorUpTo_move (key : Int → Int → Nat) (b : Int → Int) (f t v : Int)
    (hf : 0 ≤ f) (hf64 : f < 64) (ht : 0 ≤ t) (ht64 : t < 64) (hft : f ≠ t) :
    xorUpTo (fun k => key (k : Int) (upd (upd b f P_none) t v (k : Int))) 64
      = xorUpTo (fun k => key (k : Int) (b (k : Int))) 64
        ^^^ key f (b f) ^^^ key f P_none ^^^ key t (b t) ^^^ key t v := by
  rw [xorUpTo_upd key (upd b f P_none) t v ht ht64, xorUpTo_upd key b f P_none hf hf64]
  have : upd b f P_none t = b t := by rw [upd_apply, if_neg (Ne.symm hft)]
  rw [this]

theorem xor_hash_step (B ep c0 c1 side a b c : Nat) :
    (B ^^^ ep ^^^ c0 ^^^ side) ^^^ a ^^^ b ^^^ c ^^^ c0 ^^^ c1
      = (B ^^^ a ^^^ 0 ^^^ c ^^^ b) ^^^ ep ^^^ c1 ^^^ side := by
  simp only [Nat.xor_zero]
  ac_nf
  simp only [Nat.xor_cancel_left, Nat.xor_self, Nat.xor_zero]

/-- The source's `movePiece` keeps the full hash equal to the hash computed from scratch when it moves a
piece of the origin square to another square and the capture flag tells whether the
destination was occupied. -/
theorem movePiece_hashOK (E : Env) (p : Position) (f t : Int) (cap : Bool) (pr : Int)
    (hh : p.h = computeHash E p)
    (hf : 0 ≤ f) (hf64 : f < 64) (ht : 0 ≤ t) (ht64 : t < 64) (hft : f ≠ t)
    (hfp : p.board f ≠ P_none) (hv : (if pr ≠ P_none then pr else p.board f) ≠ P_none)
    (hcap : cap = true ↔ p.board t ≠ P_none) :
    (movePiece E p f t (p.board f) (p.board t) cap pr).h
      = computeHash E (movePiece E p f t (p.board f) (p.board t) cap pr) := by
  rw [movePiece_h]
  unfold computeHash
  simp only [movePiece_frame E p f t _ _ cap pr]
  rw [xorUpTo_move (pieceKey E) p.board f t _ hf hf64 ht ht64 hft, hh]
  unfold computeHash
  have k1 : pieceKey E f (p.board f) = E.ZT f (p.board f + PieceShift) := by
    simp [pieceKey, hfp]
  have k2 : pieceKey E f P_none = 0 := by simp [pieceKey]
  have k3 : pieceKey E t (p.board t)
      = if cap = true then E.ZT t (p.board t + PieceShift) else 0 := by
    unfold pieceKey
    by_cases hc : cap = true
    · rw [if_pos hc, if_pos (hcap.1 hc)]
    · rw [if_neg hc, if_neg (fun e => hc (hcap.2 e))]
  have k4 : pieceKey E t (if pr ≠ P_none then pr else p.board f)
      = E.ZT t (if pr ≠ P_none then pr + PieceShift else p.board f + PieceShift) := by
    unfold pieceKey
    rw [if_pos hv]
    split_ifs <;> rfl
  rw [k1, k2, k3, k4]
  exact xor_hash_step _ _ _ _ _ _ _ _

theorem helperPawnHash_iff (x : Int) :
    _helperPawnHash (x + PieceShift) = true ↔ (std_abs x = P_wp ∨ std_abs x = P_wk) := by
  simp only [_helperPawnHash, PieceShift, std_abs, P_wp, P_wk, Bool.or_eq_true,
    decide_eq_true_eq]
  split_ifs <;> omega

theorem xor_phash_step (B a b c : Nat) :
    B ^^^ (a ^^^ b) ^^^ c = B ^^^ a ^^^ 0 ^^^ c ^^^ b := by
  simp only [Nat.xor_zero]
  ac_rfl

/-- The source's `movePiece` keeps the pawn hash equal to the XOR of the keys of the pawns and kings on
the board, the capture flag telling whether the destination was occupied and a promotion
piece being neither pawn nor king. -/
theorem movePiece_phashOK (E : Env) (p : Position) (f t : Int) (cap : Bool) (pr : Int)
    (hh : p.ph = computePHash E p)
    (hf : 0 ≤ f) (hf64 : f < 64) (ht : 0 ≤ t) (ht64 : t < 64) (hft : f ≠ t)
    (hpr : pr ≠ P_none → ¬ (std_abs pr = P_wp ∨ std_abs pr = P_wk))
    (hcap : cap = true ↔ p.board t ≠ P_none) :
    (movePiece E p f t (p.board f) (p.board t) cap pr).ph
      = computePHash E (movePiece E p f t (p.board f) (p.board t) cap pr) := by
  rw [movePiece_ph]
  unfold computePHash
  simp only [movePiece_frame E p f t _ _ cap pr]
  rw [xorUpTo_move (pawnKey E) p.board f t _ hf hf64 ht ht64 hft, hh]
  unfold computePHash
  have k2 : pawnKey E f P_none = 0 := by simp [pawnKey, std_abs, P_none, P_wp, P_wk]
  have k3 : pawnKey E t (p.board t)
      = if cap = true ∧ (std_abs (p.board t) = P_wp ∨ std_abs (p.board t) = P_wk)
          then E.ZT t (p.board t + PieceShift) else 0 := by
    unfold pawnKey
    by_cases hc : std_abs (p.board t) = P_wp ∨ std_abs (p.board t) = P_wk
    · have hne : p.board t ≠ P_none := by
        intro e
        rw [e] at hc
        simp [std_abs, P_none, P_wp, P_wk] at hc
      rw [if_pos hc, if_pos ⟨hcap.2 hne, hc⟩]
    · rw [if_neg hc, if_neg (fun e => hc e.2)]
  rw [k2, k3]
  unfold pawnKey
  by_cases hprn : pr = P_none
  · subst hprn
    simp only [ne_eq, not_true_eq_false, if_false, if_true, helperPawnHash_iff]
    by_cases hc : std_abs (p.board f) = P_wp ∨ std_abs (p.board f) = P_wk
    · simp only [if_pos hc]
      exact xor_phash_step _ _ _ _
    · simp only [if_neg hc, Nat.xor_zero]
  · simp only [ne_eq, hprn, not_false_eq_true, if_true, if_false, helperPawnHash_iff,
      if_neg (hpr hprn), Nat.xor_zero]

theorem movePiece_hashes_of (E : Env) (p p1 : Position) (f t : Int) (cap : Bool) (pr : Int)
    (h1 : p1.board = p.board) (h2 : p1.ep = p.ep) (h3 : p1.castling = p.castling)
    (h4 : p1.c = p.c) (h5 : p1.h = p.h) (h6 : p1.ph = p.ph)
    (hf : 0 ≤ f) (hf64 : f < 64) (ht : 0 ≤ t) (ht64 : t < 64) (hft : f ≠ t)
    (hfp : p.board f ≠ P_none) (hv : (if pr ≠ P_none then pr else p.board f) ≠ P_none)
    (hpr : pr ≠ P_none → ¬ (std_abs pr = P_wp ∨ std_abs pr = P_wk))
    (hcap : cap = true ↔ p.board t ≠ P_none) :
    (p.h = computeHash E p →
      (movePiece E p1 f t (p.board f) (p.board t) cap pr).h
        = computeHash E (movePiece E p1 f t (p.board f) (p.board t) cap pr))
    ∧ (p.ph = computePHash E p →
      (movePiece E p1 f t (p.board f) (p.board t) cap pr).ph
        = computePHash E (movePiece E p1 f t (p.board f) (p.board t) cap pr)) := by
  have e1 : computeHash E p1 = computeHash E p := by
    unfold computeHash
    rw [h1, h2, h3, h4]
  have e2 : computePHash E p1 = computePHash E p := by
    unfold computePHash
    rw [h1]
  rw [← h1]
  rw [← h1] at hfp hv hcap
  constructor
  · intro hh
    exact movePiece_hashOK E p1 f t cap pr (by rw [h5, e1]; exact hh) hf hf64 ht ht64 hft hfp hv
      hcap
  · intro hh
    exact movePiece_phashOK E p1 f t cap pr (by rw [h6, e2]; exact hh) hf hf64 ht ht64 hft hpr
      hcap

theorem xor_ep_step (B ep c0 side a b c : Nat) :
    (B ^^^ ep ^^^ c0 ^^^ side) ^^^ a ^^^ b ^^^ c
      = (B ^^^ a ^^^ 0 ^^^ 0 ^^^ c ^^^ b ^^^ 0) ^^^ ep ^^^ c0 ^^^ side := by
  simp only [Nat.xor_zero]
  ac_rfl

theorem xor_ep_pstep (B a b c : Nat) :
    B ^^^ a ^^^ b ^^^ c = B ^^^ a ^^^ 0 ^^^ 0 ^^^ c ^^^ b ^^^ 0 := by
  simp only [Nat.xor_zero]
  ac_rfl

/-- The en-passant branch keeps both hashes equal to the hashes computed from scratch. -/
theorem applyEp_hashes (E : Env) (p : Position) (f t : Int)
    (hf : 0 ≤ f) (hf64 : f < 64) (ht : 0 ≤ t) (ht64 : t < 64)
    (he : 0 ≤ p.ep + (if p.c = Co_White then -8 else 8))
    (he64 : p.ep + (if p.c = Co_White then -8 else 8) < 64)
    (hft : f ≠ t) (het : p.ep + (if p.c = Co_White then -8 else 8) ≠ t)
    (hef : p.ep + (if p.c = Co_White then -8 else 8) ≠ f)
    (hfp : p.board f = 1 ∨ p.board f = -1)
    (hcap : p.board (p.ep + (if p.c = Co_White then -8 else 8))
      = (if p.c = Co_White then P_bp else P_wp))
    (htp : p.board t = P_none) :
    (p.h = computeHash E p →
      (applyEp E p f t (p.board f)).h = computeHash E (applyEp E p f t (p.board f)))
    ∧ (p.ph = computePHash E p →
      (applyEp E p f t (p.board f)).ph = computePHash E (applyEp E p f t (p.board f))) := by
  have hcapne : (if p.c = Co_White then P_bp else P_wp) ≠ P_none := by
    split_ifs <;> decide
  have hcapabs : std_abs (if p.c = Co_White then P_bp else P_wp) = P_wp := by
    split_ifs <;> decide
  have hfpne : p.board f ≠ P_none := by
    rcases hfp with h | h <;> rw [h] <;> decide
  have hfpabs : std_abs (p.board f) = P_wp := by
    rcases hfp with h | h <;> rw [h] <;> decide
  have e1 : upd (upd p.board f P_none) t (p.board f) (p.ep + (if p.c = Co_White then -8 else 8))
      = p.board (p.ep + (if p.c = Co_White then -8 else 8)) := by
    rw [upd_apply, if_neg het, upd_apply, if_neg hef]
  constructor
  · intro hh
    unfold computeHash
    simp only [applyEp_fields E p f t _]
    rw [xorUpTo_upd (pieceKey E) _ _ P_none he he64,
      xorUpTo_move (pieceKey E) p.board f t _ hf hf64 ht ht64 hft, e1, hcap, htp, hh]
    unfold computeHash
    simp only [pieceKey, if_pos hcapne, if_pos hfpne, ne_eq, not_true_eq_false, if_false]
    exact xor_ep_step _ _ _ _ _ _ _
  · intro hh
    unfold computePHash
    simp only [applyEp_fields E p f t _]
    rw [xorUpTo_upd (pawnKey E) _ _ P_none he he64,
      xorUpTo_move (pawnKey E) p.board f t _ hf hf64 ht ht64 hft, e1, hcap, htp, hh]
    unfold computePHash
    have k0 : ¬ (std_abs P_none = P_wp ∨ std_abs P_none = P_wk) := by decide
    simp only [pawnKey, if_pos (Or.inl hcapabs), if_pos (Or.inl hfpabs), if_neg k0]
    exact xor_ep_pstep _ _ _ _

theorem sideKey_flip (E : Env) (c : Color) :
    sideKey E c.flip = sideKey E c ^^^ E.ZT 3 13 ^^^ E.ZT 4 13 := by
  cases c
  · simp only [sideKey, Color.flip, if_true, reduceCtorEq, if_false, Nat.xor_self,
      Nat.zero_xor]
  · simp only [sideKey, Color.flip, if_true, reduceCtorEq, if_false]
    rw [Nat.xor_comm (E.ZT 4 13), Nat.xor_assoc, Nat.xor_self, Nat.xor_zero]

theorem xor_finish_step (B ep c0 side x k3 k4 : Nat) :
    (B ^^^ ep ^^^ c0 ^^^ side) ^^^ ep ^^^ x ^^^ k3 ^^^ k4
      = B ^^^ x ^^^ c0 ^^^ (side ^^^ k3 ^^^ k4) := by
  ac_nf
  simp only [Nat.xor_cancel_left, Nat.xor_self, Nat.xor_zero]

/-- The final part of `applyMove` keeps the full hash equal to the hash computed from
scratch: the key of the old en-passant square leaves, the key of the new one enters, the side
keys are exchanged. -/
theorem applyMoveFinish_hashOK (E : Env) (p0 q : Position) (m : Move)
    (hq : q.h = computeHash E q) (hf : 0 ≤ m.sqFrom) (ht : 0 ≤ m.sqTo) :
    (applyMoveFinish E p0 q m).h = computeHash E (applyMoveFinish E p0 q m) := by
  unfold computeHash
  simp only [applyMoveFinish_fields E p0 q m]
  rw [hq, sideKey_flip]
  unfold computeHash
  have hx : epKey E (if std_abs (p0.board m.sqFrom) = P_wp ∧ std_abs (m.sqTo - m.sqFrom) = 16
        then (m.sqFrom + m.sqTo) / 2 else INVALIDSQUARE)
      = (if std_abs (p0.board m.sqFrom) = P_wp ∧ std_abs (m.sqTo - m.sqFrom) = 16
          then E.ZT ((m.sqFrom + m.sqTo) / 2) 13 else 0) := by
    unfold epKey
    split_ifs with h1 h2 h2
    · rfl
    · exfalso
      apply h2
      simp only [INVALIDSQUARE]
      omega
    · exact absurd rfl h2
    · rfl
  rw [hx]
  exact xor_finish_step _ _ _ _ _ _ _

/-- The piece relocation of a validated quiet, capturing, en-passant or promotion move keeps
both hashes equal to the hashes computed from scratch. -/
theorem applyMoveSwitch_hashes (E : Env) (p : Position) (m : Move)
    (hassert : applyMoveAsserts p m = true) (hA : Agree p)
    (hpl : isPseudoLegal E p (MoveSlot.played m) = true) (hkind : isStdKind m.type = true) :
    (p.h = computeHash E p →
      (applyMoveSwitch E p m).h = computeHash E (applyMoveSwitch E p m))
    ∧ (p.ph = computePHash E p →
      (applyMoveSwitch E p m).ph = computePHash E (applyMoveSwitch E p m)) := by
  obtain ⟨hne, hfp, hown, htp⟩ := isPseudoLegal_squares E p m hpl
  obtain ⟨_, _, _, _, h5, h6, h7, h8, h9, _⟩ := isPseudoLegal_head E p m hpl
  obtain ⟨⟨hf, hf64⟩, ⟨ht, ht64⟩, hep⟩ := applyMoveAsserts_squares p m hassert
  have hepfacts := fun ht' => isPseudoLegal_ep E p m hpl ht' hA ht ht64
  obtain ⟨f, t, ty, sc⟩ := m
  simp only at *
  cases ty <;> simp only [isStdKind, isPromotion] at hkind
  case T_ep =>
    obtain ⟨hto, htn⟩ := hepfacts rfl
    obtain ⟨_, he, he64⟩ := hep rfl
    simp only [applyMoveSwitch, Move2From, Move2To, Move2Type]
    have hpawn : std_abs (p.board f) = P_wp := by
      by_contra hc
      exact h7 ⟨rfl, Or.inr hc⟩
    have hcap : p.board (p.ep + (if p.c = Co_White then -8 else 8))
        = (if p.c = Co_White then P_bp else P_wp) := by
      by_contra hc
      exact h8 ⟨rfl, hc⟩
    have hcap' := hcap
    simp only [std_abs, P_wp, P_bp] at hpawn hcap'
    apply applyEp_hashes E p f t hf hf64 ht ht64 he he64 hne _ _ _ hcap htn
    · subst hto
      cases hc : p.c <;> simp
    · intro e
      rw [e] at hcap'
      cases hc : p.c <;> simp [hc] at hcap' hown <;> split_ifs at hpawn <;> omega
    · split_ifs at hpawn <;> omega
  all_goals first
    | exact absurd hkind Bool.false_ne_true
    | (simp only [applyMoveSwitch, Move2From, Move2To, Move2Type]
       simp only [isCapture, isPromotion, P_none, ne_eq, not_and, not_not, not_true_eq_false,
         not_false_eq_true, true_and, and_true, reduceCtorEq, imp_false, forall_const,
         Bool.false_eq_true, false_implies, implies_true] at h5 h6 h9
       apply movePiece_hashes_of E p _ f t _ _ _ _ _ _ _ _ hf hf64 ht ht64 hne hfp
       all_goals first
         | rfl
         | (split_ifs <;> rfl)
         | (simp [P_none, h5, h6]; done)
         | (simp only [promPieceOf, P_none, P_wq, P_bq, P_wr, P_br, P_wb, P_bb, P_wn, P_bn,
              std_abs, P_wp, P_wk]
            cases hc : p.c <;> simp [hc] at hown ⊢ <;> omega))

/-- What the validator guarantees for an accepted en-passant move, in a position in which
board and bitboards agree: it goes from a pawn of the side to move to the empty en-passant
square, the pawn of the other side stands on the capture square, and origin, destination and
capture square are three different squares. -/
theorem isPseudoLegal_ep_facts (E : Env) (p : Position) (m : Move)
    (hassert : applyMoveAsserts p m = true) (hA : Agree p)
    (hpl : isPseudoLegal E p (MoveSlot.played m) = true) (hty : m.type = T_ep) :
    m.sqTo = p.ep ∧ p.board m.sqTo = P_none
    ∧ p.board m.sqFrom = (if p.c = Co_White then P_wp else P_bp)
    ∧ p.board (p.ep + (if p.c = Co_White then -8 else 8))
        = (if p.c = Co_White then P_bp else P_wp)
    ∧ p.ep + (if p.c = Co_White then -8 else 8) ≠ m.sqTo
    ∧ p.ep + (if p.c = Co_White then -8 else 8) ≠ m.sqFrom
    ∧ m.sqFrom ≠ m.sqTo := by
  obtain ⟨hne, hfp, hown, htp⟩ := isPseudoLegal_squares E p m hpl
  obtain ⟨_, _, _, _, _, _, h7, h8, _, _⟩ := isPseudoLegal_head E p m hpl
  obtain ⟨_, ⟨ht, ht64⟩, _⟩ := applyMoveAsserts_squares p m hassert
  obtain ⟨hto, htn⟩ := isPseudoLegal_ep E p m hpl hty hA ht ht64
  have hpawn : std_abs (p.board m.sqFrom) = P_wp := by
    by_contra hc
    exact h7 ⟨hty, Or.inr hc⟩
  have hcap : p.board (p.ep + (if p.c = Co_White then -8 else 8))
      = (if p.c = Co_White then P_bp else P_wp) := by
    by_contra hc
    exact h8 ⟨hty, hc⟩
  have hcap' := hcap
  simp only [std_abs, P_wp, P_bp] at hpawn hcap'
  refine ⟨hto, htn, ?_, hcap, ?_, ?_, hne⟩
  · cases hc : p.c <;> simp [hc, P_wp, P_bp] at hown ⊢ <;> split_ifs at hpawn <;> omega
  · rw [hto]
    cases hc : p.c <;> simp
  · intro e
    rw [e] at hcap'
    cases hc : p.c <;> simp [hc] at hcap' hown <;> split_ifs at hpawn <;> omega

theorem epKey_newEp (E : Env) (b : Prop) [Decidable b] (f t : Int) (hf : 0 ≤ f) (ht : 0 ≤ t) :
    epKey E (if b then (f + t) / 2 else INVALIDSQUARE)
      = (if b then E.ZT ((f + t) / 2) 13 else 0) := by
  unfold epKey
  split_ifs with h1 h2 h2
  · rfl
  · exfalso
    apply h2
    simp only [INVALIDSQUARE]
    omega
  · exact absurd rfl h2
  · rfl

theorem applyMoveFinish_mat_pawns (E : Env) (p0 q : Position) (m : Move) (col : Color)
    (hO : ∀ (q' : Position) (c : Color), E.updateMaterialOther q' c M_p = q'.mat c M_p) :
    (applyMoveFinish E p0 q m).mat col M_p = q.mat col M_p := by
  unfold applyMoveFinish
  simp only [Move2From, Move2To, Move2Type]
  by_cases hc : isCaptureOrProm m.type = true
  · simp [hc, hO]
  · simp [hc]

/-- The `switch` of `applyMove` for a promotion kind: one call of `movePiece` with the piece
chosen by the side to move, the capture flag being that of the capturing promotion kinds. -/
theorem applyMoveSwitch_promotion (E : Env) (p : Position) (m : Move)
    (hprom : isPromotion m.type = true) :
    applyMoveSwitch E p m
      = movePiece E { p with mat := E.updateMaterialProm p m.sqTo m.type } m.sqFrom m.sqTo
          (p.board m.sqFrom) (p.board m.sqTo) (isCapture m.type) (promPieceOf p.c m.type) := by
  obtain ⟨f, t, ty, sc⟩ := m
  cases ty <;> simp only [isPromotion] at hprom <;>
    first
      | exact absurd hprom Bool.false_ne_true
      | simp [applyMoveSwitch, Move2From, Move2To, Move2Type, isCapture]

/-! ## The castling table -/

theorem initCaslingPermHashTable_apply (p : Position) (s : Int) :
    initCaslingPermHashTable p s
      = if s = p.rooksInit Co_Black CT_OO then C_all_but_bks
        else if s = p.kingInit Co_Black then C_all_but_b
        else if s = p.rooksInit Co_Black CT_OOO then C_all_but_bqs
        else if s = p.rooksInit Co_White CT_OO then C_all_but_wks
        else if s = p.kingInit Co_White then C_all_but_w
        else if s = p.rooksInit Co_White CT_OOO then C_all_but_wqs
        else C_all := rfl

theorem initCaslingPermHashTable_other (p : Position) (s : Int) (hs : s ∉ initSquares p) :
    initCaslingPermHashTable p s = C_all := by
  simp only [initSquares, List.mem_cons, List.mem_singleton, List.not_mem_nil, or_false,
    not_or] at hs
  obtain ⟨h1, h2, h3, h4, h5, h6⟩ := hs
  rw [initCaslingPermHashTable_apply, if_neg h6, if_neg h5, if_neg h4, if_neg h3, if_neg h2,
    if_neg h1]

theorem initCaslingPermHashTable_eq_all (p : Position) (f t : Int) (hft : f ≠ t)
    (h : initCaslingPermHashTable p f = initCaslingPermHashTable p t) :
    initCaslingPermHashTable p f = C_all := by
  rw [initCaslingPermHashTable_apply p f, initCaslingPermHashTable_apply p t] at h
  rw [initCaslingPermHashTable_apply p f]
  simp only [C_all, C_all_but_bks, C_all_but_b, C_all_but_bqs, C_all_but_wks, C_all_but_w,
    C_all_but_wqs] at h ⊢
  split_ifs at h ⊢ <;> first | rfl | omega

theorem movePiece_castling_field (E : Env) (p : Position) (f t : Int) (fp tp : Int) (cap : Bool)
    (pr : Int) :
    (movePiece E p f t fp tp cap pr).castling
      = if p.castling ≠ 0 ∧ Nat.xor (E.castlePermHashTable f) (E.castlePermHashTable t) ≠ 0
        then p.castling &&& (E.castlePermHashTable f &&& E.castlePermHashTable t)
        else p.castling := by
  simp only [movePiece, movePieceKing_fields, movePieceCastling_fields, movePieceHash_fields,
    movePieceBitboards_frame, movePieceBoard_fields]

theorem and_C_all (c : Nat) (hc : c ≤ C_all) : c &&& C_all = c := by
  unfold C_all at *
  interval_cases c <;> rfl

theorem and_and_self_left (c a b : Nat) : (c &&& a &&& b) &&& c = c &&& a &&& b := by
  apply Nat.eq_of_testBit_eq
  intro i
  simp only [Nat.testBit_and]
  cases c.testBit i <;> simp

/-! ## Rejections of the validator, castling moves -/

/-- The validator accepts a move exactly when none of its nine preliminary tests fires and
the geometry test succeeds. -/
theorem isPseudoLegal_iff (E : Env) (p : Position) (m : Move) :
    isPseudoLegal E p (MoveSlot.played m) = true ↔
    (¬ (p.board m.sqFrom = P_none ∨ (p.board m.sqFrom > 0 ∧ p.c = Co_Black)
        ∨ (p.board m.sqFrom < 0 ∧ p.c = Co_White))
    ∧ ¬ ((p.board m.sqTo > 0 ∧ p.c = Co_White) ∨ (p.board m.sqTo < 0 ∧ p.c = Co_Black))
    ∧ ¬ std_abs (p.board m.sqTo) = P_wk
    ∧ ¬ m.type = T_reserved
    ∧ ¬ (p.board m.sqTo = P_none ∧ (isCapture m.type = true ∧ m.type ≠ T_ep))
    ∧ ¬ (p.board m.sqTo ≠ P_none ∧ isCapture m.type = false)
    ∧ ¬ (m.type = T_ep ∧ (p.ep = INVALIDSQUARE ∨ std_abs (p.board m.sqFrom) ≠ P_wp))
    ∧ ¬ (m.type = T_ep ∧ p.board (p.ep + (if p.c = Co_White then -8 else 8))
          ≠ (if p.c = Co_White then P_bp else P_wp))
    ∧ ¬ (isPromotion m.type = true ∧ std_abs (p.board m.sqFrom) ≠ P_wp)
    ∧ isPseudoLegalGeometry E p m = true) := by
  constructor
  · exact isPseudoLegal_head E p m
  · rintro ⟨h1, h2, h3, h4, h5, h6, h7, h8, h9, h⟩
    show (if _ then false else if _ then false else if _ then false else if _ then false
      else if _ then false else if _ then false else if _ then false else if _ then false
      else if _ then false else isPseudoLegalGeometry E p m) = true
    dsimp only [Move2From, Move2To, Move2Type]
    rw [if_neg h1, if_neg h2, if_neg h3, if_neg h4, if_neg h5, if_neg h6, if_neg h7, if_neg h8,
      if_neg h9]
    exact h

theorem isPseudoLegal_eq_false (E : Env) (p : Position) (m : Move)
    (h : (p.board m.sqFrom = P_none ∨ (p.board m.sqFrom > 0 ∧ p.c = Co_Black)
        ∨ (p.board m.sqFrom < 0 ∧ p.c = Co_White))
    ∨ ((p.board m.sqTo > 0 ∧ p.c = Co_White) ∨ (p.board m.sqTo < 0 ∧ p.c = Co_Black))
    ∨ std_abs (p.board m.sqTo) = P_wk
    ∨ m.type = T_reserved
    ∨ (p.board m.sqTo = P_none ∧ (isCapture m.type = true ∧ m.type ≠ T_ep))
    ∨ (p.board m.sqTo ≠ P_none ∧ isCapture m.type = false)
    ∨ (m.type = T_ep ∧ (p.ep = INVALIDSQUARE ∨ std_abs (p.board m.sqFrom) ≠ P_wp))
    ∨ (m.type = T_ep ∧ p.board (p.ep + (if p.c = Co_White then -8 else 8))
          ≠ (if p.c = Co_White then P_bp else P_wp))
    ∨ (isPromotion m.type = true ∧ std_abs (p.board m.sqFrom) ≠ P_wp)) :
    isPseudoLegal E p (MoveSlot.played m) = false := by
  cases hv : isPseudoLegal E p (MoveSlot.played m)
  · rfl
  · obtain ⟨h1, h2, h3, h4, h5, h6, h7, h8, h9, _⟩ := isPseudoLegal_head E p m hv
    rcases h with h | h | h | h | h | h | h | h | h
    · exact absurd h h1
    · exact absurd h h2
    · exact absurd h h3
    · exact absurd h h4
    · exact absurd h h5
    · exact absurd h h6
    · exact absurd h h7
    · exact absurd h h8
    · exact absurd h h9

theorem isPseudoLegalGeometry_castling (E : Env) (p : Position) (m : Move)
    (hc : isCastling m.type = true) :
    isPseudoLegalGeometry E p m = isPseudoLegalCastling E p m := by
  unfold isPseudoLegalGeometry
  simp only [Move2Type, hc, if_true]

theorem isCapture_of_isCastling (t : MType) (h : isCastling t = true) : isCapture t = false := by
  cases t <;> first | rfl | exact absurd h (by decide)

theorem isPromotion_of_isCastling (t : MType) (h : isCastling t = true) :
    isPromotion t = false := by
  cases t <;> first | rfl | exact absurd h (by decide)

theorem castleOK_head (E : Env) (p : Position) (m : Move) (c : Color) (right : Nat)
    (ct : CastlingTypes) (pk d e : Int) (hcol : p.c = c)
    (hpk : (c = Co_White ∧ pk = P_wk) ∨ (c = Co_Black ∧ pk = P_bk))
    (hcast : isCastling m.type = true)
    (h : castleOK E p m.sqFrom m.sqTo (p.board m.sqFrom) (p.board m.sqTo) c right ct pk d e = true) :
    isPseudoLegal E p (MoveSlot.played m) = isPseudoLegalCastling E p m := by
  simp only [castleOK, Bool.and_eq_true, decide_eq_true_eq] at h
  obtain ⟨⟨⟨⟨⟨⟨_, _⟩, hfp⟩, _⟩, htp⟩, _⟩, _⟩ := h
  have hne : m.type ≠ T_ep := by intro h; rw [h] at hcast; exact absurd hcast (by decide)
  have hcap : isCapture m.type = false := isCapture_of_isCastling m.type hcast
  have hprom : isPromotion m.type = false := isPromotion_of_isCastling m.type hcast
  have hres : m.type ≠ T_reserved := by intro h; rw [h] at hcast; exact absurd hcast (by decide)
  rw [← isPseudoLegalGeometry_castling E p m hcast]
  cases hg : isPseudoLegalGeometry E p m
  · cases hv : isPseudoLegal E p (MoveSlot.played m)
    · rfl
    · have := (isPseudoLegal_head E p m hv).2.2.2.2.2.2.2.2.2
      rw [hg] at this
      exact absurd this (by decide)
  · rw [isPseudoLegal_iff]
    refine ⟨?_, ?_, ?_, hres, ?_, ?_, ?_, ?_, ?_, hg⟩
    · rw [hfp, hcol]
      rcases hpk with ⟨h1, h2⟩ | ⟨h1, h2⟩ <;> subst h1 <;> subst h2 <;> decide
    · rw [htp]; simp [P_none]
    · rw [htp]; decide
    · rw [hcap]; simp
    · rw [htp]; simp
    · exact fun h => hne h.1
    · exact fun h => hne h.1
    · rw [hprom]; simp


theorem isPseudoLegalCastling_of_not (E : Env) (p : Position) (m : Move)
    (h : isPseudoLegal E p (MoveSlot.played m) = true) (hcast : isCastling m.type = true) :
    isPseudoLegalCastling E p m = true := by
  rw [← isPseudoLegalGeometry_castling E p m hcast]
  exact (isPseudoLegal_head E p m h).2.2.2.2.2.2.2.2.2

theorem isPseudoLegal_castleOK (E : Env) (p : Position) (m : Move) (c : Color) (right : Nat)
    (ct : CastlingTypes) (pk d e : Int) (hcol : p.c = c)
    (hpk : (c = Co_White ∧ pk = P_wk) ∨ (c = Co_Black ∧ pk = P_bk))
    (hcast : isCastling m.type = true)
    (hcas : isPseudoLegalCastling E p m
      = castleOK E p m.sqFrom m.sqTo (p.board m.sqFrom) (p.board m.sqTo) c right ct pk d e) :
    isPseudoLegal E p (MoveSlot.played m)
      = castleOK E p m.sqFrom m.sqTo (p.board m.sqFrom) (p.board m.sqTo) c right ct pk d e := by
  cases hk : castleOK E p m.sqFrom m.sqTo (p.board m.sqFrom) (p.board m.sqTo) c right ct pk d e
  · cases hv : isPseudoLegal E p (MoveSlot.played m)
    · rfl
    · have := isPseudoLegalCastling_of_not E p m hv hcast
      rw [hcas, hk] at this
      exact absurd this (by decide)
  · rw [castleOK_head E p m _ _ _ _ _ _ hcol hpk hcast hk, hcas, hk]

/-- What the validator computes for a castling move of the side to move. -/
theorem isPseudoLegal_castling_eq (E : Env) (p : Position) (m : Move) :
    (p.c = Co_White → m.type = T_wqs →
      isPseudoLegal E p (MoveSlot.played m)
        = castleOK E p m.sqFrom m.sqTo (p.board m.sqFrom) (p.board m.sqTo)
            Co_White C_wqs CT_OOO P_wk Sq_c1 Sq_d1)
    ∧ (p.c = Co_White → m.type = T_wks →
      isPseudoLegal E p (MoveSlot.played m)
        = castleOK E p m.sqFrom m.sqTo (p.board m.sqFrom) (p.board m.sqTo)
            Co_White C_wks CT_OO P_wk Sq_g1 Sq_f1)
    ∧ (p.c = Co_Black → m.type = T_bqs →
      isPseudoLegal E p (MoveSlot.played m)
        = castleOK E p m.sqFrom m.sqTo (p.board m.sqFrom) (p.board m.sqTo)
            Co_Black C_bqs CT_OOO P_bk Sq_c8 Sq_d8)
    ∧ (p.c = Co_Black → m.type = T_bks →
      isPseudoLegal E p (MoveSlot.played m)
        = castleOK E p m.sqFrom m.sqTo (p.board m.sqFrom) (p.board m.sqTo)
            Co_Black C_bks CT_OO P_bk Sq_g8 Sq_f8) := by
  refine ⟨fun hc ht => ?_, fun hc ht => ?_, fun hc ht => ?_, fun hc ht => ?_⟩
  all_goals
    refine isPseudoLegal_castleOK E p m _ _ _ _ _ _ hc (by simp) (by rw [ht]; rfl) ?_
    simp [isPseudoLegalCastling, Move2From, Move2To, Move2Type, hc, ht]

/-! ## The search: entry, probe and the move of the table -/

theorem getEntry_valid (E : SearchEnv) (tt : List Entry) (p : Position) (h : Nat) (d : Int)
    (hh : (getEntry E tt p h d).2.h ≠ nullHash)
    (hm : (getEntry E tt p h d).2.m ≠ MoveSlot.INVALIDMOVE) :
    isPseudoLegal E.toEnv p (getEntry E tt p h d).2.m = true := by
  unfold getEntry at hh hm ⊢
  cases hf : E.ttFind tt h with
  | none =>
    rw [hf] at hh
    exact absurd rfl hh
  | some r =>
    rw [hf] at hh hm
    dsimp only at hh hm ⊢
    by_cases h1 : r.h ≠ h ∨ r.h = nullHash
    · rw [if_pos h1] at hh
      exact absurd rfl hh
    · rw [if_neg h1] at hh hm ⊢
      by_cases h2 : r.m ≠ MoveSlot.INVALIDMOVE ∧ isPseudoLegal E.toEnv p r.m = false
      · rw [if_pos h2] at hh
        exact absurd rfl hh
      · rw [if_neg h2] at hm ⊢
        cases hv : isPseudoLegal E.toEnv p r.m
        · exact absurd ⟨hm, hv⟩ h2
        · rfl

theorem probeOf_validTTmove (cm : Nat → Option Int) (h : Nat) (e : Entry) :
    (probeOf cm h e).validTTmove = true ↔ e.h ≠ nullHash ∧ e.m ≠ MoveSlot.INVALIDMOVE := by
  simp [probeOf]

/-- A probe whose move, when it counts as valid, is accepted by the validator for `p`. -/
def Probe.Validated (E : SearchEnv) (p : Position) (pr : Probe) : Prop :=
  pr.validTTmove = true → isPseudoLegal E.toEnv p pr.e.m = true

theorem probeOf_getEntry_validated (E : SearchEnv) (cm : Nat → Option Int) (tt : List Entry)
    (p : Position) (h : Nat) (d : Int) :
    (probeOf cm h (getEntry E tt p h d).2).Validated E p := by
  intro hv
  rw [probeOf_validTTmove] at hv
  exact getEntry_valid E tt p h d hv.1 hv.2

theorem pvsProbe_validated (E : SearchEnv) (a : PvsArgs) (w : Window) (pr : Probe)
    (h : pvsProbe E a w = Step.next pr) : pr.Validated E a.p := by
  unfold pvsProbe at h
  dsimp only at h
  split_ifs at h
  injection h with h
  rw [← h]
  exact probeOf_getEntry_validated E _ _ _ _ _

theorem pvsIID_validated (E : SearchEnv) (rec : PvsArgs → Searcher → Option PvsResult)
    (a : PvsArgs) (w : Window) (pr : Probe) (seldepth : Int) (s : Searcher)
    (x : Probe × Int × Searcher) (hpr : pr.Validated E a.p)
    (h : pvsIID E rec a w pr seldepth s = Step.next x) : x.1.Validated E a.p := by
  unfold pvsIID at h
  split_ifs at h
  · split at h
    · exact absurd h (by simp)
    · split_ifs at h
      injection h with h
      rw [← h]
      exact probeOf_getEntry_validated E _ _ _ _ _
  · injection h with h
    rw [← h]
    exact hpr

/-- What the move iteration starts from: the context of the node `a` with the clamped `beta`,
a validated probe, and the variables of the iteration at their initial values. -/
theorem pvsBefore_next (E : SearchEnv) (rec : PvsArgs → Searcher → Option PvsResult)
    (a : PvsArgs) (w : Window) (x : Ctx × Generated × LoopState)
    (h : pvsBefore E rec a w = Step.next x) :
    x.1.a = a ∧ x.1.beta = w.beta ∧ x.1.pr.Validated E a.p
    ∧ x.2.2.alpha = w.alpha ∧ x.2.2.bestScore = -E.MATE + (a.ply : Int)
    ∧ x.2.2.bestMove = MoveSlot.INVALIDMOVE ∧ x.2.2.hashBound = B_alpha
    ∧ x.2.2.validMoveCount = 0 ∧ x.2.2.pv = a.pv := by
  unfold pvsBefore at h
  cases h1 : pvsProbe E a w with
  | ret r => rw [h1] at h; exact absurd h (by simp)
  | fuelOut => rw [h1] at h; exact absurd h (by simp)
  | next pr0 =>
    rw [h1] at h
    dsimp only at h
    cases h2 : pvsSyzygy E a w pr0 with
    | ret r => rw [h2] at h; exact absurd h (by simp)
    | fuelOut => rw [h2] at h; exact absurd h (by simp)
    | next s1 =>
      rw [h2] at h
      dsimp only at h
      cases h3 : pvsPrune E rec a w pr0 (pvsStatic E a pr0 s1) with
      | ret r => rw [h3] at h; exact absurd h (by simp)
      | fuelOut => rw [h3] at h; exact absurd h (by simp)
      | next pd =>
        rw [h3] at h
        dsimp only at h
        cases h4 : pvsIID E rec a w pr0 pd.seldepth pd.s with
        | ret r => rw [h4] at h; exact absurd h (by simp)
        | fuelOut => rw [h4] at h; exact absurd h (by simp)
        | next y =>
          rw [h4] at h
          dsimp only at h
          injection h with h
          rw [← h]
          refine ⟨rfl, rfl, ?_, rfl, rfl, rfl, rfl, rfl, rfl⟩
          exact pvsIID_validated E rec a w pr0 pd.seldepth pd.s y
            (pvsProbe_validated E a w pr0 h1) h4

theorem pvsTTMove_of_not_valid (E : SearchEnv) (rec : PvsArgs → Searcher → Option PvsResult)
    (c : Ctx) (l : LoopState) (h : c.pr.validTTmove = false) :
    pvsTTMove E rec c l = Step.next l := by
  unfold pvsTTMove
  split
  · rw [if_neg (fun hh => by rw [h] at hh; exact absurd hh.1 (by decide))]
  · rfl

/-! ## The search: the invariant of the move iteration -/

theorem loopInv_congr {beta alpha0 : Int} {l l1 : LoopState} (h : LoopInv beta alpha0 l)
    (h1 : l1.alpha = l.alpha) (h2 : l1.bestScore = l.bestScore)
    (h3 : l1.hashBound = l.hashBound) : LoopInv beta alpha0 l1 := by
  unfold LoopInv at *
  rw [h1, h2, h3]
  exact h

theorem loopInv_boundOK {beta alpha0 : Int} {l : LoopState} (h : LoopInv beta alpha0 l) :
    BoundOK beta alpha0 l.hashBound l.bestScore := by
  obtain ⟨h1, h2, h3, h4⟩ := h
  unfold BoundOK
  rcases h4 with ⟨hb, ha⟩ | ⟨hb, he, ha⟩
  · rw [hb]
    simp
    omega
  · rw [hb]
    simp
    omega

/-- The three ways in which the variables of the iteration change at the end of the body of
the loop. -/
theorem loopInv_raise {beta alpha0 : Int} {l l1 : LoopState} (h : LoopInv beta alpha0 l)
    (sc : Int) (hsc : sc > l.alpha) (hb : sc < beta)
    (h1 : l1.alpha = sc) (h2 : l1.bestScore = sc) (h3 : l1.hashBound = B_exact) :
    LoopInv beta alpha0 l1 := by
  obtain ⟨k1, k2, k3, _⟩ := h
  unfold LoopInv
  rw [h1, h2, h3]
  exact ⟨by omega, hb, le_refl _, Or.inr ⟨rfl, rfl, by omega⟩⟩

theorem loopInv_better {beta alpha0 : Int} {l l1 : LoopState} (h : LoopInv beta alpha0 l)
    (sc : Int) (hsc : sc > l.bestScore) (hb : ¬ sc > l.alpha)
    (h1 : l1.alpha = l.alpha) (h2 : l1.bestScore = sc) (h3 : l1.hashBound = l.hashBound) :
    LoopInv beta alpha0 l1 := by
  obtain ⟨k1, k2, k3, k4⟩ := h
  unfold LoopInv
  rw [h1, h2, h3]
  refine ⟨k1, k2, by omega, ?_⟩
  rcases k4 with ⟨hb, ha⟩ | ⟨hb, he, ha⟩
  · exact Or.inl ⟨hb, ha⟩
  · exfalso
    omega

theorem boundOK_cut {beta alpha0 : Int} {l : LoopState} (h : LoopInv beta alpha0 l)
    (sc : Int) (hb : sc ≥ beta) : BoundOK beta alpha0 B_beta sc := by
  obtain ⟨k1, k2, _, _⟩ := h
  unfold BoundOK
  simp
  omega

/-- The end of the body of the loop keeps the invariant when the loop goes on, and leaves a
correct lower bound when the loop is left. -/
theorem moveUpdate_inv (E : SearchEnv) (c : Ctx) (moves : List Move) (m : Move)
    (firstMove : Bool) (l : LoopState) (x : Searched) (alpha0 : Int)
    (hinv : LoopInv c.beta alpha0 l) :
    (∀ l1, moveUpdate E c moves m firstMove l x = MoveOut.cont l1 → LoopInv c.beta alpha0 l1)
    ∧ (∀ l1, moveUpdate E c moves m firstMove l x = MoveOut.brk l1 →
        l1.hashBound = B_beta ∧ BoundOK c.beta alpha0 B_beta l1.bestScore) := by
  constructor
  · intro l1 h
    unfold moveUpdate at h
    dsimp only at h
    split_ifs at h with g1 g2 g3 g4 <;> cases h
    all_goals first
      | exact loopInv_raise hinv x.score g3 (by omega) rfl rfl rfl
      | exact loopInv_better hinv x.score g2 g3 rfl rfl rfl
      | exact loopInv_congr hinv rfl rfl rfl
  · intro l1 h
    unfold moveUpdate at h
    dsimp only at h
    split_ifs at h with g1 g2 g3 g4 <;> cases h
    all_goals exact ⟨rfl, boundOK_cut hinv x.score g4⟩

theorem loopInv_ite_s {beta alpha0 : Int} {l : LoopState} (h : LoopInv beta alpha0 l)
    (b : Prop) [Decidable b] (s : Searcher) :
    LoopInv beta alpha0 (if b then { l with s := s } else l) := by
  split_ifs
  · exact loopInv_congr h rfl rfl rfl
  · exact h

theorem moveLate_inv (E : SearchEnv) (rec : PvsArgs → Searcher → Option PvsResult) (c : Ctx)
    (moves : List Move) (m : Move) (p2 : Position) (isCheck : Bool) (extension : Int)
    (l : LoopState) (alpha0 : Int) (hinv : LoopInv c.beta alpha0 l) :
    (∀ l1, moveLate E rec c moves m p2 isCheck extension l = MoveOut.cont l1 →
        LoopInv c.beta alpha0 l1)
    ∧ (∀ l1, moveLate E rec c moves m p2 isCheck extension l = MoveOut.brk l1 →
        l1.hashBound = B_beta ∧ BoundOK c.beta alpha0 B_beta l1.bestScore) := by
  unfold moveLate
  dsimp only
  generalize prunableOf E c m isCheck l = q
  have hl1 := loopInv_ite_s hinv (q.isDangerPrune = true) (l.s.incr sid_dangerPrune)
  generalize (if q.isDangerPrune = true then { l with s := l.s.incr sid_dangerPrune } else l)
    = la at hl1
  have hl2 := loopInv_ite_s hl1 (q.isDangerRed = true) (la.s.incr sid_dangerReduce)
  generalize (if q.isDangerRed = true then { la with s := la.s.incr sid_dangerReduce } else la)
    = lb at hl2
  cases hp : movePruned E c m q lb with
  | some id =>
    dsimp only
    constructor
    · intro l1 h
      cases h
      exact loopInv_congr hl2 rfl rfl rfl
    · intro l1 h
      cases h
  | none =>
    dsimp only
    have hl3 := loopInv_ite_s hl2 (lmrApplies E c m q = true) (lb.s.incr sid_lmr)
    generalize (if lmrApplies E c m q = true then { lb with s := lb.s.incr sid_lmr } else lb)
      = lc at hl3
    generalize (if lmrApplies E c m q = true then lmrValue E c m q extension lc else 0) = red
    split_ifs with hsee
    · constructor
      · intro l1 h
        cases h
        exact loopInv_congr hl3 rfl rfl rfl
      · intro l1 h
        cases h
    · split
      · constructor <;> intro l1 h <;> cases h
      · exact moveUpdate_inv E c moves m false lc _ alpha0 hl3

theorem moveApplied_inv (E : SearchEnv) (rec : PvsArgs → Searcher → Option PvsResult) (c : Ctx)
    (moves : List Move) (m : Move) (p2 : Position) (l : LoopState) (alpha0 : Int)
    (hinv : LoopInv c.beta alpha0 l) :
    (∀ l1, moveApplied E rec c moves m p2 l = MoveOut.cont l1 → LoopInv c.beta alpha0 l1)
    ∧ (∀ l1, moveApplied E rec c moves m p2 l = MoveOut.brk l1 →
        l1.hashBound = B_beta ∧ BoundOK c.beta alpha0 B_beta l1.bestScore) := by
  unfold moveApplied
  dsimp only
  split_ifs with h1 h2
  · constructor <;> intro l1 h <;> cases h
  · split
    · constructor <;> intro l1 h <;> cases h
    · refine moveUpdate_inv E c moves m _ _ _ alpha0 ?_
      exact loopInv_congr hinv rfl rfl rfl
  · refine moveLate_inv E rec c moves m p2 _ _ _ alpha0 ?_
    exact loopInv_congr hinv rfl rfl rfl

theorem pvsMove_inv (E : SearchEnv) (rec : PvsArgs → Searcher → Option PvsResult) (c : Ctx)
    (moves : List Move) (m : Move) (l : LoopState) (alpha0 : Int)
    (hinv : LoopInv c.beta alpha0 l) :
    (∀ l1, pvsMove E rec c moves m l = MoveOut.cont l1 → LoopInv c.beta alpha0 l1)
    ∧ (∀ l1, pvsMove E rec c moves m l = MoveOut.brk l1 →
        l1.hashBound = B_beta ∧ BoundOK c.beta alpha0 B_beta l1.bestScore) := by
  unfold pvsMove
  split_ifs
  · constructor
    · intro l1 h; cases h; exact hinv
    · intro l1 h; cases h
  · constructor
    · intro l1 h; cases h; exact hinv
    · intro l1 h; cases h
  · constructor
    · intro l1 h; cases h; exact hinv
    · intro l1 h; cases h
  · exact moveApplied_inv E rec c moves m _ l alpha0 hinv

/-- At the exit of the loop the bound and the best score are related as the store needs. -/
theorem pvsLoop_boundOK (E : SearchEnv) (rec : PvsArgs → Searcher → Option PvsResult) (c : Ctx)
    (moves : List Move) (alpha0 : Int) (rest : List Move) (l l3 : LoopState)
    (hinv : LoopInv c.beta alpha0 l) (h : pvsLoop E rec c moves rest l = Step.next l3) :
    BoundOK c.beta alpha0 l3.hashBound l3.bestScore := by
  induction rest generalizing l with
  | nil =>
    unfold pvsLoop at h
    cases h
    exact loopInv_boundOK hinv
  | cons m rest ih =>
    unfold pvsLoop at h
    split_ifs at h with hs
    · cases h
      exact loopInv_boundOK hinv
    · cases hm : pvsMove E rec c moves m l with
      | cont l1 =>
        rw [hm] at h
        exact ih l1 ((pvsMove_inv E rec c moves m l alpha0 hinv).1 l1 hm) h
      | brk l1 =>
        rw [hm] at h
        cases h
        obtain ⟨hb, hok⟩ := (pvsMove_inv E rec c moves m l alpha0 hinv).2 l3 hm
        rw [hb]
        exact hok
      | ret r => rw [hm] at h; cases h
      | fuelOut => rw [hm] at h; cases h

theorem ttUpdate_inv (E : SearchEnv) (c : Ctx) (m : Move) (l : LoopState) (x : Searched)
    (alpha0 : Int) (hinv : LoopInv c.beta alpha0 l) (l1 : LoopState)
    (h : ttUpdate E c m l x = Step.next l1) : LoopInv c.beta alpha0 l1 := by
  unfold ttUpdate at h
  dsimp only at h
  split_ifs at h with g1 g2 g3 g4 <;> cases h
  all_goals first
    | exact loopInv_raise hinv x.score g3 (by omega) rfl rfl rfl
    | exact loopInv_better hinv x.score g2 g3 rfl rfl rfl
    | exact loopInv_congr hinv rfl rfl rfl

theorem pvsTTMove_inv (E : SearchEnv) (rec : PvsArgs → Searcher → Option PvsResult) (c : Ctx)
    (l : LoopState) (alpha0 : Int) (hinv : LoopInv c.beta alpha0 l) (l1 : LoopState)
    (h : pvsTTMove E rec c l = Step.next l1) : LoopInv c.beta alpha0 l1 := by
  unfold pvsTTMove at h
  split at h
  · split_ifs at h
    · unfold ttMovePlayed at h
      dsimp only at h
      split_ifs at h
      · split at h
        · cases h
        · cases h
        · split at h
          · cases h
          · refine ttUpdate_inv E c _ _ _ alpha0 ?_ l1 h
            exact loopInv_congr hinv rfl rfl rfl
      · cases h
        exact loopInv_congr hinv rfl rfl rfl
    · cases h
      exact hinv
  · cases h
    exact hinv

/-! ## The search: the window, a node without legal move -/

theorem pvsEntry_next (E : SearchEnv) (a : PvsArgs) (s : Searcher) (w : Window)
    (h : pvsEntry E a s = Step.next w) :
    w.alpha = max a.alpha (-E.MATE + (a.ply : Int))
    ∧ w.beta = min a.beta (E.MATE - (a.ply : Int) + 1) ∧ w.alpha < w.beta := by
  unfold pvsEntry at h
  dsimp only at h
  split_ifs at h with h1 h2 h3 h4 h5 h6
  all_goals
    cases h
    exact ⟨rfl, rfl, lt_of_not_ge h4⟩

theorem pvsBefore_loopInv (E : SearchEnv) (rec : PvsArgs → Searcher → Option PvsResult)
    (a : PvsArgs) (s : Searcher) (w : Window) (x : Ctx × Generated × LoopState)
    (hentry : pvsEntry E a s = Step.next w) (h : pvsBefore E rec a w = Step.next x) :
    LoopInv x.1.beta w.alpha x.2.2 := by
  obtain ⟨k1, k2, k3⟩ := pvsEntry_next E a s w hentry
  obtain ⟨_, h2, _, h4, h5, _, h7, _⟩ := pvsBefore_next E rec a w x h
  unfold LoopInv
  rw [h2, h4, h5, h7]
  refine ⟨le_refl _, k3, ?_, Or.inl ⟨rfl, rfl⟩⟩
  rw [k1]
  exact le_max_right _ _

/-- When the move of the table cannot be applied, its block leaves the state, the count of
valid moves, `pv` and `seldepth` as they are. -/
theorem pvsTTMove_of_not_applied (E : SearchEnv) (rec : PvsArgs → Searcher → Option PvsResult)
    (c : Ctx) (l : LoopState)
    (h : ∀ m, c.pr.e.m = MoveSlot.played m → (apply E c.a.p m).1 = false) :
    ∃ l1, pvsTTMove E rec c l = Step.next l1 ∧ l1.s = l.s
      ∧ l1.validMoveCount = l.validMoveCount ∧ l1.pv = l.pv ∧ l1.seldepth = l.seldepth := by
  unfold pvsTTMove
  split
  · rename_i m hm
    split_ifs
    · unfold ttMovePlayed
      dsimp only
      rw [if_neg (by rw [h m hm]; decide)]
      exact ⟨_, rfl, rfl, rfl, rfl, rfl⟩
    · exact ⟨_, rfl, rfl, rfl, rfl, rfl⟩
  · exact ⟨_, rfl, rfl, rfl, rfl, rfl⟩

/-- When no move of the list can be applied, the loop leaves its variables as they are. -/
theorem pvsLoop_of_not_applied (E : SearchEnv) (rec : PvsArgs → Searcher → Option PvsResult)
    (c : Ctx) (moves rest : List Move) (l : LoopState)
    (h : ∀ m ∈ rest, (apply E c.a.p m).1 = false) :
    pvsLoop E rec c moves rest l = Step.next l := by
  induction rest with
  | nil => rfl
  | cons m rest ih =>
    unfold pvsLoop
    split_ifs
    · rfl
    · have hm : pvsMove E rec c moves m l = MoveOut.cont l := by
        unfold pvsMove
        split_ifs with g1 g2 g3
        · rfl
        · rfl
        · rfl
        · exact absurd (h m (List.mem_cons_self _ _)) g3
      rw [hm]
      exact ih (fun m' hm' => h m' (List.mem_cons_of_mem _ hm'))

theorem pvsGenerate_tt (E : SearchEnv) (c : Ctx) (gen : Generated) (s : Searcher) :
    (pvsGenerate E c gen s).2.tt = s.tt := by
  unfold pvsGenerate
  split_ifs <;> rfl

/-! ## The board after the piece relocation, occupied squares -/

theorem movePieceCastle_board (E : Env) (c : Color) (p : Position) (ct : CastlingTypes)
    (d e : Int) :
    (movePieceCastle E c p ct d e).board
      = upd (upd (upd (upd p.board (p.king c) P_none) (p.rooksInit c ct) P_none) d
          (if c = Co_White then P_wk else P_bk)) e (if c = Co_White then P_wr else P_br) := by
  simp [movePieceCastle, movePieceCastleBoard, Position.setBoard, Position.maskCastling,
    Position.xorH, Position.andCastling, Position.setKing]

/-- The `switch` of `applyMove` empties the origin square of a move that is not a castling
move and goes to another square. -/
theorem applyMoveSwitch_board_from (E : Env) (p : Position) (m : Move)
    (hc : isCastling m.type = false) (hne : m.sqFrom ≠ m.sqTo) :
    (applyMoveSwitch E p m).board m.sqFrom = P_none := by
  obtain ⟨f, t, ty, sc⟩ := m
  simp only at hne
  unfold applyMoveSwitch
  simp only [Move2Type, Move2From, Move2To]
  cases ty <;> simp only [isCastling] at hc <;>
    first
      | exact absurd hc (by decide)
      | simp only [movePiece_frame, applyEp_fields, upd_apply, if_neg hne, if_true]
  all_goals split_ifs <;> rfl

/-- The `switch` of `applyMove` puts the king on the destination of a validated castling
move, a square that was empty. -/
theorem applyMoveSwitch_board_castling (E : Env) (p : Position) (m : Move)
    (hc : isCastling m.type = true) (hpl : isPseudoLegal E p (MoveSlot.played m) = true) :
    p.board m.sqTo = P_none ∧ (applyMoveSwitch E p m).board m.sqTo ≠ P_none := by
  have hcas := isPseudoLegalCastling_of_not E p m hpl hc
  obtain ⟨f, t, ty, sc⟩ := m
  cases ty <;> simp only [isCastling] at hc <;>
    first
      | exact absurd hc (by decide)
      | skip
  all_goals
    cases hcol : p.c <;>
      simp [isPseudoLegalCastling, Move2From, Move2To, Move2Type, hcol, castleOK] at hcas
  all_goals
    obtain ⟨⟨⟨⟨⟨⟨_, _⟩, _⟩, hto⟩, htp⟩, _⟩, _⟩ := hcas
    subst hto
    refine ⟨htp, ?_⟩
    simp [applyMoveSwitch, Move2Type, movePieceCastle_board, upd_apply, Sq_g1, Sq_f1, Sq_c1,
      Sq_d1, Sq_g8, Sq_f8, Sq_c8, Sq_d8, P_wk, P_bk, P_none]

/-- A square of the board that holds a piece is in the occupancy, in a position in which
board and bitboards agree. -/
theorem Agree.occupied_of_board_ne_none {p : Position} (hA : Agree p) (s : Int)
    (h0 : 0 ≤ s) (h64 : s < 64) (h : p.board s ≠ P_none) :
    p.occupancy.testBit s.toNat = true := by
  have hcol := ((hA s h0 h64).2.2 (if p.board s > 0 then Co_White else Co_Black)).2 ⟨h, rfl⟩
  unfold Position.occupancy
  rw [Nat.testBit_or]
  split_ifs at hcol <;> simp [hcol]

/-! ## The search: the stop flag, the count of valid moves, the history tables -/

theorem pvsNode_of_probe_ret (E : SearchEnv) (rec : PvsArgs → Searcher → Option PvsResult)
    (a : PvsArgs) (s : Searcher) (w : Window) (r : PvsResult)
    (hentry : pvsEntry E a s = Step.next w) (hprobe : pvsProbe E a w = Step.ret r) :
    pvsNode E rec a s = some r := by
  unfold pvsNode
  rw [hentry]
  simp only [pvsBody, pvsBefore, hprobe]

@[simp] theorem incr_stopFlag (s : Searcher) (id : StatId) :
    (s.incr id).stopFlag = s.stopFlag := rfl

@[simp] theorem setStackPos_stopFlag (s : Searcher) (k : Int) (q : Position) :
    (s.setStackPos k q).stopFlag = s.stopFlag := rfl

@[simp] theorem setStackEval_stopFlag (s : Searcher) (k : Int) (v : Int) (d : EvalData) :
    (s.setStackEval k v d).stopFlag = s.stopFlag := rfl

@[simp] theorem setStackThreat_stopFlag (s : Searcher) (k : Int) (m : MoveSlot) :
    (s.setStackThreat k m).stopFlag = s.stopFlag := rfl

@[simp] theorem writeTables_stopFlag (s : Searcher) (w : TableWrite) :
    (s.writeTables w).stopFlag = s.stopFlag := rfl

@[simp] theorem setEntry_stopFlag (s : Searcher) (h : Nat) (m : MoveSlot) (sc ev : Int)
    (b : Bound) (d : Int) : (setEntry s h m sc ev b d).stopFlag = s.stopFlag := rfl

theorem pvsRazoring_stop (E : SearchEnv) (a : PvsArgs) (w : Window) (st : Static)
    (seldepth : Int) (s : Searcher) :
    StopOK E (fun x : Int × Searcher => x.2) s.stopFlag (pvsRazoring E a w st seldepth s) := by
  unfold pvsRazoring
  dsimp only
  split_ifs with h1 h2 h3
  · intro _ _; rfl
  · intro _ hx
    simp only [incr_stopFlag] at hx
    exact absurd hx h2
  · intro _
    simpa using h2
  · intro h; exact h

theorem pvsNullMove_stop (E : SearchEnv) (rec : PvsArgs → Searcher → Option PvsResult)
    (a : PvsArgs) (w : Window) (pr : Probe) (st : Static) (seldepth : Int) (s : Searcher) :
    StopOK E (fun x : MoveSlot × Int × Searcher => x.2.2) s.stopFlag
      (pvsNullMove E rec a w pr st seldepth s) := by
  unfold pvsNullMove
  dsimp only
  split_ifs with h1 h2 h3
  · split
    · trivial
    · rename_i r hr
      split_ifs with h4 h5
      all_goals first
        | (intro _ _; rfl)
        | (intro _ hx; simp only [incr_stopFlag] at hx; exact absurd hx h4)
        | (intro _; simpa using h4)
  · intro h; simpa using h
  · intro h; simpa using h
  · intro h; exact h

theorem stopOK_of_down (E : SearchEnv) {α : Type} (getS : α → Searcher) (b b1 : Bool)
    (out : Step α) (hb : b1 = false) (h : StopOK E getS b1 out) : StopOK E getS b out := by
  subst hb
  cases out with
  | ret r => exact fun _ => h rfl
  | next x => exact fun _ => h rfl
  | fuelOut => trivial

theorem pvsProbCutLoop_stop (E : SearchEnv) (rec : PvsArgs → Searcher → Option PvsResult)
    (a : PvsArgs) (pr : Probe) (betaPC : Int) (moves : List Move) (n seldepth : Int)
    (s : Searcher) :
    StopOK E (fun x : Int × Searcher => x.2) s.stopFlag
      (pvsProbCutLoop E rec a pr betaPC moves n seldepth s) := by
  induction moves generalizing n seldepth s with
  | nil => intro h; exact h
  | cons m rest ih =>
    unfold pvsProbCutLoop
    dsimp only
    split_ifs with h1 h2 h3 h4 h5
    · exact ih _ _ _
    · exact ih _ _ _
    · intro _ _; rfl
    · split
      · trivial
      · rename_i r hr
        split_ifs with h6 h7
        · intro _ _; rfl
        · intro _ hx
          simp only [incr_stopFlag] at hx
          exact absurd hx h6
        · exact stopOK_of_down E _ _ _ _ (by simpa using h6) (ih (n + 1) r.seldepth r.s)
    · exact stopOK_of_down E _ _ _ _ (by simpa using h4) (ih _ _ _)
    · intro h; exact h

theorem pvsProbCut_stop (E : SearchEnv) (rec : PvsArgs → Searcher → Option PvsResult)
    (a : PvsArgs) (w : Window) (pr : Probe) (st : Static) (seldepth : Int) (s : Searcher) :
    StopOK E (fun x : Generated × Int × Searcher => x.2.2) s.stopFlag
      (pvsProbCut E rec a w pr st seldepth s) := by
  unfold pvsProbCut
  dsimp only
  by_cases h1 : E.doProbcut = true ∧ a.depth ≥ E.probCutMinDepth ∧ E.isMateScore w.beta = false
  · rw [if_pos h1]
    generalize E.scoreAndSort (s.incr sid_probcutTry) (E.generate GP_cap a.p) a.p st.data.gp
      a.ply pr.cmhPtr a.isInCheck (if pr.validTTmove = true then some pr.e else none)
      MoveSlot.INVALIDMOVE = mv
    have h := pvsProbCutLoop_stop E rec a pr (w.beta + E.probCutMargin) mv 0 seldepth
      (s.incr sid_probcutTry)
    cases hl : pvsProbCutLoop E rec a pr (w.beta + E.probCutMargin) mv 0 seldepth
        (s.incr sid_probcutTry) with
    | ret r => rw [hl] at h; exact h
    | next x => rw [hl] at h; exact h
    | fuelOut => trivial
  · rw [if_neg h1]
    intro h; exact h

theorem pvsPrune_stop (E : SearchEnv) (rec : PvsArgs → Searcher → Option PvsResult)
    (a : PvsArgs) (w : Window) (pr : Probe) (st : Static) :
    StopOK E (fun x : Pruned => x.s) st.s.stopFlag (pvsPrune E rec a w pr st) := by
  unfold pvsPrune
  split_ifs with h1 h2
  · intro h hx
    simp only [incr_stopFlag] at hx
    rw [h] at hx
    exact absurd hx (by decide)
  · have k1 := pvsRazoring_stop E a w st w.seldepth st.s
    cases hr : pvsRazoring E a w st w.seldepth st.s with
    | ret r => rw [hr] at k1; exact k1
    | fuelOut => trivial
    | next x1 =>
      rw [hr] at k1
      dsimp only
      have k2 := pvsNullMove_stop E rec a w pr st x1.1 x1.2
      cases hn : pvsNullMove E rec a w pr st x1.1 x1.2 with
      | ret r => rw [hn] at k2; exact fun h => k2 (k1 h)
      | fuelOut => trivial
      | next x2 =>
        rw [hn] at k2
        dsimp only
        have k3 := pvsProbCut_stop E rec a w pr st x2.2.1 x2.2.2
        cases hp : pvsProbCut E rec a w pr st x2.2.1 x2.2.2 with
        | ret r => rw [hp] at k3; exact fun h => k3 (k2 (k1 h))
        | fuelOut => trivial
        | next x3 => rw [hp] at k3; exact fun h => k3 (k2 (k1 h))
  · intro h; exact h

theorem pvsIID_stop (E : SearchEnv) (rec : PvsArgs → Searcher → Option PvsResult)
    (a : PvsArgs) (w : Window) (pr : Probe) (seldepth : Int) (s : Searcher) :
    StopOK E (fun x : Probe × Int × Searcher => x.2.2) s.stopFlag
      (pvsIID E rec a w pr seldepth s) := by
  unfold pvsIID
  split_ifs with h1
  · split
    · trivial
    · rename_i r hr
      split_ifs with h2
      · intro _ _; rfl
      · intro _; simpa using h2
  · intro h; exact h

theorem pvsProbe_stop (E : SearchEnv) (a : PvsArgs) (w : Window) :
    StopOK E (fun _ : Probe => w.s) w.s.stopFlag (pvsProbe E a w) := by
  unfold pvsProbe
  dsimp only
  split_ifs with h1
  · intro h hx
    exfalso
    revert hx
    split
    · split_ifs <;> simp [h]
    · simp [h]
  · intro h; exact h

theorem pvsSyzygy_stop (E : SearchEnv) (a : PvsArgs) (w : Window) (pr : Probe)
    (hEval : ∀ s p, (E.eval s p).2.2.stopFlag = s.stopFlag) :
    StopOK E (fun x : Searcher => x) w.s.stopFlag (pvsSyzygy E a w pr) := by
  unfold pvsSyzygy
  dsimp only
  split_ifs with h1 h2
  · intro h hx
    simp only [setEntry_stopFlag, hEval, incr_stopFlag] at hx
    rw [h] at hx
    exact absurd hx (by decide)
  · intro h hx
    simp only [setEntry_stopFlag, incr_stopFlag] at hx
    rw [h] at hx
    exact absurd hx (by decide)
  · intro h; exact h

theorem pvsStatic_stopFlag (E : SearchEnv) (a : PvsArgs) (pr : Probe) (s : Searcher)
    (hEval : ∀ s p, (E.eval s p).2.2.stopFlag = s.stopFlag) :
    (pvsStatic E a pr s).s.stopFlag = s.stopFlag := by
  have h1 : (pvsStaticScore E a pr s).2.2.stopFlag = s.stopFlag := by
    unfold pvsStaticScore
    split_ifs
    · rfl
    · rfl
    · dsimp only
      split <;> rfl
    · rw [hEval]
      rfl
  unfold pvsStatic
  dsimp only
  split_ifs <;> simpa using h1

theorem pvsBefore_stop (E : SearchEnv) (rec : PvsArgs → Searcher → Option PvsResult)
    (a : PvsArgs) (w : Window) (hEval : ∀ s p, (E.eval s p).2.2.stopFlag = s.stopFlag) :
    StopOK E (fun x : Ctx × Generated × LoopState => x.2.2.s) w.s.stopFlag
      (pvsBefore E rec a w) := by
  unfold pvsBefore
  have k1 := pvsProbe_stop E a w
  cases h1 : pvsProbe E a w with
  | ret r => rw [h1] at k1; exact k1
  | fuelOut => trivial
  | next pr0 =>
    dsimp only
    have k2 := pvsSyzygy_stop E a w pr0 hEval
    cases h2 : pvsSyzygy E a w pr0 with
    | ret r => rw [h2] at k2; exact k2
    | fuelOut => trivial
    | next s1 =>
      rw [h2] at k2
      dsimp only
      have k3 := pvsPrune_stop E rec a w pr0 (pvsStatic E a pr0 s1)
      rw [pvsStatic_stopFlag E a pr0 s1 hEval] at k3
      cases h3 : pvsPrune E rec a w pr0 (pvsStatic E a pr0 s1) with
      | ret r => rw [h3] at k3; exact fun h => k3 (k2 h)
      | fuelOut => trivial
      | next pd =>
        rw [h3] at k3
        dsimp only
        have k4 := pvsIID_stop E rec a w pr0 pd.seldepth pd.s
        cases h4 : pvsIID E rec a w pr0 pd.seldepth pd.s with
        | ret r => rw [h4] at k4; exact fun h => k4 (k3 (k2 h))
        | fuelOut => trivial
        | next y =>
          rw [h4] at k4
          intro h
          exact k4 (k3 (k2 h))

@[simp] theorem extendIf_stopFlag (c : Bool) (id : StatId) (x : Int × Searcher) :
    (extendIf c id x).2.stopFlag = x.2.stopFlag := by
  unfold extendIf
  split_ifs <;> rfl

theorem extendCommon_stopFlag (c : Ctx) (m : Move) (x : Int × Searcher) :
    (extendCommon c m x).2.stopFlag = x.2.stopFlag := by
  unfold extendCommon
  simp only [extendIf_stopFlag]

theorem moveExtension_stopFlag (E : SearchEnv) (c : Ctx) (m : Move) (p2 : Position)
    (firstMove : Bool) (s : Searcher) :
    (moveExtension E c m p2 firstMove s).2.stopFlag = s.stopFlag := by
  unfold moveExtension
  split_ifs
  · simp only [extendIf_stopFlag, extendCommon_stopFlag]
  · rfl

theorem ttSingular_stop (E : SearchEnv) (rec : PvsArgs → Searcher → Option PvsResult)
    (c : Ctx) (m : Move) (l : LoopState) (x : Int × Searcher) :
    StopOK E (fun y : Int × Searcher => y.2) x.2.stopFlag (ttSingular E rec c m l x) := by
  unfold ttSingular
  dsimp only
  split_ifs with h1
  · split
    · trivial
    · rename_i r hr
      split_ifs with h2 h3 h4 h5
      all_goals first
        | (intro _ _; rfl)
        | (intro _ hx; simp only [incr_stopFlag] at hx; exact absurd hx h2)
        | (intro _; simpa using h2)
  · intro h; exact h

theorem ttExtension_stop (E : SearchEnv) (rec : PvsArgs → Searcher → Option PvsResult)
    (c : Ctx) (m : Move) (p2 : Position) (l : LoopState) (s : Searcher) :
    StopOK E (fun y : Int × Searcher => y.2) s.stopFlag (ttExtension E rec c m p2 l s) := by
  unfold ttExtension
  split_ifs
  · dsimp only
    have h := ttSingular_stop E rec c m l
      (extendIf (c.a.pvnode && queenThreat E c.a.p m) sid_queenThreatExtension
        (extendIf (isAdvancedPawnPush c.a.p m && E.isPassedPawnSquare p2 c.a.p.c (Move2To m))
          sid_pawnPushExtension (extendCommon c m (0, s))))
    simp only [extendIf_stopFlag, extendCommon_stopFlag] at h
    exact h
  · intro h; exact h

theorem ttUpdate_stop (E : SearchEnv) (c : Ctx) (m : Move) (l : LoopState) (x : Searched) :
    StopOK E (fun y : LoopState => y.s) false (ttUpdate E c m l x) := by
  unfold ttUpdate
  dsimp only
  split_ifs with h1
  all_goals first
    | (intro _ _; rfl)
    | (intro _ hx; simp at hx; exact absurd hx h1)
    | (intro _; simpa using h1)

theorem ttMovePlayed_stop (E : SearchEnv) (rec : PvsArgs → Searcher → Option PvsResult)
    (c : Ctx) (m : Move) (l : LoopState) :
    StopOK E (fun y : LoopState => y.s) l.s.stopFlag (ttMovePlayed E rec c m l) := by
  unfold ttMovePlayed
  dsimp only
  split_ifs with h1
  · have k1 := ttExtension_stop E rec c m (apply E c.a.p m).2
      { l with bestMove := MoveSlot.played m, validMoveCount := l.validMoveCount + 1
               ttMoveIsCapture := l.ttMoveIsCapture || isCapture (Move2Type m)
               s := l.s.setStackPos ((apply E c.a.p m).2.halfmoves : Int) (apply E c.a.p m).2 }
      (l.s.setStackPos ((apply E c.a.p m).2.halfmoves : Int) (apply E c.a.p m).2)
    simp only [setStackPos_stopFlag] at k1
    split
    · rename_i r hr
      rw [hr] at k1
      exact k1
    · trivial
    · rename_i x hx
      split
      · trivial
      · exact stopOK_of_down E _ _ false _ rfl (ttUpdate_stop E c m _ _)
  · intro h; exact h

theorem pvsTTMove_stop (E : SearchEnv) (rec : PvsArgs → Searcher → Option PvsResult)
    (c : Ctx) (l : LoopState) :
    StopOK E (fun y : LoopState => y.s) l.s.stopFlag (pvsTTMove E rec c l) := by
  unfold pvsTTMove
  split
  · split_ifs
    · exact ttMovePlayed_stop E rec c _ l
    · intro h; exact h
  · intro h; exact h

theorem penalizePrevious_stopFlag (c : Ctx) (m : Move) (depth : Int) (moves : List Move)
    (s : Searcher) : (penalizePrevious c m depth moves s).stopFlag = s.stopFlag := by
  unfold penalizePrevious
  generalize (moves.takeWhile (fun m2 => !sameMove m2 m)).filter
    (fun m2 => decide (Move2Type m2 = T_std)) = ms
  induction ms generalizing s with
  | nil => rfl
  | cons m2 rest ih =>
    rw [List.foldl_cons, ih]
    rfl

theorem moveUpdate_stop (E : SearchEnv) (c : Ctx) (moves : List Move) (m : Move)
    (firstMove : Bool) (l : LoopState) (x : Searched) :
    StopOKMove E false (moveUpdate E c moves m firstMove l x) := by
  unfold moveUpdate
  dsimp only
  split_ifs with h1
  all_goals first
    | (intro _ _; rfl)
    | (intro _ hx; simp [penalizePrevious_stopFlag] at hx; exact absurd hx h1)
    | (intro _; simpa [penalizePrevious_stopFlag] using h1)

theorem stopOKMove_of_down (E : SearchEnv) (b b1 : Bool) (out : MoveOut) (hb : b1 = false)
    (h : StopOKMove E b1 out) : StopOKMove E b out := by
  subst hb
  cases out with
  | ret r => exact fun _ => h rfl
  | cont x => exact fun _ => h rfl
  | brk x => exact fun _ => h rfl
  | fuelOut => trivial

theorem moveLate_stop (E : SearchEnv) (rec : PvsArgs → Searcher → Option PvsResult) (c : Ctx)
    (moves : List Move) (m : Move) (p2 : Position) (isCheck : Bool) (extension : Int)
    (l : LoopState) :
    StopOKMove E l.s.stopFlag (moveLate E rec c moves m p2 isCheck extension l) := by
  unfold moveLate
  dsimp only
  generalize prunableOf E c m isCheck l = q
  have hla : (if q.isDangerPrune = true then { l with s := l.s.incr sid_dangerPrune } else l).s.stopFlag
      = l.s.stopFlag := by split_ifs <;> rfl
  generalize (if q.isDangerPrune = true then { l with s := l.s.incr sid_dangerPrune } else l)
    = la at hla
  have hlb : (if q.isDangerRed = true then { la with s := la.s.incr sid_dangerReduce } else la).s.stopFlag
      = l.s.stopFlag := by split_ifs <;> simpa using hla
  generalize (if q.isDangerRed = true then { la with s := la.s.incr sid_dangerReduce } else la)
    = lb at hlb
  cases hp : movePruned E c m q lb with
  | some id =>
    dsimp only
    intro h
    simpa [hlb] using h
  | none =>
    dsimp only
    have hlc : (if lmrApplies E c m q = true then { lb with s := lb.s.incr sid_lmr } else lb).s.stopFlag
        = l.s.stopFlag := by split_ifs <;> simpa using hlb
    generalize (if lmrApplies E c m q = true then { lb with s := lb.s.incr sid_lmr } else lb)
      = lc at hlc
    generalize (if lmrApplies E c m q = true then lmrValue E c m q extension lc else 0) = red
    split_ifs with hsee
    · intro h
      simpa [hlc] using h
    · split
      · trivial
      · exact stopOKMove_of_down E _ false _ rfl (moveUpdate_stop E c moves m false lc _)

theorem moveApplied_stop (E : SearchEnv) (rec : PvsArgs → Searcher → Option PvsResult)
    (c : Ctx) (moves : List Move) (m : Move) (p2 : Position) (l : LoopState) :
    StopOKMove E l.s.stopFlag (moveApplied E rec c moves m p2 l) := by
  unfold moveApplied
  dsimp only
  split_ifs with h1 h2
  · intro h hx
    rw [h] at hx
    exact absurd hx (by decide)
  · split
    · trivial
    · exact stopOKMove_of_down E _ false _ rfl (moveUpdate_stop E c moves m _ _ _)
  · have h := moveLate_stop E rec c moves m p2 (E.isAttacked p2 (kingSquare p2))
      (moveExtension E c m p2 (decide (l.validMoveCount + 1 = 1))
        (l.s.setStackPos (p2.halfmoves : Int) p2)).1
      { l with validMoveCount := l.validMoveCount + 1
               s := (moveExtension E c m p2 (decide (l.validMoveCount + 1 = 1))
                      (l.s.setStackPos (p2.halfmoves : Int) p2)).2 }
    simp only [moveExtension_stopFlag, setStackPos_stopFlag] at h
    exact h

theorem pvsMove_stop (E : SearchEnv) (rec : PvsArgs → Searcher → Option PvsResult) (c : Ctx)
    (moves : List Move) (m : Move) (l : LoopState) :
    StopOKMove E l.s.stopFlag (pvsMove E rec c moves m l) := by
  unfold pvsMove
  split_ifs
  · intro h; exact h
  · intro h; exact h
  · intro h; exact h
  · exact moveApplied_stop E rec c moves m _ l

theorem pvsLoop_stop (E : SearchEnv) (rec : PvsArgs → Searcher → Option PvsResult) (c : Ctx)
    (moves rest : List Move) (l : LoopState) :
    StopOK E (fun y : LoopState => y.s) l.s.stopFlag (pvsLoop E rec c moves rest l) := by
  induction rest generalizing l with
  | nil => intro h; exact h
  | cons m rest ih =>
    unfold pvsLoop
    split_ifs with hs
    · intro h; exact h
    · have k := pvsMove_stop E rec c moves m l
      have hf : l.s.stopFlag = false := by simpa using hs
      rw [hf] at k ⊢
      cases hm : pvsMove E rec c moves m l with
      | cont l1 =>
        rw [hm] at k
        exact stopOK_of_down E _ _ _ _ (k rfl) (ih l1)
      | brk l1 => rw [hm] at k; exact k
      | ret r => rw [hm] at k; exact k
      | fuelOut => trivial

theorem pvsEnd_stopFlag (E : SearchEnv) (c : Ctx) (l : LoopState) :
    (pvsEnd E c l).s.stopFlag = l.s.stopFlag := by
  unfold pvsEnd
  split_ifs <;> rfl

theorem pvsMoves_stop (E : SearchEnv) (rec : PvsArgs → Searcher → Option PvsResult) (c : Ctx)
    (gen : Generated) (l0 : LoopState) :
    StopOK E (fun y : PvsResult => y.s) l0.s.stopFlag (pvsMoves E rec c gen l0) := by
  unfold pvsMoves
  have k1 := pvsTTMove_stop E rec c l0
  cases h1 : pvsTTMove E rec c l0 with
  | ret r => rw [h1] at k1; exact k1
  | fuelOut => trivial
  | next l1 =>
    rw [h1] at k1
    dsimp only
    have hg : (pvsGenerate E c gen l1.s).2.stopFlag = l1.s.stopFlag := by
      unfold pvsGenerate
      split_ifs <;> rfl
    by_cases hempty : (pvsGenerate E c gen l1.s).1.isEmpty = true
    · rw [if_pos hempty]
      intro h hx
      dsimp only at hx
      rw [hg, k1 h] at hx
      exact absurd hx (by decide)
    · rw [if_neg hempty]
      have k2 := pvsLoop_stop E rec c
        (pvsSort E c (pvsGenerate E c gen l1.s).1 (pvsGenerate E c gen l1.s).2)
        (pvsSort E c (pvsGenerate E c gen l1.s).1 (pvsGenerate E c gen l1.s).2)
        { l1 with s := (pvsGenerate E c gen l1.s).2 }
      dsimp only at k2
      rw [hg] at k2
      cases h2 : pvsLoop E rec c
          (pvsSort E c (pvsGenerate E c gen l1.s).1 (pvsGenerate E c gen l1.s).2)
          (pvsSort E c (pvsGenerate E c gen l1.s).1 (pvsGenerate E c gen l1.s).2)
          { l1 with s := (pvsGenerate E c gen l1.s).2 } with
      | ret r => rw [h2] at k2; exact fun h => k2 (k1 h)
      | fuelOut => trivial
      | next l3 =>
        rw [h2] at k2
        intro h hx
        exfalso
        have h3 := k2 (k1 h)
        dsimp only at h3 hx
        rw [pvsEnd_stopFlag, h3] at hx
        exact absurd hx (by decide)

theorem pvsBody_stop (E : SearchEnv) (rec : PvsArgs → Searcher → Option PvsResult)
    (a : PvsArgs) (w : Window) (hEval : ∀ s p, (E.eval s p).2.2.stopFlag = s.stopFlag) :
    StopOK E (fun y : PvsResult => y.s) w.s.stopFlag (pvsBody E rec a w) := by
  unfold pvsBody
  have k1 := pvsBefore_stop E rec a w hEval
  cases h1 : pvsBefore E rec a w with
  | ret r => rw [h1] at k1; exact k1
  | fuelOut => trivial
  | next x =>
    rw [h1] at k1
    dsimp only
    have k2 := pvsMoves_stop E rec x.1 x.2.1 x.2.2
    cases h2 : pvsMoves E rec x.1 x.2.1 x.2.2 with
    | ret r => rw [h2] at k2; exact fun h => k2 (k1 h)
    | fuelOut => trivial
    | next y => rw [h2] at k2; exact fun h => k2 (k1 h)

theorem pvsEntry_down (E : SearchEnv) (a : PvsArgs) (s : Searcher)
    (hEval : ∀ s p, (E.eval s p).2.2.stopFlag = s.stopFlag)
    (hs : s.stopFlag = false) (htime : E.timeIsUp s = false) (hdepth : 0 < a.depth) :
    StopOK E (fun w : Window => w.s) false (pvsEntry E a s) := by
  unfold pvsEntry
  rw [if_neg (by rw [hs]; decide)]
  dsimp only
  rw [htime]
  simp only [Bool.false_eq_true, if_false]
  split_ifs with h1 h2 h3 h4
  · intro _ hx
    rw [hEval, hs] at hx
    exact absurd hx (by decide)
  · omega
  · intro _ hx
    simp only [incr_stopFlag] at hx
    rw [hs] at hx
    exact absurd hx (by decide)
  · intro _ hx
    simp only [incr_stopFlag] at hx
    rw [hs] at hx
    exact absurd hx (by decide)
  · intro _
    exact hs

/-- A frame that is entered with the stop flag down, at a positive depth, and whose clock
test does not fire, returns `STOPSCORE` whenever the flag is set at its return. -/
theorem pvsNode_stop (E : SearchEnv) (rec : PvsArgs → Searcher → Option PvsResult)
    (a : PvsArgs) (s : Searcher) (hEval : ∀ s p, (E.eval s p).2.2.stopFlag = s.stopFlag)
    (hs : s.stopFlag = false) (htime : E.timeIsUp s = false) (hdepth : 0 < a.depth)
    (r : PvsResult) (h : pvsNode E rec a s = some r) (hr : r.s.stopFlag = true) :
    r.score = E.STOPSCORE := by
  unfold pvsNode at h
  have ke := pvsEntry_down E a s hEval hs htime hdepth
  cases he : pvsEntry E a s with
  | ret r0 =>
    rw [he] at h ke
    cases h
    exact ke rfl hr
  | fuelOut => rw [he] at h; cases h
  | next w =>
    rw [he] at h ke
    dsimp only at h
    have hw : w.s.stopFlag = false := ke rfl
    have k := pvsBody_stop E rec a w hEval
    cases hb : pvsBody E rec a w with
    | ret r1 =>
      rw [hb] at h k
      cases h
      exact k hw hr
    | fuelOut => rw [hb] at h; cases h
    | next r1 =>
      rw [hb] at h k
      cases h
      have := k hw
      rw [this] at hr
      exact absurd hr (by decide)

theorem moveUpdate_validMoveCount (E : SearchEnv) (c : Ctx) (moves : List Move) (m : Move)
    (firstMove : Bool) (l : LoopState) (x : Searched) (l1 : LoopState)
    (h : moveUpdate E c moves m firstMove l x = MoveOut.cont l1
      ∨ moveUpdate E c moves m firstMove l x = MoveOut.brk l1) :
    l1.validMoveCount = l.validMoveCount := by
  unfold moveUpdate at h
  dsimp only at h
  split_ifs at h <;> rcases h with h | h <;> cases h <;> rfl

theorem moveLate_validMoveCount (E : SearchEnv) (rec : PvsArgs → Searcher → Option PvsResult)
    (c : Ctx) (moves : List Move) (m : Move) (p2 : Position) (isCheck : Bool) (extension : Int)
    (l : LoopState) (l1 : LoopState)
    (h : moveLate E rec c moves m p2 isCheck extension l = MoveOut.cont l1
      ∨ moveLate E rec c moves m p2 isCheck extension l = MoveOut.brk l1) :
    l1.validMoveCount = l.validMoveCount := by
  unfold moveLate at h
  dsimp only at h
  generalize prunableOf E c m isCheck l = q at h
  have hla : (if q.isDangerPrune = true then { l with s := l.s.incr sid_dangerPrune }
      else l).validMoveCount = l.validMoveCount := by split_ifs <;> rfl
  generalize (if q.isDangerPrune = true then { l with s := l.s.incr sid_dangerPrune } else l)
    = la at hla h
  have hlb : (if q.isDangerRed = true then { la with s := la.s.incr sid_dangerReduce }
      else la).validMoveCount = l.validMoveCount := by split_ifs <;> simpa using hla
  generalize (if q.isDangerRed = true then { la with s := la.s.incr sid_dangerReduce } else la)
    = lb at hlb h
  cases hp : movePruned E c m q lb with
  | some id =>
    rw [hp] at h
    rcases h with h | h <;> cases h
    exact hlb
  | none =>
    rw [hp] at h
    dsimp only at h
    have hlc : (if lmrApplies E c m q = true then { lb with s := lb.s.incr sid_lmr }
        else lb).validMoveCount = l.validMoveCount := by split_ifs <;> simpa using hlb
    generalize (if lmrApplies E c m q = true then { lb with s := lb.s.incr sid_lmr } else lb)
      = lc at hlc h
    generalize (if lmrApplies E c m q = true then lmrValue E c m q extension lc else 0) = red
      at h
    split_ifs at h with hsee
    · rcases h with h | h <;> cases h
      exact hlc
    · split at h
      · rcases h with h | h <;> cases h
      · rw [moveUpdate_validMoveCount E c moves m false lc _ l1 h, hlc]

theorem moveApplied_validMoveCount (E : SearchEnv)
    (rec : PvsArgs → Searcher → Option PvsResult) (c : Ctx) (moves : List Move) (m : Move)
    (p2 : Position) (l : LoopState) (l1 : LoopState)
    (h : moveApplied E rec c moves m p2 l = MoveOut.cont l1
      ∨ moveApplied E rec c moves m p2 l = MoveOut.brk l1) :
    l1.validMoveCount = l.validMoveCount + 1 := by
  unfold moveApplied at h
  dsimp only at h
  split_ifs at h with h1 h2
  · rcases h with h | h <;> cases h
  · split at h
    · rcases h with h | h <;> cases h
    · rw [moveUpdate_validMoveCount E c moves m _ _ _ l1 h]
  · rw [moveLate_validMoveCount E rec c moves m p2 _ _ _ l1 h]

theorem sameVars_ite_incr (l l1 : LoopState) (h : SameVars l l1) (b : Prop) [Decidable b]
    (id : StatId) : SameVars l (if b then { l1 with s := l1.s.incr id } else l1) := by
  split_ifs
  · exact h
  · exact h

theorem extendIf_tt (c : Bool) (id : StatId) (x : Int × Searcher) :
    (extendIf c id x).2.tt = x.2.tt := by
  unfold extendIf
  split_ifs <;> rfl

theorem moveExtension_tt (E : SearchEnv) (c : Ctx) (m : Move) (p2 : Position)
    (firstMove : Bool) (s : Searcher) : (moveExtension E c m p2 firstMove s).2.tt = s.tt := by
  unfold moveExtension extendCommon
  split_ifs
  · simp only [extendIf_tt]
  · rfl

/-- A late move is either left without a search, the variables of the iteration staying as
they are, or searched by `searchLate` with some reduction. -/
theorem moveLate_cases (E : SearchEnv) (rec : PvsArgs → Searcher → Option PvsResult) (c : Ctx)
    (moves : List Move) (m : Move) (p2 : Position) (isCheck : Bool) (extension : Int)
    (l : LoopState) :
    (∃ l1 : LoopState, moveLate E rec c moves m p2 isCheck extension l = MoveOut.cont l1
        ∧ SameVars l l1)
    ∨ ∃ (l1 : LoopState) (reduction : Int), SameVars l l1
        ∧ l1.validMoveCount = l.validMoveCount
        ∧ moveLate E rec c moves m p2 isCheck extension l
          = match searchLate rec c p2 isCheck extension reduction l1 l1.s with
            | none => MoveOut.fuelOut
            | some x => moveUpdate E c moves m false l1 x := by
  unfold moveLate
  dsimp only
  generalize prunableOf E c m isCheck l = q
  have h0 : SameVars l l := ⟨rfl, rfl, rfl, rfl, rfl, rfl⟩
  have hla := sameVars_ite_incr l l h0 (q.isDangerPrune = true) sid_dangerPrune
  have hva : (if q.isDangerPrune = true then { l with s := l.s.incr sid_dangerPrune }
      else l).validMoveCount = l.validMoveCount := by split_ifs <;> rfl
  generalize (if q.isDangerPrune = true then { l with s := l.s.incr sid_dangerPrune } else l)
    = la at hla hva
  have hlb := sameVars_ite_incr l la hla (q.isDangerRed = true) sid_dangerReduce
  have hvb : (if q.isDangerRed = true then { la with s := la.s.incr sid_dangerReduce }
      else la).validMoveCount = l.validMoveCount := by split_ifs <;> simpa using hva
  generalize (if q.isDangerRed = true then { la with s := la.s.incr sid_dangerReduce } else la)
    = lb at hlb hvb
  cases hp : movePruned E c m q lb with
  | some id =>
    dsimp only
    exact Or.inl ⟨_, rfl, hlb⟩
  | none =>
    dsimp only
    have hlc := sameVars_ite_incr l lb hlb (lmrApplies E c m q = true) sid_lmr
    have hvc : (if lmrApplies E c m q = true then { lb with s := lb.s.incr sid_lmr }
        else lb).validMoveCount = l.validMoveCount := by split_ifs <;> simpa using hvb
    generalize (if lmrApplies E c m q = true then { lb with s := lb.s.incr sid_lmr } else lb)
      = lc at hlc hvc
    generalize (if lmrApplies E c m q = true then lmrValue E c m q extension lc else 0) = red
    split_ifs with hsee
    · exact Or.inl ⟨_, rfl, hlc⟩
    · exact Or.inr ⟨lc, red, hlc, hvc, rfl⟩

theorem ttUpdate_validMoveCount (E : SearchEnv) (c : Ctx) (m : Move) (l : LoopState)
    (x : Searched) (l1 : LoopState) (h : ttUpdate E c m l x = Step.next l1) :
    l1.validMoveCount = l.validMoveCount := by
  unfold ttUpdate at h
  dsimp only at h
  split_ifs at h <;> cases h <;> rfl

theorem pvsTTMove_validMoveCount (E : SearchEnv) (rec : PvsArgs → Searcher → Option PvsResult)
    (c : Ctx) (l l1 : LoopState) (h : pvsTTMove E rec c l = Step.next l1) :
    l1.validMoveCount = l.validMoveCount + (if countedTTMove E c = true then 1 else 0) := by
  unfold pvsTTMove at h
  unfold countedTTMove
  cases hm : c.pr.e.m with
  | played m =>
    rw [hm] at h
    dsimp only at h ⊢
    split_ifs at h with h1
    · unfold ttMovePlayed at h
      dsimp only at h
      split_ifs at h with h2
      · split at h
        · cases h
        · cases h
        · split at h
          · cases h
          · rw [ttUpdate_validMoveCount E c m _ _ l1 h]
            simp [h1.1, h1.2, h2]
      · cases h
        simp [h2]
    · cases h
      have : (c.pr.validTTmove && !isSkipMove m c.a.skipMoves) = false := by
        cases hv : c.pr.validTTmove <;> cases hk : isSkipMove m c.a.skipMoves <;> simp_all
      simp [this]
  | INVALIDMOVE =>
    rw [hm] at h
    cases h
    simp
  | NULLMOVE =>
    rw [hm] at h
    cases h
    simp

theorem pvsMove_validMoveCount (E : SearchEnv) (rec : PvsArgs → Searcher → Option PvsResult)
    (c : Ctx) (moves : List Move) (m : Move) (l l1 : LoopState)
    (h : pvsMove E rec c moves m l = MoveOut.cont l1
      ∨ pvsMove E rec c moves m l = MoveOut.brk l1) :
    l1.validMoveCount = l.validMoveCount + (if countedMove E c m = true then 1 else 0) := by
  unfold pvsMove at h
  unfold countedMove
  split_ifs at h with h1 h2 h3
  · rcases h with h | h <;> cases h
    simp [h1]
  · rcases h with h | h <;> cases h
    simp [h2.1, h2.2]
  · rcases h with h | h <;> cases h
    simp [h3]
  · rw [moveApplied_validMoveCount E rec c moves m _ l l1 h]
    have h1' : isSkipMove m c.a.skipMoves = false := by simpa using h1
    have h3' : (apply E c.a.p m).1 = true := by simpa using h3
    have h2' : (c.pr.validTTmove && sameMoveSlot c.pr.e.m m) = false := by
      cases hv : c.pr.validTTmove <;> cases hk : sameMoveSlot c.pr.e.m m <;> simp_all
    simp [h1', h2', h3']

theorem foldl_writeTables (w : Move → TableWrite) (ms : List Move) (s : Searcher) :
    (ms.foldl (fun acc m2 => acc.writeTables (w m2)) s).tables
      = (ms.reverse.map w) ++ s.tables := by
  induction ms generalizing s with
  | nil => rfl
  | cons m2 rest ih =>
    rw [List.foldl_cons, ih, List.reverse_cons, List.map_append, List.append_assoc]
    rfl

theorem penalizePrevious_tables (c : Ctx) (m : Move) (depth : Int) (moves : List Move)
    (s : Searcher) :
    (penalizePrevious c m depth moves s).tables
      = ((quietBefore m moves).reverse.map
          (fun m2 => TableWrite.historyUpdate (-1) depth m2 c.a.p c.pr.cmhPtr)) ++ s.tables := by
  unfold penalizePrevious quietBefore
  exact foldl_writeTables _ _ s

/-! ## `readFEN`: the placement loop -/

theorem standardChar_cases (ch : Char) (h : standardChar ch = true) :
    ch = 'p' ∨ ch = 'r' ∨ ch = 'n' ∨ ch = 'b' ∨ ch = 'q' ∨ ch = 'k' ∨ ch = 'P' ∨ ch = 'R'
    ∨ ch = 'N' ∨ ch = 'B' ∨ ch = 'Q' ∨ ch = 'K' ∨ ch = '1' ∨ ch = '2' ∨ ch = '3' ∨ ch = '4'
    ∨ ch = '5' ∨ ch = '6' ∨ ch = '7' ∨ ch = '8' ∨ ch = '/' := by
  unfold standardChar at h
  simpa using h

theorem placementStep_counter (ch : Char) (j : Int) (p : Position)
    (h : standardChar ch = true) :
    (placementStep ch j p).1 = j + ((fenCells ch).length : Int) := by
  rcases standardChar_cases ch h with
    h | h | h | h | h | h | h | h | h | h | h | h | h | h | h | h | h | h | h | h | h
  all_goals
    subst h
    simp [placementStep, fenCells, fenPiece] <;> omega

theorem placementStep_board (ch : Char) (j : Int) (p : Position)
    (h : standardChar ch = true) :
    (placementStep ch j p).2.board
        = (match fenPiece ch with
            | some pc => upd p.board (fenSquare j) pc
            | none => p.board) := by
  rcases standardChar_cases ch h with
    h | h | h | h | h | h | h | h | h | h | h | h | h | h | h | h | h | h | h | h | h
  all_goals
    subst h
    simp [placementStep, fenPiece, Position.setBoard, Position.setKing]

theorem placementStep_kingSquare (ch : Char) (j : Int) (p : Position)
    (h : standardChar ch = true) (c : Color) :
    (placementStep ch j p).2.king c
        = if fenPiece ch = some (kingPiece c) then fenSquare j else p.king c := by
  rcases standardChar_cases ch h with
    h | h | h | h | h | h | h | h | h | h | h | h | h | h | h | h | h | h | h | h | h
  all_goals
    subst h
    cases c <;>
      simp [placementStep, fenPiece, kingPiece, Position.setBoard, Position.setKing, upd,
        P_wp, P_wn, P_wb, P_wr, P_wq, P_wk, P_bp, P_bn, P_bb, P_br, P_bq, P_bk]

theorem fenCells_standard (ch : Char) (h : standardChar ch = true) :
    (fenPiece ch = none → ∀ x ∈ fenCells ch, x = P_none)
    ∧ (∀ pc, fenPiece ch = some pc → fenCells ch = [pc] ∧ pc ≠ P_none) := by
  rcases standardChar_cases ch h with
    h | h | h | h | h | h | h | h | h | h | h | h | h | h | h | h | h | h | h | h | h
  all_goals
    subst h
    refine ⟨?_, ?_⟩
    · simp [fenCells, fenPiece]
    · simp [fenCells, fenPiece, P_none,
          P_wp, P_wn, P_wb, P_wr, P_wq, P_wk, P_bp, P_bn, P_bb, P_br, P_bq, P_bk]

/-- The effect of one iteration on a character of the standard notation: the counter
advances by the number of squares the character describes; a piece letter writes its piece at
the square of the counter, a king letter also records the king square; nothing else
changes. -/
theorem placementStep_standard (ch : Char) (j : Int) (p : Position)
    (h : standardChar ch = true) :
    (placementStep ch j p).1 = j + ((fenCells ch).length : Int)
    ∧ (placementStep ch j p).2.board
        = (match fenPiece ch with
            | some pc => upd p.board (fenSquare j) pc
            | none => p.board)
    ∧ (∀ c, (placementStep ch j p).2.king c
        = if fenPiece ch = some (kingPiece c) then fenSquare j else p.king c)
    ∧ (fenPiece ch = none → ∀ x ∈ fenCells ch, x = P_none)
    ∧ (∀ pc, fenPiece ch = some pc → fenCells ch = [pc] ∧ pc ≠ P_none) :=
  ⟨placementStep_counter ch j p h, placementStep_board ch j p h,
    placementStep_kingSquare ch j p h, (fenCells_standard ch h).1, (fenCells_standard ch h).2⟩

/-- The square of the counter `n + 1` is `(7 - n div 8) * 8 + n mod 8`. -/
theorem fenSquare_succ (n : Nat) :
    fenSquare ((n : Int) + 1) = (7 - (n : Int) / 8) * 8 + (n : Int) % 8 := by
  unfold fenSquare cdiv
  have h : ((n : Int) + 1 - 1) = (n : Int) := by omega
  have h0 : (0 : Int) ≤ (n : Int) := Int.ofNat_nonneg n
  have h8 : (0 : Int) ≤ 8 := by decide
  rw [h, Int.tdiv_eq_ediv h0 h8, Int.tmod_eq_emod h0 h8]

/-- Distinct counters up to 64 name distinct squares. -/
theorem fenSquare_inj (a b : Nat) (ha : a < 64) (hb : b < 64)
    (h : fenSquare ((a : Int) + 1) = fenSquare ((b : Int) + 1)) : a = b := by
  rw [fenSquare_succ, fenSquare_succ] at h
  omega

/-- The squares of the counters 1 to 64 are the 64 squares of the board. -/
theorem fenSquare_range (a : Nat) (ha : a < 64) :
    0 ≤ fenSquare ((a : Int) + 1) ∧ fenSquare ((a : Int) + 1) < 64 := by
  rw [fenSquare_succ]
  omega

/-- One iteration of the placement loop: while the counter is at most 64 and a character is
left, the loop reads it and goes on behind it. -/
theorem placementLoop_step (field : List Char) (fuel : Nat) (j : Int) (i : Nat) (p : Position)
    (ch : Char) (tl : List Char) (hdrop : field.drop i = ch :: tl) (hj : j ≤ 64) :
    placementLoop field (fuel + 1) j i p
      = placementLoop field fuel (placementStep ch j p).1 (i + 1) (placementStep ch j p).2
    ∧ field.drop (i + 1) = tl := by
  have hget : field.get? i = some ch := by
    rw [List.get?_eq_getElem?, ← List.head?_drop, hdrop]; rfl
  have hlt : i ≤ field.length := by
    by_contra hc
    have : field.drop i = [] := List.drop_eq_nil_iff.mpr (by omega)
    rw [this] at hdrop
    cases hdrop
  refine ⟨?_, ?_⟩
  · rw [placementLoop, if_pos ⟨hj, hlt⟩, hget]
  · rw [← List.tail_drop, hdrop]; rfl

/-- The placement loop ends once the counter has passed the 64 squares. -/
theorem placementLoop_exit (field : List Char) (fuel : Nat) (j : Int) (i : Nat) (p : Position)
    (hj : 64 < j) : placementLoop field (fuel + 1) j i p = Fen.ok (j, i, p) := by
  rw [placementLoop, if_neg]
  intro h
  have := h.1
  unfold NbSquare at this
  omega

theorem kingPiece_ne_none (c : Color) : kingPiece c ≠ P_none := by
  cases c <;> decide

/-- The placement loop on a field in standard notation whose remaining characters describe
exactly the remaining squares: it ends with the counter at 65, every named piece is on the
square of its counter, no other square is written, and the king squares are those of the last
king letters. -/
theorem placementLoop_standard (field : List Char) :
    ∀ (rest : List Char) (fuel m i : Nat) (p : Position),
      field.drop i = rest → rest.length < fuel →
      (∀ ch ∈ rest, standardChar ch = true) →
      m + (fenSquares rest).length = 64 →
      ∃ i2 p2, placementLoop field fuel ((m : Int) + 1) i p = Fen.ok (65, i2, p2)
        ∧ (∀ (n : Nat) (pc : Int), (fenSquares rest)[n]? = some pc → pc ≠ P_none →
            p2.board (fenSquare (((m + n : Nat) : Int) + 1)) = pc)
        ∧ (∀ k, (∀ (n : Nat) (pc : Int), (fenSquares rest)[n]? = some pc → pc ≠ P_none →
              k ≠ fenSquare (((m + n : Nat) : Int) + 1)) → p2.board k = p.board k)
        ∧ (∀ (c : Color) (n : Nat), (fenSquares rest)[n]? = some (kingPiece c) →
            (∀ n2 : Nat, n < n2 → (fenSquares rest)[n2]? ≠ some (kingPiece c)) →
            p2.king c = fenSquare (((m + n : Nat) : Int) + 1))
        ∧ (∀ c : Color, (∀ n : Nat, (fenSquares rest)[n]? ≠ some (kingPiece c)) → p2.king c = p.king c) := by
  intro rest
  induction rest with
  | nil =>
    intro fuel m i p _ hfuel _ hm
    obtain ⟨f, rfl⟩ : ∃ f, fuel = f + 1 := ⟨fuel - 1, by simp at hfuel; omega⟩
    have hm64 : m = 64 := by simpa [fenSquares] using hm
    subst hm64
    refine ⟨i, p, ?_, ?_, ?_, ?_, ?_⟩
    · exact placementLoop_exit field f _ i p (by norm_num)
    · intro n pc h; simp [fenSquares] at h
    · intro k _; rfl
    · intro c n h; simp [fenSquares] at h
    · intro c _; rfl
  | cons ch tl ih =>
    intro fuel m i p hdrop hfuel hall hm
    obtain ⟨f, rfl⟩ : ∃ f, fuel = f + 1 := ⟨fuel - 1, by simp at hfuel; omega⟩
    have hsq : fenSquares (ch :: tl) = fenCells ch ++ fenSquares tl := by
      unfold fenSquares; rw [List.flatMap_cons]
    rw [hsq] at hm ⊢
    rw [List.length_append] at hm
    by_cases h64 : m = 64
    · -- nothing is left to describe: the loop is over
      subst h64
      have hnil : fenCells ch ++ fenSquares tl = [] := by
        apply List.eq_nil_of_length_eq_zero
        rw [List.length_append]; omega
      rw [hnil]
      refine ⟨i, p, ?_, ?_, ?_, ?_, ?_⟩
      · exact placementLoop_exit field f _ i p (by norm_num)
      · intro n pc h; simp at h
      · intro k _; rfl
      · intro c n h; simp at h
      · intro c _; rfl
    · have hmlt : m < 64 := by omega
      obtain ⟨hloop, hdrop2⟩ :=
        placementLoop_step field f ((m : Int) + 1) i p ch tl hdrop (by omega)
      obtain ⟨hj, hb, hk, hnone, hsome⟩ :=
        placementStep_standard ch ((m : Int) + 1) p (hall ch (List.mem_cons_self _ _))
      have hj2 : (placementStep ch ((m : Int) + 1) p).1
          = ((m + (fenCells ch).length : Nat) : Int) + 1 := by
        rw [hj]; push_cast; ring
      rw [hloop, hj2]
      obtain ⟨i2, p2, hres, h1, h2, h3, h4⟩ :=
        ih f (m + (fenCells ch).length) (i + 1) (placementStep ch ((m : Int) + 1) p).2 hdrop2
          (by simp at hfuel; omega) (fun c hc => hall c (List.mem_cons_of_mem _ hc))
          (by omega)
      -- the squares described by the field, seen from the first character
      have hd1 : ∀ pc, fenPiece ch = some pc → (fenCells ch).length = 1 := by
        intro pc hpc; rw [(hsome pc hpc).1]; rfl
      have hright : ∀ n : Nat,
          (fenCells ch ++ fenSquares tl)[(fenCells ch).length + n]? = (fenSquares tl)[n]? := by
        intro n
        rw [List.getElem?_append, if_neg (by omega)]
        congr 1; omega
      have hzero : ∀ pc, fenPiece ch = some pc →
          (fenCells ch ++ fenSquares tl)[0]? = some pc := by
        intro pc hpc; rw [(hsome pc hpc).1]; simp
      have hsplit : ∀ (n : Nat) (pc : Int), (fenCells ch ++ fenSquares tl)[n]? = some pc →
          pc ≠ P_none →
          (n = 0 ∧ fenPiece ch = some pc) ∨
            ((fenCells ch).length ≤ n ∧ (fenSquares tl)[n - (fenCells ch).length]? = some pc) := by
        intro n pc h hne
        rw [List.getElem?_append] at h
        by_cases hlt : n < (fenCells ch).length
        · rw [if_pos hlt] at h
          left
          cases hfp : fenPiece ch with
          | none => exact absurd (hnone hfp pc (List.getElem?_mem h)) hne
          | some pc0 =>
            have hc := (hsome pc0 hfp).1
            rw [hc] at h hlt
            have hn0 : n = 0 := by simpa using hlt
            subst hn0
            simp at h
            exact ⟨rfl, by rw [h]⟩
        · rw [if_neg hlt] at h
          exact Or.inr ⟨by omega, h⟩
      have hlenS : ∀ (n : Nat) (pc : Int), (fenSquares tl)[n]? = some pc →
          m + (fenCells ch).length + n < 64 := by
        intro n pc h
        obtain ⟨hn, _⟩ := List.getElem?_eq_some.mp h
        omega
      have hstepBoard : ∀ k, (∀ pc, fenPiece ch = some pc → k ≠ fenSquare ((m : Int) + 1)) →
          (placementStep ch ((m : Int) + 1) p).2.board k = p.board k := by
        intro k hk2
        rw [hb]
        cases hfp : fenPiece ch with
        | none => rfl
        | some pc0 => simp only [upd, if_neg (hk2 pc0 hfp)]
      refine ⟨i2, p2, hres, ?_, ?_, ?_, ?_⟩
      · intro n pc h hne
        rcases hsplit n pc h hne with ⟨hn0, hfp⟩ | ⟨hdn, hS⟩
        · subst hn0
          have hd := hd1 pc hfp
          rw [h2 _ ?_, hb, hfp]
          · simp [upd]
          · intro n2 pc2 hS2 _ heq
            have hb2 := hlenS n2 pc2 hS2
            have := fenSquare_inj (m + 0) (m + (fenCells ch).length + n2) (by omega) hb2 heq
            omega
        · have := h1 (n - (fenCells ch).length) pc hS hne
          have he : m + (fenCells ch).length + (n - (fenCells ch).length) = m + n := by omega
          rw [he] at this
          exact this
      · intro k hk2
        rw [h2 k ?_, hstepBoard k ?_]
        · intro pc0 hfp
          have := hk2 0 pc0 (hzero pc0 hfp) (hsome pc0 hfp).2
          simpa using this
        · intro n2 pc2 hS2 hne2
          have := hk2 ((fenCells ch).length + n2) pc2 (by rw [hright]; exact hS2) hne2
          have he : m + ((fenCells ch).length + n2) = m + (fenCells ch).length + n2 := by omega
          rw [he] at this
          exact this
      · intro c n h hlast
        rcases hsplit n _ h (kingPiece_ne_none c) with ⟨hn0, hfp⟩ | ⟨hdn, hS⟩
        · subst hn0
          have hd := hd1 _ hfp
          rw [h4 c ?_, hk c, if_pos hfp]
          · rfl
          · intro n2 hS2
            exact hlast ((fenCells ch).length + n2) (by omega) (by rw [hright]; exact hS2)
        · have := h3 c (n - (fenCells ch).length) hS ?_
          · have he : m + (fenCells ch).length + (n - (fenCells ch).length) = m + n := by omega
            rw [he] at this
            exact this
          · intro n2 hn2 hS2
            refine hlast ((fenCells ch).length + n2) (by omega) ?_
            rw [hright]; exact hS2
      · intro c hno
        rw [h4 c ?_, hk c, if_neg ?_]
        · intro hfp
          exact hno 0 (hzero _ hfp)
        · intro n2 hS2
          exact hno ((fenCells ch).length + n2) (by rw [hright]; exact hS2)

theorem setRookInit_fields (p : Position) (c : Color) (ct : CastlingTypes) (r : Option Int) :
    (setRookInit p c ct r).board = p.board ∧ (setRookInit p c ct r).king = p.king
    ∧ (setRookInit p c ct r).castling = p.castling := by
  cases r <;> exact ⟨rfl, rfl, rfl⟩

theorem readFENRook_fields (p : Position) (right : Nat) (c : Color) (ct : CastlingTypes)
    (first : Int) (queenSide : Bool) (rook : Int) :
    (readFENRook p right c ct first queenSide rook).board = p.board
    ∧ (readFENRook p right c ct first queenSide rook).king = p.king
    ∧ (readFENRook p right c ct first queenSide rook).castling = p.castling := by
  unfold readFENRook
  by_cases h : (p.castling &&& right) ≠ 0
  · rw [if_pos h]
    exact setRookInit_fields _ _ _ _
  · rw [if_neg h]
    exact ⟨rfl, rfl, rfl⟩

theorem readFENInit_board_king (p : Position) :
    (readFENInit p).board = p.board ∧ (readFENInit p).king = p.king
    ∧ (readFENInit p).castling = p.castling := by
  unfold readFENInit
  simp only [readFENRook_fields, and_self]

theorem readFENCastling_board_king (l : List (List Char)) (p : Position) :
    (readFENCastling l p).1.board = p.board ∧ (readFENCastling l p).1.king = p.king := by
  unfold readFENCastling
  cases l.get? 2 with
  | none => exact ⟨rfl, rfl⟩
  | some f =>
    dsimp only
    split_ifs
    · exact ⟨rfl, rfl⟩
    · exact ⟨(readFENInit_board_king _).1, (readFENInit_board_king _).2.1⟩
    · exact ⟨rfl, rfl⟩
    · exact ⟨(readFENInit_board_king _).1, (readFENInit_board_king _).2.1⟩

theorem readFENFinish_board_king (E : FenEnv) (l : List (List Char)) (p : Position) (w : Bool) :
    (readFENFinish E l p w).1.board = p.board ∧ (readFENFinish E l p w).1.king = p.king :=
  ⟨rfl, rfl⟩

/-- What follows the placement loop in `readFEN` leaves the board and the king squares as
the loop left them. -/
theorem readFENRest_board_king (E : FenEnv) (l : List (List Char)) (p : Position) (w : Bool) :
    (readFENRest E l p w).p.board = p.board ∧ (readFENRest E l p w).p.king = p.king := by
  unfold readFENRest
  by_cases h : p.king Co_White = INVALIDSQUARE ∨ p.king Co_Black = INVALIDSQUARE
  · rw [if_pos h]
    exact ⟨rfl, rfl⟩
  · rw [if_neg h]
    dsimp only
    split
    · exact ⟨rfl, rfl⟩
    · split
      · exact ⟨(readFENCastling_board_king _ _).1, (readFENCastling_board_king _ _).2⟩
      · rw [(readFENFinish_board_king _ _ _ _).1, (readFENFinish_board_king _ _ _ _).2]
        exact ⟨(readFENCastling_board_king _ _).1, (readFENCastling_board_king _ _).2⟩

/-- A character that is not the letter of the king of a colour leaves the king square of
that colour as it is. -/
theorem placementStep_king (ch : Char) (j : Int) (p : Position) (c : Color)
    (h : ch ≠ (if c = Co_White then 'K' else 'k')) :
    (placementStep ch j p).2.king c = p.king c := by
  unfold placementStep
  cases c <;> split <;>
    first
    | rfl
    | exact absurd rfl h

/-- The placement loop on a field without the letter of the king of a colour leaves the king
square of that colour as it is. -/
theorem placementLoop_king (field : List Char) (c : Color)
    (hno : (if c = Co_White then 'K' else 'k') ∉ field) :
    ∀ (fuel : Nat) (j : Int) (i : Nat) (p : Position) (x : Int × Nat × Position),
      placementLoop field fuel j i p = Fen.ok x → x.2.2.king c = p.king c := by
  intro fuel
  induction fuel with
  | zero => intro j i p x h; simp [placementLoop] at h
  | succ f ih =>
    intro j i p x h
    rw [placementLoop] at h
    by_cases hc : j ≤ NbSquare ∧ i ≤ field.length
    · rw [if_pos hc] at h
      cases hg : field.get? i with
      | none => rw [hg] at h; cases h
      | some letter =>
        rw [hg] at h
        dsimp only at h
        rw [ih _ _ _ _ h]
        apply placementStep_king
        intro he
        apply hno
        rw [← he]
        rw [List.get?_eq_getElem?] at hg
        exact List.getElem?_mem hg
    · rw [if_neg hc] at h
      cases h
      rfl

/-- Whenever `readFEN` returns on a description whose placement field lacks the letter of
a king, it returns `false`: the king square is still the invalid square of the default
position at the test of the kings. -/
theorem readFEN_missing_king (E : FenEnv) (fen field : List Char) (rest : List (List Char))
    (withMoveCount : Bool) (c : Color)
    (hdef : E.defaultPos.king c = INVALIDSQUARE)
    (hwords : fenWords fen = field :: rest) (_hlen : field.length ≤ 127)
    (hno : (if c = Co_White then 'K' else 'k') ∉ field) (r : FenResult)
    (hr : readFEN E fen withMoveCount = Fen.ok r) : r.ok = false := by
  unfold readFEN at hr
  rw [hwords] at hr
  dsimp only at hr
  cases hl : placementLoop field (field.length + 1) 1 0 (readFENReset E) with
  | ok x =>
    rw [hl] at hr
    dsimp only at hr
    have hk : x.2.2.king c = INVALIDSQUARE := by
      rw [placementLoop_king field c hno _ _ _ _ x hl]
      exact hdef
    cases hr
    unfold readFENRest
    rw [if_pos]
    cases c
    · exact Or.inl hk
    · exact Or.inr hk
  | outOfRange i => rw [hl] at hr; cases hr
  | undefined => rw [hl] at hr; cases hr
  | noFuel => rw [hl] at hr; cases hr

/-! ## The search: reductions, the null move, the stored evaluation -/

theorem lmrValue_bounds (E : SearchEnv) (c : Ctx) (m : Move) (q : Prunable) (extension : Int)
    (l : LoopState) (hdepth : 2 ≤ c.a.depth) :
    1 ≤ c.a.depth - 1 - lmrValue E c m q extension l + extension
    ∧ c.a.depth - 1 - lmrValue E c m q extension l + extension ≤ c.a.depth - 1 := by
  unfold lmrValue
  dsimp only
  generalize (E.lmrReduction (min c.a.depth (E.MAX_DEPTH - 1)) (min l.validMoveCount E.MAX_DEPTH)
    + (if c.st.improving = true then 0 else 1) + (if l.ttMoveIsCapture = true then 1 else 0)
    - E.HISTORY_DIV (2 * m.score)) = r0
  generalize (if r0 > 0 then
      if c.a.pvnode = true then r0 - 1
      else if q.isDangerRed = true then r0 - 1
      else if q.noCheck = false then r0 - 1
      else r0
    else r0) = r1
  split_ifs <;> omega

theorem nullMoveR_bounds (depth evalScore beta : Int) (h : evalScore ≥ beta) :
    cdiv depth 4 + 3 ≤ nullMoveR depth evalScore beta
    ∧ nullMoveR depth evalScore beta ≤ cdiv depth 4 + 6 := by
  unfold nullMoveR
  have h0 : (0 : Int) ≤ cdiv (evalScore - beta) 80 := by
    unfold cdiv
    rw [Int.tdiv_eq_ediv (by omega) (by decide)]
    omega
  constructor
  · have := le_min h0 (by decide : (0 : Int) ≤ 3)
    omega
  · have := min_le_right (cdiv (evalScore - beta) 80) 3
    omega

theorem cdiv_four_nonneg (depth : Int) (h : 0 ≤ depth) : 0 ≤ cdiv depth 4 := by
  unfold cdiv
  rw [Int.tdiv_eq_ediv h (by decide)]
  omega

/-- The static score of a node goes to the stack as it is; the score that the rest of `pvs`
works with, and stores, is the score of the table entry when `evalScoreIsHashScore` is set. -/
theorem pvsStatic_evalScore (E : SearchEnv) (a : PvsArgs) (pr : Probe) (s0 : Searcher) :
    ((pvsStatic E a pr s0).s.stack (a.p.halfmoves : Int)).eval = (pvsStaticScore E a pr s0).1
    ∧ (pvsStatic E a pr s0).evalScore
      = (if (pvsStatic E a pr s0).evalScoreIsHashScore = true then E.adjustHashScore pr.e.s a.ply
          else (pvsStaticScore E a pr s0).1) := by
  unfold pvsStatic
  dsimp only
  refine ⟨?_, rfl⟩
  split_ifs <;> simp [setEntry, Searcher.setStackEval, upd]

/-- The store at the end of `pvs` records, as evaluation, the score `evalScore` of the
node. -/
theorem pvsEnd_stored (E : SearchEnv) (c : Ctx) (l : LoopState) (h : l.validMoveCount ≠ 0) :
    (pvsEnd E c l).s.tt.head?
      = some { h := c.pr.pHash, m := l.bestMove, s := E.createHashScore l.bestScore c.a.ply
               e := E.createHashScore c.st.evalScore c.a.ply, b := l.hashBound
               d := c.a.depth } := by
  unfold pvsEnd
  rw [if_neg h]
  rfl

/-! ## `readFEN`: what follows the placement loop, the counters -/

theorem readFENFinish_moves (E : FenEnv) (l : List (List Char)) (p : Position) (w : Bool) :
    ∃ mv : Nat,
      (readFENFinish E l p w).1.moves = (if mv < 1 then 1 % E.movesMod else mv)
      ∧ (readFENFinish E l p w).1.halfmoves
        = (((((if mv < 1 then 1 % E.movesMod else mv : Nat) : Int) - 1) * 2 + 1
            + (if p.c = Co_Black then 1 else 0)) % (E.halfmovesMod : Int)).toNat
      ∧ (readFENFinish E l p w).1.c = p.c :=
  ⟨_, rfl, rfl, rfl⟩

theorem readFENFinish_counters (E : FenEnv) (l : List (List Char)) (p : Position) (w : Bool)
    (h1 : 1 < E.movesMod) (h2 : 2 * (readFENFinish E l p w).1.moves < E.halfmovesMod) :
    CounterInv (readFENFinish E l p w).1 := by
  obtain ⟨mv, hmv, hhm, hc⟩ := readFENFinish_moves E l p w
  unfold CounterInv
  rw [hc, hhm, hmv]
  rw [hmv] at h2
  have h11 : 1 % E.movesMod = 1 := Nat.mod_eq_of_lt h1
  rw [h11] at h2 ⊢
  have hm : 1 ≤ (if mv < 1 then 1 else mv) := by split_ifs <;> omega
  generalize (if mv < 1 then 1 else mv) = mv2 at hm h2 ⊢
  have hb : (if p.c = Co_Black then (1 : Int) else 0) ≤ 1
      ∧ 0 ≤ (if p.c = Co_Black then (1 : Int) else 0) := by
    split_ifs <;> omega
  generalize (if p.c = Co_Black then (1 : Int) else 0) = b at hb ⊢
  have hlt : ((mv2 : Int) - 1) * 2 + 1 + b < (E.halfmovesMod : Int) := by omega
  have hge : 0 ≤ ((mv2 : Int) - 1) * 2 + 1 + b := by omega
  rw [Int.emod_eq_of_lt hge hlt, Int.toNat_of_nonneg hge]
  ring

/-- When what follows the placement loop in `readFEN` returns true, the position is the one
that the last section leaves, for the colour of the second field and the en-passant square of
the fourth. -/
theorem readFENRest_eq (E : FenEnv) (l : List (List Char)) (p : Position) (w : Bool)
    (hok : (readFENRest E l p w).ok = true) :
    ∃ (c : Color) (ep : Int), readFENEp E l = some ep
      ∧ (readFENRest E l p w).p
        = (readFENFinish E l { (readFENCastling l { p with c := c }).1 with ep := ep } w).1 := by
  unfold readFENRest at hok ⊢
  by_cases h : p.king Co_White = INVALIDSQUARE ∨ p.king Co_Black = INVALIDSQUARE
  · rw [if_pos h] at hok; cases hok
  · rw [if_neg h] at hok ⊢
    dsimp only at hok ⊢
    cases h1 : l.get? 1 with
    | none =>
      simp only [h1] at hok ⊢
      cases h3 : readFENEp E l with
      | none => simp only [h3] at hok; cases hok
      | some ep => simp only [h3]; exact ⟨_, _, rfl, rfl⟩
    | some f =>
      simp only [h1] at hok ⊢
      by_cases hw : f = ['w']
      · simp only [if_pos hw] at hok ⊢
        cases h3 : readFENEp E l with
        | none => simp only [h3] at hok; cases hok
        | some ep => simp only [h3]; exact ⟨_, _, rfl, rfl⟩
      · simp only [if_neg hw] at hok ⊢
        by_cases hb : f = ['b']
        · simp only [if_pos hb] at hok ⊢
          cases h3 : readFENEp E l with
          | none => simp only [h3] at hok; cases hok
          | some ep => simp only [h3]; exact ⟨_, _, rfl, rfl⟩
        · simp only [if_neg hb] at hok
          cases hok

theorem readFENRest_finish (E : FenEnv) (l : List (List Char)) (p : Position) (w : Bool)
    (hok : (readFENRest E l p w).ok = true) :
    ∃ p1, (readFENRest E l p w).p = (readFENFinish E l p1 w).1 := by
  obtain ⟨c, ep, _, h⟩ := readFENRest_eq E l p w hok
  exact ⟨_, h⟩

theorem readFEN_rest (E : FenEnv) (fen : List Char) (w : Bool) (r : FenResult)
    (hr : readFEN E fen w = Fen.ok r) : ∃ p, r = readFENRest E (fenWords fen) p w := by
  unfold readFEN at hr
  split at hr
  · cases hr
  · rename_i field rest hw
    split at hr
    · rename_i x hx
      cases hr
      rw [hw]
      exact ⟨_, rfl⟩
    · cases hr
    · cases hr
    · cases hr

/-! ## `readFEN`: the reads of the placement loop -/

theorem placementStep_advance (ch : Char) (j : Int) (p : Position) :
    (placementStep ch j p).1 = j + (fenAdvance ch : Int) := by
  unfold placementStep fenAdvance
  split <;> simp <;> omega

theorem placementStep_frame (ch : Char) (j : Int) (p : Position) (k : Int)
    (hk : k ≠ fenSquare j) : (placementStep ch j p).2.board k = p.board k := by
  unfold placementStep
  split <;> simp [Position.setBoard, Position.setKing, upd, hk]

theorem fenAdvance_standard (ch : Char) (h : standardChar ch = true) :
    fenAdvance ch = (fenCells ch).length := by
  rcases standardChar_cases ch h with
    h | h | h | h | h | h | h | h | h | h | h | h | h | h | h | h | h | h | h | h | h
  all_goals
    subst h
    rfl

theorem fenCovered_standard (field : List Char) (h : ∀ ch ∈ field, standardChar ch = true) :
    fenCovered field = (fenSquares field).length := by
  induction field with
  | nil => rfl
  | cons ch tl ih =>
    unfold fenCovered fenSquares at ih ⊢
    rw [List.map_cons, List.sum_cons, List.flatMap_cons, List.length_append,
      ih (fun c hc => h c (List.mem_cons_of_mem _ hc)),
      fenAdvance_standard ch (h ch (List.mem_cons_self _ _))]

theorem placementReads_step (field : List Char) (fuel : Nat) (j : Int) (i : Nat) (p : Position)
    (ch : Char) (tl : List Char) (hdrop : field.drop i = ch :: tl) (hj : j ≤ 64) :
    placementReads field (fuel + 1) j i p
      = (i, j) :: placementReads field fuel (placementStep ch j p).1 (i + 1)
          (placementStep ch j p).2
    ∧ i < field.length := by
  have hget : field.get? i = some ch := by
    rw [List.get?_eq_getElem?, ← List.head?_drop, hdrop]; rfl
  have hlt : i < field.length := by
    by_contra hc
    have : field.drop i = [] := List.drop_eq_nil_iff.mpr (by omega)
    rw [this] at hdrop
    cases hdrop
  refine ⟨?_, hlt⟩
  rw [placementReads, if_pos ⟨hj, le_of_lt hlt⟩, hget]

theorem placementReads_exit (field : List Char) (fuel : Nat) (j : Int) (i : Nat) (p : Position)
    (hj : 64 < j) : placementReads field (fuel + 1) j i p = [] := by
  rw [placementReads, if_neg]
  intro h
  have := h.1
  unfold NbSquare at this
  omega

/-- At the end of the field with the counter still at most 64, the loop reads at the index
equal to the length of the field, which is out of range. -/
theorem placementLoop_end (field : List Char) (fuel : Nat) (j : Int) (p : Position)
    (hj : j ≤ 64) :
    placementLoop field (fuel + 1) j field.length p = Fen.outOfRange field.length
    ∧ placementReads field (fuel + 1) j field.length p = [(field.length, j)] := by
  have hget : field.get? field.length = none := by
    rw [List.get?_eq_getElem?]
    exact List.getElem?_eq_none (le_refl _)
  constructor
  · rw [placementLoop, if_pos ⟨hj, le_refl _⟩, hget]
  · rw [placementReads, if_pos ⟨hj, le_refl _⟩, hget]

/-- The placement loop, from any of its states with the counter at least 1: if what remains
of the field covers the squares up to the 64th, every read is at an index below the length of
the field with the counter between 1 and 64, the loop ends, and the squares outside the board
are left as they were; otherwise the loop reads at the index equal to the length of the
field. -/
theorem placementLoop_safe (field : List Char) :
    ∀ (rest : List Char) (fuel m i : Nat) (p : Position),
      field.drop i = rest → i ≤ field.length → rest.length < fuel →
      (64 ≤ m + fenCovered rest →
        (∃ x, placementLoop field fuel ((m : Int) + 1) i p = Fen.ok x
          ∧ x.2.1 ≤ field.length
          ∧ ∀ k, ¬ (0 ≤ k ∧ k < 64) → x.2.2.board k = p.board k)
        ∧ ∀ ij ∈ placementReads field fuel ((m : Int) + 1) i p,
            ij.1 < field.length ∧ 1 ≤ ij.2 ∧ ij.2 ≤ 64)
      ∧ (m + fenCovered rest < 64 →
        placementLoop field fuel ((m : Int) + 1) i p = Fen.outOfRange field.length
        ∧ (∃ j, (field.length, j) ∈ placementReads field fuel ((m : Int) + 1) i p)
        ∧ ∀ ij ∈ placementReads field fuel ((m : Int) + 1) i p,
            ij.1 ≤ field.length ∧ 1 ≤ ij.2 ∧ ij.2 ≤ 64) := by
  intro rest
  induction rest with
  | nil =>
    intro fuel m i p hdrop hi hfuel
    obtain ⟨f, rfl⟩ : ∃ f, fuel = f + 1 := ⟨fuel - 1, by simp at hfuel; omega⟩
    have hil : i = field.length := by
      have := List.drop_eq_nil_iff.mp hdrop
      omega
    subst hil
    constructor
    · intro h64
      have hm : 64 ≤ m := by simpa [fenCovered] using h64
      rw [placementLoop_exit field f _ _ p (by omega),
        placementReads_exit field f _ _ p (by omega)]
      exact ⟨⟨_, rfl, le_refl _, fun k _ => rfl⟩, fun ij h => by simp at h⟩
    · intro h64
      have hm : m < 64 := by simpa [fenCovered] using h64
      obtain ⟨h1, h2⟩ := placementLoop_end field f ((m : Int) + 1) p (by omega)
      rw [h1, h2]
      refine ⟨rfl, ⟨_, List.mem_singleton.mpr rfl⟩, ?_⟩
      intro ij hij
      rw [List.mem_singleton] at hij
      subst hij
      exact ⟨le_refl _, by omega, by omega⟩
  | cons ch tl ih =>
    intro fuel m i p hdrop hi hfuel
    obtain ⟨f, rfl⟩ : ∃ f, fuel = f + 1 := ⟨fuel - 1, by simp at hfuel; omega⟩
    have hcov : fenCovered (ch :: tl) = fenAdvance ch + fenCovered tl := by
      unfold fenCovered; rw [List.map_cons, List.sum_cons]
    by_cases hm : 64 ≤ m
    · -- the counter has passed the last square
      rw [placementLoop_exit field f _ _ p (by omega),
        placementReads_exit field f _ _ p (by omega)]
      refine ⟨fun _ => ⟨⟨_, rfl, hi, fun k _ => rfl⟩, fun ij h => by simp at h⟩, ?_⟩
      intro h; omega
    · have hmlt : m < 64 := by omega
      obtain ⟨hloop, hdrop2⟩ :=
        placementLoop_step field f ((m : Int) + 1) i p ch tl hdrop (by omega)
      obtain ⟨hreads, hilt⟩ :=
        placementReads_step field f ((m : Int) + 1) i p ch tl hdrop (by omega)
      have hj2 : (placementStep ch ((m : Int) + 1) p).1
          = ((m + fenAdvance ch : Nat) : Int) + 1 := by
        rw [placementStep_advance]; push_cast; ring
      rw [hloop, hreads, hj2, hcov]
      obtain ⟨ihA, ihB⟩ :=
        ih f (m + fenAdvance ch) (i + 1) (placementStep ch ((m : Int) + 1) p).2 hdrop2
          (by omega) (by simp at hfuel; omega)
      have hsq := fenSquare_range m hmlt
      constructor
      · intro h64
        obtain ⟨⟨x, hx, hxi, hxb⟩, hr⟩ := ihA (by omega)
        refine ⟨⟨x, hx, hxi, ?_⟩, ?_⟩
        · intro k hk
          rw [hxb k hk]
          apply placementStep_frame
          intro heq
          apply hk
          rw [heq]
          exact hsq
        · intro ij hij
          rcases List.mem_cons.mp hij with h | h
          · subst h
            exact ⟨hilt, by omega, by omega⟩
          · exact hr ij h
      · intro h64
        obtain ⟨hx, ⟨j, hj⟩, hr⟩ := ihB (by omega)
        refine ⟨hx, ⟨j, List.mem_cons_of_mem _ hj⟩, ?_⟩
        intro ij hij
        rcases List.mem_cons.mp hij with h | h
        · subst h
          exact ⟨le_of_lt hilt, by omega, by omega⟩
        · exact hr ij h

theorem fenSquare_on_board (j : Int) (h1 : 1 ≤ j) (h2 : j ≤ 64) :
    0 ≤ fenSquare j ∧ fenSquare j < 64 := by
  obtain ⟨m, rfl⟩ : ∃ m : Nat, j = (m : Int) + 1 := ⟨(j - 1).toNat, by omega⟩
  exact fenSquare_range m (by omega)

/-! ## `readFEN`: the castling field -/

theorem or_eq_zero_iff (a b : Nat) : a ||| b = 0 ↔ a = 0 ∧ b = 0 := by
  constructor
  · intro h
    constructor
    · apply Nat.eq_of_testBit_eq
      intro i
      have := congrArg (fun x => x.testBit i) h
      simp only [Nat.testBit_or, Nat.zero_testBit, Bool.or_eq_false_iff] at this
      rw [this.1, Nat.zero_testBit]
    · apply Nat.eq_of_testBit_eq
      intro i
      have := congrArg (fun x => x.testBit i) h
      simp only [Nat.testBit_or, Nat.zero_testBit, Bool.or_eq_false_iff] at this
      rw [this.2, Nat.zero_testBit]
  · rintro ⟨rfl, rfl⟩
    rfl

theorem or_and_ne_zero (a b r : Nat) :
    (a ||| b) &&& r ≠ 0 ↔ a &&& r ≠ 0 ∨ b &&& r ≠ 0 := by
  rw [Nat.and_distrib_right, Ne, or_eq_zero_iff]
  tauto

theorem castlingRight_and (c c2 : Color) (ks ks2 : Bool) :
    castlingRight c ks &&& castlingRight c2 ks2 ≠ 0 ↔ c = c2 ∧ ks = ks2 := by
  cases c <;> cases c2 <;> cases ks <;> cases ks2 <;> decide

/-- One letter of the castling field in `frcStep`: the right it grants is added. -/
theorem frcStep_fst (p : Position) (acc : Nat × Bool) (cr : Char) :
    (frcStep p acc cr).1 = acc.1 ||| frcGrant p.king cr := by
  unfold frcStep frcGrant fileLetter letterFile SQFILE fileLetterUpper toUpperCode castlingRight
  have hk : ∀ c, 0 ≤ p.king c % 8 := fun c => Int.emod_nonneg _ (by decide)
  have hW := hk Co_White
  have hB := hk Co_Black
  by_cases hu : 65 ≤ cr.toNat ∧ cr.toNat ≤ 72
  · have hc : (65 ≤ cr.toNat ∧ cr.toNat ≤ 90) := ⟨hu.1, by omega⟩
    have hn : ¬ (97 ≤ cr.toNat ∧ cr.toNat ≤ 122) := by omega
    have hor : (65 ≤ cr.toNat ∧ cr.toNat ≤ 72) ∨ (97 ≤ cr.toNat ∧ cr.toNat ≤ 104) := Or.inl hu
    simp only [if_pos hor, if_pos hc, if_neg hn]
    simp only [hu.1, hu.2, decide_True, Bool.and_self, if_true, if_pos (by omega : cr.toNat ≤ 90)]
    by_cases hgt : cr.toNat > 65 + (p.king Co_White % 8).toNat
    · have : (cr.toNat : Int) - 65 > p.king Co_White % 8 := by omega
      simp [hgt, this]
    · have : ¬ ((cr.toNat : Int) - 65 > p.king Co_White % 8) := by omega
      simp [hgt, this]
  · by_cases hl : 97 ≤ cr.toNat ∧ cr.toNat ≤ 104
    · have hc : ¬ (65 ≤ cr.toNat ∧ cr.toNat ≤ 90) := by omega
      have hn : (97 ≤ cr.toNat ∧ cr.toNat ≤ 122) := ⟨hl.1, by omega⟩
      have h72 : ¬ (65 ≤ cr.toNat ∧ cr.toNat ≤ 72) := hu
      have hor : (65 ≤ cr.toNat ∧ cr.toNat ≤ 72) ∨ (97 ≤ cr.toNat ∧ cr.toNat ≤ 104) :=
        Or.inr hl
      simp only [if_pos hor, if_neg hc, if_pos hn]
      have hd : (decide (65 ≤ cr.toNat) && decide (cr.toNat ≤ 72)) = false := by
        simpa using fun h => by omega
      simp only [hd, hl.1, hl.2, decide_True, Bool.and_self, if_true,
        if_neg (by omega : ¬ cr.toNat ≤ 90)]
      by_cases hgt : cr.toNat - 32 > 65 + (p.king Co_Black % 8).toNat
      · have : (cr.toNat : Int) - 97 > p.king Co_Black % 8 := by omega
        simp [hgt, this]
      · have : ¬ ((cr.toNat : Int) - 97 > p.king Co_Black % 8) := by omega
        simp [hgt, this]
    · have hor : ¬ ((65 ≤ cr.toNat ∧ cr.toNat ≤ 72) ∨ (97 ≤ cr.toNat ∧ cr.toNat ≤ 104)) := by
        tauto
      have hd : (decide (65 ≤ cr.toNat) && decide (cr.toNat ≤ 72)) = false := by
        simpa using fun h => by omega
      have hd2 : (decide (97 ≤ cr.toNat) && decide (cr.toNat ≤ 104)) = false := by
        simpa using fun h => by omega
      simp [if_neg hor, hd, hd2]

theorem frcStep_king (p : Position) (x : Nat) : frcStep { p with castling := x } = frcStep p :=
  rfl

theorem frcGrant_and (king : Color → Int) (cr : Char) (c : Color) (ks : Bool) :
    frcGrant king cr &&& castlingRight c ks ≠ 0
      ↔ fileLetter c cr = true ∧ (ks = true ↔ letterFile cr > SQFILE (king c)) := by
  have hdis : ¬ (fileLetter Co_White cr = true ∧ fileLetter Co_Black cr = true) := by
    unfold fileLetter
    simp
    omega
  unfold frcGrant
  by_cases hW : fileLetter Co_White cr = true
  · have hB : ¬ fileLetter Co_Black cr = true := fun h => hdis ⟨hW, h⟩
    rw [if_pos hW, castlingRight_and]
    cases c
    · simp [hW]
      cases ks <;> simp
    · simp [hB]
  · rw [if_neg hW]
    by_cases hB : fileLetter Co_Black cr = true
    · rw [if_pos hB, castlingRight_and]
      cases c
      · simp [hW]
      · simp [hB]
        cases ks <;> simp
    · rw [if_neg hB]
      cases c
      · simp [hW]
      · simp [hB]

theorem frcGrant_le (king : Color → Int) (cr : Char) : frcGrant king cr < 2 ^ 4 := by
  have h : ∀ (c : Color) (ks : Bool), castlingRight c ks < 2 ^ 4 := by
    intro c ks
    cases c <;> cases ks <;> decide
  unfold frcGrant
  split_ifs
  · exact h _ _
  · exact h _ _
  · decide

/-- The loop over the letters of the castling field: a right is held at the end if it was
held at the start or one of the letters grants it. -/
theorem foldl_frcStep (p : Position) (f : List Char) :
    ∀ acc : Nat × Bool,
      (∀ (c : Color) (ks : Bool),
        (f.foldl (frcStep p) acc).1 &&& castlingRight c ks ≠ 0
          ↔ (acc.1 &&& castlingRight c ks ≠ 0
            ∨ ∃ cr ∈ f, fileLetter c cr = true
                ∧ (ks = true ↔ letterFile cr > SQFILE (p.king c))))
      ∧ (acc.1 < 2 ^ 4 → (f.foldl (frcStep p) acc).1 < 2 ^ 4) := by
  induction f with
  | nil =>
    intro acc
    exact ⟨fun c ks => by simp, fun h => h⟩
  | cons cr tl ih =>
    intro acc
    obtain ⟨h1, h2⟩ := ih (frcStep p acc cr)
    rw [List.foldl_cons]
    constructor
    · intro c ks
      rw [h1 c ks, frcStep_fst, or_and_ne_zero, frcGrant_and]
      constructor
      · rintro ((h | h) | ⟨x, hx, h⟩)
        · exact Or.inl h
        · exact Or.inr ⟨cr, List.mem_cons_self _ _, h⟩
        · exact Or.inr ⟨x, List.mem_cons_of_mem _ hx, h⟩
      · rintro (h | ⟨x, hx, h⟩)
        · exact Or.inl (Or.inl h)
        · rcases List.mem_cons.mp hx with rfl | hx
          · exact Or.inl (Or.inr h)
          · exact Or.inr ⟨x, hx, h⟩
    · intro h
      apply h2
      rw [frcStep_fst]
      exact Nat.or_lt_two_pow h (frcGrant_le _ _)

theorem castlingLetters_bits (f : List Char) :
    (castlingLetters f &&& C_wks ≠ 0 ↔ 'K' ∈ f) ∧ (castlingLetters f &&& C_wqs ≠ 0 ↔ 'Q' ∈ f)
    ∧ (castlingLetters f &&& C_bks ≠ 0 ↔ 'k' ∈ f) ∧ (castlingLetters f &&& C_bqs ≠ 0 ↔ 'q' ∈ f)
    ∧ castlingLetters f < 2 ^ 4 := by
  unfold castlingLetters
  rw [← List.elem_iff, ← List.elem_iff, ← List.elem_iff, ← List.elem_iff]
  cases List.elem 'K' f <;> cases List.elem 'Q' f <;> cases List.elem 'k' f
    <;> cases List.elem 'q' f <;> decide

/-- The rights that the section "Initialize all castle possibilities" of `readFEN` leaves for
a castling field: those of the letters `K`, `Q`, `k`, `q` when one of them is in the field,
otherwise those that the loop over the file letters collects. -/
theorem readFENCastling_castling (l : List (List Char)) (p : Position) (f : List Char)
    (hf : l.get? 2 = some f) :
    (readFENCastling l p).1.castling
      = if (f.elem 'K' || f.elem 'Q' || f.elem 'k' || f.elem 'q') = false then
          (f.foldl (frcStep p) (castlingLetters f, false)).1
        else castlingLetters f := by
  unfold readFENCastling
  simp only [hf]
  by_cases hfound : (f.elem 'K' || f.elem 'Q' || f.elem 'k' || f.elem 'q') = false
  · simp only [if_pos hfound, frcStep_king]
    split_ifs
    · rfl
    · exact (readFENInit_board_king _).2.2
  · simp only [if_neg hfound]
    split_ifs
    · rfl
    · exact (readFENInit_board_king _).2.2

/-! ## `orient` and the weight loader -/

/-- For the Black perspective `orient` turns the board by 180 degrees: the square `s` goes to
`63 - s`, rank and file are both flipped. -/
theorem orient_black (s : Int) (h0 : 0 ≤ s) (h1 : s < 64) :
    orient Co_Black s = 63 - s
    ∧ SQFILE (orient Co_Black s) = 7 - SQFILE s
    ∧ SQRANK (orient Co_Black s) = 7 - SQRANK s := by
  have h : orient Co_Black s = 63 - s := by
    interval_cases s <;> rfl
  rw [h]
  unfold SQFILE SQRANK
  omega

theorem orient_white (s : Int) : orient Co_White s = s := by
  unfold orient
  rw [if_neg (by decide), zero_mul]
  cases s with
  | ofNat m => show Int.xor (Int.ofNat m) (Int.ofNat 0) = Int.ofNat m; simp [Int.xor]
  | negSucc m => show Int.xor (Int.negSucc m) (Int.ofNat 0) = Int.negSucc m; simp [Int.xor]

theorem stream_eq (sizeofNT : Nat) (request read : Nat) :
    stream sizeofNT request read = read + request * sizeofNT := by
  induction request generalizing read with
  | zero => simp [stream]
  | succ n ih => rw [stream, ih]; ring

theorem load_affine_eq (sizeofNT dim0 dim1 read : Nat) :
    load_ sizeofNT dim0 dim1 read = read + (dim0 * dim1 + dim1) * sizeofNT := by
  unfold load_
  rw [stream_eq, stream_eq]
  ring

theorem loadWeights_eq (sizeofNT read : Nat) :
    loadWeights sizeofNT read
      = read + sizeofNT * (2 * (12 * 64 * 64 * 128 + 128) + (256 * 32 + 32) + (32 * 32 + 32)
          + (64 * 32 + 32) + (96 * 1 + 1)) := by
  unfold loadWeights
  simp only [load_affine_eq, half_ka_numel, base_dim]
  ring

/-- Without the size test (`__ANDROID__` or `WITHOUT_FILESYSTEM` defined) a file of any size
is accepted. -/
theorem load_without_test (android withoutFilesystem : Bool) (sizeofNT : Nat)
    (fileSize : Option Nat) (h : android = true ∨ withoutFilesystem = true) :
    (load android withoutFilesystem sizeofNT fileSize).1 = true := by
  unfold load
  rw [if_neg]
  rcases h with h | h <;> simp [h]

/-! ## The claims -/

/-- C1: `applyMove(p, m, noValidation)` returns false exactly when `noValidation` is false
and, after the piece relocation for `m` has been carried out on `p`, the square of the king of
the moving side (the side to move of `p`, which the relocation does not flip) is attacked; in
every other case it returns true. Nothing else enters the returned boolean. -/
theorem applyMove_false_iff (E : Env) (p : Position) (m : Move) (noValidation : Bool) :
    ((applyMove E p m noValidation).1 = false ↔
        (noValidation = false
          ∧ E.isAttacked (applyMoveSwitch E p m) ((applyMoveSwitch E p m).king p.c) = true))
    ∧ ((applyMove E p m noValidation).1 = true ↔
        ¬ (noValidation = false
          ∧ E.isAttacked (applyMoveSwitch E p m) ((applyMoveSwitch E p m).king p.c) = true))
    ∧ (applyMoveSwitch E p m).c = p.c := by
  have hc : (applyMoveSwitch E p m).c = p.c := (applyMoveSwitch_frame E p m).1
  simp only [applyMove, kingSquare, hc]
  cases noValidation <;>
    cases h : E.isAttacked (applyMoveSwitch E p m) ((applyMoveSwitch E p m).king p.c) <;>
    simp [h]

/-- C2: hash incrementality. For a position whose stored full hash equals the hash computed
from scratch (XOR of the piece key of every occupied square, the en-passant key if an
en-passant square is set, the castling-rights key and the side-to-move key), in which board
and bitboards agree, and a validated move of kind quiet, capture, en-passant or promotion,
after `applyMove` returns true the stored hash equals the from-scratch hash of the resulting
position. -/
theorem applyMove_hash (E : Env) (p : Position) (m : Move) (noValidation : Bool)
    (hassert : applyMoveAsserts p m = true) (hA : Agree p)
    (hpl : isPseudoLegal E p (MoveSlot.played m) = true) (hkind : isStdKind m.type = true)
    (hh : p.h = computeHash E p) (hok : (applyMove E p m noValidation).1 = true) :
    (applyMove E p m noValidation).2.h = computeHash E (applyMove E p m noValidation).2 := by
  obtain ⟨⟨hf, _⟩, ⟨ht, _⟩, _⟩ := applyMoveAsserts_squares p m hassert
  rw [applyMove_of_true E p m noValidation hok]
  exact applyMoveFinish_hashOK E p _ m ((applyMoveSwitch_hashes E p m hassert hA hpl hkind).1 hh)
    hf ht

theorem applyMove_hash_witness :
    applyMoveAsserts epPosition move_e5d6 = true
    ∧ Agree epPosition
    ∧ isPseudoLegal exampleEnv epPosition (MoveSlot.played move_e5d6) = true
    ∧ isStdKind move_e5d6.type = true
    ∧ epPosition.h = computeHash exampleEnv epPosition
    ∧ (applyMove exampleEnv epPosition move_e5d6 false).1 = true
    ∧ (applyMove exampleEnv epPosition move_e5d6 false).2.h
        = computeHash exampleEnv (applyMove exampleEnv epPosition move_e5d6 false).2 :=
  ⟨by decide, by decide, by decide, by decide, by decide, by decide,
    applyMove_hash exampleEnv epPosition move_e5d6 false (by decide) (by decide) (by decide)
      (by decide) (by decide) (by decide)⟩

/-- C3: pawn-hash incrementality. For a position whose stored pawn hash equals the XOR of the
piece keys of all pawns and kings on the board, in which board and bitboards agree, and a
validated move of kind quiet, capture, en-passant or promotion, after `applyMove` returns true
the pawn hash again equals the XOR of the piece keys of all pawns and kings on the resulting
board. -/
theorem applyMove_pawnHash (E : Env) (p : Position) (m : Move) (noValidation : Bool)
    (hassert : applyMoveAsserts p m = true) (hA : Agree p)
    (hpl : isPseudoLegal E p (MoveSlot.played m) = true) (hkind : isStdKind m.type = true)
    (hh : p.ph = computePHash E p) (hok : (applyMove E p m noValidation).1 = true) :
    (applyMove E p m noValidation).2.ph = computePHash E (applyMove E p m noValidation).2 := by
  rw [applyMove_of_true E p m noValidation hok]
  have h1 := (applyMoveSwitch_hashes E p m hassert hA hpl hkind).2 hh
  unfold computePHash at h1 ⊢
  simp only [applyMoveFinish_fields E p _ m]
  exact h1

theorem applyMove_pawnHash_witness :
    applyMoveAsserts promPosition move_a7b8q = true
    ∧ Agree promPosition
    ∧ isPseudoLegal exampleEnv promPosition (MoveSlot.played move_a7b8q) = true
    ∧ isStdKind move_a7b8q.type = true
    ∧ promPosition.ph = computePHash exampleEnv promPosition
    ∧ (applyMove exampleEnv promPosition move_a7b8q false).1 = true
    ∧ (applyMove exampleEnv promPosition move_a7b8q false).2.ph
        = computePHash exampleEnv (applyMove exampleEnv promPosition move_a7b8q false).2 :=
  ⟨by decide, by decide, by decide, by decide, by decide, by decide,
    applyMove_pawnHash exampleEnv promPosition move_a7b8q false (by decide) (by decide)
      (by decide) (by decide) (by decide) (by decide)⟩

/-- C4: board/bitboard agreement is preserved. If before the call every square's piece on the
board array is a member of exactly the bitboard of that piece and of its colour's occupancy
(and empty squares of none), then after `applyMove` with a validated move of kind quiet,
capture, en-passant or promotion the same holds for every square of the resulting position,
whether the call returns true or false. -/
theorem applyMove_agree (E : Env) (p : Position) (m : Move) (noValidation : Bool)
    (hassert : applyMoveAsserts p m = true) (hA : Agree p)
    (hpl : isPseudoLegal E p (MoveSlot.played m) = true) (hkind : isStdKind m.type = true) :
    Agree (applyMove E p m noValidation).2 := by
  have h1 := applyMoveSwitch_agree E p m hassert hA hpl hkind
  simp only [applyMove]
  split_ifs
  · exact h1
  · exact h1.congr (applyMoveFinish_fields E p _ m).1 (applyMoveFinish_fields E p _ m).2.1
      (applyMoveFinish_fields E p _ m).2.2.1

theorem applyMove_agree_witness :
    applyMoveAsserts epPosition move_e5d6 = true
    ∧ Agree epPosition
    ∧ isPseudoLegal exampleEnv epPosition (MoveSlot.played move_e5d6) = true
    ∧ isStdKind move_e5d6.type = true
    ∧ Agree (applyMove exampleEnv epPosition move_e5d6 false).2 :=
  ⟨by decide, by decide, by decide, by decide,
    applyMove_agree exampleEnv epPosition move_e5d6 false (by decide) (by decide)
      (by decide) (by decide)⟩

/-- C5: after a successful `applyMove` the fifty-move counter is 0 if the moved piece is a pawn
or the destination square was occupied before the move, and otherwise one more than before the
call, modulo the number of values of the counter. -/
theorem applyMove_fifty (E : Env) (p : Position) (m : Move) (noValidation : Bool)
    (hok : (applyMove E p m noValidation).1 = true) :
    (applyMove E p m noValidation).2.fifty
      = if std_abs (p.board m.sqFrom) = P_wp ∨ p.board m.sqTo ≠ P_none then 0
        else (p.fifty + 1) % E.fiftyMod := by
  rw [applyMove_of_true E p m noValidation hok]
  simp only [applyMoveFinish_fields, (applyMoveSwitch_frame E p m).2.2.1]
  by_cases h1 : std_abs (p.board m.sqFrom) = P_wp <;> by_cases h2 : p.board m.sqTo = P_none <;>
    simp [h1, h2]

theorem applyMove_fifty_witness :
    (applyMove exampleEnv startPosition move_e2e4 false).1 = true
    ∧ (applyMove exampleEnv startPosition move_e2e4 false).2.fifty
      = if std_abs (startPosition.board move_e2e4.sqFrom) = P_wp
          ∨ startPosition.board move_e2e4.sqTo ≠ P_none then 0
        else (startPosition.fifty + 1) % exampleEnv.fiftyMod :=
  ⟨by decide, applyMove_fifty exampleEnv startPosition move_e2e4 false (by decide)⟩

/-- C6: after a successful `applyMove` the half-move counter is one more than before the call,
modulo the number of values of the counter, whatever the kind of move and whichever side
moved; it is exactly one greater whenever the counter does not wrap. -/
theorem applyMove_halfmoves (E : Env) (p : Position) (m : Move) (noValidation : Bool)
    (hok : (applyMove E p m noValidation).1 = true) :
    (applyMove E p m noValidation).2.halfmoves = (p.halfmoves + 1) % E.halfmovesMod
    ∧ (p.halfmoves + 1 < E.halfmovesMod →
        (applyMove E p m noValidation).2.halfmoves = p.halfmoves + 1) := by
  have key : (applyMove E p m noValidation).2.halfmoves = (p.halfmoves + 1) % E.halfmovesMod := by
    rw [applyMove_of_true E p m noValidation hok]
    simp only [applyMoveFinish_fields, (applyMoveSwitch_frame E p m).2.2.2.2.1]
  exact ⟨key, fun hlt => by rw [key, Nat.mod_eq_of_lt hlt]⟩

theorem applyMove_halfmoves_witness :
    (applyMove exampleEnv startPosition move_e2e4 false).1 = true
    ∧ ((applyMove exampleEnv startPosition move_e2e4 false).2.halfmoves
        = (startPosition.halfmoves + 1) % exampleEnv.halfmovesMod
      ∧ (startPosition.halfmoves + 1 < exampleEnv.halfmovesMod →
        (applyMove exampleEnv startPosition move_e2e4 false).2.halfmoves
          = startPosition.halfmoves + 1)) :=
  ⟨by decide, applyMove_halfmoves exampleEnv startPosition move_e2e4 false (by decide)⟩

/-- C7, as stated, fails: after the successful move e2-e4 from the initial position (White
moved) the full-move counter is what it was, not one greater. -/
theorem applyMove_moves_counterexample :
    (applyMove exampleEnv startPosition move_e2e4 false).1 = true
    ∧ (applyMove exampleEnv startPosition move_e2e4 false).2.moves = startPosition.moves
    ∧ (applyMove exampleEnv startPosition move_e2e4 false).2.moves ≠ startPosition.moves + 1 := by
  decide

/-- C7, amended: after a successful `applyMove` the full-move counter is one more than before
the call (modulo the number of values of the counter) if Black made the move, and is unchanged
if White made the move. -/
theorem applyMove_moves (E : Env) (p : Position) (m : Move) (noValidation : Bool)
    (hok : (applyMove E p m noValidation).1 = true) :
    (applyMove E p m noValidation).2.moves
      = if p.c = Co_Black then (p.moves + 1) % E.movesMod else p.moves := by
  rw [applyMove_of_true E p m noValidation hok]
  simp only [applyMoveFinish_fields, (applyMoveSwitch_frame E p m).1,
    (applyMoveSwitch_frame E p m).2.2.2.1]
  cases hc : p.c <;> simp [Color.flip]

theorem applyMove_moves_witness :
    (applyMove exampleEnv startPosition move_e2e4 false).1 = true
    ∧ (applyMove exampleEnv startPosition move_e2e4 false).2.moves
      = if startPosition.c = Co_Black then (startPosition.moves + 1) % exampleEnv.movesMod
        else startPosition.moves :=
  ⟨by decide, applyMove_moves exampleEnv startPosition move_e2e4 false (by decide)⟩

/-- C8, as stated, fails: `applyNull` on the initial position changes the half-move counter
and the last move, which the claim lists among the fields left as they were. -/
theorem applyNull_counterexample :
    (applyNull exampleEnv startPosition).halfmoves ≠ startPosition.halfmoves
    ∧ (applyNull exampleEnv startPosition).lastMove ≠ startPosition.lastMove := by
  decide

/-- C8, amended: `applyNull` flips the side to move, sets the en-passant square to none, XORs
the two side-to-move keys and the key of the cleared en-passant square into `h`, records the
null move as last move, adds one to the half-move counter and, when Black passed, to the
full-move counter (both modulo the number of values of the counter); board, bitboards,
castling rights, king squares, initial squares, material, fifty and the pawn hash are the same
after the call as before. -/
theorem applyNull_effect (E : Env) (p : Position) :
    (applyNull E p).c = p.c.flip
    ∧ (applyNull E p).ep = INVALIDSQUARE
    ∧ (applyNull E p).h = p.h ^^^ E.ZT 3 13 ^^^ E.ZT 4 13 ^^^ epKey E p.ep
    ∧ (applyNull E p).lastMove = MoveSlot.NULLMOVE
    ∧ (applyNull E p).halfmoves = (p.halfmoves + 1) % E.halfmovesMod
    ∧ (applyNull E p).moves = (if p.c = Co_Black then (p.moves + 1) % E.movesMod else p.moves)
    ∧ (applyNull E p).board = p.board
    ∧ (applyNull E p).allB = p.allB
    ∧ (applyNull E p).allPieces = p.allPieces
    ∧ (applyNull E p).castling = p.castling
    ∧ (applyNull E p).king = p.king
    ∧ (applyNull E p).rooksInit = p.rooksInit
    ∧ (applyNull E p).kingInit = p.kingInit
    ∧ (applyNull E p).mat = p.mat
    ∧ (applyNull E p).fifty = p.fifty
    ∧ (applyNull E p).ph = p.ph := by
  unfold applyNull
  simp only [incHalfmoves_fields, incMoves_fields, clearEp_fields, flipColor_fields, epKey,
    and_self, and_true, true_and]
  refine ⟨?_, ?_⟩
  · split_ifs <;> simp
  · cases hc : p.c <;> simp [Color.flip]

/-- C9: for a validated en-passant move by side `c` in a position with en-passant square `e`
(board and bitboards in agreement), a successful `applyMove` empties the origin square and
the captured-pawn square (`e - 8` when White moves, `e + 8` when Black moves), places the
moving pawn on the destination square, removes the captured pawn from the opponent's pawn
bitboard and occupancy, XORs the three corresponding piece keys, and no other piece key, into
both `h` and `ph` (the en-passant branch itself XORs nothing else into `h`; the end of
`applyMove` then XORs the en-passant and side keys of column 13), and decrements the
opponent's pawn count by one (the count being positive and the derived-material helper leaving
pawn counts alone). -/
theorem applyMove_ep (E : Env) (p : Position) (m : Move) (noValidation : Bool)
    (hassert : applyMoveAsserts p m = true) (hA : Agree p)
    (hpl : isPseudoLegal E p (MoveSlot.played m) = true) (hty : m.type = T_ep)
    (hok : (applyMove E p m noValidation).1 = true)
    (hO : ∀ (q : Position) (c : Color), E.updateMaterialOther q c M_p = q.mat c M_p)
    (hmat : 0 < p.mat p.c.flip M_p ∧ p.mat p.c.flip M_p < E.matMod) :
    (applyMove E p m noValidation).2.board m.sqFrom = P_none
    ∧ (applyMove E p m noValidation).2.board (p.ep + (if p.c = Co_White then -8 else 8)) = P_none
    ∧ (applyMove E p m noValidation).2.board m.sqTo = (if p.c = Co_White then P_wp else P_bp)
    ∧ ((applyMove E p m noValidation).2.allB ((if p.c = Co_White then P_bp else P_wp) + PieceShift)).testBit
        (p.ep + (if p.c = Co_White then -8 else 8)).toNat = false
    ∧ ((applyMove E p m noValidation).2.allPieces p.c.flip).testBit
        (p.ep + (if p.c = Co_White then -8 else 8)).toNat = false
    ∧ (applyMove E p m noValidation).2.ph
        = p.ph ^^^ E.ZT m.sqFrom ((if p.c = Co_White then P_wp else P_bp) + PieceShift)
          ^^^ E.ZT (p.ep + (if p.c = Co_White then -8 else 8))
              ((if p.c = Co_White then P_bp else P_wp) + PieceShift)
          ^^^ E.ZT m.sqTo ((if p.c = Co_White then P_wp else P_bp) + PieceShift)
    ∧ (applyMove E p m noValidation).2.h
        = p.h ^^^ E.ZT m.sqFrom ((if p.c = Co_White then P_wp else P_bp) + PieceShift)
          ^^^ E.ZT (p.ep + (if p.c = Co_White then -8 else 8))
              ((if p.c = Co_White then P_bp else P_wp) + PieceShift)
          ^^^ E.ZT m.sqTo ((if p.c = Co_White then P_wp else P_bp) + PieceShift)
          ^^^ epKey E p.ep ^^^ epKey E (applyMove E p m noValidation).2.ep
          ^^^ E.ZT 3 13 ^^^ E.ZT 4 13
    ∧ (applyMoveSwitch E p m).h
        = p.h ^^^ E.ZT m.sqFrom ((if p.c = Co_White then P_wp else P_bp) + PieceShift)
          ^^^ E.ZT (p.ep + (if p.c = Co_White then -8 else 8))
              ((if p.c = Co_White then P_bp else P_wp) + PieceShift)
          ^^^ E.ZT m.sqTo ((if p.c = Co_White then P_wp else P_bp) + PieceShift)
    ∧ (applyMove E p m noValidation).2.mat p.c.flip M_p + 1 = p.mat p.c.flip M_p := by
  obtain ⟨hto, htn, hfp, hcap, het, hef, hne⟩ := isPseudoLegal_ep_facts E p m hassert hA hpl hty
  obtain ⟨⟨hf, hf64⟩, ⟨ht, ht64⟩, hep⟩ := applyMoveAsserts_squares p m hassert
  obtain ⟨_, he, he64⟩ := hep hty
  have hsw : applyMoveSwitch E p m = applyEp E p m.sqFrom m.sqTo (p.board m.sqFrom) := by
    obtain ⟨f, t, ty, sc⟩ := m
    simp only at hty
    subst hty
    rfl
  rw [applyMove_of_true E p m noValidation hok, hsw]
  generalize hedef : p.ep + (if p.c = Co_White then -8 else 8) = e at *
  refine ⟨?_, ?_, ?_, ?_, ?_, ?_, ?_, ?_, ?_⟩
  · simp only [applyMoveFinish_fields, applyEp_fields, hedef, upd_apply, if_neg (Ne.symm hef),
      if_neg hne, if_true]
  · simp only [applyMoveFinish_fields, applyEp_fields, hedef, upd_apply, if_true]
  · simp only [applyMoveFinish_fields, applyEp_fields, hedef, upd_apply, if_neg (Ne.symm het),
      if_true, hfp]
  · simp only [applyMoveFinish_fields]
    rw [applyEp_allB E p _ _ _ _ e hf ht (by rw [hedef]; exact he) he he64, hedef, hfp]
    cases hc : p.c <;> simp [P_wp, P_bp, PieceShift]
  · simp only [applyMoveFinish_fields]
    rw [applyEp_allPieces E p _ _ _ _ e hf ht (by rw [hedef]; exact he) he he64, hedef, hfp]
    cases hc : p.c <;> simp [P_wp, P_bp, Color.flip]
  · simp only [applyMoveFinish_fields, applyEp_fields, hedef, hfp]
  · simp only [applyMoveFinish_fields, applyEp_fields, hedef, hfp,
      epKey_newEp E _ _ _ hf ht]
  · simp only [applyEp_fields, hedef, hfp]
  · rw [applyMoveFinish_mat_pawns E p _ m _ hO]
    simp only [applyEp_fields, upd_same, matDec]
    obtain ⟨h1, h2⟩ := hmat
    have hsplit : p.mat p.c.flip M_p + E.matMod - 1 = (p.mat p.c.flip M_p - 1) + E.matMod := by
      omega
    have hlt : p.mat p.c.flip M_p - 1 < E.matMod := by omega
    rw [hsplit, Nat.add_mod_right, Nat.mod_eq_of_lt hlt]
    omega

theorem applyMove_ep_witness :
    applyMoveAsserts epPosition move_e5d6 = true
    ∧ Agree epPosition
    ∧ isPseudoLegal exampleEnv epPosition (MoveSlot.played move_e5d6) = true
    ∧ move_e5d6.type = T_ep
    ∧ (applyMove exampleEnv epPosition move_e5d6 false).1 = true
    ∧ (0 < epPosition.mat epPosition.c.flip M_p
        ∧ epPosition.mat epPosition.c.flip M_p < exampleEnv.matMod)
    ∧ (applyMove exampleEnv epPosition move_e5d6 false).2.board 36 = P_none
    ∧ (applyMove exampleEnv epPosition move_e5d6 false).2.board 35 = P_none
    ∧ (applyMove exampleEnv epPosition move_e5d6 false).2.board 43 = P_wp
    ∧ (applyMove exampleEnv epPosition move_e5d6 false).2.mat Co_Black M_p + 1
        = epPosition.mat Co_Black M_p := by
  have h := applyMove_ep exampleEnv epPosition move_e5d6 false (by decide) (by decide)
    (by decide) (by decide) (by decide) (fun _ _ => rfl) (by decide)
  exact ⟨by decide, by decide, by decide, by decide, by decide, by decide, h.1, h.2.1, h.2.2.1,
    h.2.2.2.2.2.2.2.2⟩

/-- C10: for a validated promotion move (plain or capturing; queen, rook, bishop or knight) by
a pawn of side `c`, in a position in which board and bitboards agree, after a successful
`applyMove` the destination square holds the promoted piece of colour `c` on the board array
and in that piece's bitboard, the origin is empty, no pawn of either colour is recorded on the
destination or the origin (board array and pawn bitboards), and the full hash has received the
promoted piece's key at the destination, the pawn's key only at the origin. -/
theorem applyMove_promotion (E : Env) (p : Position) (m : Move) (noValidation : Bool)
    (hassert : applyMoveAsserts p m = true) (hA : Agree p)
    (hpl : isPseudoLegal E p (MoveSlot.played m) = true) (hprom : isPromotion m.type = true)
    (hok : (applyMove E p m noValidation).1 = true) :
    (applyMove E p m noValidation).2.board m.sqTo = promPieceOf p.c m.type
    ∧ (promPieceOf p.c m.type > 0 ↔ p.c = Co_White)
    ∧ (2 ≤ std_abs (promPieceOf p.c m.type) ∧ std_abs (promPieceOf p.c m.type) ≤ 5)
    ∧ ((applyMove E p m noValidation).2.allB (promPieceOf p.c m.type + PieceShift)).testBit
        m.sqTo.toNat = true
    ∧ (applyMove E p m noValidation).2.board m.sqFrom = P_none
    ∧ (∀ pawn : Int, pawn = P_wp ∨ pawn = P_bp →
        (applyMove E p m noValidation).2.board m.sqTo ≠ pawn
        ∧ (applyMove E p m noValidation).2.board m.sqFrom ≠ pawn
        ∧ ((applyMove E p m noValidation).2.allB (pawn + PieceShift)).testBit m.sqTo.toNat = false
        ∧ ((applyMove E p m noValidation).2.allB (pawn + PieceShift)).testBit m.sqFrom.toNat
            = false)
    ∧ (applyMove E p m noValidation).2.h
        = p.h ^^^ E.ZT m.sqFrom ((if p.c = Co_White then P_wp else P_bp) + PieceShift)
          ^^^ E.ZT m.sqTo (promPieceOf p.c m.type + PieceShift)
          ^^^ pieceKey E m.sqTo (p.board m.sqTo)
          ^^^ E.ZTCastling p.castling
          ^^^ E.ZTCastling (applyMove E p m noValidation).2.castling
          ^^^ epKey E p.ep ^^^ epKey E (applyMove E p m noValidation).2.ep
          ^^^ E.ZT 3 13 ^^^ E.ZT 4 13 := by
  obtain ⟨hne, hfpne, hown, htp⟩ := isPseudoLegal_squares E p m hpl
  obtain ⟨_, _, _, _, h5, h6, _, _, h9, _⟩ := isPseudoLegal_head E p m hpl
  obtain ⟨⟨hf, hf64⟩, ⟨ht, ht64⟩, _⟩ := applyMoveAsserts_squares p m hassert
  obtain ⟨hrf, hbf, _⟩ := hA m.sqFrom hf hf64
  obtain ⟨hrt, hbt, _⟩ := hA m.sqTo ht ht64
  have hpawn : std_abs (p.board m.sqFrom) = P_wp := by
    by_contra hc
    exact h9 ⟨hprom, hc⟩
  have hfp : p.board m.sqFrom = (if p.c = Co_White then P_wp else P_bp) := by
    simp only [std_abs, P_wp] at hpawn
    cases hc : p.c <;> simp [hc, P_wp, P_bp] at hown ⊢ <;> split_ifs at hpawn <;> omega
  have hpr : promPieceOf p.c m.type ≠ P_none ∧ (promPieceOf p.c m.type > 0 ↔ p.c = Co_White)
      ∧ (2 ≤ std_abs (promPieceOf p.c m.type) ∧ std_abs (promPieceOf p.c m.type) ≤ 5) := by
    obtain ⟨f, t, ty, sc⟩ := m
    cases ty <;> simp only [isPromotion] at hprom <;>
      first
        | exact absurd hprom Bool.false_ne_true
        | (cases hc : p.c <;> simp [promPieceOf, std_abs, P_none, P_wq, P_bq, P_wr, P_br, P_wb, P_bb, P_wn, P_bn])
  have hcap : isCapture m.type = true ↔ p.board m.sqTo ≠ P_none := by
    constructor
    · intro hc hn
      exact h5 ⟨hn, hc, by
        intro e
        rw [e] at hprom
        exact absurd hprom (by decide)⟩
    · intro hn
      by_contra hc
      exact h6 ⟨hn, by simpa using hc⟩
  rw [applyMove_of_true E p m noValidation hok, applyMoveSwitch_promotion E p m hprom]
  obtain ⟨hpr0, hprc, hprabs⟩ := hpr
  generalize hprdef : promPieceOf p.c m.type = pr at *
  have hprpawn : ∀ pawn : Int, pawn = P_wp ∨ pawn = P_bp → pr ≠ pawn := by
    intro pawn hp e
    rw [e] at hprabs
    rcases hp with hp | hp <;> rw [hp] at hprabs <;> simp [std_abs, P_wp, P_bp] at hprabs
  refine ⟨?_, hprc, hprabs, ?_, ?_, ?_, ?_⟩
  · simp only [applyMoveFinish_fields, movePiece_frame, upd_apply, if_true, if_pos hpr0]
  · simp only [applyMoveFinish_fields]
    rw [movePiece_allB E _ _ _ _ _ _ _ _ _ hf ht ht ht64]
    simp [hpr0]
  · simp only [applyMoveFinish_fields, movePiece_frame, upd_apply, if_neg hne, if_true]
  · intro pawn hp
    have hpawn0 : pawn ≠ P_none := by
      rcases hp with hp | hp <;> rw [hp] <;> decide
    have hpawnr : -6 ≤ pawn ∧ pawn ≤ 6 := by
      rcases hp with hp | hp <;> rw [hp] <;> decide
    have hbt' := hbt pawn hpawnr.1 hpawnr.2 hpawn0
    have hbf' := hbf pawn hpawnr.1 hpawnr.2 hpawn0
    refine ⟨?_, ?_, ?_, ?_⟩
    · simp only [applyMoveFinish_fields, movePiece_frame, upd_apply, if_true, if_pos hpr0]
      exact hprpawn pawn hp
    · simp only [applyMoveFinish_fields, movePiece_frame, upd_apply, if_neg hne, if_true]
      exact fun e => hpawn0 e.symm
    · simp only [applyMoveFinish_fields]
      rw [movePiece_allB E _ _ _ _ _ _ _ _ _ hf ht ht ht64]
      simp only [if_pos hpr0, PieceShift, add_left_inj, Bool.or_eq_false_iff,
        Bool.and_eq_false_iff, Bool.not_eq_false', decide_eq_true_eq, decide_eq_false_iff_not,
        Bool.not_eq_true, and_true]
      refine ⟨?_, fun e => hprpawn pawn hp e.symm⟩
      by_cases hb : (p.allB (pawn + 6)).testBit m.sqTo.toNat = true
      · right
        have := hbt'.1 hb
        exact ⟨by rw [this]; exact hpawn0, this.symm⟩
      · left
        left
        simpa [PieceShift] using hb
    · simp only [applyMoveFinish_fields]
      rw [movePiece_allB E _ _ _ _ _ _ _ _ _ hf ht hf hf64]
      simp only [if_pos hpr0, PieceShift, add_left_inj, Bool.or_eq_false_iff,
        Bool.and_eq_false_iff, Bool.not_eq_false', decide_eq_true_eq, decide_eq_false_iff_not,
        Bool.not_eq_true, and_true]
      refine ⟨?_, fun e => hne e.2⟩
      by_cases hb : (p.allB (pawn + 6)).testBit m.sqFrom.toNat = true
      · left
        right
        exact (hbf'.1 hb).symm
      · left
        left
        simpa [PieceShift] using hb
  · simp only [applyMoveFinish_fields, movePiece_h, movePiece_frame, hfp, if_pos hpr0,
      epKey_newEp E _ _ _ hf ht, pieceKey]
    by_cases hc : isCapture m.type = true
    · rw [if_pos hc, if_pos (hcap.1 hc)]
    · rw [if_neg hc, if_neg (fun e => hc (hcap.2 e))]

theorem applyMove_promotion_witness :
    applyMoveAsserts promPosition move_a7b8q = true
    ∧ Agree promPosition
    ∧ isPseudoLegal exampleEnv promPosition (MoveSlot.played move_a7b8q) = true
    ∧ isPromotion move_a7b8q.type = true
    ∧ (applyMove exampleEnv promPosition move_a7b8q false).1 = true
    ∧ (applyMove exampleEnv promPosition move_a7b8q false).2.board 57 = P_wq
    ∧ (applyMove exampleEnv promPosition move_a7b8q false).2.board 48 = P_none := by
  have h := applyMove_promotion exampleEnv promPosition move_a7b8q false (by decide) (by decide)
    (by decide) (by decide) (by decide)
  exact ⟨by decide, by decide, by decide, by decide, by decide, h.1, h.2.2.2.2.1⟩

/-- C11: for every `movePiece` call with `from` different from `to`, made with the castling
table left by `initCaslingPermHashTable` (whatever the six initial squares are) and castling
rights that are a set of the four rights, the resulting rights equal
old rights AND table[from] AND table[to]; hence no right is gained, the rights are unchanged
when neither endpoint is a king or rook initial square, and in the hash the castling key of
the old rights is replaced by the key of the new rights. -/
theorem movePiece_castling (E : Env) (p0 p : Position) (f t : Int) (fp tp : Int) (cap : Bool)
    (pr : Int) (hT : E.castlePermHashTable = initCaslingPermHashTable p0)
    (hft : f ≠ t) (hc : p.castling ≤ C_all) :
    (movePiece E p f t fp tp cap pr).castling
        = p.castling &&& E.castlePermHashTable f &&& E.castlePermHashTable t
    ∧ (movePiece E p f t fp tp cap pr).castling &&& p.castling
        = (movePiece E p f t fp tp cap pr).castling
    ∧ (f ∉ initSquares p0 → t ∉ initSquares p0 →
        (movePiece E p f t fp tp cap pr).castling = p.castling)
    ∧ (movePiece E p f t fp tp cap pr).h
        = (p.h ^^^ E.ZT f (fp + PieceShift)
            ^^^ E.ZT t (if pr ≠ P_none then pr + PieceShift else fp + PieceShift)
            ^^^ (if cap = true then E.ZT t (tp + PieceShift) else 0))
          ^^^ E.ZTCastling p.castling
          ^^^ E.ZTCastling (p.castling &&& E.castlePermHashTable f &&& E.castlePermHashTable t) := by
  have key : (movePiece E p f t fp tp cap pr).castling
      = p.castling &&& E.castlePermHashTable f &&& E.castlePermHashTable t := by
    rw [movePiece_castling_field]
    by_cases h0 : p.castling = 0
    · rw [if_neg (fun h => h.1 h0), h0, Nat.zero_and, Nat.zero_and]
    · by_cases hx : Nat.xor (E.castlePermHashTable f) (E.castlePermHashTable t) = 0
      · rw [if_neg (fun h => h.2 hx)]
        have heq : E.castlePermHashTable f = E.castlePermHashTable t := Nat.xor_eq_zero.mp hx
        have hf : E.castlePermHashTable f = C_all := by
          rw [hT] at heq ⊢
          exact initCaslingPermHashTable_eq_all p0 f t hft heq
        rw [← heq, hf, and_C_all _ hc, and_C_all _ hc]
      · rw [if_pos ⟨h0, hx⟩, Nat.and_assoc]
  refine ⟨key, ?_, ?_, ?_⟩
  · rw [key]
    exact and_and_self_left _ _ _
  · intro hf ht
    rw [key, hT, initCaslingPermHashTable_other p0 f hf, initCaslingPermHashTable_other p0 t ht,
      and_C_all _ hc, and_C_all _ hc]
  · rw [movePiece_h, key]

theorem movePiece_castling_witness :
    exampleEnv.castlePermHashTable = initCaslingPermHashTable startPosition
    ∧ (7 : Int) ≠ 23 ∧ startPosition.castling ≤ C_all
    ∧ (movePiece exampleEnv startPosition 7 23 P_wr P_none false P_none).castling
        = startPosition.castling &&& exampleEnv.castlePermHashTable 7
            &&& exampleEnv.castlePermHashTable 23
    ∧ (movePiece exampleEnv startPosition 7 23 P_wr P_none false P_none).castling = C_all_but_wks :=
  ⟨rfl, by decide, by decide,
    (movePiece_castling exampleEnv startPosition startPosition 7 23 P_wr P_none false P_none
      rfl (by decide) (by decide)).1, by decide⟩

/-- C12: after `initCaslingPermHashTable(p)` with the two king initial squares and the four
rook initial squares of `p` pairwise distinct, the entry of each rook initial square clears
exactly that colour's right on that wing, the entry of each king initial square clears exactly
both rights of that colour, every other square keeps all four rights, and when the six squares
are on the board exactly 58 of the 64 squares keep all four rights. -/
theorem initCaslingPermHashTable_entries (p : Position) (hd : (initSquares p).Nodup) :
    clearsExactly (initCaslingPermHashTable p (p.rooksInit Co_White CT_OOO)) [C_wqs]
    ∧ clearsExactly (initCaslingPermHashTable p (p.rooksInit Co_White CT_OO)) [C_wks]
    ∧ clearsExactly (initCaslingPermHashTable p (p.rooksInit Co_Black CT_OOO)) [C_bqs]
    ∧ clearsExactly (initCaslingPermHashTable p (p.rooksInit Co_Black CT_OO)) [C_bks]
    ∧ clearsExactly (initCaslingPermHashTable p (p.kingInit Co_White)) [C_wks, C_wqs]
    ∧ clearsExactly (initCaslingPermHashTable p (p.kingInit Co_Black)) [C_bks, C_bqs]
    ∧ (∀ s : Int, s ∉ initSquares p → clearsExactly (initCaslingPermHashTable p s) [])
    ∧ ((∀ s ∈ initSquares p, 0 ≤ s ∧ s < 64) →
        (Finset.filter (fun s => initCaslingPermHashTable p s = C_all)
          (Finset.Icc (0 : Int) 63)).card = 58) := by
  have hd' := hd
  simp only [initSquares, List.nodup_cons, List.mem_cons, List.mem_singleton, List.not_mem_nil,
    or_false, not_or, List.nodup_nil, and_true, not_false_eq_true] at hd'
  obtain ⟨⟨h12, h13, h14, h15, h16⟩, ⟨h23, h24, h25, h26⟩, ⟨h34, h35, h36⟩, ⟨h45, h46⟩, h56⟩ := hd'
  have e1 : initCaslingPermHashTable p (p.rooksInit Co_White CT_OOO) = C_all_but_wqs := by
    rw [initCaslingPermHashTable_apply, if_neg h16, if_neg h15, if_neg h14, if_neg h13,
      if_neg h12, if_pos rfl]
  have e2 : initCaslingPermHashTable p (p.kingInit Co_White) = C_all_but_w := by
    rw [initCaslingPermHashTable_apply, if_neg h26, if_neg h25, if_neg h24, if_neg h23,
      if_pos rfl]
  have e3 : initCaslingPermHashTable p (p.rooksInit Co_White CT_OO) = C_all_but_wks := by
    rw [initCaslingPermHashTable_apply, if_neg h36, if_neg h35, if_neg h34, if_pos rfl]
  have e4 : initCaslingPermHashTable p (p.rooksInit Co_Black CT_OOO) = C_all_but_bqs := by
    rw [initCaslingPermHashTable_apply, if_neg h46, if_neg h45, if_pos rfl]
  have e5 : initCaslingPermHashTable p (p.kingInit Co_Black) = C_all_but_b := by
    rw [initCaslingPermHashTable_apply, if_neg h56, if_pos rfl]
  have e6 : initCaslingPermHashTable p (p.rooksInit Co_Black CT_OO) = C_all_but_bks := by
    rw [initCaslingPermHashTable_apply, if_pos rfl]
  refine ⟨by rw [e1]; decide, by rw [e3]; decide, by rw [e4]; decide, by rw [e6]; decide,
    by rw [e2]; decide, by rw [e5]; decide, ?_, ?_⟩
  · intro s hs
    rw [initCaslingPermHashTable_other p s hs]
    decide
  · intro hb
    have hfilter : Finset.filter (fun s => initCaslingPermHashTable p s = C_all)
        (Finset.Icc (0 : Int) 63) = Finset.Icc (0 : Int) 63 \ (initSquares p).toFinset := by
      ext s
      simp only [Finset.mem_filter, Finset.mem_sdiff, List.mem_toFinset]
      constructor
      · rintro ⟨hs, hall⟩
        refine ⟨hs, fun hmem => ?_⟩
        simp only [initSquares, List.mem_cons, List.mem_singleton, List.not_mem_nil,
          or_false] at hmem
        rcases hmem with h | h | h | h | h | h <;> subst h
        · rw [e1] at hall; exact absurd hall (by decide)
        · rw [e2] at hall; exact absurd hall (by decide)
        · rw [e3] at hall; exact absurd hall (by decide)
        · rw [e4] at hall; exact absurd hall (by decide)
        · rw [e5] at hall; exact absurd hall (by decide)
        · rw [e6] at hall; exact absurd hall (by decide)
      · rintro ⟨hs, hn⟩
        exact ⟨hs, initCaslingPermHashTable_other p s hn⟩
    have hsub : (initSquares p).toFinset ⊆ Finset.Icc (0 : Int) 63 := by
      intro s hs
      rw [List.mem_toFinset] at hs
      have := hb s hs
      rw [Finset.mem_Icc]
      omega
    rw [hfilter, Finset.card_sdiff hsub, List.toFinset_card_of_nodup hd]
    simp [initSquares]

theorem initCaslingPermHashTable_entries_witness :
    (initSquares startPosition).Nodup
    ∧ clearsExactly (initCaslingPermHashTable startPosition 0) [C_wqs]
    ∧ clearsExactly (initCaslingPermHashTable startPosition 4) [C_wks, C_wqs]
    ∧ clearsExactly (initCaslingPermHashTable startPosition 28) [] :=
  ⟨by decide, (initCaslingPermHashTable_entries startPosition (by decide)).1,
    (initCaslingPermHashTable_entries startPosition (by decide)).2.2.2.2.1,
    (initCaslingPermHashTable_entries startPosition (by decide)).2.2.2.2.2.2.1 28 (by decide)⟩

/-- C13: `isPseudoLegal(p, m)` returns false whenever the origin square of `m` is empty or
holds a piece of the side that is not to move. -/
theorem isPseudoLegal_origin (E : Env) (p : Position) (m : Move)
    (h : p.board (Move2From m) = P_none
      ∨ (p.board (Move2From m) > 0 ∧ p.c = Co_Black)
      ∨ (p.board (Move2From m) < 0 ∧ p.c = Co_White)) :
    isPseudoLegal E p (MoveSlot.played m) = false :=
  isPseudoLegal_eq_false E p m (Or.inl h)

theorem isPseudoLegal_origin_witness :
    (startPosition.board (Move2From { sqFrom := 28, sqTo := 36, type := T_std, score := 0 }) = P_none
      ∨ (startPosition.board (Move2From { sqFrom := 28, sqTo := 36, type := T_std, score := 0 }) > 0
          ∧ startPosition.c = Co_Black)
      ∨ (startPosition.board (Move2From { sqFrom := 28, sqTo := 36, type := T_std, score := 0 }) < 0
          ∧ startPosition.c = Co_White))
    ∧ isPseudoLegal exampleEnv startPosition
        (MoveSlot.played { sqFrom := 28, sqTo := 36, type := T_std, score := 0 }) = false :=
  ⟨by decide, isPseudoLegal_origin exampleEnv startPosition _ (by decide)⟩

/-- C14: `isPseudoLegal` rejects every move of a capturing kind other than en-passant whose
destination square is empty, and every move of a non-capturing kind whose destination square
is occupied; hence for every accepted move that is not en-passant the kind is a capturing kind
if and only if the destination is occupied, and an occupied destination holds an enemy
piece. -/
theorem isPseudoLegal_capture_kind (E : Env) (p : Position) (m : Move) :
    (p.board (Move2To m) = P_none → isCapture (Move2Type m) = true → Move2Type m ≠ T_ep →
        isPseudoLegal E p (MoveSlot.played m) = false)
    ∧ (p.board (Move2To m) ≠ P_none → isCapture (Move2Type m) = false →
        isPseudoLegal E p (MoveSlot.played m) = false)
    ∧ (isPseudoLegal E p (MoveSlot.played m) = true → Move2Type m ≠ T_ep →
        (isCapture (Move2Type m) = true ↔ p.board (Move2To m) ≠ P_none)
        ∧ (p.board (Move2To m) ≠ P_none →
            (p.c = Co_White → p.board (Move2To m) < 0)
            ∧ (p.c = Co_Black → p.board (Move2To m) > 0))) := by
  refine ⟨fun h1 h2 h3 => ?_, fun h1 h2 => ?_, fun hv hep => ?_⟩
  · exact isPseudoLegal_eq_false E p m (Or.inr (Or.inr (Or.inr (Or.inr (Or.inl ⟨h1, h2, h3⟩)))))
  · exact isPseudoLegal_eq_false E p m
      (Or.inr (Or.inr (Or.inr (Or.inr (Or.inr (Or.inl ⟨h1, h2⟩))))))
  · obtain ⟨_, h2, _, _, h5, h6, _⟩ := isPseudoLegal_head E p m hv
    simp only [Move2To, Move2Type] at *
    refine ⟨⟨fun hc hn => h5 ⟨hn, hc, hep⟩, fun hn => ?_⟩, fun hn => ⟨fun hw => ?_, fun hb => ?_⟩⟩
    · cases hc : isCapture m.type
      · exact absurd ⟨hn, hc⟩ h6
      · rfl
    · have : ¬ p.board m.sqTo > 0 := fun hh => h2 (Or.inl ⟨hh, hw⟩)
      unfold P_none at hn
      omega
    · have : ¬ p.board m.sqTo < 0 := fun hh => h2 (Or.inr ⟨hh, hb⟩)
      unfold P_none at hn
      omega

theorem isPseudoLegal_capture_kind_witness :
    isPseudoLegal exampleEnv startPosition
        (MoveSlot.played { sqFrom := 12, sqTo := 20, type := T_capture, score := 0 }) = false
    ∧ isPseudoLegal exampleEnv promPosition
        (MoveSlot.played { sqFrom := 48, sqTo := 57, type := T_promq, score := 0 }) = false
    ∧ ((isCapture (Move2Type move_a7b8q) = true ↔ promPosition.board (Move2To move_a7b8q) ≠ P_none)
        ∧ (promPosition.board (Move2To move_a7b8q) ≠ P_none →
            (promPosition.c = Co_White → promPosition.board (Move2To move_a7b8q) < 0)
            ∧ (promPosition.c = Co_Black → promPosition.board (Move2To move_a7b8q) > 0))) :=
  ⟨(isPseudoLegal_capture_kind exampleEnv startPosition
      { sqFrom := 12, sqTo := 20, type := T_capture, score := 0 }).1
      (by decide) (by decide) (by decide),
   (isPseudoLegal_capture_kind exampleEnv promPosition
      { sqFrom := 48, sqTo := 57, type := T_promq, score := 0 }).2.1 (by decide) (by decide),
   (isPseudoLegal_capture_kind exampleEnv promPosition move_a7b8q).2.2 (by decide) (by decide)⟩

/-- C15, the code at a position with non-standard starting files: White's king stands on its
initial square f1 and the king-side castling rook on its initial square g1, White holds the
king-side right, the two squares that king and rook cross or land on (f1, g1) hold only that
king and that rook, and no square is attacked; the castling move encoded f1-g1 fulfils every
condition of the claim, yet `isPseudoLegal` rejects it, because the king's destination g1
holds a piece of the side to move (the castling rook). -/
theorem isPseudoLegal_castling_frc :
    frcPosition.c = Co_White ∧ Move2Type move_frc_OO = T_wks
    ∧ Move2From move_frc_OO = frcPosition.kingInit Co_White ∧ Move2To move_frc_OO = Sq_g1
    ∧ (frcPosition.castling &&& C_wks) ≠ 0
    ∧ frcPosition.board (frcPosition.kingInit Co_White) = P_wk
    ∧ frcPosition.king Co_White = frcPosition.kingInit Co_White
    ∧ frcPosition.board (frcPosition.rooksInit Co_White CT_OO) = P_wr
    ∧ (∀ s ∈ [Sq_f1, Sq_g1], frcPosition.board s = P_none
        ∨ s = frcPosition.king Co_White ∨ s = frcPosition.rooksInit Co_White CT_OO)
    ∧ (∀ s ∈ [Sq_f1, Sq_g1], exampleEnv.isAttacked frcPosition s = false)
    ∧ exampleEnv.isAttackedBB frcPosition
        (exampleEnv.between (frcPosition.king Co_White) Sq_g1
          ||| SquareToBitboard (frcPosition.king Co_White) ||| SquareToBitboard Sq_g1) = false
    ∧ isPseudoLegal exampleEnv frcPosition (MoveSlot.played move_frc_OO) = false := by
  decide

/-- C16: for a move that is not of a castling kind the result of `isPseudoLegal` does not
depend on the two attack tests of the environment; and a move that the validator accepts is
still accepted when every square counts as attacked, while `applyMove` then rejects it. -/
theorem isPseudoLegal_attack_independent (E : Env) (a : Position → Int → Bool)
    (b : Position → Nat → Bool) (p : Position) (m : Move)
    (hc : isCastling (Move2Type m) = false) :
    isPseudoLegal { E with isAttacked := a, isAttackedBB := b } p (MoveSlot.played m)
      = isPseudoLegal E p (MoveSlot.played m)
    ∧ (isPseudoLegal E p (MoveSlot.played m) = true →
        isPseudoLegal { E with isAttacked := fun _ _ => true, isAttackedBB := b } p
            (MoveSlot.played m) = true
        ∧ (applyMove { E with isAttacked := fun _ _ => true, isAttackedBB := b } p m false).1
            = false) := by
  have key : ∀ a' : Position → Int → Bool,
      isPseudoLegal { E with isAttacked := a', isAttackedBB := b } p (MoveSlot.played m)
        = isPseudoLegal E p (MoveSlot.played m) := by
    intro a'
    obtain ⟨f, t, ty, sc⟩ := m
    cases ty <;> first | rfl | simp [isCastling, Move2Type] at hc
  refine ⟨key a, fun hv => ⟨by rw [key]; exact hv, ?_⟩⟩
  simp [applyMove]

theorem isPseudoLegal_attack_independent_witness :
    isCastling (Move2Type move_e2e4) = false
    ∧ isPseudoLegal { exampleEnv with isAttacked := fun _ _ => true, isAttackedBB := fun _ _ => true }
          startPosition (MoveSlot.played move_e2e4)
        = isPseudoLegal exampleEnv startPosition (MoveSlot.played move_e2e4)
    ∧ isPseudoLegal exampleEnv startPosition (MoveSlot.played move_e2e4) = true
    ∧ (applyMove { exampleEnv with isAttacked := fun _ _ => true, isAttackedBB := fun _ _ => true }
          startPosition move_e2e4 false).1 = false :=
  ⟨by decide,
    (isPseudoLegal_attack_independent exampleEnv (fun _ _ => true) (fun _ _ => true)
      startPosition move_e2e4 (by decide)).1,
    by decide,
    ((isPseudoLegal_attack_independent exampleEnv (fun _ _ => true) (fun _ _ => true)
      startPosition move_e2e4 (by decide)).2 (by decide)).2⟩

/-- C17: in `pvs` the move of the transposition-table entry reaches its block with
`validTTmove` set only if `isPseudoLegal(p, e.m)` accepts it for the position `p` of the node
(the entry comes from the probe of the section "probe TT" or, after internal iterative
deepening, from the renewed probe, both for `p`); for a cached move that the validator
rejects the block is skipped whole: nothing is applied or searched and the variables of the
iteration are left as they are. -/
theorem pvs_ttMove_validated (E : SearchEnv) (rec : PvsArgs → Searcher → Option PvsResult)
    (a : PvsArgs) (w : Window) (x : Ctx × Generated × LoopState)
    (h : pvsBefore E rec a w = Step.next x) :
    x.1.a = a
    ∧ (x.1.pr.validTTmove = true → isPseudoLegal E.toEnv a.p x.1.pr.e.m = true)
    ∧ (isPseudoLegal E.toEnv a.p x.1.pr.e.m = false →
        ∀ l, pvsTTMove E rec x.1 l = Step.next l) := by
  obtain ⟨h1, _, h3, _⟩ := pvsBefore_next E rec a w x h
  refine ⟨h1, h3, fun hrej l => pvsTTMove_of_not_valid E rec x.1 l ?_⟩
  cases hv : x.1.pr.validTTmove
  · rfl
  · rw [h3 hv] at hrej
    exact absurd hrej (by decide)

theorem pvs_ttMove_validated_witness :
    (∃ x, pvsBefore exampleSearchEnv (pvs exampleSearchEnv 0) rootArgs rootWindow = Step.next x
      ∧ x.1.pr.validTTmove = true
      ∧ isPseudoLegal exampleSearchEnv.toEnv rootArgs.p x.1.pr.e.m = true)
    ∧ (∃ y, pvsBefore exampleSearchEnv (pvs exampleSearchEnv 0) rootArgs
          { rootWindow with s := badTTSearcher } = Step.next y
      ∧ y.1.pr.validTTmove = false
      ∧ ∀ l, pvsTTMove exampleSearchEnv (pvs exampleSearchEnv 0) y.1 l = Step.next l) :=
  ⟨⟨_, rfl, rfl,
      (pvs_ttMove_validated exampleSearchEnv (pvs exampleSearchEnv 0) rootArgs rootWindow _
        rfl).2.1 rfl⟩,
    ⟨_, rfl, rfl,
      (pvs_ttMove_validated exampleSearchEnv (pvs exampleSearchEnv 0) rootArgs
        { rootWindow with s := badTTSearcher } _ rfl).2.2 rfl⟩⟩

/-- C18: if `stopFlag` is set when `pvs` is entered, `pvs` returns `STOPSCORE` at once and
leaves the state (transposition table, statistics counters, stack, killer and history
tables), `pv` and `seldepth` exactly as they were, whatever the evaluation, the probe and
the recursive calls would do. -/
theorem pvs_stopFlag (E : SearchEnv) (rec : PvsArgs → Searcher → Option PvsResult)
    (fuel : Nat) (a : PvsArgs) (s : Searcher) (hstop : s.stopFlag = true) :
    pvsNode E rec a s
        = some { score := E.STOPSCORE, pv := a.pv, seldepth := a.seldepth, s := s }
    ∧ pvs E (fuel + 1) a s
        = some { score := E.STOPSCORE, pv := a.pv, seldepth := a.seldepth, s := s } := by
  have key : ∀ rec', pvsNode E rec' a s
      = some { score := E.STOPSCORE, pv := a.pv, seldepth := a.seldepth, s := s } := by
    intro rec'
    unfold pvsNode pvsEntry
    rw [if_pos hstop]
  exact ⟨key rec, key (pvs E fuel)⟩

theorem pvs_stopFlag_witness :
    ({ exampleSearcher with stopFlag := true } : Searcher).stopFlag = true
    ∧ pvs exampleSearchEnv (0 + 1) rootArgs { exampleSearcher with stopFlag := true }
        = some { score := exampleSearchEnv.STOPSCORE, pv := rootArgs.pv
                 seldepth := rootArgs.seldepth
                 s := { exampleSearcher with stopFlag := true } } :=
  ⟨rfl, (pvs_stopFlag exampleSearchEnv (pvs exampleSearchEnv 0) 0 rootArgs
    { exampleSearcher with stopFlag := true } rfl).2⟩

/-- C19: when `pvs` reaches the move iteration without a list of moves to skip and neither
the move of the table nor any move of the sorted list can be applied, it returns
`-MATE + ply` if `isInCheck` holds and 0 otherwise, with the transposition table as it was at
the start of the iteration (no store at all); and the store that `pvs` itself makes before
the iteration, after the static evaluation, carries no move. -/
theorem pvs_no_legal_move (E : SearchEnv) (rec : PvsArgs → Searcher → Option PvsResult)
    (a : PvsArgs) (w : Window) (x : Ctx × Generated × LoopState)
    (hbefore : pvsBefore E rec a w = Step.next x) (hskip : a.skipMoves = none)
    (htt : ∀ m, x.1.pr.e.m = MoveSlot.played m → (apply E a.p m).1 = false)
    (hgen : ∀ m ∈ pvsSort E x.1 (pvsGenerate E x.1 x.2.1 x.2.2.s).1
              (pvsGenerate E x.1 x.2.1 x.2.2.s).2, (apply E a.p m).1 = false) :
    (∃ r, pvsMoves E rec x.1 x.2.1 x.2.2 = Step.ret r
      ∧ pvsBody E rec a w = Step.ret r
      ∧ r.score = (if a.isInCheck = true then -E.MATE + (a.ply : Int) else 0)
      ∧ r.s.tt = x.2.2.s.tt ∧ r.pv = a.pv)
    ∧ (∀ pr s, (pvsStatic E a pr s).s.tt = (pvsStaticScore E a pr s).2.2.tt
        ∨ ∃ sc, (pvsStatic E a pr s).s.tt
            = { h := pr.pHash, m := MoveSlot.INVALIDMOVE, s := sc, e := sc, b := B_none, d := -2 }
              :: (pvsStaticScore E a pr s).2.2.tt) := by
  obtain ⟨ha, _, _, _, _, _, _, hv, hpv⟩ := pvsBefore_next E rec a w x hbefore
  subst ha
  constructor
  · obtain ⟨l1, h1, hs, hc, hp, hd⟩ := pvsTTMove_of_not_applied E rec x.1 x.2.2 htt
    have hbody : pvsBody E rec x.1.a w = pvsMoves E rec x.1 x.2.1 x.2.2 := by
      unfold pvsBody
      rw [hbefore]
    rw [hbody]
    unfold pvsMoves
    rw [h1]
    dsimp only
    rw [hs]
    by_cases hempty : (pvsGenerate E x.1 x.2.1 x.2.2.s).1.isEmpty = true
    · rw [if_pos hempty]
      exact ⟨_, rfl, rfl, rfl, pvsGenerate_tt E x.1 x.2.1 x.2.2.s, hp.trans hpv⟩
    · rw [if_neg hempty, pvsLoop_of_not_applied E rec x.1 _ _ _ hgen]
      have hend : ∀ l : LoopState, l.validMoveCount = 0 →
          pvsEnd E x.1 l = { score := if x.1.a.isInCheck = true then -E.MATE + (x.1.a.ply : Int)
                                      else 0
                             pv := l.pv, seldepth := l.seldepth, s := l.s } := by
        intro l hl
        unfold pvsEnd
        rw [if_pos hl, hskip]
        simp
      dsimp only
      have hz : ({ l1 with s := (pvsGenerate E x.1 x.2.1 x.2.2.s).2 } : LoopState).validMoveCount
          = 0 := hc.trans hv
      rw [hend _ hz]
      exact ⟨_, rfl, rfl, rfl, pvsGenerate_tt E x.1 x.2.1 x.2.2.s, hp.trans hpv⟩
  · intro pr s
    unfold pvsStatic
    dsimp only
    by_cases hh : pr.ttHit = false
    · right
      rw [if_pos hh]
      exact ⟨_, rfl⟩
    · left
      rw [if_neg hh]
      rfl

theorem pvs_no_legal_move_witness :
    ∃ x, pvsBefore stuckSearchEnv (pvs stuckSearchEnv 0) rootArgs
        { alpha := -30000, beta := 30000, seldepth := 0, s := exampleSearcher } = Step.next x
      ∧ rootArgs.skipMoves = none
      ∧ (∃ r, pvsMoves stuckSearchEnv (pvs stuckSearchEnv 0) x.1 x.2.1 x.2.2 = Step.ret r
          ∧ r.score = 0 ∧ r.s.tt = x.2.2.s.tt) :=
  ⟨_, rfl, rfl,
    ((pvs_no_legal_move stuckSearchEnv (pvs stuckSearchEnv 0) rootArgs
        { alpha := -30000, beta := 30000, seldepth := 0, s := exampleSearcher } _ rfl rfl
        (fun _ hm => nomatch hm) (by decide)).1).imp (fun _ hr => ⟨hr.1, hr.2.2.1, hr.2.2.2.1⟩)⟩

/-- C20: whenever `pvs` finishes by storing to the transposition table, after its move loop
(a loop that ends with at least one valid move) or on a beta cutoff by the move of the table,
the stored score is `createHashScore` of the best score, which is the score returned, the
stored depth is the depth of the node, the stored move is the best move and, with `alpha`
and `beta` the window of the node after mate-distance clamping, the stored bound is `B_beta`
if and only if the best score is not below `beta`, `B_alpha` if and only if the best score is
not above `alpha`, and `B_exact` otherwise. -/
theorem pvs_store_bound (E : SearchEnv) (rec : PvsArgs → Searcher → Option PvsResult)
    (a : PvsArgs) (s : Searcher) (w : Window) (x : Ctx × Generated × LoopState)
    (hentry : pvsEntry E a s = Step.next w) (hbefore : pvsBefore E rec a w = Step.next x) :
    (w.alpha = max a.alpha (-E.MATE + (a.ply : Int))
      ∧ w.beta = min a.beta (E.MATE - (a.ply : Int) + 1))
    ∧ (∀ l1 l3, pvsTTMove E rec x.1 x.2.2 = Step.next l1 →
        (pvsGenerate E x.1 x.2.1 l1.s).1.isEmpty = false →
        pvsLoop E rec x.1
            (pvsSort E x.1 (pvsGenerate E x.1 x.2.1 l1.s).1 (pvsGenerate E x.1 x.2.1 l1.s).2)
            (pvsSort E x.1 (pvsGenerate E x.1 x.2.1 l1.s).1 (pvsGenerate E x.1 x.2.1 l1.s).2)
            { l1 with s := (pvsGenerate E x.1 x.2.1 l1.s).2 } = Step.next l3 →
        l3.validMoveCount ≠ 0 →
        pvsMoves E rec x.1 x.2.1 x.2.2 = Step.ret (pvsEnd E x.1 l3)
        ∧ (pvsEnd E x.1 l3).score = l3.bestScore
        ∧ (pvsEnd E x.1 l3).s.tt
            = { h := x.1.pr.pHash, m := l3.bestMove, s := E.createHashScore l3.bestScore a.ply
                e := E.createHashScore x.1.st.evalScore a.ply, b := l3.hashBound, d := a.depth }
              :: l3.s.tt
        ∧ BoundOK w.beta w.alpha l3.hashBound l3.bestScore)
    ∧ (∀ m l sr, sr.s.stopFlag = false → sr.score > l.bestScore → sr.score > l.alpha →
        sr.score ≥ w.beta →
        ∃ r, ttUpdate E x.1 m l sr = Step.ret r ∧ r.score = sr.score
          ∧ r.s.tt
              = { h := x.1.pr.pHash, m := MoveSlot.played m
                  s := E.createHashScore sr.score a.ply
                  e := E.createHashScore x.1.st.evalScore a.ply, b := B_beta, d := a.depth }
                :: sr.s.tt
          ∧ BoundOK w.beta w.alpha B_beta sr.score) := by
  obtain ⟨k1, k2, k3⟩ := pvsEntry_next E a s w hentry
  obtain ⟨ha, hb, _⟩ := pvsBefore_next E rec a w x hbefore
  have hinv := pvsBefore_loopInv E rec a s w x hentry hbefore
  refine ⟨⟨k1, k2⟩, ?_, ?_⟩
  · intro l1 l3 h1 hne hloop hcount
    have hinv1 := pvsTTMove_inv E rec x.1 x.2.2 w.alpha hinv l1 h1
    have hok : BoundOK x.1.beta w.alpha l3.hashBound l3.bestScore := by
      refine pvsLoop_boundOK E rec x.1 _ w.alpha _ _ l3 ?_ hloop
      exact loopInv_congr hinv1 rfl rfl rfl
    rw [hb] at hok
    refine ⟨?_, ?_, ?_, hok⟩
    · unfold pvsMoves
      rw [h1]
      dsimp only
      rw [if_neg (by rw [hne]; decide), hloop]
    · unfold pvsEnd
      rw [if_neg hcount]
    · unfold pvsEnd
      rw [if_neg hcount, ha]
      rfl
  · intro m l sr hstop hbest halpha hbeta
    have hbeta' : sr.score ≥ x.1.beta := by rw [hb]; exact hbeta
    unfold ttUpdate
    rw [if_neg (by rw [hstop]; decide)]
    dsimp only
    rw [if_pos hbest, if_pos halpha, if_pos hbeta']
    refine ⟨_, rfl, rfl, ?_, ?_⟩
    · rw [ha]
      dsimp only [setEntry]
      split_ifs <;> rfl
    · unfold BoundOK
      simp
      omega

theorem pvs_store_bound_witness :
    ∃ w x, pvsEntry exampleSearchEnv rootArgs exampleSearcher = Step.next w
      ∧ pvsBefore exampleSearchEnv (pvs exampleSearchEnv 1) rootArgs w = Step.next x
      ∧ (pvs exampleSearchEnv 2 rootArgs exampleSearcher).map
          (fun r => (r.score, r.s.tt.head?.map (fun e => (e.m, e.s, e.b, e.d))))
          = some (0, some (MoveSlot.played move_e2e4, 0, B_exact, 1))
      ∧ (w.alpha = max rootArgs.alpha (-exampleSearchEnv.MATE + (rootArgs.ply : Int))
        ∧ w.beta = min rootArgs.beta (exampleSearchEnv.MATE - (rootArgs.ply : Int) + 1)) :=
  ⟨_, _, rfl, rfl, by decide,
    (pvs_store_bound exampleSearchEnv (pvs exampleSearchEnv 1) rootArgs exampleSearcher _ _
      rfl rfl).1⟩

/-- C21: the re-search discipline of `pvs`, with `SearchConfig::doPVS` set (the switch is
declared outside the embedded sources). The move of the table, when it applies, is counted as
a valid move and searched with the full negated window `(-beta, -alpha)` at
`depth - 1 + extension`. The count of valid moves is raised by exactly the moves that apply
(the move of the table, and the moves of the list that are neither skipped nor the move of the
table), so that a count of 0 marks the first legal move of the node. A move of the list met
with a count of 0 is searched with the full negated window at `depth - 1 + extension`. A move
met with a count of at least 1 is either left without a search, nothing but statistics
counters changing, or searched by `searchLate`: first with the null window
`(-alpha - 1, -alpha)` (at `depth - 1 - reduction + extension`); if that search was reduced
and its score exceeds `alpha`, again with the null window at `depth - 1 + extension`; and at a
PV node, if the score exceeds `alpha` and the node is the root or the score is below `beta`,
with the full window `(-beta, -alpha)` at `depth - 1 + extension`. -/
theorem pvs_research_discipline (E : SearchEnv) (rec : PvsArgs → Searcher → Option PvsResult)
    (c : Ctx) (hPVS : E.doPVS = true) :
    (∀ m l, (apply E c.a.p m).1 = true →
      ∃ l1 : LoopState, l1.alpha = l.alpha ∧ l1.validMoveCount = l.validMoveCount + 1
        ∧ ∀ x, ttExtension E rec c m (apply E c.a.p m).2 l1 l1.s = Step.next x →
          ttMovePlayed E rec c m l
            = match searchChild rec (childArgs c c.a.pvnode (-c.beta) (-l.alpha)
                  (apply E c.a.p m).2 (c.a.depth - 1 + x.1) l.seldepth
                  (E.isAttacked (apply E c.a.p m).2 (kingSquare (apply E c.a.p m).2))
                  (!c.a.cutNode)) x.2 with
              | none => Step.fuelOut
              | some sr => ttUpdate E c m l1 sr)
    ∧ (∀ l l1, pvsTTMove E rec c l = Step.next l1 →
        l1.validMoveCount = l.validMoveCount + (if countedTTMove E c = true then 1 else 0))
    ∧ (∀ moves m l l1, (pvsMove E rec c moves m l = MoveOut.cont l1
          ∨ pvsMove E rec c moves m l = MoveOut.brk l1) →
        l1.validMoveCount = l.validMoveCount + (if countedMove E c m = true then 1 else 0))
    ∧ (∀ moves m p2 l, capturesKing c.a.p m = false → l.validMoveCount = 0 →
        ∃ l1 : LoopState, l1.alpha = l.alpha ∧ l1.validMoveCount = 1
          ∧ l1.s = (moveExtension E c m p2 true (l.s.setStackPos (p2.halfmoves : Int) p2)).2
          ∧ moveApplied E rec c moves m p2 l
            = match searchChild rec (childArgs c c.a.pvnode (-c.beta) (-l.alpha) p2
                  (c.a.depth - 1
                    + (moveExtension E c m p2 true (l.s.setStackPos (p2.halfmoves : Int) p2)).1)
                  l.seldepth (E.isAttacked p2 (kingSquare p2)) (!c.a.cutNode)) l1.s with
              | none => MoveOut.fuelOut
              | some sr => moveUpdate E c moves m true l1 sr)
    ∧ (∀ moves m p2 l, capturesKing c.a.p m = false → 1 ≤ l.validMoveCount →
        (∃ l1 : LoopState, moveApplied E rec c moves m p2 l = MoveOut.cont l1
            ∧ l1.alpha = l.alpha ∧ l1.bestScore = l.bestScore ∧ l1.bestMove = l.bestMove
            ∧ l1.hashBound = l.hashBound ∧ l1.pv = l.pv ∧ l1.s.tt = l.s.tt)
        ∨ ∃ (l1 : LoopState) (reduction : Int), l1.alpha = l.alpha
            ∧ l1.validMoveCount = l.validMoveCount + 1
            ∧ moveApplied E rec c moves m p2 l
              = match searchLate rec c p2 (E.isAttacked p2 (kingSquare p2))
                  (moveExtension E c m p2 false (l.s.setStackPos (p2.halfmoves : Int) p2)).1
                  reduction l1 l1.s with
                | none => MoveOut.fuelOut
                | some x => moveUpdate E c moves m false l1 x)
    ∧ (∀ p2 isCheck extension reduction l s,
        searchLate rec c p2 isCheck extension reduction l s
          = (searchChild rec (childArgs c false (-l.alpha - 1) (-l.alpha) p2
                (c.a.depth - 1 - reduction + extension) l.seldepth isCheck true) s).bind
              (fun x1 =>
                (if reduction > 0 ∧ x1.score > l.alpha then
                    searchChild rec (childArgs c false (-l.alpha - 1) (-l.alpha) p2
                      (c.a.depth - 1 + extension) x1.seldepth isCheck (!c.a.cutNode))
                      (x1.s.incr sid_lmrFail)
                  else some x1).bind
                  (fun x2 =>
                    if c.a.pvnode = true ∧ x2.score > l.alpha
                        ∧ (c.a.ply = 0 ∨ x2.score < c.beta) then
                      searchChild rec (childArgs c true (-c.beta) (-l.alpha) p2
                        (c.a.depth - 1 + extension) x2.seldepth isCheck false)
                        (x2.s.incr sid_pvsFail)
                    else some x2))) := by
  refine ⟨?_, ?_, ?_, ?_, ?_, ?_⟩
  · intro m l happ
    refine ⟨{ l with bestMove := MoveSlot.played m, validMoveCount := l.validMoveCount + 1
                     ttMoveIsCapture := l.ttMoveIsCapture || isCapture (Move2Type m)
                     s := l.s.setStackPos ((apply E c.a.p m).2.halfmoves : Int)
                            (apply E c.a.p m).2 }, rfl, rfl, ?_⟩
    intro x hx
    unfold ttMovePlayed
    dsimp only
    rw [if_pos happ]
    dsimp only at hx
    rw [hx]
  · exact fun l l1 h => pvsTTMove_validMoveCount E rec c l l1 h
  · exact fun moves m l l1 h => pvsMove_validMoveCount E rec c moves m l l1 h
  · intro moves m p2 l hk h0
    have hk' : ¬ ((c.a.p.c = Co_White ∧ Move2To m = c.a.p.king Co_Black)
        ∨ (c.a.p.c = Co_Black ∧ Move2To m = c.a.p.king Co_White)) := by
      simpa [capturesKing] using hk
    refine ⟨{ l with validMoveCount := l.validMoveCount + 1
                     s := (moveExtension E c m p2 true
                            (l.s.setStackPos (p2.halfmoves : Int) p2)).2 },
      rfl, by simp [h0], rfl, ?_⟩
    unfold moveApplied
    rw [if_neg hk']
    dsimp only
    have h1 : decide (l.validMoveCount + 1 = 1) = true := by simp [h0]
    rw [h1, if_pos (Or.inl (by omega))]
  · intro moves m p2 l hk h1
    have hk' : ¬ ((c.a.p.c = Co_White ∧ Move2To m = c.a.p.king Co_Black)
        ∨ (c.a.p.c = Co_Black ∧ Move2To m = c.a.p.king Co_White)) := by
      simpa [capturesKing] using hk
    have hd : decide (l.validMoveCount + 1 = 1) = false := by
      simp only [decide_eq_false_iff_not]
      omega
    have hlate : moveApplied E rec c moves m p2 l
        = moveLate E rec c moves m p2 (E.isAttacked p2 (kingSquare p2))
            (moveExtension E c m p2 false (l.s.setStackPos (p2.halfmoves : Int) p2)).1
            { l with validMoveCount := l.validMoveCount + 1
                     s := (moveExtension E c m p2 false
                            (l.s.setStackPos (p2.halfmoves : Int) p2)).2 } := by
      unfold moveApplied
      rw [if_neg hk']
      dsimp only
      rw [hd, if_neg (by rw [hPVS]; simp; omega)]
    rw [hlate]
    have hs0 : SameVars l
        { l with validMoveCount := l.validMoveCount + 1, s := (moveExtension E c m p2 false (l.s.setStackPos (p2.halfmoves : Int) p2)).2 } :=
      ⟨rfl, rfl, rfl, rfl, rfl, moveExtension_tt E c m p2 false _⟩
    rcases moveLate_cases E rec c moves m p2 (E.isAttacked p2 (kingSquare p2))
        (moveExtension E c m p2 false (l.s.setStackPos (p2.halfmoves : Int) p2)).1
        { l with validMoveCount := l.validMoveCount + 1, s := (moveExtension E c m p2 false (l.s.setStackPos (p2.halfmoves : Int) p2)).2 }
      with ⟨l1, h2, h3⟩ | ⟨l1, red, h3, h4, h5⟩
    · refine Or.inl ⟨l1, h2, ?_⟩
      obtain ⟨a1, a2, a3, a4, a5, a6⟩ := h3
      obtain ⟨b1, b2, b3, b4, b5, b6⟩ := hs0
      exact ⟨a1.trans b1, a2.trans b2, a3.trans b3, a4.trans b4, a5.trans b5, a6.trans b6⟩
    · exact Or.inr ⟨l1, red, h3.1.trans hs0.1, h4, h5⟩
  · intro p2 isCheck extension reduction l s
    unfold searchLate
    cases h1 : searchChild rec (childArgs c false (-l.alpha - 1) (-l.alpha) p2
        (c.a.depth - 1 - reduction + extension) l.seldepth isCheck true) s with
    | none => rfl
    | some x1 =>
      dsimp only [Option.bind]
      split_ifs with h2
      · cases h3 : searchChild rec (childArgs c false (-l.alpha - 1) (-l.alpha) p2
            (c.a.depth - 1 + extension) x1.seldepth isCheck (!c.a.cutNode))
            (x1.s.incr sid_lmrFail) with
        | none => rfl
        | some x2 => rfl
      · rfl

theorem pvs_research_discipline_witness :
    exampleSearchEnv.doPVS = true
    ∧ ∃ x, pvsBefore exampleSearchEnv (pvs exampleSearchEnv 1) rootArgs
          { rootWindow with s := exampleSearcher } = Step.next x
      ∧ capturesKing x.1.a.p move_e2e4 = false
      ∧ x.2.2.validMoveCount = 0
      ∧ ∃ l1 : LoopState, l1.alpha = x.2.2.alpha ∧ l1.validMoveCount = 1
          ∧ l1.s = (moveExtension exampleSearchEnv x.1 move_e2e4
                      (apply exampleSearchEnv startPosition move_e2e4).2 true
                      (x.2.2.s.setStackPos
                        ((apply exampleSearchEnv startPosition move_e2e4).2.halfmoves : Int)
                        (apply exampleSearchEnv startPosition move_e2e4).2)).2
          ∧ moveApplied exampleSearchEnv (pvs exampleSearchEnv 1) x.1 [move_e2e4] move_e2e4
              (apply exampleSearchEnv startPosition move_e2e4).2 x.2.2
            = match searchChild (pvs exampleSearchEnv 1)
                  (childArgs x.1 x.1.a.pvnode (-x.1.beta) (-x.2.2.alpha)
                    (apply exampleSearchEnv startPosition move_e2e4).2
                    (x.1.a.depth - 1
                      + (moveExtension exampleSearchEnv x.1 move_e2e4
                          (apply exampleSearchEnv startPosition move_e2e4).2 true
                          (x.2.2.s.setStackPos
                            ((apply exampleSearchEnv startPosition move_e2e4).2.halfmoves : Int)
                            (apply exampleSearchEnv startPosition move_e2e4).2)).1)
                    x.2.2.seldepth
                    (exampleSearchEnv.isAttacked
                      (apply exampleSearchEnv startPosition move_e2e4).2
                      (kingSquare (apply exampleSearchEnv startPosition move_e2e4).2))
                    (!x.1.a.cutNode)) l1.s with
              | none => MoveOut.fuelOut
              | some sr => moveUpdate exampleSearchEnv x.1 [move_e2e4] move_e2e4 true l1 sr :=
  ⟨rfl, _, rfl, rfl, rfl,
    (pvs_research_discipline exampleSearchEnv (pvs exampleSearchEnv 1) _ rfl).2.2.2.1
      [move_e2e4] move_e2e4 (apply exampleSearchEnv startPosition move_e2e4).2 _ rfl rfl⟩

/-- C22, as stated, fails: in the search of depth 1 of `epPosition` with the window (-100, 0)
the en-passant capture e5xd6 scores 0, which reaches `beta`; the result is stored with that
move as a lower bound, and the killer, history and counter-move tables have received nothing
but the reset of the killers of the next ply: the cutting move has no bonus. -/
theorem pvs_cutoff_counterexample :
    ∃ r, pvs captureSearchEnv 2 captureArgs exampleSearcher = some r
      ∧ r.score = 0 ∧ r.score ≥ captureArgs.beta
      ∧ r.s.tt.head? = some { h := computeHash exampleEnv epPosition
                              m := MoveSlot.played move_e5d6, s := 0, e := 0, b := B_beta
                              d := 1 }
      ∧ r.s.tables = [TableWrite.resetKillers 1] :=
  ⟨_, rfl, rfl, by decide, rfl, rfl⟩

/-- C22, amended: when the score of a searched move reaches or exceeds `beta` (the stop flag
being down), no further move of the node is examined: in the loop the body ends with `break`,
whatever moves remain, with the bound `B_beta`; for the move of the table `pvs` returns the
score. If the side to move is not in check and the cutting move is a quiet move (`T_std`), the
cutting move receives a history bonus (`updateTables` with `B_beta`) and, in the loop, every
quiet move that precedes it in the node's move list receives a history penalty
(`historyT.update<-1>`), in the order of the list; otherwise (the side to move is in check, or
the cutting move is a capture, a promotion or a castling move) the tables are left as the
search of the move left them. -/
theorem pvs_beta_cutoff (E : SearchEnv) (rec : PvsArgs → Searcher → Option PvsResult)
    (c : Ctx) (alpha0 : Int) (moves : List Move) (m : Move) (l : LoopState) (x : Searched)
    (hinv : LoopInv c.beta alpha0 l) (hstop : x.s.stopFlag = false) (hcut : x.score ≥ c.beta) :
    (∀ firstMove, ∃ l1, moveUpdate E c moves m firstMove l x = MoveOut.brk l1
        ∧ l1.bestMove = MoveSlot.played m ∧ l1.bestScore = x.score ∧ l1.hashBound = B_beta
        ∧ l1.s.tables
            = if c.a.isInCheck = false ∧ Move2Type m = T_std then
                ((quietBefore m moves).reverse.map
                    (fun m2 => TableWrite.historyUpdate (-1)
                      (bonusDepth c.a.depth x.score c.beta) m2 c.a.p c.pr.cmhPtr))
                  ++ TableWrite.updateTables c.a.p (bonusDepth c.a.depth x.score c.beta)
                      c.a.ply m B_beta c.pr.cmhPtr :: x.s.tables
              else x.s.tables)
    ∧ (∀ rest l1, l.s.stopFlag = false → pvsMove E rec c moves m l = MoveOut.brk l1 →
        pvsLoop E rec c moves (m :: rest) l = Step.next l1
        ∧ l1.hashBound = B_beta ∧ l1.bestScore ≥ c.beta)
    ∧ (∃ r, ttUpdate E c m l x = Step.ret r ∧ r.score = x.score
        ∧ r.s.tables
            = if c.a.isInCheck = false ∧ Move2Type m = T_std then
                TableWrite.updateTables c.a.p (bonusDepth c.a.depth x.score c.beta)
                  c.a.ply m B_beta c.pr.cmhPtr :: x.s.tables
              else x.s.tables) := by
  obtain ⟨k1, k2, k3, _⟩ := hinv
  have hs : ¬ x.s.stopFlag = true := by rw [hstop]; decide
  have hb : x.score > l.bestScore := by omega
  have ha : x.score > l.alpha := by omega
  refine ⟨fun firstMove => ?_, fun rest l1 hl hm => ?_, ?_⟩
  · unfold moveUpdate
    rw [if_neg hs]
    dsimp only
    rw [if_pos hb, if_pos ha, if_pos hcut]
    refine ⟨_, rfl, rfl, rfl, rfl, ?_⟩
    dsimp only
    by_cases hq : c.a.isInCheck = false ∧ Move2Type m = T_std
    · rw [if_pos hq, if_pos hq, penalizePrevious_tables]
      split_ifs <;> rfl
    · rw [if_neg hq, if_neg hq]
      split_ifs <;> rfl
  · refine ⟨?_, ?_⟩
    · unfold pvsLoop
      rw [if_neg (by rw [hl]; decide), hm]
    · obtain ⟨h1, h2⟩ := (pvsMove_inv E rec c moves m l alpha0 ⟨k1, k2, k3, ‹_›⟩).2 l1 hm
      exact ⟨h1, h2.1.1 rfl⟩
  · unfold ttUpdate
    rw [if_neg hs]
    dsimp only
    rw [if_pos hb, if_pos ha, if_pos hcut]
    refine ⟨_, rfl, rfl, ?_⟩
    dsimp only
    by_cases hq : c.a.isInCheck = false ∧ Move2Type m = T_std
    · rw [if_pos hq, if_pos hq]
      split_ifs <;> rfl
    · rw [if_neg hq, if_neg hq]
      split_ifs <;> rfl

theorem pvs_beta_cutoff_witness :
    LoopInv exampleCtx.beta (-30000) exampleLoop
    ∧ exampleLoop.s.stopFlag = false
    ∧ (30000 : Int) ≥ exampleCtx.beta
    ∧ ∃ l1, moveUpdate exampleSearchEnv exampleCtx [move_e2e4] move_e2e4 true exampleLoop
          { score := 30000, childPV := [], seldepth := 0, s := exampleLoop.s } = MoveOut.brk l1
        ∧ l1.hashBound = B_beta ∧ l1.s.tables.length = 2 := by
  refine ⟨⟨by decide, by decide, by decide, Or.inl ⟨rfl, rfl⟩⟩, rfl, by decide, ?_⟩
  obtain ⟨l1, h⟩ := (pvs_beta_cutoff exampleSearchEnv (pvs exampleSearchEnv 0) exampleCtx
    (-30000) [move_e2e4] move_e2e4 exampleLoop
    { score := 30000, childPV := [], seldepth := 0, s := exampleLoop.s }
    ⟨by decide, by decide, by decide, Or.inl ⟨rfl, rfl⟩⟩ rfl (by decide)).1 true
  refine ⟨l1, h.1, h.2.2.2.1, ?_⟩
  rw [h.2.2.2.2]
  rfl

/-- C23: on the description "8/8/8/8/8/8/8/7 w - - 0 1", whose placement field names no king
and covers 63 squares, `readFEN` does not return `false`: after the last character the loop
condition `i <= length` still holds and `strList[0].at(15)` is out of range. -/
theorem readFEN_short_field :
    fenWords shortFEN = [shortField, ['w'], ['-'], ['-'], ['0'], ['1']]
    ∧ 'K' ∉ shortField ∧ 'k' ∉ shortField
    ∧ (fenSquares shortField).length = 63
    ∧ readFEN exampleFenEnv shortFEN true = Fen.outOfRange 15
    ∧ (∀ r, readFEN exampleFenEnv shortFEN true ≠ Fen.ok r) :=
  ⟨rfl, by decide, by decide, rfl, rfl, fun r h => by
    rw [show readFEN exampleFenEnv shortFEN true = Fen.outOfRange 15 from rfl] at h
    cases h⟩

/-- C24: for a description whose placement field is in standard notation and describes
exactly 64 squares, `readFEN` returns, the board holds at `(7 - n div 8) * 8 + n mod 8` what
the field describes for its `n`-th square (a piece for a letter, no piece for the squares of a
digit), the king square of a colour is the square of its last king letter, `'/'` leaves the
square counter as it is and a digit `d` advances it by `d` without writing. -/
theorem readFEN_placement (E : FenEnv) (fen field : List Char) (rest : List (List Char))
    (withMoveCount : Bool)
    (hwords : fenWords fen = field :: rest)
    (hstd : ∀ ch ∈ field, standardChar ch = true)
    (h64 : (fenSquares field).length = 64)
    (_hlen : field.length ≤ 127) :
    ∃ r, readFEN E fen withMoveCount = Fen.ok r
      ∧ (∀ n : Nat, n < 64 →
          r.p.board ((7 - (n : Int) / 8) * 8 + (n : Int) % 8)
            = (fenSquares field).getD n P_none)
      ∧ (∀ (c : Color) (n : Nat), (fenSquares field)[n]? = some (kingPiece c) →
          (∀ n2 : Nat, n < n2 → (fenSquares field)[n2]? ≠ some (kingPiece c)) →
          r.p.king c = (7 - (n : Int) / 8) * 8 + (n : Int) % 8)
      ∧ (∀ (j : Int) (p : Position),
          placementStep '/' j p = (j, p) ∧ placementStep '1' j p = (j + 1, p)
          ∧ placementStep '2' j p = (j + 2, p) ∧ placementStep '3' j p = (j + 3, p)
          ∧ placementStep '4' j p = (j + 4, p) ∧ placementStep '5' j p = (j + 5, p)
          ∧ placementStep '6' j p = (j + 6, p) ∧ placementStep '7' j p = (j + 7, p)
          ∧ placementStep '8' j p = (j + 8, p)) := by
  obtain ⟨i2, p2, hres, h1, h2, h3, _⟩ :=
    placementLoop_standard field field (field.length + 1) 0 0 (readFENReset E) rfl
      (by omega) hstd (by omega)
  have h01 : (((0 : Nat) : Int) + 1) = 1 := by norm_num
  rw [h01] at hres
  refine ⟨readFENRest E (field :: rest) p2 withMoveCount, ?_, ?_, ?_, ?_⟩
  · unfold readFEN
    rw [hwords]
    dsimp only
    rw [hres]
  · intro n hn
    rw [(readFENRest_board_king _ _ _ _).1, ← fenSquare_succ]
    have hlt : n < (fenSquares field).length := by omega
    have hget : (fenSquares field)[n]? = some ((fenSquares field)[n]) :=
      List.getElem?_eq_getElem hlt
    rw [List.getD_eq_getElem?_getD, hget, Option.getD_some]
    by_cases hpc : (fenSquares field)[n] = P_none
    · rw [hpc, h2 _ ?_]
      · have hr := fenSquare_range n hn
        unfold readFENReset
        dsimp only
        rw [if_pos ⟨hr.1, hr.2⟩]
      · intro n2 pc2 hS2 hne2 heq
        obtain ⟨hn2, hv⟩ := List.getElem?_eq_some.mp hS2
        have h0 : 0 + n2 = n2 := by omega
        rw [h0] at heq
        have := fenSquare_inj n n2 hn (by omega) heq
        subst this
        exact hne2 (hv ▸ hpc)
    · have := h1 n _ hget hpc
      have h0 : 0 + n = n := by omega
      rw [h0] at this
      exact this
  · intro c n hS hlast
    rw [(readFENRest_board_king _ _ _ _).2, ← fenSquare_succ]
    have := h3 c n hS hlast
    have h0 : 0 + n = n := by omega
    rw [h0] at this
    exact this
  · intro j p
    refine ⟨?_, ?_, ?_, ?_, ?_, ?_, ?_, ?_, ?_⟩ <;> simp [placementStep] <;> omega

theorem readFEN_placement_witness :
    fenWords startFEN = startField :: [['w'], "KQkq".toList, ['-'], ['0'], ['1']]
    ∧ (∀ ch ∈ startField, standardChar ch = true)
    ∧ (fenSquares startField).length = 64
    ∧ startField.length ≤ 127
    ∧ ∃ r, readFEN exampleFenEnv startFEN true = Fen.ok r
      ∧ (∀ n : Nat, n < 64 →
          r.p.board ((7 - (n : Int) / 8) * 8 + (n : Int) % 8)
            = (fenSquares startField).getD n P_none)
      ∧ (∀ (c : Color) (n : Nat), (fenSquares startField)[n]? = some (kingPiece c) →
          (∀ n2 : Nat, n < n2 → (fenSquares startField)[n2]? ≠ some (kingPiece c)) →
          r.p.king c = (7 - (n : Int) / 8) * 8 + (n : Int) % 8)
      ∧ (∀ (j : Int) (p : Position),
          placementStep '/' j p = (j, p) ∧ placementStep '1' j p = (j + 1, p)
          ∧ placementStep '2' j p = (j + 2, p) ∧ placementStep '3' j p = (j + 3, p)
          ∧ placementStep '4' j p = (j + 4, p) ∧ placementStep '5' j p = (j + 5, p)
          ∧ placementStep '6' j p = (j + 6, p) ∧ placementStep '7' j p = (j + 7, p)
          ∧ placementStep '8' j p = (j + 8, p)) :=
  ⟨rfl, by decide, rfl, by decide,
    readFEN_placement exampleFenEnv startFEN startField _ true rfl (by decide) rfl (by decide)⟩

/-- C25: when `applyMove` returns false, the side to move, the en-passant square, the
fifty-move counter, `halfmoves`, `moves` and `lastMove` are what they were before the call,
and the position left is the one after the piece relocation, which is not rolled back: for a
failing move with distinct origin and destination, moving a piece (the origin holds a piece;
a castling move being one the validator accepts), the board array after the call differs from
the board array before it. -/
theorem applyMove_false_state (E : Env) (p : Position) (m : Move) (noValidation : Bool)
    (hfail : (applyMove E p m noValidation).1 = false) :
    ((applyMove E p m noValidation).2.c = p.c
      ∧ (applyMove E p m noValidation).2.ep = p.ep
      ∧ (applyMove E p m noValidation).2.fifty = p.fifty
      ∧ (applyMove E p m noValidation).2.halfmoves = p.halfmoves
      ∧ (applyMove E p m noValidation).2.moves = p.moves
      ∧ (applyMove E p m noValidation).2.lastMove = p.lastMove)
    ∧ (applyMove E p m noValidation).2 = applyMoveSwitch E p m
    ∧ (m.sqFrom ≠ m.sqTo →
        ((isCastling m.type = false ∧ p.board m.sqFrom ≠ P_none)
          ∨ isPseudoLegal E p (MoveSlot.played m) = true) →
        (applyMove E p m noValidation).2.board ≠ p.board) := by
  have hsw : (applyMove E p m noValidation).2 = applyMoveSwitch E p m := by
    simp only [applyMove] at hfail ⊢
    by_cases h : (!noValidation
        && E.isAttacked (applyMoveSwitch E p m) (kingSquare (applyMoveSwitch E p m))) = true
    · rw [if_pos h]
    · rw [if_neg h] at hfail
      exact absurd hfail (Bool.noConfusion)
  obtain ⟨h1, h2, h3, h4, h5, h6, _, _⟩ := applyMoveSwitch_frame E p m
  rw [hsw]
  refine ⟨⟨h1, h2, h3, h5, h4, h6⟩, rfl, fun hne hmv hb => ?_⟩
  cases hc : isCastling m.type
  · have hfrom : p.board m.sqFrom ≠ P_none := by
      rcases hmv with h | h
      · exact h.2
      · exact fun hx => (isPseudoLegal_head E p m h).1 (Or.inl hx)
    have := applyMoveSwitch_board_from E p m hc hne
    rw [hb] at this
    exact hfrom this
  · have hpl : isPseudoLegal E p (MoveSlot.played m) = true := by
      rcases hmv with h | h
      · rw [hc] at h
        exact absurd h.1 (by decide)
      · exact h
    obtain ⟨h0, h1⟩ := applyMoveSwitch_board_castling E p m hc hpl
    rw [hb] at h1
    exact h1 h0


theorem applyMove_false_state_witness :
    (applyMove attackedEnv startPosition move_e2e4 false).1 = false
    ∧ move_e2e4.sqFrom ≠ move_e2e4.sqTo
    ∧ (isCastling move_e2e4.type = false ∧ startPosition.board move_e2e4.sqFrom ≠ P_none)
    ∧ (applyMove attackedEnv startPosition move_e2e4 false).2.halfmoves = startPosition.halfmoves
    ∧ (applyMove attackedEnv startPosition move_e2e4 false).2.board ≠ startPosition.board :=
  ⟨by decide, by decide, by decide,
    (applyMove_false_state attackedEnv startPosition move_e2e4 false (by decide)).1.2.2.2.1,
    (applyMove_false_state attackedEnv startPosition move_e2e4 false (by decide)).2.2
      (by decide) (Or.inl (by decide))⟩

/-- C26: after a successful `applyMove` the en-passant square of the resulting position is
the square midway between origin and destination if the moved piece is a pawn and the
destination differs from the origin by exactly 16 squares, and is none in every other case,
whatever the en-passant square was before the move; the key of an en-passant square set
before the move is XORed into the hash (with the key of the new square and the side keys). -/
theorem applyMove_ep_square (E : Env) (p : Position) (m : Move) (noValidation : Bool)
    (hok : (applyMove E p m noValidation).1 = true) :
    (applyMove E p m noValidation).2.ep
        = (if std_abs (p.board m.sqFrom) = P_wp ∧ std_abs (m.sqTo - m.sqFrom) = 16
            then (m.sqFrom + m.sqTo) / 2 else INVALIDSQUARE)
    ∧ (std_abs (p.board m.sqFrom) = P_wp ∧ std_abs (m.sqTo - m.sqFrom) = 16 →
        2 * (applyMove E p m noValidation).2.ep = m.sqFrom + m.sqTo)
    ∧ (applyMove E p m noValidation).2.h
        = (applyMoveSwitch E p m).h ^^^ epKey E p.ep
          ^^^ (if std_abs (p.board m.sqFrom) = P_wp ∧ std_abs (m.sqTo - m.sqFrom) = 16
                then E.ZT ((m.sqFrom + m.sqTo) / 2) 13 else 0)
          ^^^ E.ZT 3 13 ^^^ E.ZT 4 13 := by
  rw [applyMove_of_true E p m noValidation hok]
  simp only [applyMoveFinish_fields, (applyMoveSwitch_frame E p m).2.1, true_and, and_true]
  intro h
  rw [if_pos h]
  have h16 := h.2
  unfold std_abs at h16
  split_ifs at h16 <;> omega

theorem applyMove_ep_square_witness :
    (applyMove exampleEnv startPosition move_e2e4 false).1 = true
    ∧ (applyMove exampleEnv startPosition move_e2e4 false).2.ep = 20
    ∧ (applyMove exampleEnv epPosition move_e5d6 false).1 = true
    ∧ epPosition.ep = 43
    ∧ (applyMove exampleEnv epPosition move_e5d6 false).2.ep = INVALIDSQUARE := by
  have h1 := applyMove_ep_square exampleEnv startPosition move_e2e4 false (by decide)
  have h2 := applyMove_ep_square exampleEnv epPosition move_e5d6 false (by decide)
  exact ⟨by decide, h1.1.trans (by decide), by decide, by decide, h2.1.trans (by decide)⟩

/-- C27: a pawn move accepted by `isPseudoLegal` is of a promotion kind if and only if its
destination lies on the promotion rank of the side to move, and every move of a promotion kind
whose origin piece is not a pawn is rejected. -/
theorem isPseudoLegal_promotion_rank (E : Env) (p : Position) (m : Move) :
    (isPseudoLegal E p (MoveSlot.played m) = true → std_abs (p.board m.sqFrom) = P_wp →
      (isPromotion m.type = true ↔ SQRANK m.sqTo = PromRank p.c))
    ∧ (isPromotion m.type = true → std_abs (p.board m.sqFrom) ≠ P_wp →
        isPseudoLegal E p (MoveSlot.played m) = false) := by
  refine ⟨fun hpl hpawn => ?_, fun hprom hnp => ?_⟩
  · have hg := (isPseudoLegal_head E p m hpl).2.2.2.2.2.2.2.2.2
    have hnc : isCastling m.type = false := by
      cases hc : isCastling m.type
      · rfl
      · exfalso
        have hcas := isPseudoLegalCastling_of_not E p m hpl hc
        obtain ⟨f, t, ty, sc⟩ := m
        simp only at hpawn
        cases hcol : p.c <;> cases ty <;>
          simp [isPseudoLegalCastling, Move2From, Move2To, Move2Type, hcol, castleOK] at hcas
        all_goals
          obtain ⟨⟨⟨⟨⟨⟨_, _⟩, hfp⟩, _⟩, _⟩, _⟩, _⟩ := hcas
          rw [hfp] at hpawn
          exact absurd hpawn (by decide)
    have hg2 : isPseudoLegalPawn E p m = true := by
      simpa [isPseudoLegalGeometry, Move2From, Move2To, Move2Type, hnc, hpawn] using hg
    obtain ⟨_, hg3⟩ := ite_false_eq_true hg2
    obtain ⟨_, hg3⟩ := ite_false_eq_true hg3
    obtain ⟨k3, hg3⟩ := ite_false_eq_true hg3
    obtain ⟨k4, _⟩ := ite_false_eq_true hg3
    simp only [Move2To, Move2Type] at k3 k4
    constructor
    · intro hp
      by_contra hr
      exact k4 ⟨hp, hr⟩
    · intro hr
      cases hp : isPromotion m.type
      · exact absurd ⟨hp, hr⟩ k3
      · rfl
  · exact isPseudoLegal_eq_false E p m
      (Or.inr (Or.inr (Or.inr (Or.inr (Or.inr (Or.inr (Or.inr (Or.inr ⟨hprom, hnp⟩))))))))

theorem isPseudoLegal_promotion_rank_witness :
    isPseudoLegal exampleEnv promPosition (MoveSlot.played move_a7b8q) = true
    ∧ std_abs (promPosition.board move_a7b8q.sqFrom) = P_wp
    ∧ (isPromotion move_a7b8q.type = true ↔ SQRANK move_a7b8q.sqTo = PromRank promPosition.c)
    ∧ isPseudoLegal exampleEnv startPosition
        (MoveSlot.played { sqFrom := 1, sqTo := 18, type := T_promq, score := 0 }) = false :=
  ⟨by decide, by decide,
    (isPseudoLegal_promotion_rank exampleEnv promPosition move_a7b8q).1 (by decide) (by decide),
    (isPseudoLegal_promotion_rank exampleEnv startPosition
      { sqFrom := 1, sqTo := 18, type := T_promq, score := 0 }).2 (by decide) (by decide)⟩

/-- C28: an en-passant move accepted by `isPseudoLegal` (squares on the board, board and
bitboards in agreement, the masks `push`, `dpush` and `pawnAttack` of the origin being the
square in front, the square two ranks ahead, which comes with the square in front, and the two
diagonal squares) satisfies all of: the position has an en-passant square, the destination
equals it and is empty, the moving piece is a pawn of the side to move, a pawn of the other
side stands directly behind the en-passant square (`ep - 8` with White to move, `ep + 8` with
Black), and the destination is one of the origin's two diagonal pawn-attack squares, never one
of its push squares. -/
theorem isPseudoLegal_en_passant (E : Env) (p : Position) (m : Move)
    (hassert : applyMoveAsserts p m = true) (hA : Agree p)
    (hpush : ∀ k : Nat, (E.push m.sqFrom p.c).testBit k = true →
      (k : Int) = m.sqFrom + (if p.c = Co_White then 8 else -8))
    (hdpush : ∀ k : Nat, (E.dpush m.sqFrom p.c).testBit k = true →
      (k : Int) = m.sqFrom + 2 * (if p.c = Co_White then 8 else -8)
      ∧ (E.push m.sqFrom p.c).testBit (m.sqFrom + (if p.c = Co_White then 8 else -8)).toNat = true)
    (hatt : ∀ k : Nat, (E.pawnAttack m.sqFrom p.c).testBit k = true →
      (k : Int) = m.sqFrom + (if p.c = Co_White then 7 else -9)
      ∨ (k : Int) = m.sqFrom + (if p.c = Co_White then 9 else -7))
    (hpl : isPseudoLegal E p (MoveSlot.played m) = true) (hty : m.type = T_ep) :
    p.ep ≠ INVALIDSQUARE
    ∧ m.sqTo = p.ep
    ∧ p.board m.sqTo = P_none
    ∧ p.board m.sqFrom = (if p.c = Co_White then P_wp else P_bp)
    ∧ p.board (p.ep + (if p.c = Co_White then -8 else 8)) = (if p.c = Co_White then P_bp else P_wp)
    ∧ (E.pawnAttack m.sqFrom p.c).testBit m.sqTo.toNat = true
    ∧ (m.sqTo = m.sqFrom + (if p.c = Co_White then 7 else -9)
        ∨ m.sqTo = m.sqFrom + (if p.c = Co_White then 9 else -7))
    ∧ m.sqTo ≠ m.sqFrom + (if p.c = Co_White then 8 else -8)
    ∧ m.sqTo ≠ m.sqFrom + 2 * (if p.c = Co_White then 8 else -8) := by
  obtain ⟨hto, htn, hfp, hcap, het, hef, hne⟩ := isPseudoLegal_ep_facts E p m hassert hA hpl hty
  obtain ⟨⟨hf, hf64⟩, ⟨ht, ht64⟩, hep⟩ := applyMoveAsserts_squares p m hassert
  obtain ⟨hepne, he, he64⟩ := hep hty
  obtain ⟨_, _, _, _, _, _, h7, _, _, hg⟩ := isPseudoLegal_head E p m hpl
  have hpawn : std_abs (p.board m.sqFrom) = P_wp := by
    by_contra hc
    exact h7 ⟨hty, Or.inr hc⟩
  have hg2 : isPseudoLegalPawn E p m = true := by
    simpa [isPseudoLegalGeometry, Move2From, Move2To, Move2Type, hty, isCastling, hpawn] using hg
  obtain ⟨_, hg3⟩ := ite_false_eq_true hg2
  obtain ⟨_, hg3⟩ := ite_false_eq_true hg3
  obtain ⟨_, hg3⟩ := ite_false_eq_true hg3
  obtain ⟨_, hg3⟩ := ite_false_eq_true hg3
  simp only [Move2From, Move2To, Move2Type] at hg3
  have htoNat : ((m.sqTo.toNat : Nat) : Int) = m.sqTo := Int.toNat_of_nonneg ht
  -- the single push square is the capture square, which another pawn holds
  have hnopush : (E.push m.sqFrom p.c).testBit m.sqTo.toNat = false := by
    cases hb : (E.push m.sqFrom p.c).testBit m.sqTo.toNat
    · rfl
    · exfalso
      have h1 := hpush _ hb
      rw [htoNat] at h1
      apply hef
      rw [← hto, h1]
      cases hc : p.c <;> simp
  have hcapne : p.board (p.ep + (if p.c = Co_White then -8 else 8)) ≠ P_none := by
    rw [hcap]
    cases hc : p.c <;> simp [P_bp, P_wp, P_none]
  have hocc := hA.occupied_of_board_ne_none _ he he64 hcapne
  have hnodpush : (E.push m.sqFrom p.c &&& p.occupancy) = emptyBitBoard →
      (E.dpush m.sqFrom p.c).testBit m.sqTo.toNat = false := by
    intro h0
    cases hb : (E.dpush m.sqFrom p.c).testBit m.sqTo.toNat
    · rfl
    · exfalso
      obtain ⟨h1, h2⟩ := hdpush _ hb
      rw [htoNat] at h1
      have hsq : m.sqFrom + (if p.c = Co_White then 8 else -8)
          = p.ep + (if p.c = Co_White then -8 else 8) := by
        rw [← hto, h1]
        cases hc : p.c <;> simp <;> omega
      rw [hsq] at h2
      have : (E.push m.sqFrom p.c &&& p.occupancy).testBit
          (p.ep + (if p.c = Co_White then -8 else 8)).toNat = true := by
        rw [Nat.testBit_and, h2, hocc]
        rfl
      rw [h0] at this
      simp [emptyBitBoard] at this
  have hnot : ¬ ((if (E.push m.sqFrom p.c &&& p.occupancy) = emptyBitBoard
      then (E.push m.sqFrom p.c &&& bbNot p.occupancy) ||| (E.dpush m.sqFrom p.c &&& bbNot p.occupancy)
      else E.push m.sqFrom p.c &&& bbNot p.occupancy) &&& SquareToBitboard m.sqTo) ≠ 0 := by
    intro hx
    have hb := testBit_of_and_SquareToBitboard_ne_zero _ _ hx
    split_ifs at hb with h0
    · rw [Nat.testBit_or, Nat.testBit_and, Nat.testBit_and, hnopush, hnodpush h0] at hb
      simp at hb
    · rw [Nat.testBit_and, hnopush] at hb
      simp at hb
  rw [if_neg hnot] at hg3
  have hcapture : ((E.pawnAttack m.sqFrom p.c &&& bbNot (p.allPieces p.c))
          &&& SquareToBitboard m.sqTo) ≠ 0 := by
    by_contra hc
    rw [if_neg (fun h => h.1 hc)] at hg3
    exact absurd hg3 (by decide)
  have hbit := testBit_of_and_SquareToBitboard_ne_zero _ _ hcapture
  rw [Nat.testBit_and] at hbit
  have hatt1 : (E.pawnAttack m.sqFrom p.c).testBit m.sqTo.toNat = true := by
    cases hb : (E.pawnAttack m.sqFrom p.c).testBit m.sqTo.toNat
    · rw [hb] at hbit
      simp at hbit
    · rfl
  have hdiag := hatt _ hatt1
  rw [htoNat] at hdiag
  refine ⟨hepne, hto, htn, hfp, hcap, hatt1, hdiag, ?_, ?_⟩
  · cases hc : p.c <;> simp [hc] at hdiag ⊢ <;> omega
  · cases hc : p.c <;> simp [hc] at hdiag ⊢ <;> omega

theorem isPseudoLegal_en_passant_witness :
    applyMoveAsserts epPosition move_e5d6 = true
    ∧ Agree epPosition
    ∧ isPseudoLegal exampleEnv epPosition (MoveSlot.played move_e5d6) = true
    ∧ move_e5d6.type = T_ep
    ∧ (epPosition.ep ≠ INVALIDSQUARE
      ∧ move_e5d6.sqTo = epPosition.ep
      ∧ epPosition.board move_e5d6.sqTo = P_none
      ∧ epPosition.board move_e5d6.sqFrom = (if epPosition.c = Co_White then P_wp else P_bp)
      ∧ epPosition.board (epPosition.ep + (if epPosition.c = Co_White then -8 else 8))
          = (if epPosition.c = Co_White then P_bp else P_wp)
      ∧ (exampleEnv.pawnAttack move_e5d6.sqFrom epPosition.c).testBit move_e5d6.sqTo.toNat = true
      ∧ (move_e5d6.sqTo = move_e5d6.sqFrom + (if epPosition.c = Co_White then 7 else -9)
          ∨ move_e5d6.sqTo = move_e5d6.sqFrom + (if epPosition.c = Co_White then 9 else -7))
      ∧ move_e5d6.sqTo ≠ move_e5d6.sqFrom + (if epPosition.c = Co_White then 8 else -8)
      ∧ move_e5d6.sqTo ≠ move_e5d6.sqFrom + 2 * (if epPosition.c = Co_White then 8 else -8)) :=
  ⟨by decide, by decide, by decide, by decide,
    isPseudoLegal_en_passant exampleEnv epPosition move_e5d6 (by decide) (by decide)
      (fun k hk => by
        have h1 : (SquareToBitboard 44).testBit k = true := hk
        unfold SquareToBitboard at h1
        rw [Nat.one_shiftLeft, Nat.testBit_two_pow] at h1
        have h2 : (44 : Int).toNat = k := by simpa using h1
        rw [← h2]
        decide)
      (fun k hk => by
        have h1 : (0 : Nat).testBit k = true := hk
        simp at h1)
      (fun k hk => by
        have h1 : (SquareToBitboard 43 ||| SquareToBitboard 45).testBit k = true := hk
        unfold SquareToBitboard at h1
        rw [Nat.testBit_or, Nat.one_shiftLeft, Nat.one_shiftLeft, Nat.testBit_two_pow,
          Nat.testBit_two_pow] at h1
        simp only [Bool.or_eq_true, decide_eq_true_eq] at h1
        rcases h1 with h2 | h2
        · left
          have h3 : (43 : Int).toNat = k := h2
          rw [← h3]
          decide
        · right
          have h3 : (45 : Int).toNat = k := h2
          rw [← h3]
          decide)
      (by decide) (by decide)⟩

/-- C29, as stated, fails for the frame whose own clock test sets the flag: at the root of a
search of depth 1 of the initial position, entered with the flag down while the time is over,
the frame sets the flag, goes on, skips the loop over the moves because the flag is set, and
returns the score 0 of a node without valid move, not `STOPSCORE`. -/
theorem pvs_stop_counterexample :
    exampleSearcher.stopFlag = false
    ∧ timeUpSearchEnv.timeIsUp exampleSearcher = true
    ∧ ∃ r, pvs timeUpSearchEnv 1 rootArgs exampleSearcher = some r
        ∧ r.s.stopFlag = true ∧ r.score = 0 ∧ r.score ≠ timeUpSearchEnv.STOPSCORE :=
  ⟨rfl, rfl, _, rfl, rfl, rfl, by decide⟩

/-- C29, amended: a frame of positive depth that is entered with the stop flag down and whose
own clock test does not fire returns `STOPSCORE` whenever the flag is set when it returns,
that is, whenever one of the calls of `pvs` or `qsearch` it made (razoring, null move, ProbCut,
internal iterative deepening, singular search, move of the table, loop over the moves) set
the flag (the static evaluation does not touch the flag); and after the search of a move (the
move of the table, a move of the list) that leaves the flag set, the frame returns `STOPSCORE`
with the state exactly as that search left it and `pv` as it was: the score of the child
updates neither the best score, `alpha`, the principal variation, the history tables nor the
transposition table. The frame whose own clock test sets the flag is not covered: it goes
on. -/
theorem pvs_stop_propagation (E : SearchEnv) (rec : PvsArgs → Searcher → Option PvsResult)
    (hEval : ∀ s p, (E.eval s p).2.2.stopFlag = s.stopFlag) :
    (∀ a s r, s.stopFlag = false → E.timeIsUp s = false → 0 < a.depth →
        pvsNode E rec a s = some r → r.s.stopFlag = true → r.score = E.STOPSCORE)
    ∧ (∀ fuel a s r, s.stopFlag = false → E.timeIsUp s = false → 0 < a.depth →
        pvs E fuel a s = some r → r.s.stopFlag = true → r.score = E.STOPSCORE)
    ∧ (∀ c m l x, x.s.stopFlag = true →
        ttUpdate E c m l x
          = Step.ret { score := E.STOPSCORE, pv := l.pv, seldepth := x.seldepth, s := x.s })
    ∧ (∀ c moves m firstMove l x, x.s.stopFlag = true →
        moveUpdate E c moves m firstMove l x
          = MoveOut.ret { score := E.STOPSCORE, pv := l.pv, seldepth := x.seldepth, s := x.s }) := by
  refine ⟨fun a s r hs ht hd h hr => pvsNode_stop E rec a s hEval hs ht hd r h hr, ?_, ?_, ?_⟩
  · intro fuel a s r hs ht hd h hr
    cases fuel with
    | zero => cases h
    | succ n => exact pvsNode_stop E (pvs E n) a s hEval hs ht hd r h hr
  · intro c m l x hx
    unfold ttUpdate
    rw [if_pos hx]
  · intro c moves m firstMove l x hx
    unfold moveUpdate
    rw [if_pos hx]

theorem pvs_stop_propagation_witness :
    exampleSearcher.stopFlag = false
    ∧ stoppingSearchEnv.timeIsUp exampleSearcher = false
    ∧ 0 < rootArgs.depth
    ∧ ∃ r, pvs stoppingSearchEnv 2 rootArgs exampleSearcher = some r
        ∧ r.s.stopFlag = true ∧ r.score = stoppingSearchEnv.STOPSCORE ∧ r.s.tt.length = 1 :=
  ⟨rfl, rfl, by decide, _, rfl, rfl,
    (pvs_stop_propagation stoppingSearchEnv (pvs stoppingSearchEnv 0) (fun _ _ => rfl)).2.1
      2 rootArgs exampleSearcher _ rfl rfl (by decide) rfl rfl, rfl⟩

/-- C30: for the window clamped at the entry of `pvs` and the entry `e` that the probe of the
transposition table leaves, `hit` telling that its depth is sufficient: the probe makes `pvs`
return exactly when `hit` holds, the node is neither the root nor a PV node, and the bound of
the entry is exact, or an upper bound with `e.s <= alpha`, or a lower bound with
`e.s >= beta`; the value returned is then `adjustHashScore(e.s, ply)`, nothing is stored in
the transposition table, and the history tables receive one `updateTables` for the move of the
entry if the side to move is not in check and the entry holds a quiet move, and are left as
they are otherwise. -/
theorem pvs_tt_cutoff (E : SearchEnv) (rec : PvsArgs → Searcher → Option PvsResult)
    (a : PvsArgs) (s : Searcher) (w : Window) (hit : Bool) (e : Entry)
    (hentry : pvsEntry E a s = Step.next w)
    (hget : getEntry E w.s.tt a.p (skipHash E (computeHash E.toEnv a.p) a.skipMoves) a.depth
      = (hit, e)) :
    (w.alpha = max a.alpha (-E.MATE + (a.ply : Int))
      ∧ w.beta = min a.beta (E.MATE - (a.ply : Int) + 1))
    ∧ ((∃ r, pvsProbe E a w = Step.ret r) ↔
        (hit = true ∧ a.ply ≠ 0 ∧ a.pvnode = false
          ∧ (e.b = B_exact ∨ (e.b = B_alpha ∧ e.s ≤ w.alpha) ∨ (e.b = B_beta ∧ e.s ≥ w.beta))))
    ∧ (∀ r, pvsProbe E a w = Step.ret r →
        pvsNode E rec a s = some r
        ∧ r.score = E.adjustHashScore e.s a.ply
        ∧ r.pv = a.pv
        ∧ r.s.tt = w.s.tt
        ∧ ((r.s.tables = w.s.tables
              ∧ ¬ (a.isInCheck = false ∧ ∃ m, e.m = MoveSlot.played m ∧ Move2Type m = T_std))
            ∨ (a.isInCheck = false ∧ ∃ m, e.m = MoveSlot.played m ∧ Move2Type m = T_std
                ∧ r.s.tables = TableWrite.updateTables a.p a.depth a.ply m e.b
                    (E.getCMHPtr w.s a.p.halfmoves) :: w.s.tables))) := by
  obtain ⟨hal, hbe, _⟩ := pvsEntry_next E a s w hentry
  refine ⟨⟨hal, hbe⟩, ?_, ?_⟩
  · unfold pvsProbe
    simp only [hget]
    constructor
    · rintro ⟨r, hr⟩
      split_ifs at hr with hc
      obtain ⟨h1, h2, h3, h4⟩ := hc
      refine ⟨h1, h2, h3, ?_⟩
      rcases h4 with h4 | h4 | h4
      · exact Or.inr (Or.inl h4)
      · exact Or.inr (Or.inr h4)
      · exact Or.inl h4
    · rintro ⟨h1, h2, h3, h4⟩
      have hc : hit = true ∧ a.ply ≠ 0 ∧ a.pvnode = false
          ∧ ((e.b = B_alpha ∧ e.s ≤ w.alpha) ∨ (e.b = B_beta ∧ e.s ≥ w.beta) ∨ e.b = B_exact) := by
        refine ⟨h1, h2, h3, ?_⟩
        rcases h4 with h4 | h4 | h4
        · exact Or.inr (Or.inr h4)
        · exact Or.inl h4
        · exact Or.inr (Or.inl h4)
      rw [if_pos hc]
      exact ⟨_, rfl⟩
  · intro r hr
    refine ⟨pvsNode_of_probe_ret E rec a s w r hentry hr, ?_⟩
    unfold pvsProbe at hr
    simp only [hget] at hr
    split_ifs at hr with hc
    cases hr
    refine ⟨rfl, rfl, ?_, ?_⟩
    · cases hm : e.m with
      | INVALIDMOVE => rfl
      | NULLMOVE => rfl
      | played m =>
        simp only
        split_ifs <;> rfl
    · cases hm : e.m with
      | INVALIDMOVE => exact Or.inl ⟨rfl, fun h => by obtain ⟨_, m, h1, _⟩ := h; cases h1⟩
      | NULLMOVE => exact Or.inl ⟨rfl, fun h => by obtain ⟨_, m, h1, _⟩ := h; cases h1⟩
      | played m =>
        simp only
        by_cases hq : a.isInCheck = false ∧ Move2Type m = T_std
        · rw [if_pos hq]
          exact Or.inr ⟨hq.1, m, rfl, hq.2, rfl⟩
        · rw [if_neg hq]
          refine Or.inl ⟨rfl, fun h => ?_⟩
          obtain ⟨h0, m', h1, h2⟩ := h
          cases h1
          exact hq ⟨h0, h2⟩

theorem pvs_tt_cutoff_witness :
    ∃ w r, pvsEntry exampleSearchEnv cutArgs ttSearcher = Step.next w
      ∧ pvsProbe exampleSearchEnv cutArgs w = Step.ret r
      ∧ pvsNode exampleSearchEnv (pvs exampleSearchEnv 0) cutArgs ttSearcher = some r
      ∧ r.score = 0
      ∧ r.s.tt = w.s.tt :=
  ⟨_, _, rfl, rfl,
    ((pvs_tt_cutoff exampleSearchEnv (pvs exampleSearchEnv 0) cutArgs ttSearcher _ _ _ rfl
      rfl).2.2 _ rfl).1,
    rfl,
    ((pvs_tt_cutoff exampleSearchEnv (pvs exampleSearchEnv 0) cutArgs ttSearcher _ _ _ rfl
      rfl).2.2 _ rfl).2.2.2.1⟩

/-- C31: when the block "LMR" is entered for a late move at a node of depth at least 2, the
move is either pruned or searched first at the depth `depth - 1 - reduction + extension` with
the reduction that the block leaves, and that depth lies between 1 and `depth - 1`, whatever
the table of reductions, the history score of the move and the extension are. -/
theorem pvs_lmr_depth (E : SearchEnv) (rec : PvsArgs → Searcher → Option PvsResult) (c : Ctx)
    (moves : List Move) (m : Move) (p2 : Position) (isCheck : Bool) (extension : Int)
    (l : LoopState) (hdepth : 2 ≤ c.a.depth)
    (hlmr : lmrApplies E c m (prunableOf E c m isCheck l) = true) :
    (∀ (q : Prunable) (l2 : LoopState),
        1 ≤ c.a.depth - 1 - lmrValue E c m q extension l2 + extension
        ∧ c.a.depth - 1 - lmrValue E c m q extension l2 + extension ≤ c.a.depth - 1)
    ∧ ((∃ l1 : LoopState, moveLate E rec c moves m p2 isCheck extension l = MoveOut.cont l1)
      ∨ ∃ (l1 : LoopState) (reduction : Int),
          reduction = lmrValue E c m (prunableOf E c m isCheck l) extension l1
          ∧ 1 ≤ c.a.depth - 1 - reduction + extension
          ∧ c.a.depth - 1 - reduction + extension ≤ c.a.depth - 1
          ∧ moveLate E rec c moves m p2 isCheck extension l
            = match searchLate rec c p2 isCheck extension reduction l1 l1.s with
              | none => MoveOut.fuelOut
              | some x => moveUpdate E c moves m false l1 x) := by
  refine ⟨fun q l2 => lmrValue_bounds E c m q extension l2 hdepth, ?_⟩
  unfold moveLate
  dsimp only
  generalize prunableOf E c m isCheck l = q at hlmr ⊢
  generalize (if q.isDangerRed = true then
      { (if q.isDangerPrune = true then { l with s := l.s.incr sid_dangerPrune } else l) with
        s := (if q.isDangerPrune = true then { l with s := l.s.incr sid_dangerPrune }
          else l).s.incr sid_dangerReduce }
      else (if q.isDangerPrune = true then { l with s := l.s.incr sid_dangerPrune } else l)) = lb
  cases hp : movePruned E c m q lb with
  | some id =>
    dsimp only
    exact Or.inl ⟨_, rfl⟩
  | none =>
    dsimp only
    rw [if_pos hlmr, if_pos hlmr]
    split_ifs with hsee
    · exact Or.inl ⟨_, rfl⟩
    · exact Or.inr ⟨_, _, rfl, (lmrValue_bounds E c m q extension _ hdepth).1,
        (lmrValue_bounds E c m q extension _ hdepth).2, rfl⟩

theorem pvs_lmr_depth_witness :
    2 ≤ lmrCtx.a.depth
    ∧ lmrApplies exampleSearchEnv lmrCtx move_e2e4
        (prunableOf exampleSearchEnv lmrCtx move_e2e4 false exampleLoop) = true
    ∧ 1 ≤ lmrCtx.a.depth - 1
        - lmrValue exampleSearchEnv lmrCtx move_e2e4
            (prunableOf exampleSearchEnv lmrCtx move_e2e4 false exampleLoop) 0 exampleLoop + 0
    ∧ lmrCtx.a.depth - 1
        - lmrValue exampleSearchEnv lmrCtx move_e2e4
            (prunableOf exampleSearchEnv lmrCtx move_e2e4 false exampleLoop) 0 exampleLoop + 0
        ≤ lmrCtx.a.depth - 1 :=
  ⟨by decide, by decide,
    (pvs_lmr_depth exampleSearchEnv (pvs exampleSearchEnv 0) lmrCtx [move_e2e4] move_e2e4
      startPosition false 0 exampleLoop (by decide) (by decide)).1 _ _⟩

/-- C32: the null-move search of `pvs` is made only when the static score is not below
`beta`; its reduction `R = depth / 4 + 3 + min((evalScore - beta) / 80, 3)` then lies between
`depth / 4 + 3` and `depth / 4 + 6`, so that the depth `depth - R` of the search is at most
`depth - 3`; and the only search the section makes is the call
`pvs<false, false>(-beta, -beta + 1, pN, depth - R, ply + 1, ...)` on the copy `pN` of the
position to which `applyNull` was applied. -/
theorem pvs_nullMove_search (E : SearchEnv) (a : PvsArgs) (w : Window) (pr : Probe)
    (st : Static) (seldepth : Int) (s : Searcher) (hdepth : 0 ≤ a.depth) :
    (st.evalScore < w.beta →
      ∃ x, ∀ rec : PvsArgs → Searcher → Option PvsResult,
        pvsNullMove E rec a w pr st seldepth s = Step.next x)
    ∧ (st.evalScore ≥ w.beta →
        cdiv a.depth 4 + 3 ≤ nullMoveR a.depth st.evalScore w.beta
        ∧ nullMoveR a.depth st.evalScore w.beta ≤ cdiv a.depth 4 + 6
        ∧ a.depth - nullMoveR a.depth st.evalScore w.beta ≤ a.depth - 3
        ∧ a.depth - nullMoveR a.depth st.evalScore w.beta < a.depth)
    ∧ ((∃ x, ∀ rec : PvsArgs → Searcher → Option PvsResult,
          pvsNullMove E rec a w pr st seldepth s = Step.next x)
      ∨ ∃ (s1 : Searcher) (k : PvsResult → Step (MoveSlot × Int × Searcher)),
          ∀ rec : PvsArgs → Searcher → Option PvsResult,
            pvsNullMove E rec a w pr st seldepth s
              = match rec { pvnode := false, canPrune := false, alpha := -w.beta
                            beta := -w.beta + 1, p := applyNull E.toEnv a.p
                            depth := a.depth - nullMoveR a.depth st.evalScore w.beta
                            ply := a.ply + 1, pv := [], seldepth := seldepth
                            isInCheck := a.isInCheck, cutNode := !a.cutNode
                            skipMoves := none } s1 with
                | none => Step.fuelOut
                | some r => k r) := by
  refine ⟨?_, ?_, ?_⟩
  · intro hlt
    unfold pvsNullMove
    dsimp only
    have g2 : ¬ st.evalScore ≥ w.beta := by omega
    simp only [if_neg g2]
    split_ifs
    · exact ⟨_, fun _ => rfl⟩
    · exact ⟨_, fun _ => rfl⟩
  · intro g2
    have hb := nullMoveR_bounds a.depth st.evalScore w.beta g2
    have h4 := cdiv_four_nonneg a.depth hdepth
    exact ⟨hb.1, hb.2, by omega, by omega⟩
  · unfold pvsNullMove
    dsimp only
    by_cases g1 : E.doNullMove = true ∧ (st.isNotEndGame = true ∨ st.data.mobility a.p.c > 4)
        ∧ a.skipMoves.isNone = true ∧ st.evalScore ≥ (s.stack (a.p.halfmoves : Int)).eval
        ∧ (a.ply : Int) ≥ s.nullMoveMinPly ∧ a.depth ≥ E.nullMoveMinDepth
    · simp only [if_pos g1]
      by_cases g2 : st.evalScore ≥ w.beta
      · simp only [if_pos g2]
        by_cases g3 : (getEntry E (s.incr sid_nullMoveTry).tt a.p pr.pHash
            (a.depth - nullMoveR a.depth st.evalScore w.beta)).2.h = nullHash
            ∨ (getEntry E (s.incr sid_nullMoveTry).tt a.p pr.pHash
            (a.depth - nullMoveR a.depth st.evalScore w.beta)).2.s ≥ w.beta
        · simp only [if_pos g3]
          exact Or.inr ⟨_, _, fun rec => rfl⟩
        · simp only [if_neg g3]
          exact Or.inl ⟨_, fun _ => rfl⟩
      · simp only [if_neg g2]
        exact Or.inl ⟨_, fun _ => rfl⟩
    · simp only [if_neg g1]
      exact Or.inl ⟨_, fun _ => rfl⟩

theorem pvs_nullMove_search_witness :
    0 ≤ nullArgs.depth ∧ exampleCtx.st.evalScore ≥ nullWindow.beta
    ∧ cdiv nullArgs.depth 4 + 3 ≤ nullMoveR nullArgs.depth exampleCtx.st.evalScore nullWindow.beta
    ∧ nullMoveR nullArgs.depth exampleCtx.st.evalScore nullWindow.beta ≤ cdiv nullArgs.depth 4 + 6
    ∧ nullArgs.depth - nullMoveR nullArgs.depth exampleCtx.st.evalScore nullWindow.beta
        ≤ nullArgs.depth - 3
    ∧ nullArgs.depth - nullMoveR nullArgs.depth exampleCtx.st.evalScore nullWindow.beta
        < nullArgs.depth :=
  ⟨by decide, by decide,
    (pvs_nullMove_search exampleSearchEnv nullArgs nullWindow exampleCtx.pr exampleCtx.st 0
      exampleSearcher (by decide)).2.1 (by decide)⟩

/-- C33, the code at a node whose table entry holds an exact score: at the root of the search
of depth 1 of the initial position, with an entry for that position holding the score 50 and
the static evaluation 7, the static evaluation recorded in the stack for the node is 7, the
score `evalScore` of the node is the score 50 of the entry, and the entry stored after the
loop over the moves holds 50 as its evaluation. -/
theorem pvs_stored_eval :
    ∃ r, pvs exampleSearchEnv 2 rootArgs hashScoreSearcher = some r
      ∧ (r.s.stack (rootArgs.p.halfmoves : Int)).eval = 7
      ∧ r.s.tt.head? = some { h := computeHash exampleEnv startPosition
                              m := MoveSlot.played move_e2e4, s := 0, e := 50, b := B_exact
                              d := 1 }
      ∧ (pvsStatic exampleSearchEnv rootArgs
          (probeOf (fun _ => none) (computeHash exampleEnv startPosition)
            { h := computeHash exampleEnv startPosition, m := MoveSlot.played move_e2e4
              s := 50, e := 7, b := B_exact, d := 0 }) hashScoreSearcher).evalScore = 50
      ∧ (pvsStatic exampleSearchEnv rootArgs
          (probeOf (fun _ => none) (computeHash exampleEnv startPosition)
            { h := computeHash exampleEnv startPosition, m := MoveSlot.played move_e2e4
              s := 50, e := 7, b := B_exact, d := 0 }) hashScoreSearcher).evalScoreIsHashScore
          = true :=
  ⟨_, rfl, rfl, rfl, rfl, rfl⟩

/-- C34: in the position that a successful `readFEN` leaves for a description with a castling
field: when the field has none of the letters `K`, `Q`, `k`, `q`, a colour holds the right of
a wing exactly if the field has a file letter of that colour (`A` to `H` for White, `a` to `h`
for Black) whose file is strictly to the right of the king of that colour, for the king side,
or not to the right of it, for the queen side; when the field has one of `K`, `Q`, `k`, `q`,
the rights held are exactly those named by these four letters; no other bit of the rights is
ever set. -/
theorem readFEN_castling (E : FenEnv) (fen : List Char) (withMoveCount : Bool) (r : FenResult)
    (f : List Char) (hr : readFEN E fen withMoveCount = Fen.ok r) (hok : r.ok = true)
    (hf : (fenWords fen).get? 2 = some f) :
    (('K' ∉ f ∧ 'Q' ∉ f ∧ 'k' ∉ f ∧ 'q' ∉ f) →
      ∀ (c : Color) (kingSide : Bool),
        r.p.castling &&& castlingRight c kingSide ≠ 0
          ↔ ∃ cr ∈ f, fileLetter c cr = true
              ∧ (kingSide = true ↔ letterFile cr > SQFILE (r.p.king c)))
    ∧ (('K' ∈ f ∨ 'Q' ∈ f ∨ 'k' ∈ f ∨ 'q' ∈ f) →
        (r.p.castling &&& C_wks ≠ 0 ↔ 'K' ∈ f) ∧ (r.p.castling &&& C_wqs ≠ 0 ↔ 'Q' ∈ f)
        ∧ (r.p.castling &&& C_bks ≠ 0 ↔ 'k' ∈ f) ∧ (r.p.castling &&& C_bqs ≠ 0 ↔ 'q' ∈ f))
    ∧ r.p.castling ≤ C_all := by
  obtain ⟨p0, hp0⟩ := readFEN_rest E fen withMoveCount r hr
  subst hp0
  obtain ⟨c0, ep, _, hp⟩ := readFENRest_eq E (fenWords fen) p0 withMoveCount hok
  have hking : (readFENRest E (fenWords fen) p0 withMoveCount).p.king = p0.king :=
    (readFENRest_board_king E (fenWords fen) p0 withMoveCount).2
  have hcas : (readFENRest E (fenWords fen) p0 withMoveCount).p.castling
      = (readFENCastling (fenWords fen) { p0 with c := c0 }).1.castling := by
    rw [hp]; rfl
  rw [hking, hcas, readFENCastling_castling _ _ f hf]
  obtain ⟨bK, bQ, bk, bq, blt⟩ := castlingLetters_bits f
  refine ⟨?_, ?_, ?_⟩
  · rintro ⟨hK, hQ, hk, hq⟩ c ks
    have hnone : (f.elem 'K' || f.elem 'Q' || f.elem 'k' || f.elem 'q') = false := by
      simp [List.elem_eq_mem, hK, hQ, hk, hq]
    rw [if_pos hnone, (foldl_frcStep { p0 with c := c0 } f (castlingLetters f, false)).1 c ks]
    have hz : ¬ castlingLetters f &&& castlingRight c ks ≠ 0 := by
      cases c <;> cases ks
      · exact fun h => hQ (bQ.mp h)
      · exact fun h => hK (bK.mp h)
      · exact fun h => hq (bq.mp h)
      · exact fun h => hk (bk.mp h)
    constructor
    · rintro (h | h)
      · exact absurd h hz
      · exact h
    · exact fun h => Or.inr h
  · intro hany
    have hsome : ¬ (f.elem 'K' || f.elem 'Q' || f.elem 'k' || f.elem 'q') = false := by
      simp [List.elem_eq_mem]
      tauto
    rw [if_neg hsome]
    exact ⟨bK, bQ, bk, bq⟩
  · have h16 : ∀ x : Nat, x < 2 ^ 4 → x ≤ C_all := by
      intro x hx
      unfold C_all
      omega
    split_ifs
    · exact h16 _ ((foldl_frcStep { p0 with c := c0 } f (castlingLetters f, false)).2 blt)
    · exact h16 _ blt

theorem readFEN_castling_witness :
    (∃ r, readFEN exampleFenEnv frcFEN true = Fen.ok r ∧ r.ok = true
      ∧ (fenWords frcFEN).get? 2 = some ['H', 'A', 'h', 'a']
      ∧ ('K' ∉ ['H', 'A', 'h', 'a'] ∧ 'Q' ∉ ['H', 'A', 'h', 'a'] ∧ 'k' ∉ ['H', 'A', 'h', 'a']
          ∧ 'q' ∉ ['H', 'A', 'h', 'a'])
      ∧ ∀ (c : Color) (kingSide : Bool),
          r.p.castling &&& castlingRight c kingSide ≠ 0
            ↔ ∃ cr ∈ ['H', 'A', 'h', 'a'], fileLetter c cr = true
                ∧ (kingSide = true ↔ letterFile cr > SQFILE (r.p.king c)))
    ∧ (∃ r, readFEN exampleFenEnv startFEN true = Fen.ok r ∧ r.ok = true
      ∧ (fenWords startFEN).get? 2 = some ['K', 'Q', 'k', 'q']
      ∧ ('K' ∈ ['K', 'Q', 'k', 'q'] ∨ 'Q' ∈ ['K', 'Q', 'k', 'q'] ∨ 'k' ∈ ['K', 'Q', 'k', 'q']
          ∨ 'q' ∈ ['K', 'Q', 'k', 'q'])
      ∧ (r.p.castling &&& C_wks ≠ 0 ↔ 'K' ∈ ['K', 'Q', 'k', 'q'])
      ∧ (r.p.castling &&& C_wqs ≠ 0 ↔ 'Q' ∈ ['K', 'Q', 'k', 'q'])
      ∧ (r.p.castling &&& C_bks ≠ 0 ↔ 'k' ∈ ['K', 'Q', 'k', 'q'])
      ∧ (r.p.castling &&& C_bqs ≠ 0 ↔ 'q' ∈ ['K', 'Q', 'k', 'q'])) :=
  ⟨⟨_, rfl, rfl, rfl, by decide,
      (readFEN_castling exampleFenEnv frcFEN true _ ['H', 'A', 'h', 'a'] rfl rfl rfl).1
        (by decide)⟩,
    ⟨_, rfl, rfl, rfl, by decide,
      (readFEN_castling exampleFenEnv startFEN true _ ['K', 'Q', 'k', 'q'] rfl rfl rfl).2.1
        (by decide)⟩⟩

/-- C35, the code for the Black perspective at the square a1: `orient(Co_Black, Sq_a1)` is
the square h8, on the last rank and on the file h, not on the file a of the square a1; for the
White perspective the square is returned as it is. -/
theorem orient_black_a1 :
    orient Co_Black 0 = 63
    ∧ SQRANK (orient Co_Black 0) = 7 - SQRANK 0
    ∧ SQFILE (orient Co_Black 0) = 7
    ∧ SQFILE (orient Co_Black 0) ≠ SQFILE 0
    ∧ orient Co_White 0 = 0 := by
  decide

/-- C36: the relation `halfmoves = 2 * (moves - 1) + 1 + (1 if Black is to move, else 0)`
holds for the position that a successful `readFEN` leaves, and it is preserved by a successful
`applyMove` and by `applyNull`, as long as the counters do not wrap around. -/
theorem counters_invariant (E : FenEnv) (fen : List Char) (withMoveCount : Bool)
    (r : FenResult) (p : Position) (m : Move) (noValidation : Bool) :
    (readFEN E fen withMoveCount = Fen.ok r → r.ok = true → 1 < E.movesMod →
        2 * r.p.moves < E.halfmovesMod → CounterInv r.p)
    ∧ ((applyMove E.toEnv p m noValidation).1 = true → CounterInv p →
        p.moves + 1 < E.movesMod → p.halfmoves + 1 < E.halfmovesMod →
        CounterInv (applyMove E.toEnv p m noValidation).2)
    ∧ (CounterInv p → p.moves + 1 < E.movesMod → p.halfmoves + 1 < E.halfmovesMod →
        CounterInv (applyNull E.toEnv p)) := by
  refine ⟨?_, ?_, ?_⟩
  · intro hr hok h1 h2
    obtain ⟨p0, hp0⟩ := readFEN_rest E fen withMoveCount r hr
    subst hp0
    obtain ⟨p1, hp1⟩ := readFENRest_finish E _ p0 withMoveCount hok
    rw [hp1] at h2 ⊢
    exact readFENFinish_counters E _ p1 withMoveCount h1 h2
  · intro hok hinv hm hh
    obtain ⟨_, _, _, _, _, _, hFm, hFh, _, _, _, _, _, _, hFc⟩ :=
      applyMoveFinish_fields E.toEnv p (applyMoveSwitch E.toEnv p m) m
    have hS := applyMoveSwitch_frame E.toEnv p m
    unfold CounterInv at hinv ⊢
    rw [applyMove_of_true E.toEnv p m noValidation hok, hFh, hFm, hFc, hS.1, hS.2.2.2.1,
      hS.2.2.2.2.1, Nat.mod_eq_of_lt hh, Nat.mod_eq_of_lt hm]
    cases hc : p.c <;> rw [hc] at hinv <;> simp [Color.flip] at hinv ⊢ <;> omega
  · intro hinv hm hh
    have hf : (applyNull E.toEnv p).c = p.c.flip
        ∧ (applyNull E.toEnv p).halfmoves = (p.halfmoves + 1) % E.halfmovesMod
        ∧ (applyNull E.toEnv p).moves
          = (if p.c.flip = Co_White then (p.moves + 1) % E.movesMod else p.moves) := by
      unfold applyNull
      simp only [incHalfmoves_fields, incMoves_fields, clearEp_fields, flipColor_fields,
        and_self]
    unfold CounterInv at hinv ⊢
    rw [hf.1, hf.2.1, hf.2.2, Nat.mod_eq_of_lt hh, Nat.mod_eq_of_lt hm]
    cases hc : p.c <;> rw [hc] at hinv <;> simp [Color.flip] at hinv ⊢ <;> omega

theorem counters_invariant_witness :
    (∃ r, readFEN exampleFenEnv startFEN true = Fen.ok r ∧ r.ok = true
        ∧ 1 < exampleFenEnv.movesMod ∧ 2 * r.p.moves < exampleFenEnv.halfmovesMod
        ∧ CounterInv r.p)
    ∧ ((applyMove exampleFenEnv.toEnv startPosition move_e2e4 false).1 = true
        ∧ CounterInv startPosition
        ∧ startPosition.moves + 1 < exampleFenEnv.movesMod
        ∧ startPosition.halfmoves + 1 < exampleFenEnv.halfmovesMod
        ∧ CounterInv (applyMove exampleFenEnv.toEnv startPosition move_e2e4 false).2)
    ∧ CounterInv (applyNull exampleFenEnv.toEnv startPosition) :=
  ⟨⟨_, rfl, rfl, by decide, by decide,
      (counters_invariant exampleFenEnv startFEN true _ startPosition move_e2e4 false).1
        rfl rfl (by decide) (by decide)⟩,
    ⟨by decide, by decide, by decide, by decide,
      (counters_invariant exampleFenEnv startFEN true
        { ok := true, p := startPosition, table := none, setFRC := false }
        startPosition move_e2e4 false).2.1 (by decide) (by decide) (by decide) (by decide)⟩,
    (counters_invariant exampleFenEnv startFEN true
      { ok := true, p := startPosition, table := none, setFRC := false }
      startPosition move_e2e4 false).2.2 (by decide) (by decide) (by decide)⟩

/-- C37: the placement loop of `readFEN` on a field of at most 127 characters, started with
the counter 1 at the index 0. If the field covers at least 64 squares, every character is read
at an index below the length of the field, with the square counter between 1 and 64, so that
the square of the counter is on the board; the loop ends and leaves the squares outside the
board as they were. If the field covers fewer than 64 squares, the loop reads at the index
equal to the length of the field, which `std::string::at` refuses, and `readFEN` does not
return. An iteration writes the board at the square of the counter only. For a field in
standard notation the squares covered are the squares described. -/
theorem placementLoop_reads (field : List Char) (p : Position) (_hlen : field.length ≤ 127) :
    (64 ≤ fenCovered field →
      (∃ x, placementLoop field (field.length + 1) 1 0 p = Fen.ok x
        ∧ ∀ k, ¬ (0 ≤ k ∧ k < 64) → x.2.2.board k = p.board k)
      ∧ ∀ ij ∈ placementReads field (field.length + 1) 1 0 p,
          ij.1 < field.length ∧ 1 ≤ ij.2 ∧ ij.2 ≤ 64
          ∧ 0 ≤ fenSquare ij.2 ∧ fenSquare ij.2 < 64)
    ∧ (fenCovered field < 64 →
        placementLoop field (field.length + 1) 1 0 p = Fen.outOfRange field.length
        ∧ (∃ j, (field.length, j) ∈ placementReads field (field.length + 1) 1 0 p)
        ∧ (∀ ij ∈ placementReads field (field.length + 1) 1 0 p, 1 ≤ ij.2 ∧ ij.2 ≤ 64)
        ∧ ∀ (E : FenEnv) (fen : List Char) (rest : List (List Char)) (withMoveCount : Bool),
            fenWords fen = field :: rest →
            readFEN E fen withMoveCount = Fen.outOfRange field.length)
    ∧ (∀ (ch : Char) (j : Int) (q : Position) (k : Int), k ≠ fenSquare j →
        (placementStep ch j q).2.board k = q.board k)
    ∧ ((∀ ch ∈ field, standardChar ch = true) → fenCovered field = (fenSquares field).length) := by
  have h01 : (((0 : Nat) : Int) + 1) = 1 := by norm_num
  refine ⟨?_, ?_, fun ch j q k hk => placementStep_frame ch j q k hk,
    fun h => fenCovered_standard field h⟩
  · intro h64
    obtain ⟨⟨x, hx, _, hb⟩, hr⟩ :=
      (placementLoop_safe field field (field.length + 1) 0 0 p rfl (Nat.zero_le _)
        (by omega)).1 (by omega)
    rw [h01] at hx hr
    refine ⟨⟨x, hx, hb⟩, ?_⟩
    intro ij hij
    obtain ⟨h1, h2, h3⟩ := hr ij hij
    exact ⟨h1, h2, h3, fenSquare_on_board ij.2 h2 h3⟩
  · intro h64
    obtain ⟨hx, hj, hr⟩ :=
      (placementLoop_safe field field (field.length + 1) 0 0 p rfl (Nat.zero_le _)
        (by omega)).2 (by omega)
    rw [h01] at hx hj hr
    refine ⟨hx, hj, fun ij hij => (hr ij hij).2, ?_⟩
    intro E fen rest w hw
    obtain ⟨hx2, _, _⟩ :=
      (placementLoop_safe field field (field.length + 1) 0 0 (readFENReset E) rfl
        (Nat.zero_le _) (by omega)).2 (by omega)
    rw [h01] at hx2
    unfold readFEN
    rw [hw]
    dsimp only
    rw [hx2]

theorem placementLoop_reads_witness :
    (startField.length ≤ 127 ∧ 64 ≤ fenCovered startField
      ∧ (∃ x, placementLoop startField (startField.length + 1) 1 0 startPosition = Fen.ok x
        ∧ ∀ k, ¬ (0 ≤ k ∧ k < 64) → x.2.2.board k = startPosition.board k)
      ∧ ∀ ij ∈ placementReads startField (startField.length + 1) 1 0 startPosition,
          ij.1 < startField.length ∧ 1 ≤ ij.2 ∧ ij.2 ≤ 64
          ∧ 0 ≤ fenSquare ij.2 ∧ fenSquare ij.2 < 64)
    ∧ (shortField.length ≤ 127 ∧ fenCovered shortField < 64
      ∧ placementLoop shortField (shortField.length + 1) 1 0 startPosition
          = Fen.outOfRange shortField.length
      ∧ ∃ j, (shortField.length, j)
          ∈ placementReads shortField (shortField.length + 1) 1 0 startPosition) :=
  ⟨⟨by decide, by decide,
      (placementLoop_reads startField startPosition (by decide)).1 (by decide)⟩,
    ⟨by decide, by decide,
      ((placementLoop_reads shortField startPosition (by decide)).2.1 (by decide)).1,
      ((placementLoop_reads shortField startPosition (by decide)).2.1 (by decide)).2.1⟩⟩

/-- C38: `isPseudoLegal` rejects every move whose destination square holds a king of either
colour or a piece of the side to move, whatever the kind of the move; an accepted move of a
kind other than en passant removes from the board at most the piece on its destination, which
is not a king, and an accepted en-passant move removes a pawn of the other side. -/
theorem isPseudoLegal_destination (E : Env) (p : Position) (m : Move) :
    ((std_abs (p.board m.sqTo) = P_wk ∨ (p.board m.sqTo > 0 ∧ p.c = Co_White)
        ∨ (p.board m.sqTo < 0 ∧ p.c = Co_Black)) →
      isPseudoLegal E p (MoveSlot.played m) = false)
    ∧ (isPseudoLegal E p (MoveSlot.played m) = true →
        p.board m.sqTo ≠ P_wk ∧ p.board m.sqTo ≠ P_bk
        ∧ (m.type = T_ep → p.board (p.ep + (if p.c = Co_White then -8 else 8))
            = (if p.c = Co_White then P_bp else P_wp))) := by
  constructor
  · intro h
    apply isPseudoLegal_eq_false
    rcases h with h | h | h
    · exact Or.inr (Or.inr (Or.inl h))
    · exact Or.inr (Or.inl (Or.inl h))
    · exact Or.inr (Or.inl (Or.inr h))
  · intro h
    obtain ⟨_, _, h3, _, _, _, _, h8, _, _⟩ := isPseudoLegal_head E p m h
    refine ⟨?_, ?_, ?_⟩
    · intro hk; apply h3; rw [hk]; decide
    · intro hk; apply h3; rw [hk]; decide
    · intro ht
      by_contra hne
      exact h8 ⟨ht, hne⟩

theorem isPseudoLegal_destination_witness :
    (std_abs (startPosition.board 4) = P_wk
        ∨ (startPosition.board 4 > 0 ∧ startPosition.c = Co_White)
        ∨ (startPosition.board 4 < 0 ∧ startPosition.c = Co_Black))
    ∧ isPseudoLegal exampleEnv startPosition
        (MoveSlot.played { sqFrom := 12, sqTo := 4, type := T_capture, score := 0 }) = false
    ∧ isPseudoLegal exampleEnv startPosition (MoveSlot.played move_e2e4) = true
    ∧ startPosition.board move_e2e4.sqTo ≠ P_wk ∧ startPosition.board move_e2e4.sqTo ≠ P_bk :=
  ⟨by decide,
    (isPseudoLegal_destination exampleEnv startPosition
      { sqFrom := 12, sqTo := 4, type := T_capture, score := 0 }).1 (by decide),
    by decide,
    ((isPseudoLegal_destination exampleEnv startPosition move_e2e4).2 (by decide)).1,
    ((isPseudoLegal_destination exampleEnv startPosition move_e2e4).2 (by decide)).2.1⟩

/-- C39: when the section "null move" of `pvs` returns, it does so after its null-move
search: either the stop flag is set and `STOPSCORE` is returned, or the null-move score is
not below `beta` and the node is cut; the value returned by the cut is not below `beta`, it is
the null-move score when that score is not a mate score and `beta` itself when it is. -/
theorem pvs_nullMove_cutoff (E : SearchEnv) (rec : PvsArgs → Searcher → Option PvsResult)
    (a : PvsArgs) (w : Window) (pr : Probe) (st : Static) (seldepth : Int) (s : Searcher)
    (r : PvsResult) (h : pvsNullMove E rec a w pr st seldepth s = Step.ret r) :
    ∃ (args : PvsArgs) (s1 : Searcher) (rr : PvsResult), rec args s1 = some rr
      ∧ args.p = applyNull E.toEnv a.p
      ∧ ((rr.s.stopFlag = true ∧ r.score = E.STOPSCORE ∧ r.s = rr.s)
        ∨ (rr.s.stopFlag = false ∧ -rr.score ≥ w.beta ∧ r.s = rr.s.incr sid_nullMove
          ∧ r.score ≥ w.beta
          ∧ (E.isMateScore (-rr.score) = false → r.score = -rr.score)
          ∧ (E.isMateScore (-rr.score) = true → r.score = w.beta))) := by
  unfold pvsNullMove at h
  dsimp only at h
  by_cases g1 : E.doNullMove = true ∧ (st.isNotEndGame = true ∨ st.data.mobility a.p.c > 4)
      ∧ a.skipMoves.isNone = true ∧ st.evalScore ≥ (s.stack (a.p.halfmoves : Int)).eval
      ∧ (a.ply : Int) ≥ s.nullMoveMinPly ∧ a.depth ≥ E.nullMoveMinDepth
  swap
  · rw [if_neg g1] at h; cases h
  rw [if_pos g1] at h
  by_cases g2 : st.evalScore ≥ w.beta
  swap
  · rw [if_neg g2] at h; cases h
  rw [if_pos g2] at h
  by_cases g3 : (getEntry E (s.incr sid_nullMoveTry).tt a.p pr.pHash
      (a.depth - nullMoveR a.depth st.evalScore w.beta)).2.h = nullHash
      ∨ (getEntry E (s.incr sid_nullMoveTry).tt a.p pr.pHash
      (a.depth - nullMoveR a.depth st.evalScore w.beta)).2.s ≥ w.beta
  swap
  · rw [if_neg g3] at h; cases h
  rw [if_pos g3] at h
  split at h
  · cases h
  · rename_i rr hrec
    refine ⟨_, _, rr, hrec, rfl, ?_⟩
    by_cases hs : rr.s.stopFlag = true
    · rw [if_pos hs] at h
      cases h
      exact Or.inl ⟨hs, rfl, rfl⟩
    · rw [if_neg hs] at h
      by_cases hc : -rr.score ≥ w.beta
      · rw [if_pos hc] at h
        cases h
        refine Or.inr ⟨by simpa using hs, hc, rfl, ?_, ?_, ?_⟩
        · dsimp only
          split_ifs
          · exact le_refl _
          · exact hc
        · intro hm
          dsimp only
          rw [if_neg (by simp [hm])]
        · intro hm
          dsimp only
          rw [if_pos hm]
      · rw [if_neg hc] at h
        cases h

theorem pvs_nullMove_cutoff_witness :
    ∃ r, pvsNullMove exampleSearchEnv (pvs exampleSearchEnv 1) nullArgs nullWindow exampleCtx.pr
        exampleCtx.st 0 exampleSearcher = Step.ret r
      ∧ r.score = 0
      ∧ ∃ (args : PvsArgs) (s1 : Searcher) (rr : PvsResult),
        pvs exampleSearchEnv 1 args s1 = some rr
        ∧ args.p = applyNull exampleSearchEnv.toEnv nullArgs.p
        ∧ ((rr.s.stopFlag = true ∧ r.score = exampleSearchEnv.STOPSCORE ∧ r.s = rr.s)
          ∨ (rr.s.stopFlag = false ∧ -rr.score ≥ nullWindow.beta
            ∧ r.s = rr.s.incr sid_nullMove
            ∧ r.score ≥ nullWindow.beta
            ∧ (exampleSearchEnv.isMateScore (-rr.score) = false → r.score = -rr.score)
            ∧ (exampleSearchEnv.isMateScore (-rr.score) = true → r.score = nullWindow.beta))) :=
  ⟨_, rfl, rfl, pvs_nullMove_cutoff exampleSearchEnv (pvs exampleSearchEnv 1) nullArgs nullWindow
    exampleCtx.pr exampleCtx.st 0 exampleSearcher _ rfl⟩

/-- C40: the size 50378500 that `half_kp_weights::load(path, ...)` requires, with the size
test compiled in, is four times the number of stored numbers, and it is the number of bytes
that the loader reads for stored numbers of 4 bytes; a file of another size, or a file whose
size cannot be read, is rejected with the result false and without a byte read, and a file of
that size is accepted. -/
theorem load_expected_size (sizeofNT : Nat) (fsize : Nat) (hsize : fsize ≠ expectedSize) :
    expectedSize = 4 * (2 * (12 * 64 * 64 * 128 + 128) + (256 * 32 + 32) + (32 * 32 + 32)
        + (64 * 32 + 32) + (96 * 1 + 1))
    ∧ loadWeights 4 0 = expectedSize
    ∧ load false false sizeofNT (some fsize) = (false, 0)
    ∧ load false false sizeofNT none = (false, 0)
    ∧ load false false 4 (some expectedSize) = (true, expectedSize) := by
  have hw : loadWeights 4 0 = expectedSize := by
    rw [loadWeights_eq]; rfl
  refine ⟨rfl, hw, ?_, rfl, ?_⟩
  · unfold load
    rw [if_pos ⟨rfl, rfl⟩]
    dsimp only
    rw [if_pos hsize]
  · unfold load
    rw [if_pos ⟨rfl, rfl⟩]
    dsimp only
    rw [if_neg (by simp), hw]

theorem load_expected_size_witness :
    (50378499 : Nat) ≠ expectedSize
    ∧ expectedSize = 4 * (2 * (12 * 64 * 64 * 128 + 128) + (256 * 32 + 32) + (32 * 32 + 32)
        + (64 * 32 + 32) + (96 * 1 + 1))
    ∧ loadWeights 4 0 = expectedSize
    ∧ load false false 4 (some 50378499) = (false, 0)
    ∧ load false false 4 none = (false, 0)
    ∧ load false false 4 (some expectedSize) = (true, expectedSize) :=
  ⟨by decide, load_expected_size 4 50378499 (by decide)⟩

end Minic
